import Mathlib

/-!
# riesling: gridding operators, solvers, trajectory and density compensation

A shallow embedding of `src/op/grid.hpp` (the `Grid` operator: `Wrap`,
`Grid::Grid`, `Grid::forward`, `Grid::adjoint`), of `src/algo/cg.hpp`
(`NormalEqOp`, `ConjugateGradients::run`), of `src/algo/lsqr.hpp` (`LSQR::run`),
of `src/trajectory.cpp` (`Trajectory::Trajectory`, `Trajectory::init`), of
`src/basis.cpp` (the selection of the basis vectors in `Basis::Basis`), of
`src/sdc.cpp` (`SDC::Pipe`), of `src/op/grid-basis.hpp` (`GridBasis::A`,
`GridBasis::Adj`), of `Trajectory::downsample`, of `Covariance` (`src/decomp.cpp`) and of
the options of `CoreOpts` (`src/parse_args.cpp`), with the properties the specification
states about them.

Conventions of the embedding.

* Arithmetic is exact where the property is one of exact arithmetic: scalars
  live in a commutative ring (gridding) or a linearly ordered field (solver)
  `K`.  `std::sqrt` is a parameter `sqrt : K → K`; concrete evaluations use the
  real numbers and `Real.sqrt`.  Division is the total division of the field
  (`a / 0 = 0`); the stopping rule does not depend on it and the convergence
  results only divide by non-zero quantities.
* Where the outcome depends on how `float` rounds, divides or compares (the
  loop of `LSQR::run` with its termination tests, `Trajectory::downsample`),
  the code is embedded over a carrier `S` with operations `FloatOps S` that
  are parameters without laws, so that the theorems hold for IEEE single
  precision with each operation rounding on its own.  `FloatOps.exact` is
  exact arithmetic as such operations; the example inputs are evaluated in
  it, their divisors being non-zero and the comparisons that decide them far
  from equality or between values that single precision yields without
  rounding.  `lsqrUpdateF_exact` and `makeF_exact` relate the two embeddings.
* An Eigen tensor is a total function from its multi-index to `K`; the
  index tuple is written in the order of the source, `x(ic, ib, ii2, ii1)`
  becoming `x (ic, ib, ii2, ii1)`.  Spatial indices are `Int` (`Index`);
  channel, basis, sample and trace indices, tensor dimensions and loop
  counters are `Nat`.  A solver tensor is a vector `Fin n → K`.  Where the
  dimensions of a tensor matter (`Re1`, `Re2`, `Re3`, `Cx3`, `Cx5`) they are
  kept next to the entries.
* A counted loop is a left fold over `List.range`; `t(i) += v` is `addAt`.
  A loop with `break` is a recursion on the number of iterations left.
* The template parameter `NDim` selects one of three `if constexpr` branches;
  each branch is embedded on its own (`forward1`, `forward2`, `forward3`, ...).
* `Threads::For` over the buckets is a left fold over the bucket list; the
  merge of `adjoint` runs under a mutex, so bucket tasks are serialised.
* Of `mapping.hpp` (not among the sources) only the members that `grid.hpp`
  reads are kept: `cartDims`, `noncartDims`, `cart`, `noncart`, `offset`,
  `buckets`, and per bucket `indices`, `minCorner`, `gridSize()`.
* `Log::Fail` ends the call: a function that can fail returns
  `Except (Failure K)`, the failure holding the format string and its
  arguments.  `InterruptReceived()` is a function of the iteration counter.
* The conversion of a float to `Index` is `FloatOps.toIndex` (`truncIndex` in exact
  arithmetic); `quiet_NaN()` is a value `nan` handed to `downsample`.  A slice that is
  out of range leaves the call without a defined result: `downsample` returns an
  `Option`, `none` standing for it.  A complex scalar is an element of an `RCLike`
  field, `star` being the conjugate.
* Routines that are not among the sources (`Bidiag`, `BidiagInit`,
  `StableGivens`, `make_kernel`, `make_grid`, the thread ranges of
  `Threads::RangeFor`, and in single precision the reductions `Norm2`, `Norm`,
  `Maximum` and `minCoeff`) are parameters.
-/

namespace rl

/-! ## Loop and tensor primitives -/

/-- Counted loop `for (i = 0; i < n; i++) body(i)` as explicit state passing. -/
def forLoop {σ : Type} (n : Nat) (body : Nat → σ → σ) (s : σ) : σ :=
  (List.range n).foldl (fun acc i => body i acc) s

/-- Tensor update `t(i) += v`. -/
def addAt {ι K : Type} [DecidableEq ι] [Add K] (t : ι → K) (i : ι) (v : K) : ι → K :=
  Function.update t i (t i + v)

/-- Tensor fill `t = t.constant(c)`: every entry of the buffer is overwritten. -/
def setConstant {ι K : Type} (_t : ι → K) (c : K) : ι → K :=
  fun _ => c

/-! ## Data model (grid.hpp, with the members of mapping.hpp it uses) -/

/-- Function `Wrap` (grid.hpp:14-22). -/
def Wrap (ii sz : Int) : Int :=
  if ii < 0 then -1
  else if ii ≥ sz then -1
  else ii

/-- The `(sample, trace)` address of a non-Cartesian sample. -/
structure NoncartesianIndex where
  sample : Nat
  trace : Nat
deriving DecidableEq

/-- One bucket of the mapping: the samples it owns (`indices`), the minimum
corner of its scratch box and the box size returned by `gridSize()`. -/
structure Bucket (NDim : Nat) where
  indices : List Nat
  minCorner : Fin NDim → Int
  gridSize : Fin NDim → Nat

/-- The members of `Mapping<NDim>` that the grid operator reads.  The vectors
`cart`, `noncart`, `offset` are indexed by sample number. -/
structure Mapping (NDim : Nat) (Pt : Type) where
  cartDims : Fin NDim → Int
  noncartDims : Fin 2 → Nat
  cart : Nat → Fin NDim → Int
  noncart : Nat → NoncartesianIndex
  offset : Nat → Pt
  buckets : List (Bucket NDim)

/-- A real rank-2 tensor `Re2` (the basis) with its two dimensions. -/
structure Re2 (K : Type) where
  dim0 : Nat
  dim1 : Nat
  data : Nat × Nat → K

/-- State of `Grid<Scalar, Kernel>`: the mapping, the kernel (a function from the
fractional offset to a stencil indexed by `KIdx`, of width `kW = Kernel::PadWidth`
per axis), the basis, and the leading input dimensions `nC`, `nB`. -/
structure Grid (NDim : Nat) (Pt KIdx K : Type) where
  mapping : Mapping NDim Pt
  kW : Nat
  kernel : Pt → KIdx → K
  basis : Re2 K
  nC : Nat
  nB : Nat

/-- Constructor `Grid::Grid` (grid.hpp:40-51): the basis-coefficient count is
`b.dimension(1)` when a basis is supplied and `1` otherwise; without a basis the
operator holds the 1-by-1 basis filled with `1`. -/
def Grid.make {NDim : Nat} {Pt KIdx K : Type} [One K] (m : Mapping NDim Pt) (kW : Nat)
    (kernel : Pt → KIdx → K) (nC : Nat) (b : Option (Re2 K)) : Grid NDim Pt KIdx K :=
  { mapping := m
    kW := kW
    kernel := kernel
    basis := match b with
      | some bb => bb
      | none => { dim0 := 1, dim1 := 1, data := fun _ => 1 }
    nC := nC
    nB := match b with
      | some bb => bb.dim1
      | none => 1 }

section GridOps

variable {Pt K : Type} [CommRing K]

/-! ## Grid::forward (grid.hpp:53-121) -/

/-- Body of the `i1` loop of `forward` for `NDim == 1` (grid.hpp:76-85). -/
def forward1Tap (sqrt : K → K) (G : Grid 1 Pt Nat K) (x : Nat × Nat × Int → K) (si : Nat)
    (i1 : Nat) (output : Nat × Nat × Nat → K) : Nat × Nat × Nat → K :=
  let scale := sqrt (G.basis.dim0 : K)
  let c := G.mapping.cart si
  let n := G.mapping.noncart si
  let k := G.kernel (G.mapping.offset si)
  let kW_2 : Nat := (G.kW - 1) / 2
  let btp := n.trace % G.basis.dim0
  let ii1 := Wrap (c 0 - kW_2 + i1) (G.mapping.cartDims 0)
  if ii1 > -1 then
    let kval := k i1 * scale
    forLoop G.nB (fun ib output =>
      let bval := kval * G.basis.data (btp, ib)
      forLoop G.nC (fun ic output =>
        addAt output (ic, n.sample, n.trace) (x (ic, ib, ii1) * bval)) output) output
  else output

/-- `Grid::forward` for `NDim == 1`.  The first tensor argument is the prior
content of the operator's output buffer, which the call overwrites with zero. -/
def forward1 (sqrt : K → K) (G : Grid 1 Pt Nat K) (output : Nat × Nat × Nat → K)
    (x : Nat × Nat × Int → K) : Nat × Nat × Nat → K :=
  let output := setConstant output 0
  let grid_task := fun (bucket : Bucket 1) (output : Nat × Nat × Nat → K) =>
    bucket.indices.foldl (fun output si =>
      forLoop G.kW (forward1Tap sqrt G x si) output) output
  G.mapping.buckets.foldl (fun output bucket => grid_task bucket output) output

/-- Body of the `i2` loop of `forward` for `NDim == 2` (grid.hpp:87-96). -/
def forward2Tap (sqrt : K → K) (G : Grid 2 Pt (Nat × Nat) K) (x : Nat × Nat × Int × Int → K)
    (si : Nat) (ii1 : Int) (i1 i2 : Nat) (output : Nat × Nat × Nat → K) :
    Nat × Nat × Nat → K :=
  let scale := sqrt (G.basis.dim0 : K)
  let c := G.mapping.cart si
  let n := G.mapping.noncart si
  let k := G.kernel (G.mapping.offset si)
  let kW_2 : Nat := (G.kW - 1) / 2
  let btp := n.trace % G.basis.dim0
  let ii2 := Wrap (c 0 - kW_2 + i2) (G.mapping.cartDims 0)
  if ii2 > -1 then
    let kval := k (i2, i1) * scale
    forLoop G.nB (fun ib output =>
      let bval := kval * G.basis.data (btp, ib)
      forLoop G.nC (fun ic output =>
        addAt output (ic, n.sample, n.trace) (x (ic, ib, ii2, ii1) * bval)) output) output
  else output

/-- Body of the `i1` loop of `forward` for `NDim == 2` (grid.hpp:76-113). -/
def forward2Row (sqrt : K → K) (G : Grid 2 Pt (Nat × Nat) K) (x : Nat × Nat × Int × Int → K)
    (si : Nat) (i1 : Nat) (output : Nat × Nat × Nat → K) : Nat × Nat × Nat → K :=
  let c := G.mapping.cart si
  let kW_2 : Nat := (G.kW - 1) / 2
  let ii1 := Wrap (c 1 - kW_2 + i1) (G.mapping.cartDims 1)
  if ii1 > -1 then
    forLoop G.kW (forward2Tap sqrt G x si ii1 i1) output
  else output

/-- `Grid::forward` for `NDim == 2`. -/
def forward2 (sqrt : K → K) (G : Grid 2 Pt (Nat × Nat) K) (output : Nat × Nat × Nat → K)
    (x : Nat × Nat × Int × Int → K) : Nat × Nat × Nat → K :=
  let output := setConstant output 0
  let grid_task := fun (bucket : Bucket 2) (output : Nat × Nat × Nat → K) =>
    bucket.indices.foldl (fun output si =>
      forLoop G.kW (forward2Row sqrt G x si) output) output
  G.mapping.buckets.foldl (fun output bucket => grid_task bucket output) output

/-- Body of the `i3` loop of `forward` for `NDim == 3` (grid.hpp:98-108). -/
def forward3Tap (sqrt : K → K) (G : Grid 3 Pt (Nat × Nat × Nat) K)
    (x : Nat × Nat × Int × Int × Int → K) (si : Nat) (ii1 ii2 : Int) (i1 i2 i3 : Nat)
    (output : Nat × Nat × Nat → K) : Nat × Nat × Nat → K :=
  let scale := sqrt (G.basis.dim0 : K)
  let c := G.mapping.cart si
  let n := G.mapping.noncart si
  let k := G.kernel (G.mapping.offset si)
  let kW_2 : Nat := (G.kW - 1) / 2
  let btp := n.trace % G.basis.dim0
  let ii3 := Wrap (c 0 - kW_2 + i3) (G.mapping.cartDims 0)
  if ii3 > -1 then
    let kval := k (i3, i2, i1) * scale
    forLoop G.nB (fun ib output =>
      let bval := kval * G.basis.data (btp, ib)
      forLoop G.nC (fun ic output =>
        addAt output (ic, n.sample, n.trace) (x (ic, ib, ii3, ii2, ii1) * bval)) output) output
  else output

/-- Body of the `i2` loop of `forward` for `NDim == 3` (grid.hpp:87-111). -/
def forward3Row (sqrt : K → K) (G : Grid 3 Pt (Nat × Nat × Nat) K)
    (x : Nat × Nat × Int × Int × Int → K) (si : Nat) (ii1 : Int) (i1 i2 : Nat)
    (output : Nat × Nat × Nat → K) : Nat × Nat × Nat → K :=
  let c := G.mapping.cart si
  let kW_2 : Nat := (G.kW - 1) / 2
  let ii2 := Wrap (c 1 - kW_2 + i2) (G.mapping.cartDims 1)
  if ii2 > -1 then
    forLoop G.kW (forward3Tap sqrt G x si ii1 ii2 i1 i2) output
  else output

/-- Body of the `i1` loop of `forward` for `NDim == 3` (grid.hpp:76-113). -/
def forward3Slab (sqrt : K → K) (G : Grid 3 Pt (Nat × Nat × Nat) K)
    (x : Nat × Nat × Int × Int × Int → K) (si : Nat) (i1 : Nat)
    (output : Nat × Nat × Nat → K) : Nat × Nat × Nat → K :=
  let c := G.mapping.cart si
  let kW_2 : Nat := (G.kW - 1) / 2
  let ii1 := Wrap (c 2 - kW_2 + i1) (G.mapping.cartDims 2)
  if ii1 > -1 then
    forLoop G.kW (forward3Row sqrt G x si ii1 i1) output
  else output

/-- `Grid::forward` for `NDim == 3`. -/
def forward3 (sqrt : K → K) (G : Grid 3 Pt (Nat × Nat × Nat) K)
    (output : Nat × Nat × Nat → K) (x : Nat × Nat × Int × Int × Int → K) :
    Nat × Nat × Nat → K :=
  let output := setConstant output 0
  let grid_task := fun (bucket : Bucket 3) (output : Nat × Nat × Nat → K) =>
    bucket.indices.foldl (fun output si =>
      forLoop G.kW (forward3Slab sqrt G x si) output) output
  G.mapping.buckets.foldl (fun output bucket => grid_task bucket output) output

/-! ## Grid::adjoint (grid.hpp:123-230) -/

/-- Per-bucket accumulation into the private scratch tensor `bGrid` for
`NDim == 1` (grid.hpp:136-161).  `bSample(ic, ib)` is the sample value times
the basis weight; the kernel weight is `k(i1)`. -/
def adjoint1Scratch (sqrt : K → K) (G : Grid 1 Pt Nat K) (y : Nat × Nat × Nat → K)
    (bucket : Bucket 1) : Nat × Nat × Int → K :=
  let _scale := sqrt (G.basis.dim0 : K)
  let bGrid : Nat × Nat × Int → K := fun _ => 0
  bucket.indices.foldl (fun bGrid si =>
    let c := G.mapping.cart si
    let n := G.mapping.noncart si
    let k := G.kernel (G.mapping.offset si)
    let hW : Nat := G.kW / 2
    let btp := n.trace % G.basis.dim0
    let bSample : Nat × Nat → K := fun (ic, ib) =>
      y (ic, n.sample, n.trace) * G.basis.data (btp, ib)
    forLoop G.kW (fun i1 bGrid =>
      let ii1 : Int := i1 + c 0 - hW - bucket.minCorner 0
      let kval := k i1
      forLoop G.nB (fun ib bGrid =>
        forLoop G.nC (fun ic bGrid =>
          addAt bGrid (ic, ib, ii1) (bSample (ic, ib) * kval)) bGrid) bGrid) bGrid) bGrid

/-- Merge of one bucket's scratch tensor into the shared grid for `NDim == 1`
(grid.hpp:188-197). -/
def adjoint1Merge (G : Grid 1 Pt Nat K) (bucket : Bucket 1) (bGrid : Nat × Nat × Int → K)
    (input : Nat × Nat × Int → K) : Nat × Nat × Int → K :=
  let bSz := bucket.gridSize
  forLoop (bSz 0) (fun i1 input =>
    let ii1 := Wrap (bucket.minCorner 0 + i1) (G.mapping.cartDims 0)
    if ii1 > -1 then
      forLoop G.nB (fun ib input =>
        forLoop G.nC (fun ic input =>
          addAt input (ic, ib, ii1) (bGrid (ic, ib, (i1 : Int)))) input) input
    else input) input

/-- `Grid::adjoint` for `NDim == 1`.  The first tensor argument is the prior
content of the operator's grid buffer, which the call overwrites with zero. -/
def adjoint1 (sqrt : K → K) (G : Grid 1 Pt Nat K) (input : Nat × Nat × Int → K)
    (y : Nat × Nat × Nat → K) : Nat × Nat × Int → K :=
  let grid_task := fun (bucket : Bucket 1) (input : Nat × Nat × Int → K) =>
    adjoint1Merge G bucket (adjoint1Scratch sqrt G y bucket) input
  let input := setConstant input 0
  G.mapping.buckets.foldl (fun input bucket => grid_task bucket input) input

/-- Per-bucket accumulation into `bGrid` for `NDim == 2` (grid.hpp:136-171);
the kernel weight is `k(i2, i1) * scale`. -/
def adjoint2Scratch (sqrt : K → K) (G : Grid 2 Pt (Nat × Nat) K) (y : Nat × Nat × Nat → K)
    (bucket : Bucket 2) : Nat × Nat × Int × Int → K :=
  let scale := sqrt (G.basis.dim0 : K)
  let bGrid : Nat × Nat × Int × Int → K := fun _ => 0
  bucket.indices.foldl (fun bGrid si =>
    let c := G.mapping.cart si
    let n := G.mapping.noncart si
    let k := G.kernel (G.mapping.offset si)
    let hW : Nat := G.kW / 2
    let btp := n.trace % G.basis.dim0
    let bSample : Nat × Nat → K := fun (ic, ib) =>
      y (ic, n.sample, n.trace) * G.basis.data (btp, ib)
    forLoop G.kW (fun i1 bGrid =>
      let ii1 : Int := i1 + c 1 - hW - bucket.minCorner 1
      forLoop G.kW (fun i2 bGrid =>
        let ii2 : Int := i2 + c 0 - hW - bucket.minCorner 0
        let kval := k (i2, i1) * scale
        forLoop G.nB (fun ib bGrid =>
          forLoop G.nC (fun ic bGrid =>
            addAt bGrid (ic, ib, ii2, ii1) (bSample (ic, ib) * kval)) bGrid) bGrid) bGrid)
      bGrid) bGrid

/-- Merge of one bucket's scratch tensor into the shared grid for `NDim == 2`
(grid.hpp:188-206). -/
def adjoint2Merge (G : Grid 2 Pt (Nat × Nat) K) (bucket : Bucket 2)
    (bGrid : Nat × Nat × Int × Int → K) (input : Nat × Nat × Int × Int → K) :
    Nat × Nat × Int × Int → K :=
  let bSz := bucket.gridSize
  forLoop (bSz 1) (fun i1 input =>
    let ii1 := Wrap (bucket.minCorner 1 + i1) (G.mapping.cartDims 1)
    if ii1 > -1 then
      forLoop (bSz 0) (fun i2 input =>
        let ii2 := Wrap (bucket.minCorner 0 + i2) (G.mapping.cartDims 0)
        if ii2 > -1 then
          forLoop G.nB (fun ib input =>
            forLoop G.nC (fun ic input =>
              addAt input (ic, ib, ii2, ii1) (bGrid (ic, ib, (i2 : Int), (i1 : Int)))) input)
            input
        else input) input
    else input) input

/-- `Grid::adjoint` for `NDim == 2`. -/
def adjoint2 (sqrt : K → K) (G : Grid 2 Pt (Nat × Nat) K) (input : Nat × Nat × Int × Int → K)
    (y : Nat × Nat × Nat → K) : Nat × Nat × Int × Int → K :=
  let grid_task := fun (bucket : Bucket 2) (input : Nat × Nat × Int × Int → K) =>
    adjoint2Merge G bucket (adjoint2Scratch sqrt G y bucket) input
  let input := setConstant input 0
  G.mapping.buckets.foldl (fun input bucket => grid_task bucket input) input

/-- Per-bucket accumulation into `bGrid` for `NDim == 3` (grid.hpp:136-181);
the kernel weight is `k(i3, i2, i1) * scale`. -/
def adjoint3Scratch (sqrt : K → K) (G : Grid 3 Pt (Nat × Nat × Nat) K)
    (y : Nat × Nat × Nat → K) (bucket : Bucket 3) : Nat × Nat × Int × Int × Int → K :=
  let scale := sqrt (G.basis.dim0 : K)
  let bGrid : Nat × Nat × Int × Int × Int → K := fun _ => 0
  bucket.indices.foldl (fun bGrid si =>
    let c := G.mapping.cart si
    let n := G.mapping.noncart si
    let k := G.kernel (G.mapping.offset si)
    let hW : Nat := G.kW / 2
    let btp := n.trace % G.basis.dim0
    let bSample : Nat × Nat → K := fun (ic, ib) =>
      y (ic, n.sample, n.trace) * G.basis.data (btp, ib)
    forLoop G.kW (fun i1 bGrid =>
      let ii1 : Int := i1 + c 2 - hW - bucket.minCorner 2
      forLoop G.kW (fun i2 bGrid =>
        let ii2 : Int := i2 + c 1 - hW - bucket.minCorner 1
        forLoop G.kW (fun i3 bGrid =>
          let ii3 : Int := i3 + c 0 - hW - bucket.minCorner 0
          let kval := k (i3, i2, i1) * scale
          forLoop G.nB (fun ib bGrid =>
            forLoop G.nC (fun ic bGrid =>
              addAt bGrid (ic, ib, ii3, ii2, ii1) (bSample (ic, ib) * kval)) bGrid) bGrid)
          bGrid) bGrid) bGrid) bGrid

/-- Merge of one bucket's scratch tensor into the shared grid for `NDim == 3`
(grid.hpp:188-222). -/
def adjoint3Merge (G : Grid 3 Pt (Nat × Nat × Nat) K) (bucket : Bucket 3)
    (bGrid : Nat × Nat × Int × Int × Int → K) (input : Nat × Nat × Int × Int × Int → K) :
    Nat × Nat × Int × Int × Int → K :=
  let bSz := bucket.gridSize
  forLoop (bSz 2) (fun i1 input =>
    let ii1 := Wrap (bucket.minCorner 2 + i1) (G.mapping.cartDims 2)
    if ii1 > -1 then
      forLoop (bSz 1) (fun i2 input =>
        let ii2 := Wrap (bucket.minCorner 1 + i2) (G.mapping.cartDims 1)
        if ii2 > -1 then
          forLoop (bSz 0) (fun i3 input =>
            let ii3 := Wrap (bucket.minCorner 0 + i3) (G.mapping.cartDims 0)
            if ii3 > -1 then
              forLoop G.nB (fun ib input =>
                forLoop G.nC (fun ic input =>
                  addAt input (ic, ib, ii3, ii2, ii1)
                    (bGrid (ic, ib, (i3 : Int), (i2 : Int), (i1 : Int)))) input) input
            else input) input
        else input) input
    else input) input

/-- `Grid::adjoint` for `NDim == 3`. -/
def adjoint3 (sqrt : K → K) (G : Grid 3 Pt (Nat × Nat × Nat) K)
    (input : Nat × Nat × Int × Int × Int → K) (y : Nat × Nat × Nat → K) :
    Nat × Nat × Int × Int × Int → K :=
  let grid_task := fun (bucket : Bucket 3) (input : Nat × Nat × Int × Int × Int → K) =>
    adjoint3Merge G bucket (adjoint3Scratch sqrt G y bucket) input
  let input := setConstant input 0
  G.mapping.buckets.foldl (fun input bucket => grid_task bucket input) input

end GridOps

/-! ## Conjugate gradients (algo/cg.hpp) -/

/-- The members of a linear operator that `NormalEqOp` and `ConjugateGradients` use:
its declared dimensions and its `forward` / `adjoint` maps. -/
structure Op (In Out InDims OutDims : Type) where
  inputDimensions : InDims
  outputDimensions : OutDims
  forward : In → Out
  adjoint : Out → In

/-- Modelled from the spec: `adjfwd`, the fused call of the operator base class (not part
of the sources at hand), which computes `adjoint(forward(x))` "without changing the
observable result". -/
def Op.adjfwd {In Out InDims OutDims : Type} (op : Op In Out InDims OutDims) (x : In) : In :=
  op.adjoint (op.forward x)

/-- Tensor assignment `t = v`: the buffer takes the new value. -/
def assign {α : Type} (_t v : α) : α :=
  v

/-- The wrapper `NormalEqOp<Op>` (cg.hpp:11-32). -/
structure NormalEqOp (In Out InDims OutDims : Type) where
  op : Op In Out InDims OutDims

/-- Method `NormalEqOp::inputDimensions` (cg.hpp:23). -/
def NormalEqOp.inputDimensions {In Out InDims OutDims : Type}
    (N : NormalEqOp In Out InDims OutDims) : InDims :=
  N.op.inputDimensions

/-- Method `NormalEqOp::outputDimensions` (cg.hpp:25). -/
def NormalEqOp.outputDimensions {In Out InDims OutDims : Type}
    (N : NormalEqOp In Out InDims OutDims) : InDims :=
  N.op.inputDimensions

/-- Method `NormalEqOp::forward` (cg.hpp:27-31).  The first tensor argument is the prior
content of the wrapped operator's input buffer, which is overwritten with `x`. -/
def NormalEqOp.forward {In Out InDims OutDims : Type}
    (N : NormalEqOp In Out InDims OutDims) (input : In) (x : In) : In :=
  let input := assign input x
  N.op.adjfwd input

section Defs1

variable {n : Nat} {K : Type} [LinearOrderedField K]

/-- Modelled from the spec: `Norm2`, the squared Euclidean norm `r·r` of a real tensor. -/
def Norm2 (a : Fin n → K) : K :=
  Matrix.dotProduct a a

/-- Modelled from the spec: `CheckedDot`, the dot product `p·q` of two real tensors. -/
def CheckedDot (a b : Fin n → K) : K :=
  Matrix.dotProduct a b

/-- Workspace of `ConjugateGradients::run` that survives an iteration: `x`, `r`, `p` and
the scalar `r_old`. -/
structure CGState (n : Nat) (K : Type) where
  x : Fin n → K
  r : Fin n → K
  p : Fin n → K
  r_old : K

/-- The solver `ConjugateGradients<Op>` (cg.hpp:40-48); `op` is `op->forward`. -/
structure ConjugateGradients (n : Nat) (K : Type) where
  op : (Fin n → K) → (Fin n → K)
  iterLimit : Nat
  resTol : K

/-- Initialisation (cg.hpp:56-68).  `x0 = none` is the empty tensor (`x0.size() == 0`). -/
def cgInit (A : (Fin n → K) → (Fin n → K)) (b : Fin n → K) (x0 : Option (Fin n → K)) :
    CGState n K :=
  match x0 with
  | some x0 =>
    let r := b - A x0
    let x := x0
    let p := r
    { x := x, r := r, p := p, r_old := Norm2 r }
  | none =>
    let r := b
    let x : Fin n → K := 0
    let p := r
    { x := x, r := r, p := p, r_old := Norm2 r }

/-- The updates of one loop iteration (cg.hpp:74-84): the new `x`, `r`, `p` (with
`r_old` still the old value) and `r_new`. -/
def cgUpdate (A : (Fin n → K) → (Fin n → K)) (st : CGState n K) : CGState n K × K :=
  let q := A st.p
  let alpha := st.r_old / CheckedDot st.p q
  let x := st.x + alpha • st.p
  let r := st.r - alpha • q
  let r_new := Norm2 r
  let beta := r_new / st.r_old
  let p := r + beta • st.p
  ({ x := x, r := r, p := p, r_old := st.r_old }, r_new)

/-- The loop `for (icg = 0; icg < iterLimit; icg++)` (cg.hpp:73-95) with `fuel` iterations
left.  `interrupt icg` is the value `InterruptReceived()` returns at the end of iteration
`icg`.  Returns the workspace and the number of iterations performed. -/
def cgLoop (A : (Fin n → K) → (Fin n → K)) (sqrt : K → K) (thresh : K)
    (interrupt : Nat → Bool) : Nat → Nat → CGState n K → CGState n K × Nat
  | 0, icg, st => (st, icg)
  | fuel + 1, icg, st =>
    let upd := cgUpdate A st
    let r_new := upd.2
    let nr := sqrt r_new
    if nr < thresh then (upd.1, icg + 1)
    else
      let st' := { upd.1 with r_old := r_new }
      if interrupt icg then (st', icg + 1)
      else cgLoop A sqrt thresh interrupt fuel (icg + 1) st'

/-- `ConjugateGradients::run` (cg.hpp:50-98), returning the final workspace together
with the number of iterations performed. -/
def ConjugateGradients.runState (cg : ConjugateGradients n K) (sqrt : K → K)
    (interrupt : Nat → Bool) (b : Fin n → K) (x0 : Option (Fin n → K)) : CGState n K × Nat :=
  let st := cgInit cg.op b x0
  let thresh := cg.resTol * sqrt st.r_old
  cgLoop cg.op sqrt thresh interrupt cg.iterLimit 0 st

/-- `ConjugateGradients::run` (cg.hpp:50-98): the returned `x`. -/
def ConjugateGradients.run (cg : ConjugateGradients n K) (sqrt : K → K)
    (interrupt : Nat → Bool) (b : Fin n → K) (x0 : Option (Fin n → K)) : Fin n → K :=
  (cg.runState sqrt interrupt b x0).1.x

/-- One complete iteration that does not leave the loop: the updates followed by
`r_old = r_new`. -/
def cgStep (A : (Fin n → K) → (Fin n → K)) (st : CGState n K) : CGState n K :=
  { (cgUpdate A st).1 with r_old := (cgUpdate A st).2 }

/-- The workspace after `k` complete iterations. -/
def cgIter (A : (Fin n → K) → (Fin n → K)) : Nat → CGState n K → CGState n K
  | 0, st => st
  | k + 1, st => cgStep A (cgIter A k st)

end Defs1

/-! ## LSQR (algo/lsqr.hpp) -/

/-- The variables that `BidiagInit` and `Bidiag` update in place: `Mu`, `u`, `v`, `α`,
`β` and the workspace of the regulariser, `ulam` (its entries; its `size()` is the length). -/
structure BidiagVars (n m : Nat) (K : Type) where
  Mu : Fin m → K
  u : Fin m → K
  v : Fin n → K
  α : K
  β : K
  ulam : List K

/-- The routines of `bidiag.hpp` (not among the sources) that `LSQR::run` calls, taken
as parameters, with the operator `op`, the preconditioner `M` and the regulariser `opλ`
already supplied.  `BidiagInit lam b x0 cc` gives the bidiagonalisation variables and the
initial `x`; `Bidiag lam weight` performs one bidiagonalisation step; `StableGivens a b`
returns the triple `(c, s, ρ)`. -/
structure BidiagRoutines (n m : Nat) (K : Type) where
  BidiagInit : K → (Fin m → K) → Option (Fin n → K) → Option (Fin n → K) →
    BidiagVars n m K × (Fin n → K)
  Bidiag : K → K → BidiagVars n m K → BidiagVars n m K
  StableGivens : K → K → K × K × K

/-- The solver `LSQR<Op, Opλ>` (lsqr.hpp:21-35); `routines` stands for the members `op`,
`M` and `opλ`, which `run` only hands to the bidiagonalisation. -/
structure LSQR (n m : Nat) (K : Type) where
  routines : BidiagRoutines n m K
  iterLimit : Nat
  aTol : K
  bTol : K
  cTol : K
  varPre : Bool

/-- Workspace of `LSQR::run` that survives an iteration. -/
structure LSQRState (n m : Nat) (K : Type) where
  bd : BidiagVars n m K
  x : Fin n → K
  w : Fin n → K
  ρbar : K
  φbar : K
  xxnorm : K
  ddnorm : K
  res2 : K
  z : K
  normA : K
  cs2 : K
  sn2 : K

/-- The estimates of one iteration that the termination tests read (lsqr.hpp:99-111). -/
structure LSQRNorms (K : Type) where
  normr : K
  normAr : K
  normA : K
  condA : K
  normx : K

/-- The `break` statements of the loop, in the order of the source (lsqr.hpp:124-152),
named after the message each one logs; the last one logs nothing. -/
inductive LSQRStop where
  | condVeryLarge
  | condExceededLimit
  | leastSquaresMachinePrecision
  | leastSquaresTolerance
  | residualTolerance
  | residualMachinePrecision
  | interrupted
  deriving DecidableEq

section Defs8

variable {n m : Nat} {K : Type} [LinearOrderedField K]

/-- Initialisation (lsqr.hpp:45-57): `BidiagInit`, `w = v` and the scalars. -/
def lsqrInit (L : LSQR n m K) (lam : K) (b : Fin m → K) (x0 cc : Option (Fin n → K)) :
    LSQRState n m K :=
  let ini := L.routines.BidiagInit lam b x0 cc
  let bd := ini.1
  let x := ini.2
  let w := bd.v
  { bd := bd, x := x, w := w, ρbar := bd.α, φbar := bd.β, xxnorm := 0, ddnorm := 0,
    res2 := 0, z := 0, normA := 0, cs2 := -1, sn2 := 0 }

/-- The preconditioner weight handed to `Bidiag` at iteration `ii` (lsqr.hpp:68):
`varPre ? 1.f - (ii / (ii - 1.f)) : 1.f`. -/
def lsqrWeight (varPre : Bool) (ii : Nat) : K :=
  if varPre then 1 - ((ii : K) / ((ii : K) - 1)) else 1

/-- The rotation of lsqr.hpp:70-80: the triple `(c, s, ρ)`, then `ψ`, then the value of
`φbar` after the branch. -/
def lsqrGivens (L : LSQR n m K) (lam : K) (bd : BidiagVars n m K) (ρbar φbar : K) :
    (K × K × K) × K × K :=
  if lam = 0 ∨ bd.ulam.length ≠ 0 then
    (L.routines.StableGivens ρbar bd.β, 0, φbar)
  else
    let g1 := L.routines.StableGivens ρbar lam
    let c1 := g1.1
    let s1 := g1.2.1
    let ρbar1 := g1.2.2
    let ψ := s1 * φbar
    let φbar := c1 * φbar
    (L.routines.StableGivens ρbar1 bd.β, ψ, φbar)

/-- The updates of one loop iteration up to the termination tests (lsqr.hpp:68-111). -/
def lsqrUpdate (L : LSQR n m K) (sqrt : K → K) (lam : K) (ii : Nat) (st : LSQRState n m K) :
    LSQRState n m K × LSQRNorms K :=
  let bd := L.routines.Bidiag lam (lsqrWeight L.varPre ii) st.bd
  let α := bd.α
  let β := bd.β
  let g := lsqrGivens L lam bd st.ρbar st.φbar
  let c := g.1.1
  let s := g.1.2.1
  let ρ := g.1.2.2
  let ψ := g.2.1
  let φbar := g.2.2
  let φ := c * φbar
  let φbar := s * φbar
  let τ := s * φ
  let θ := s * α
  let ρbar := -c * α
  let x := st.x + (φ / ρ) • st.w
  let w := bd.v - (θ / ρ) • st.w
  let δ := st.sn2 * ρ
  let γbar := -st.cs2 * ρ
  let rhs := φ - δ * st.z
  let zbar := rhs / γbar
  let normx := sqrt (st.xxnorm + zbar * zbar)
  let g2 := L.routines.StableGivens γbar θ
  let cs2 := g2.1
  let sn2 := g2.2.1
  let γ := g2.2.2
  let z := rhs / γ
  let xxnorm := st.xxnorm + z * z
  let ddnorm := st.ddnorm + Norm2 w / (ρ * ρ)
  let normA := sqrt (st.normA * st.normA + α * α + β * β + lam * lam)
  let condA := normA * sqrt ddnorm
  let res1 := φbar * φbar
  let res2 := st.res2 + ψ * ψ
  let normr := sqrt (res1 + res2)
  let normAr := α * |τ|
  ({ bd := bd, x := x, w := w, ρbar := ρbar, φbar := φbar, xxnorm := xxnorm,
     ddnorm := ddnorm, res2 := res2, z := z, normA := normA, cs2 := cs2, sn2 := sn2 },
   { normr := normr, normAr := normAr, normA := normA, condA := condA, normx := normx })

end Defs8

/-! ## Single-precision arithmetic -/

/-- The arithmetic of `float` as the sources use it, on a carrier `S`: the literals
(`lit q` is the `float` written as the decimal `q`, such as `1.f` or `1.e-6f`), the
conversions from and to `Index`, the operations, each of which rounds, and the
comparisons.  No law is assumed of them, so what is proved for every `FloatOps` holds for
IEEE single precision, where a division by zero gives an infinity, a comparison with a
NaN is false and `1.f + t <= 1.f` holds for every small `t`. -/
structure FloatOps (S : Type) where
  lit : ℚ → S
  ofIndex : Int → S
  toIndex : S → Int
  add : S → S → S
  sub : S → S → S
  mul : S → S → S
  div : S → S → S
  neg : S → S
  abs : S → S
  sqrt : S → S
  le : S → S → Bool
  lt : S → S → Bool
  eq : S → S → Bool

/-! ## `LSQR::run` in single precision (algo/lsqr.hpp) -/

section Defs18

variable {n m : Nat} {S : Type}

/-- Initialisation (lsqr.hpp:45-57) in the arithmetic `F`. -/
def lsqrInitF (F : FloatOps S) (L : LSQR n m S) (lam : S) (b : Fin m → S)
    (x0 cc : Option (Fin n → S)) : LSQRState n m S :=
  let ini := L.routines.BidiagInit lam b x0 cc
  let bd := ini.1
  let x := ini.2
  let w := bd.v
  { bd := bd, x := x, w := w, ρbar := bd.α, φbar := bd.β, xxnorm := F.lit 0,
    ddnorm := F.lit 0, res2 := F.lit 0, z := F.lit 0, normA := F.lit 0,
    cs2 := F.neg (F.lit 1), sn2 := F.lit 0 }

/-- The preconditioner weight of iteration `ii` (lsqr.hpp:68) in the arithmetic `F`:
`varPre ? 1.f - (ii / (ii - 1.f)) : 1.f`, the counter being converted to `float`. -/
def lsqrWeightF (F : FloatOps S) (varPre : Bool) (ii : Nat) : S :=
  if varPre then
    F.sub (F.lit 1) (F.div (F.ofIndex ii) (F.sub (F.ofIndex ii) (F.lit 1)))
  else F.lit 1

/-- The rotation of lsqr.hpp:70-80 in the arithmetic `F`: the triple `(c, s, ρ)`, then
`ψ`, then the value of `φbar` after the branch. -/
def lsqrGivensF (F : FloatOps S) (L : LSQR n m S) (lam : S) (bd : BidiagVars n m S)
    (ρbar φbar : S) : (S × S × S) × S × S :=
  if F.eq lam (F.lit 0) = true ∨ bd.ulam.length ≠ 0 then
    (L.routines.StableGivens ρbar bd.β, F.lit 0, φbar)
  else
    let g1 := L.routines.StableGivens ρbar lam
    let c1 := g1.1
    let s1 := g1.2.1
    let ρbar1 := g1.2.2
    let ψ := F.mul s1 φbar
    let φbar := F.mul c1 φbar
    (L.routines.StableGivens ρbar1 bd.β, ψ, φbar)

/-- The updates of one loop iteration up to the termination tests (lsqr.hpp:68-111) in
the arithmetic `F`.  `norm2` is `Norm2` (tensorOps.hpp, not among the sources), the
squared norm of a tensor as the target computes it. -/
def lsqrUpdateF (F : FloatOps S) (norm2 : (Fin n → S) → S) (L : LSQR n m S) (lam : S)
    (ii : Nat) (st : LSQRState n m S) : LSQRState n m S × LSQRNorms S :=
  let bd := L.routines.Bidiag lam (lsqrWeightF F L.varPre ii) st.bd
  let α := bd.α
  let β := bd.β
  let g := lsqrGivensF F L lam bd st.ρbar st.φbar
  let c := g.1.1
  let s := g.1.2.1
  let ρ := g.1.2.2
  let ψ := g.2.1
  let φbar := g.2.2
  let φ := F.mul c φbar
  let φbar := F.mul s φbar
  let τ := F.mul s φ
  let θ := F.mul s α
  let ρbar := F.mul (F.neg c) α
  let x : Fin n → S := fun i => F.add (st.x i) (F.mul (st.w i) (F.div φ ρ))
  let w : Fin n → S := fun i => F.sub (bd.v i) (F.mul (st.w i) (F.div θ ρ))
  let δ := F.mul st.sn2 ρ
  let γbar := F.mul (F.neg st.cs2) ρ
  let rhs := F.sub φ (F.mul δ st.z)
  let zbar := F.div rhs γbar
  let normx := F.sqrt (F.add st.xxnorm (F.mul zbar zbar))
  let g2 := L.routines.StableGivens γbar θ
  let cs2 := g2.1
  let sn2 := g2.2.1
  let γ := g2.2.2
  let z := F.div rhs γ
  let xxnorm := F.add st.xxnorm (F.mul z z)
  let ddnorm := F.add st.ddnorm (F.div (norm2 w) (F.mul ρ ρ))
  let normA := F.sqrt (F.add (F.add (F.add (F.mul st.normA st.normA) (F.mul α α))
    (F.mul β β)) (F.mul lam lam))
  let condA := F.mul normA (F.sqrt ddnorm)
  let res1 := F.mul φbar φbar
  let res2 := F.add st.res2 (F.mul ψ ψ)
  let normr := F.sqrt (F.add res1 res2)
  let normAr := F.mul α (F.abs τ)
  ({ bd := bd, x := x, w := w, ρbar := ρbar, φbar := φbar, xxnorm := xxnorm,
     ddnorm := ddnorm, res2 := res2, z := z, normA := normA, cs2 := cs2, sn2 := sn2 },
   { normr := normr, normAr := normAr, normA := normA, condA := condA, normx := normx })

/-- The loop `for (ii = 0; ii < iterLimit; ii++)` (lsqr.hpp:67-153) with `fuel`
iterations left, in the arithmetic `F`.  `interrupt ii` is the value
`InterruptReceived()` returns at the end of iteration `ii`.  Returns the workspace, the
number of iterations performed and the `break` taken, if any. -/
def lsqrLoop (F : FloatOps S) (norm2 : (Fin n → S) → S) (L : LSQR n m S) (lam normb : S)
    (interrupt : Nat → Bool) :
    Nat → Nat → LSQRState n m S → LSQRState n m S × Nat × Option LSQRStop
  | 0, ii, st => (st, ii, none)
  | fuel + 1, ii, st =>
    let upd := lsqrUpdateF F norm2 L lam ii st
    let st' := upd.1
    let normr := upd.2.normr
    let normAr := upd.2.normAr
    let normA := upd.2.normA
    let condA := upd.2.condA
    let normx := upd.2.normx
    if F.le (F.add (F.lit 1) (F.div (F.lit 1) condA)) (F.lit 1) then
      (st', ii + 1, some .condVeryLarge)
    else if F.le (F.div (F.lit 1) condA) L.cTol then
      (st', ii + 1, some .condExceededLimit)
    else if F.le (F.add (F.lit 1) (F.div normAr (F.mul normA normr))) (F.lit 1) then
      (st', ii + 1, some .leastSquaresMachinePrecision)
    else if F.le (F.div normAr (F.mul normA normr)) L.aTol then
      (st', ii + 1, some .leastSquaresTolerance)
    else if F.le normr (F.add (F.mul L.bTol normb) (F.mul (F.mul L.aTol normA) normx)) then
      (st', ii + 1, some .residualTolerance)
    else if F.le (F.add (F.lit 1) (F.div normr (F.add normb (F.mul normA normx))))
        (F.lit 1) then
      (st', ii + 1, some .residualMachinePrecision)
    else if interrupt ii then (st', ii + 1, some .interrupted)
    else lsqrLoop F norm2 L lam normb interrupt fuel (ii + 1) st'

/-- `LSQR::run` (lsqr.hpp:37-156), returning the final workspace together with the
number of iterations performed and the `break` taken. -/
def LSQR.runState (F : FloatOps S) (norm2 : (Fin n → S) → S) (L : LSQR n m S)
    (interrupt : Nat → Bool) (b : Fin m → S) (lam : S) (x0 cc : Option (Fin n → S)) :
    LSQRState n m S × Nat × Option LSQRStop :=
  let st := lsqrInitF F L lam b x0 cc
  let normb := st.bd.β
  lsqrLoop F norm2 L lam normb interrupt L.iterLimit 0 st

/-- `LSQR::run` (lsqr.hpp:37-156): the returned `x`. -/
def LSQR.run (F : FloatOps S) (norm2 : (Fin n → S) → S) (L : LSQR n m S)
    (interrupt : Nat → Bool) (b : Fin m → S) (lam : S) (x0 cc : Option (Fin n → S)) :
    Fin n → S :=
  (L.runState F norm2 interrupt b lam x0 cc).1.x

/-- One complete iteration that does not leave the loop. -/
def lsqrStep (F : FloatOps S) (norm2 : (Fin n → S) → S) (L : LSQR n m S) (lam : S)
    (ii : Nat) (st : LSQRState n m S) : LSQRState n m S :=
  (lsqrUpdateF F norm2 L lam ii st).1

/-- The workspace after `k` complete iterations. -/
def lsqrIter (F : FloatOps S) (norm2 : (Fin n → S) → S) (L : LSQR n m S) (lam : S) :
    Nat → LSQRState n m S → LSQRState n m S
  | 0, st => st
  | k + 1, st => lsqrStep F norm2 L lam k (lsqrIter F norm2 L lam k st)

end Defs18

/-! ## Failures, `Trajectory` (trajectory.cpp) -/

/-- An argument of a log message. -/
inductive LogArg (K : Type) where
  | index (i : Int)
  | real (v : K)
  | dims (d : List Nat)

/-- `Log::Fail(fmt, args...)`: the format string and its arguments.  Raising it ends the
call; a function that can fail returns `Except (Failure K)`. -/
structure Failure (K : Type) where
  fmt : String
  args : List (LogArg K)

/-- A real tensor of rank one (`Re1`): its dimension and its entries. -/
structure Re1 (K : Type) where
  dim0 : Nat
  data : Nat → K

/-- A real tensor of rank three (`Re3`): its dimensions and its entries. -/
structure Re3 (K : Type) where
  dim0 : Nat
  dim1 : Nat
  dim2 : Nat
  data : Nat × Nat × Nat → K

/-- Of `Info` (info.hpp, not among the sources) the members that the embedded code
reads. -/
structure Info (K : Type) where
  matrix : Fin 3 → Int
  voxel_size : Fin 3 → K
  channels : Nat
  read_points : Nat
  spokes : Nat

/-- The members `info_` and `points_` of `Trajectory`. -/
structure Trajectory (K : Type) where
  info_ : Info K
  points_ : Re3 K

section Defs10

variable {K : Type} [LinearOrderedField K]

/-- The entries of the tensor in storage order (first index fastest). -/
def Re3.elements (t : Re3 K) : List K :=
  (List.range t.dim2).flatMap fun k =>
    (List.range t.dim1).flatMap fun j =>
      (List.range t.dim0).map fun i => t.data (i, j, k)

/-- `t.abs()`: the entrywise absolute value. -/
def Re3.abs (t : Re3 K) : Re3 K :=
  { t with data := fun i => |t.data i| }

/-- The value from which a maximum reduction starts: it is below every float (the lowest
finite float, `-3.4028235e38`). -/
def floatLowest : K :=
  -340282346638528859811704183484516925440

/-- Modelled from the spec: `Maximum` (tensorOps.hpp, not among the sources), the largest
entry of a tensor, computed as a maximum reduction over its entries. -/
def Maximum (t : Re3 K) : K :=
  t.elements.foldl max floatLowest

/-- `Trajectory::init` (trajectory.cpp:24-35). -/
def Trajectory.init (t : Trajectory K) : Except (Failure K) Unit :=
  if t.points_.dim0 < 1 ∨ t.points_.dim0 > 3 then
    .error { fmt := "Trajectory has \x7b\x7d dimensions", args := [.index t.points_.dim0] }
  else
    let maxCoord := Maximum t.points_.abs
    if maxCoord > 1 / 2 then
      .error { fmt := "Maximum trajectory co-ordinate \x7b\x7d exceeded 0.5",
               args := [.real maxCoord] }
    else
      .ok ()

/-- `Trajectory::Trajectory(Info const &info, Re3 const &points)` (trajectory.cpp:9-15). -/
def Trajectory.make (info : Info K) (points : Re3 K) : Except (Failure K) (Trajectory K) :=
  let t : Trajectory K := { info_ := info, points_ := points }
  match t.init with
  | .error e => .error e
  | .ok _ => .ok t

/-- `Trajectory::nDims` (trajectory.cpp:43). -/
def Trajectory.nDims (t : Trajectory K) : Nat := t.points_.dim0

/-- `Trajectory::nSamples` (trajectory.cpp:45). -/
def Trajectory.nSamples (t : Trajectory K) : Nat := t.points_.dim1

/-- `Trajectory::nTraces` (trajectory.cpp:47). -/
def Trajectory.nTraces (t : Trajectory K) : Nat := t.points_.dim2

/-- `Trajectory::info` (trajectory.cpp:49). -/
def Trajectory.info (t : Trajectory K) : Info K := t.info_

/-- `Trajectory::points` (trajectory.cpp:66). -/
def Trajectory.points (t : Trajectory K) : Re3 K := t.points_

/-- `Trajectory::point` (trajectory.cpp:68-72): `points_.chip(spoke, 2).chip(read, 1)`. -/
def Trajectory.point (t : Trajectory K) (read spoke : Nat) : Re1 K :=
  { dim0 := t.points_.dim0, data := fun i => t.points_.data (i, read, spoke) }

/-- Modelled from the spec: `Norm` (tensorOps.hpp, not among the sources), the Euclidean
norm of a rank-one tensor. -/
def Norm (sqrt : K → K) (p : Re1 K) : K :=
  sqrt (∑ i ∈ Finset.range p.dim0, p.data i * p.data i)

end Defs10

/-! ## `Basis::Basis` (basis.cpp) -/

section Defs11

variable {K : Type} [LinearOrderedField K]

/-- `std::partial_sum`: the running sums of a list, started from `acc`. -/
def runningSums (acc : K) : List K → List K
  | [] => []
  | v :: vs => (acc + v) :: runningSums (acc + v) vs

/-- The percentages of cumulative energy (basis.cpp:20-23) for the singular values
`svdVals` (`svd.vals`): `cumsum = 100.f * cumsum / cumsum.tail(1)[0]`. -/
def Basis.cumsum (svdVals : List K) : List K :=
  let vals := svdVals.map fun v => v * v
  let cumsum := runningSums 0 vals
  cumsum.map fun c => 100 * c / cumsum.getLastD 0

/-- The number of retained basis vectors (basis.cpp:24-29). -/
def Basis.nRetain (svdVals : List K) (thresh : K) (nBasis : Int) : Int :=
  if nBasis ≠ 0 then nBasis
  else (((Basis.cumsum svdVals).filter fun c => c < thresh).length : Int)

/-- The part of `Basis::Basis` that selects the basis vectors (basis.cpp:18-45), for the
singular values `svdVals` and the right singular vectors `V` of the dynamics (`SVD` is not
among the sources).  The product with the permutation matrix is written out:
`perm.indices()[ii] = reorder[ii]` puts a one at row `reorder[ii]` of column `ii`. -/
def Basis.select (svdVals : List K) (V : Re2 K) (thresh : K) (nBasis : Int)
    (reorder : List Int) : Except (Failure K) (Re2 K) :=
  let nRetain := Basis.nRetain svdVals thresh nBasis
  if reorder.length ≠ 0 then
    let nReorder : Int := reorder.length
    if nReorder < nRetain then
      .error { fmt := "Basis and reordering size did not match", args := [] }
    else
      .ok { dim0 := V.dim0, dim1 := nRetain.toNat,
            data := fun rc => ∑ k ∈ Finset.range nReorder.toNat,
              V.data (rc.1, k) * (if (k : Int) = reorder.getD rc.2 0 then 1 else 0) }
  else
    .ok { dim0 := V.dim0, dim1 := nRetain.toNat, data := V.data }

end Defs11

/-! ## `SDC::Pipe` (sdc.cpp) -/

/-- Of the gridder that `make_grid` returns (gridBase.hpp, not among the sources) the two
calls that `SDC::Pipe` makes, on the entries of the tensors. -/
structure Gridder (C K : Type) where
  A : C → (Nat × Nat × Nat → K)
  Adj : (Nat × Nat × Nat → K) → C

/-- The factories that `SDC::Pipe` calls (kernel.hpp, mapping.h, gridBase.hpp, not among
the sources), taken as parameters.  `make_kernel name info os` stands for
`make_kernel(name, info.type, os)`. -/
structure GridFactory (Kern Map C K : Type) where
  make_kernel : String → Info K → K → Kern
  Mapping : Trajectory K → Kern → K → Nat → Map
  make_grid : Kern → Map → Nat → Gridder C K

section Defs12

variable {Kern Map C K : Type} [LinearOrderedField K]

/-- Modelled from the spec: `Norm` on a rank-three tensor, the Euclidean norm over all
its entries. -/
def Norm3 (sqrt : K → K) (t : Re3 K) : K :=
  sqrt ((t.elements.map fun v => v * v).sum)

/-- The update of the weights in one iteration (sdc.cpp:44-46). -/
def pipeUpdate (gridder : Gridder C K) (W : Re3 K) : Re3 K :=
  let Wp : Re3 K := { W with data := gridder.A (gridder.Adj W.data) }
  { Wp with data := fun i => if Wp.data i > 0 then W.data i / Wp.data i else 0 }

/-- The change `delta` that an iteration from `W` reports (sdc.cpp:47). -/
def pipeDelta (gridder : Gridder C K) (sqrt : K → K) (W : Re3 K) : K :=
  let Wp := pipeUpdate gridder W
  Norm3 sqrt { Wp with data := fun i => Wp.data i - W.data i } / Norm3 sqrt W

/-- The loop `for (ii = 0; ii < its; ii++)` (sdc.cpp:43-55) with `fuel` iterations left.
Returns the weights and the number of iterations performed. -/
def pipeLoop (gridder : Gridder C K) (sqrt : K → K) : Nat → Nat → Re3 K → Re3 K × Nat
  | 0, ii, W => (W, ii)
  | fuel + 1, ii, W =>
    let Wp := pipeUpdate gridder W
    let delta := pipeDelta gridder sqrt W
    let W' := Wp
    if delta < 1 / 10000000 then (W', ii + 1)
    else pipeLoop gridder sqrt fuel (ii + 1) W'

/-- `SDC::Pipe` (sdc.cpp:22-58) up to the return statement: the weights `W` and the
number of iterations performed.  `Winit` holds the entries of `W` before
`W.setConstant(1.f)`. -/
def SDC.PipeState (F : GridFactory Kern Map C K) (sqrt : K → K) (Winit : Nat × Nat × Nat → K)
    (inTraj : Trajectory K) (nn : Bool) (os : K) (its : Nat) :
    Except (Failure K) (Re3 K × Nat) :=
  let info := inTraj.info
  let info := { info with channels := 1 }
  match Trajectory.make info inTraj.points with
  | .error e => .error e
  | .ok traj =>
    let W : Re3 K := { dim0 := 1, dim1 := info.read_points, dim2 := info.spokes, data := Winit }
    let k := if nn then F.make_kernel "NN" info os else F.make_kernel "FI7" info os
    let m := F.Mapping traj k os 32
    let gridder := F.make_grid k m 1
    let W := { W with data := setConstant W.data 1 }
    .ok (pipeLoop gridder sqrt its 0 W)

/-- `SDC::Pipe` (sdc.cpp:22-58): the returned `W.chip<0>(0)`. -/
def SDC.Pipe (F : GridFactory Kern Map C K) (sqrt : K → K) (Winit : Nat × Nat × Nat → K)
    (inTraj : Trajectory K) (nn : Bool) (os : K) (its : Nat) : Except (Failure K) (Re2 K) :=
  match SDC.PipeState F sqrt Winit inTraj nn os its with
  | .error e => .error e
  | .ok res =>
    .ok { dim0 := res.1.dim1, dim1 := res.1.dim2, data := fun jk => res.1.data (0, jk.1, jk.2) }

/-- The weights after `k` complete iterations from `W`. -/
def pipeIter (gridder : Gridder C K) : Nat → Re3 K → Re3 K
  | 0, W => W
  | k + 1, W => pipeUpdate gridder (pipeIter gridder k W)

end Defs12

/-! ## `GridBasis` (op/grid-basis.hpp) -/

/-- A Cartesian grid position `c.x`, `c.y`, `c.z` (mapping.h, not among the sources). -/
structure CartesianIndex where
  x : Int
  y : Int
  z : Int

/-- The slot `n.spoke`, `n.read` of a sample, as grid-basis.hpp reads it. -/
structure SpokeRead where
  spoke : Nat
  read : Nat

/-- Of the `Mapping` of mapping.h (not among the sources) the members that
grid-basis.hpp reads.  The vectors are total functions of the position; `size` is
`cart.size()`. -/
structure SortedMapping (Pt K : Type) where
  size : Nat
  cart : Nat → CartesianIndex
  noncart : Nat → SpokeRead
  offset : Nat → Pt
  sortedIndices : Nat → Nat
  scale : K

/-- A tensor of rank three (`Cx3`, the non-Cartesian samples): dimensions
`(channel, read, spoke)` and entries. -/
structure Cx3 (K : Type) where
  dims : Fin 3 → Nat
  data : Nat × Nat × Nat → K

/-- A tensor of rank five (`Cx5`, the Cartesian grid): dimensions
`(channel, basis, x, y, z)` and entries; the spatial indices are integers. -/
structure Cx5 (K : Type) where
  dims : Fin 5 → Nat
  data : Nat × Nat × Int × Int × Int → K

/-- The operator `GridBasis<IP, TP>` with the members of its base `SizedGrid<IP, TP>`
(grid-base.hpp, not among the sources) that it reads: the kernel `kernel_->k(offset)`, an
`IP × IP × TP` tensor, `mapping_`, `safe_`, and the declared dimensions. -/
structure GridBasis (Pt K : Type) where
  IP : Nat
  TP : Nat
  kernel : Pt → (Nat × Nat × Nat → K)
  mapping : SortedMapping Pt K
  safe : Bool
  inputDimensions : Fin 5 → Nat
  outputDimensions : Fin 3 → Nat
  basis : Re2 K

/-- The workspace of one thread in `Adj`: `minZ[ti]`, `szZ[ti]` and `threadSpaces[ti]`. -/
structure ThreadSpace (K : Type) where
  minZ : Int
  szZ : Int
  data : Nat × Nat × Int × Int × Int → K

/-- Modelled from the spec: `LastN<N>` (tensorOps.hpp, not among the sources), the last
`N` entries of an index array. -/
def LastN (N : Nat) {R : Nat} (sz : Fin R → Nat) : Fin N → Nat :=
  fun i => if h : R - N + i.val < R then sz ⟨R - N + i.val, h⟩ else 0

section Defs14

variable {Pt K : Type} [CommRing K]

/-- The expression `t.slice(st, sz) += nbk` for a block of size `(nC, nB, IP, IP, TP)`
that starts at `(0, 0, stX, stY, stZ)`. -/
def sliceAdd (t : Nat × Nat × Int × Int × Int → K) (nC nB IP TP : Nat) (stX stY stZ : Int)
    (nbk : Nat × Nat × Nat × Nat × Nat → K) : Nat × Nat × Int × Int × Int → K :=
  fun i =>
    if i.1 < nC ∧ i.2.1 < nB ∧ stX ≤ i.2.2.1 ∧ i.2.2.1 < stX + IP ∧
        stY ≤ i.2.2.2.1 ∧ i.2.2.2.1 < stY + IP ∧ stZ ≤ i.2.2.2.2 ∧ i.2.2.2.2 < stZ + TP then
      t i + nbk (i.1, i.2.1, (i.2.2.1 - stX).toNat, (i.2.2.2.1 - stY).toNat,
        (i.2.2.2.2 - stZ).toNat)
    else t i

/-- One pass of the loop of `grid_task` in `A` (grid-basis.hpp:44-64): the sample at
position `ii` of the sorted order. -/
def GridBasis.ATask (g : GridBasis Pt K) (cart : Cx5 K) (nC nB : Nat) (ii : Nat)
    (noncart : Cx3 K) : Cx3 K :=
  let si := g.mapping.sortedIndices ii
  let c := g.mapping.cart si
  let n := g.mapping.noncart si
  let b := fun ib => g.basis.data (n.spoke % g.basis.dim0, ib)
  let scale := g.mapping.scale
  let k := g.kernel (g.mapping.offset si)
  let stX : Int := c.x - (((g.IP - 1) / 2 : Nat) : Int)
  let stY : Int := c.y - (((g.IP - 1) / 2 : Nat) : Int)
  let stZ : Int := c.z - (((g.TP - 1) / 2 : Nat) : Int)
  let v := fun ic =>
    ∑ ib ∈ Finset.range nB, ∑ ix ∈ Finset.range g.IP, ∑ iy ∈ Finset.range g.IP,
      ∑ iz ∈ Finset.range g.TP,
        cart.data (ic, ib, stX + ix, stY + iy, stZ + iz) * b ib * (k (ix, iy, iz) * scale)
  { noncart with
    data := fun i =>
      if i.1 < nC ∧ i.2.1 = n.read ∧ i.2.2 = n.spoke then v i.1 else noncart.data i }

/-- `GridBasis::A` (grid-basis.hpp:24-71).  `Threads::RangeFor` is run as one pass over
the samples in sorted order. -/
def GridBasis.A (g : GridBasis Pt K) (cart : Cx5 K) : Except (Failure K) (Cx3 K) :=
  let cdims := cart.dims
  let nC := cdims 0
  let nB := cdims 1
  if LastN 4 cdims ≠ LastN 4 g.inputDimensions then
    .error { fmt := "Cartesian k-space dims \x7b\x7d did not match \x7b\x7d",
             args := [.dims (List.ofFn cdims), .dims (List.ofFn g.inputDimensions)] }
  else
    let ncdims := Function.update g.outputDimensions 0 nC
    let noncart : Cx3 K := { dims := ncdims, data := fun _ => 0 }
    .ok (forLoop g.mapping.size (fun ii noncart => g.ATask cart nC nB ii noncart) noncart)

/-- One pass of the loop of `grid_task` in `Adj` (grid-basis.hpp:130-152): the sample at
position `ii` is added to the workspace of the thread (safe mode) or to the grid. -/
def GridBasis.AdjSample (g : GridBasis Pt K) (noncart : Cx3 K) (nC nB : Nat) (minZ : Int)
    (ii : Nat) (st : (Nat × Nat × Int × Int × Int → K) × (Nat × Nat × Int × Int × Int → K)) :
    (Nat × Nat × Int × Int × Int → K) × (Nat × Nat × Int × Int × Int → K) :=
  let scale := g.mapping.scale
  let si := g.mapping.sortedIndices ii
  let c := g.mapping.cart si
  let n := g.mapping.noncart si
  let nc := fun ic => noncart.data (ic, n.read, n.spoke)
  let b := fun ib => g.basis.data (n.spoke % g.basis.dim0, ib)
  let k := g.kernel (g.mapping.offset si)
  let nbk : Nat × Nat × Nat × Nat × Nat → K :=
    fun i => (nc i.1 * scale) * b i.2.1 * k (i.2.2.1, i.2.2.2.1, i.2.2.2.2)
  let stX : Int := c.x - (((g.IP - 1) / 2 : Nat) : Int)
  let stY : Int := c.y - (((g.IP - 1) / 2 : Nat) : Int)
  if g.safe then
    let stZ : Int := c.z - (((g.TP - 1) / 2 : Nat) : Int) - minZ
    (st.1, sliceAdd st.2 nC nB g.IP g.TP stX stY stZ nbk)
  else
    let stZ : Int := c.z - (((g.TP - 1) / 2 : Nat) : Int)
    (sliceAdd st.1 nC nB g.IP g.TP stX stY stZ nbk, st.2)

/-- The task `grid_task(lo, hi, ti)` of `Adj` (grid-basis.hpp:116-153): the grid after the
task and the workspace of the thread, which stays empty (size zero, no entry written)
in the unsafe mode. -/
def GridBasis.AdjTask (g : GridBasis Pt K) (noncart : Cx3 K) (nC nB : Nat) (lo hi : Nat)
    (cart : Nat × Nat × Int × Int × Int → K) :
    (Nat × Nat × Int × Int × Int → K) × ThreadSpace K :=
  let minZ : Int :=
    (g.mapping.cart (g.mapping.sortedIndices lo)).z - (((g.TP - 1) / 2 : Nat) : Int)
  let szZ : Int :=
    if g.safe then
      let maxZ : Int :=
        (g.mapping.cart (g.mapping.sortedIndices (hi - 1))).z + ((g.TP / 2 : Nat) : Int)
      maxZ - minZ + 1
    else 0
  let res := (List.range' lo (hi - lo)).foldl
    (fun st ii => g.AdjSample noncart nC nB minZ ii st) (cart, fun _ => 0)
  (res.1, { minZ := minZ, szZ := szZ, data := res.2 })

/-- The statement `cart.slice(st, sz).device(dev) += threadSpaces[ti]` of the merge
(grid-basis.hpp:165-169), made when `szZ[ti]` is not zero. -/
def GridBasis.AdjMerge (nC nB dimX dimY : Nat) (cart : Nat × Nat × Int × Int × Int → K)
    (ts : ThreadSpace K) : Nat × Nat × Int × Int × Int → K :=
  if ts.szZ ≠ 0 then
    fun i =>
      if i.1 < nC ∧ i.2.1 < nB ∧ 0 ≤ i.2.2.1 ∧ i.2.2.1 < dimX ∧ 0 ≤ i.2.2.2.1 ∧
          i.2.2.2.1 < dimY ∧ ts.minZ ≤ i.2.2.2.2 ∧ i.2.2.2.2 < ts.minZ + ts.szZ then
        cart i + ts.data (i.1, i.2.1, i.2.2.1, i.2.2.2.1, i.2.2.2.2 - ts.minZ)
      else cart i
  else cart

/-- `GridBasis::Adj` (grid-basis.hpp:73-174).  `ranges` lists the calls
`grid_task(lo, hi, ti)` that `Threads::RangeFor` makes, in the order of `ti`, run one
after the other; `cartInit` holds the entries of `cart` before `cart.setZero()`. -/
def GridBasis.Adj (g : GridBasis Pt K) (ranges : List (Nat × Nat))
    (cartInit : Nat × Nat × Int × Int × Int → K) (noncart : Cx3 K) :
    Except (Failure K) (Cx5 K) :=
  let ncdims := g.inputDimensions
  let nC := ncdims 0
  if LastN 2 ncdims ≠ LastN 2 g.outputDimensions then
    .error { fmt := "Noncartesian k-space dims \x7b\x7d did not match \x7b\x7d",
             args := [.dims (List.ofFn ncdims), .dims (List.ofFn g.outputDimensions)] }
  else
    let cdims := Function.update g.inputDimensions 0 nC
    let nB := cdims 1
    let cart : Cx5 K := { dims := cdims, data := cartInit }
    let cart := { cart with data := setConstant cart.data 0 }
    let run := ranges.foldl
      (fun (st : (Nat × Nat × Int × Int × Int → K) × List (ThreadSpace K)) (r : Nat × Nat) =>
        let t := g.AdjTask noncart nC nB r.1 r.2 st.1
        (t.1, st.2 ++ [t.2]))
      (cart.data, [])
    if g.safe then
      .ok { cart with
            data := run.2.foldl (fun c ts => GridBasis.AdjMerge nC nB (ncdims 2) (ncdims 3) c ts)
              run.1 }
    else
      .ok { cart with data := run.1 }

end Defs14

/-! ## `Trajectory::downsample` (trajectory.cpp) -/

/-- A tensor of rank five holding k-space (`Cx5`): its dimensions and its entries, the
second index being the read index. -/
structure Ks5 (K : Type) where
  dims : Fin 5 → Nat
  data : Nat × Nat × Nat × Nat × Nat → K

/-- A tensor of rank four holding k-space (`Cx4`): its dimensions and its entries, the
second index being the read index. -/
structure Ks4 (K : Type) where
  dims : Fin 4 → Nat
  data : Nat × Nat × Nat × Nat → K

section Defs15

variable {K : Type} [LinearOrderedField K] [FloorRing K]

/-- The conversion of a float to `Index`, which drops the fractional part. -/
def truncIndex (x : K) : Int :=
  if 0 ≤ x then ⌊x⌋ else ⌈x⌉

/-- `info_.voxel_size.minCoeff()`. -/
def Info.minVoxel (info : Info K) : K :=
  min (info.voxel_size 0) (min (info.voxel_size 1) (info.voxel_size 2))

/-- Exact arithmetic as a `FloatOps`: the operations of an ordered field `K` without
rounding, `truncIndex` and a square root `sqrt`.  The example inputs are evaluated in
it: their divisors are not zero, and the comparisons that decide their outcome are far
from equality or between values that single precision yields without rounding. -/
def FloatOps.exact (K : Type) [LinearOrderedField K] [FloorRing K] (sqrt : K → K) :
    FloatOps K :=
  { lit := fun q => (q : K)
    ofIndex := fun i => (i : K)
    toIndex := truncIndex
    add := fun a b => a + b
    sub := fun a b => a - b
    mul := fun a b => a * b
    div := fun a b => a / b
    neg := fun a => -a
    abs := fun a => |a|
    sqrt := sqrt
    le := fun a b => decide (a ≤ b)
    lt := fun a b => decide (a < b)
    eq := fun a b => decide (a = b) }

end Defs15

/-- The reductions of tensorOps.hpp and of Eigen (not among the sources) that
`trajectory.cpp` calls, as the target computes them: `Norm` of a rank-one tensor,
`Maximum` of a rank-three tensor and `minCoeff` of the voxel sizes. -/
structure Reductions (S : Type) where
  Norm : Re1 S → S
  Maximum : Re3 S → S
  minCoeff : (Fin 3 → S) → S

/-- The reductions in exact arithmetic: `Norm`, `Maximum` and the least of the three
voxel sizes. -/
def Reductions.exact (K : Type) [LinearOrderedField K] (sqrt : K → K) : Reductions K :=
  { Norm := rl.Norm sqrt
    Maximum := rl.Maximum
    minCoeff := fun v => min (v 0) (min (v 1) (v 2)) }

section Defs19

variable {S C : Type}

/-- `t.abs()` in the arithmetic `F`. -/
def Re3.absF (F : FloatOps S) (t : Re3 S) : Re3 S :=
  { t with data := fun i => F.abs (t.data i) }

/-- `Trajectory::init` (trajectory.cpp:24-35) in the arithmetic `F`; `maxCoord > 0.5f`
is the comparison `0.5f < maxCoord`. -/
def Trajectory.initF (F : FloatOps S) (R : Reductions S) (t : Trajectory S) :
    Except (Failure S) Unit :=
  if t.points_.dim0 < 1 ∨ t.points_.dim0 > 3 then
    .error { fmt := "Trajectory has \x7b\x7d dimensions", args := [.index t.points_.dim0] }
  else
    let maxCoord := R.Maximum (t.points_.absF F)
    if F.lt (F.lit (1 / 2)) maxCoord then
      .error { fmt := "Maximum trajectory co-ordinate \x7b\x7d exceeded 0.5",
               args := [.real maxCoord] }
    else
      .ok ()

/-- `Trajectory::Trajectory(Info const &info, Re3 const &points)` (trajectory.cpp:9-15)
in the arithmetic `F`. -/
def Trajectory.makeF (F : FloatOps S) (R : Reductions S) (info : Info S) (points : Re3 S) :
    Except (Failure S) (Trajectory S) :=
  let t : Trajectory S := { info_ := info, points_ := points }
  match t.initF F R with
  | .error e => .error e
  | .ok _ => .ok t

/-- The header of the downsampled trajectory and `scale` (trajectory.cpp:82-90): the
first `nDims()` entries of the matrix become `i / dsamp`, a `float` that the assignment
converts to `Index`, and `scale = static_cast<float>(matrix[0]) / dsInfo.matrix[0]`. -/
def Trajectory.dsInfoScale (F : FloatOps S) (t : Trajectory S) (dsamp : S) (shrink : Bool) :
    Info S × S :=
  let dsInfo := t.info_
  let scale : S := F.lit 1
  if shrink then
    let dsInfo := { dsInfo with
      matrix := fun i => if i.val < t.nDims then
                           F.toIndex (F.div (F.ofIndex (t.info_.matrix i)) dsamp)
                         else dsInfo.matrix i }
    let scale := F.div (F.ofIndex (t.info_.matrix 0)) (F.ofIndex (dsInfo.matrix 0))
    let dsInfo := { dsInfo with voxel_size := fun i => F.mul (t.info_.voxel_size i) scale }
    (dsInfo, scale)
  else (dsInfo, scale)

/-- The body of the inner loop (trajectory.cpp:95-104) for trace `it` and sample `is`, on
the entries of `dsPoints` and the pair `minSamp`, `maxSamp`.  `nan` stands for
`quiet_NaN()`. -/
def Trajectory.downsampleStep (F : FloatOps S) (R : Reductions S) (t : Trajectory S)
    (nan dsamp scale : S) (lores : Int) (it is : Nat)
    (st : (Nat × Nat × Nat → S) × Nat × Nat) : (Nat × Nat × Nat → S) × Nat × Nat :=
  let p := t.point is it
  if F.le (R.Norm p) (F.div (F.lit (1 / 2)) dsamp) then
    let ds : Nat × Nat × Nat → S :=
      fun i => if i.2.1 = is ∧ i.2.2 = it then F.mul (p.data i.1) scale else st.1 i
    if (it : Int) ≥ lores then (ds, min st.2.1 is, max st.2.2 is)
    else (ds, st.2.1, st.2.2)
  else
    (fun i => if i.2.1 = is ∧ i.2.2 = it then nan else st.1 i, st.2.1, st.2.2)

/-- The two loops (trajectory.cpp:91-106): the entries of `dsPoints`, `minSamp` and
`maxSamp`.  `dsInit` holds the entries of `dsPoints` before the loops. -/
def Trajectory.downsampleLoop (F : FloatOps S) (R : Reductions S) (t : Trajectory S)
    (nan dsamp scale : S) (lores : Int) (dsInit : Nat × Nat × Nat → S) :
    (Nat × Nat × Nat → S) × Nat × Nat :=
  let minSamp := t.nSamples
  let maxSamp := 0
  forLoop t.nTraces
    (fun it st => forLoop t.nSamples
      (fun is st => t.downsampleStep F R nan dsamp scale lores it is st) st)
    (dsInit, minSamp, maxSamp)

/-- The factor `dsamp = res / info_.voxel_size.minCoeff()` (trajectory.cpp:77). -/
def Trajectory.dsamp (F : FloatOps S) (R : Reductions S) (t : Trajectory S) (res : S) : S :=
  F.div res (R.minCoeff t.info_.voxel_size)

/-- The state in which `downsample(res, lores, shrink)` leaves its loops
(trajectory.cpp:77-106): the entries of `dsPoints`, `minSamp` and `maxSamp`. -/
def Trajectory.dsLoop (F : FloatOps S) (R : Reductions S) (t : Trajectory S) (nan : S)
    (dsInit : Nat × Nat × Nat → S) (res : S) (lores : Int) (shrink : Bool) :
    (Nat × Nat × Nat → S) × Nat × Nat :=
  t.downsampleLoop F R nan (t.dsamp F R res) (t.dsInfoScale F (t.dsamp F R res) shrink).2 lores
    dsInit

/-- The count of trajectory.cpp:107 from the state the loops leave:
`dsSamples = maxSamp + 1 - minSamp`. -/
def dsCount (st : (Nat × Nat × Nat → S) × Nat × Nat) : Int :=
  (st.2.2 : Int) + 1 - (st.2.1 : Int)

/-- A slice `t.slice(start, size)` stays within a dimension of extent `dim`: the size is
not negative and `start + size ≤ dim`.  Outside of it Eigen asserts, or reads outside
the tensor when assertions are off. -/
def sliceInRange (start : Nat) (size : Int) (dim : Nat) : Prop :=
  0 ≤ size ∧ (start : Int) + size ≤ (dim : Int)

instance sliceInRange.decidable (start : Nat) (size : Int) (dim : Nat) :
    Decidable (sliceInRange start size dim) :=
  inferInstanceAs (Decidable (0 ≤ size ∧ (start : Int) + size ≤ (dim : Int)))

/-- `Trajectory::downsample(res, lores, shrink)` (trajectory.cpp:74-120) in the arithmetic
`F`: the downsampled trajectory, `minSamp` and `dsSamples`.  The result is `none` when
the slice of line 117 is out of range, where the call has no defined result, and
`some (.error e)` when `Log::Fail` is raised. -/
def Trajectory.downsample (F : FloatOps S) (R : Reductions S) (t : Trajectory S) (nan : S)
    (dsInit : Nat × Nat × Nat → S) (res : S) (lores : Int) (shrink : Bool) :
    Option (Except (Failure S) (Trajectory S × Nat × Int)) :=
  let dsamp := t.dsamp F R res
  if F.lt dsamp (F.lit 1) then
    some (.error
      { fmt := "Downsample resolution \x7b\x7d is lower than input resolution \x7b\x7d",
        args := [.real res, .real (R.minCoeff t.info_.voxel_size)] })
  else
    let dsInfo := (t.dsInfoScale F dsamp shrink).1
    let lp := t.dsLoop F R nan dsInit res lores shrink
    let minSamp := lp.2.1
    let dsSamples : Int := dsCount lp
    if sliceInRange minSamp dsSamples t.nSamples then
      let dsPoints : Re3 S :=
        { dim0 := t.nDims, dim1 := dsSamples.toNat, dim2 := t.nTraces,
          data := fun i => lp.1 (i.1, minSamp + i.2.1, i.2.2) }
      match Trajectory.makeF F R dsInfo dsPoints with
      | .error e => some (.error e)
      | .ok traj => some (.ok (traj, minSamp, dsSamples))
    else none

/-- `Trajectory::downsample(Cx5 const &ks, ...)` (trajectory.cpp:122-129); `none` when
the inner call has no defined result or the slice of `ks` is out of range. -/
def Trajectory.downsample5 (F : FloatOps S) (R : Reductions S) (t : Trajectory S) (nan : S)
    (dsInit : Nat × Nat × Nat → S) (ks : Ks5 C) (res : S) (lores : Int) (shrink : Bool) :
    Option (Except (Failure S) (Trajectory S × Ks5 C)) :=
  match t.downsample F R nan dsInit res lores shrink with
  | none => none
  | some (.error e) => some (.error e)
  | some (.ok (dsTraj, minSamp, nSamp)) =>
    if sliceInRange minSamp nSamp (ks.dims 1) then
      let dsKs : Ks5 C :=
        { dims := ![ks.dims 0, nSamp.toNat, ks.dims 2, ks.dims 3, ks.dims 4],
          data := fun i => ks.data (i.1, minSamp + i.2.1, i.2.2) }
      some (.ok (dsTraj, dsKs))
    else none

/-- `Trajectory::downsample(Cx4 const &ks, ...)` (trajectory.cpp:131-137); `none` when
the inner call has no defined result or the slice of `ks` is out of range. -/
def Trajectory.downsample4 (F : FloatOps S) (R : Reductions S) (t : Trajectory S) (nan : S)
    (dsInit : Nat × Nat × Nat → S) (ks : Ks4 C) (res : S) (lores : Int) (shrink : Bool) :
    Option (Except (Failure S) (Trajectory S × Ks4 C)) :=
  match t.downsample F R nan dsInit res lores shrink with
  | none => none
  | some (.error e) => some (.error e)
  | some (.ok (dsTraj, minSamp, nSamp)) =>
    if sliceInRange minSamp nSamp (ks.dims 1) then
      let dsKs : Ks4 C :=
        { dims := ![ks.dims 0, nSamp.toNat, ks.dims 2, ks.dims 3],
          data := fun i => ks.data (i.1, minSamp + i.2.1, i.2.2) }
      some (.ok (dsTraj, dsKs))
    else none

end Defs19


/-! ## `Covariance` (decomp.cpp) -/

/-- A complex tensor of rank two (`Cx2`): its dimensions and its entries. -/
structure Cx2 (K : Type) where
  dim0 : Nat
  dim1 : Nat
  data : Nat × Nat → K

/-- `Covariance` (decomp.cpp:22-27): `data.conjugate()` contracted with `data` over the
second index of both, times `scale = 1.f / data.dimension(1)`.  The scalars are complex
or real numbers, `star` being the conjugate. -/
def Covariance {K : Type} [RCLike K] (data : Cx2 K) : Cx2 K :=
  let scale : K := 1 / (data.dim1 : K)
  { dim0 := data.dim0, dim1 := data.dim0,
    data := fun ij =>
      (∑ k ∈ Finset.range data.dim1, star (data.data (ij.1, k)) * data.data (ij.2, k)) * scale }

/-! ## `CoreOpts` (parse_args.cpp) -/

/-- An option registered with the argument parser: the member it initialises, its help
name, and the short and long flags of its matcher (none for a positional). -/
structure OptionSpec where
  member : String
  name : String
  shorts : List Char
  longs : List String
  deriving DecidableEq

/-- The options that `CoreOpts::CoreOpts` registers, in the order of the initialiser list
(parse_args.cpp:71-81). -/
def CoreOpts : List OptionSpec :=
  [{ member := "iname", name := "F", shorts := [], longs := [] },
   { member := "oname", name := "O", shorts := ['o'], longs := ["out"] },
   { member := "ktype", name := "K", shorts := ['k'], longs := ["kernel"] },
   { member := "osamp", name := "O", shorts := ['s'], longs := ["osamp"] },
   { member := "fov", name := "FOV", shorts := [], longs := ["fov"] },
   { member := "bucketSize", name := "B", shorts := [], longs := ["bucket-size"] },
   { member := "basisFile", name := "B", shorts := ['b'], longs := ["basis"] },
   { member := "keepTrajectory", name := "", shorts := ['k'], longs := ["keep"] }]

/-! ## Specification-side definitions and predicates -/

section Defs2

variable {Pt K : Type} [CommRing K]

/-- Value the specification gives for the slot of sample `si` in channel `ic`,
`NDim == 1`: the sum over basis coefficients `ib` and in-grid taps `i` of
`x(ic, ib, cart - (PadWidth-1)/2 + i) * kernel(offset)(i) * sqrt(P) * basis(trace mod P, ib)`. -/
def forwardSpec1 (sqrt : K → K) (G : Grid 1 Pt Nat K) (x : Nat × Nat × Int → K)
    (si ic : Nat) : K :=
  let c := G.mapping.cart si
  let n := G.mapping.noncart si
  let P := G.basis.dim0
  let h : Nat := (G.kW - 1) / 2
  ∑ ib ∈ Finset.range G.nB,
    ∑ i ∈ (Finset.range G.kW).filter
        (fun i : Nat => 0 ≤ c 0 - h + i ∧ c 0 - h + i < G.mapping.cartDims 0),
      x (ic, ib, c 0 - h + i) * G.kernel (G.mapping.offset si) i * sqrt (P : K)
        * G.basis.data (n.trace % P, ib)

/-- Value the specification gives for the slot of sample `si` in channel `ic`,
`NDim == 2`; the tap `(i2, i1)` addresses cell `(c[0] - h + i2, c[1] - h + i1)`. -/
def forwardSpec2 (sqrt : K → K) (G : Grid 2 Pt (Nat × Nat) K) (x : Nat × Nat × Int × Int → K)
    (si ic : Nat) : K :=
  let c := G.mapping.cart si
  let n := G.mapping.noncart si
  let P := G.basis.dim0
  let h : Nat := (G.kW - 1) / 2
  ∑ ib ∈ Finset.range G.nB,
    ∑ i1 ∈ (Finset.range G.kW).filter
        (fun i : Nat => 0 ≤ c 1 - h + i ∧ c 1 - h + i < G.mapping.cartDims 1),
      ∑ i2 ∈ (Finset.range G.kW).filter
          (fun i : Nat => 0 ≤ c 0 - h + i ∧ c 0 - h + i < G.mapping.cartDims 0),
        x (ic, ib, c 0 - h + i2, c 1 - h + i1) * G.kernel (G.mapping.offset si) (i2, i1)
          * sqrt (P : K) * G.basis.data (n.trace % P, ib)

/-- Value the specification gives for the slot of sample `si` in channel `ic`,
`NDim == 3`; the tap `(i3, i2, i1)` addresses cell
`(c[0] - h + i3, c[1] - h + i2, c[2] - h + i1)`. -/
def forwardSpec3 (sqrt : K → K) (G : Grid 3 Pt (Nat × Nat × Nat) K)
    (x : Nat × Nat × Int × Int × Int → K) (si ic : Nat) : K :=
  let c := G.mapping.cart si
  let n := G.mapping.noncart si
  let P := G.basis.dim0
  let h : Nat := (G.kW - 1) / 2
  ∑ ib ∈ Finset.range G.nB,
    ∑ i1 ∈ (Finset.range G.kW).filter
        (fun i : Nat => 0 ≤ c 2 - h + i ∧ c 2 - h + i < G.mapping.cartDims 2),
      ∑ i2 ∈ (Finset.range G.kW).filter
          (fun i : Nat => 0 ≤ c 1 - h + i ∧ c 1 - h + i < G.mapping.cartDims 1),
        ∑ i3 ∈ (Finset.range G.kW).filter
            (fun i : Nat => 0 ≤ c 0 - h + i ∧ c 0 - h + i < G.mapping.cartDims 0),
          x (ic, ib, c 0 - h + i3, c 1 - h + i2, c 2 - h + i1)
            * G.kernel (G.mapping.offset si) (i3, i2, i1)
            * sqrt (P : K) * G.basis.data (n.trace % P, ib)

end Defs2

/-- Every sample number owned by some bucket, in bucket order. -/
def Mapping.samples {NDim : Nat} {Pt : Type} (m : Mapping NDim Pt) : List Nat :=
  m.buckets.flatMap (fun b => b.indices)

section Defs3

variable {Pt K : Type} [CommRing K]

/-- Plain kernel-weighted gather of the specification (no basis), `NDim == 1`. -/
def gather1 (m : Mapping 1 Pt) (kW : Nat) (kernel : Pt → Nat → K) (x : Nat × Nat × Int → K)
    (si ic : Nat) : K :=
  let c := m.cart si
  let h : Nat := (kW - 1) / 2
  ∑ i ∈ (Finset.range kW).filter (fun i : Nat => 0 ≤ c 0 - h + i ∧ c 0 - h + i < m.cartDims 0),
    x (ic, 0, c 0 - h + i) * kernel (m.offset si) i

/-- Plain kernel-weighted gather of the specification (no basis), `NDim == 2`. -/
def gather2 (m : Mapping 2 Pt) (kW : Nat) (kernel : Pt → Nat × Nat → K)
    (x : Nat × Nat × Int × Int → K) (si ic : Nat) : K :=
  let c := m.cart si
  let h : Nat := (kW - 1) / 2
  ∑ i1 ∈ (Finset.range kW).filter (fun i : Nat => 0 ≤ c 1 - h + i ∧ c 1 - h + i < m.cartDims 1),
    ∑ i2 ∈ (Finset.range kW).filter
        (fun i : Nat => 0 ≤ c 0 - h + i ∧ c 0 - h + i < m.cartDims 0),
      x (ic, 0, c 0 - h + i2, c 1 - h + i1) * kernel (m.offset si) (i2, i1)

/-- Plain kernel-weighted gather of the specification (no basis), `NDim == 3`. -/
def gather3 (m : Mapping 3 Pt) (kW : Nat) (kernel : Pt → Nat × Nat × Nat → K)
    (x : Nat × Nat × Int × Int × Int → K) (si ic : Nat) : K :=
  let c := m.cart si
  let h : Nat := (kW - 1) / 2
  ∑ i1 ∈ (Finset.range kW).filter (fun i : Nat => 0 ≤ c 2 - h + i ∧ c 2 - h + i < m.cartDims 2),
    ∑ i2 ∈ (Finset.range kW).filter
        (fun i : Nat => 0 ≤ c 1 - h + i ∧ c 1 - h + i < m.cartDims 1),
      ∑ i3 ∈ (Finset.range kW).filter
          (fun i : Nat => 0 ≤ c 0 - h + i ∧ c 0 - h + i < m.cartDims 0),
        x (ic, 0, c 0 - h + i3, c 1 - h + i2, c 2 - h + i1) * kernel (m.offset si) (i3, i2, i1)

/-- The `(sample, trace)` slots of the samples of the mapping are pairwise distinct
(and no sample is listed twice). -/
def Mapping.DistinctSlots {NDim : Nat} (m : Mapping NDim Pt) : Prop :=
  (m.samples.map m.noncart).Nodup

end Defs3

/-- The operator with its bucket list replaced (the same buckets in another order). -/
def Grid.withBuckets {NDim : Nat} {Pt KIdx K : Type} (G : Grid NDim Pt KIdx K)
    (bs : List (Bucket NDim)) : Grid NDim Pt KIdx K :=
  { G with mapping := { G.mapping with buckets := bs } }

/-- Inner product of two sample tensors over the output dimensions
`(nC, noncartDims[0], noncartDims[1])`. -/
def dotSamples {NDim : Nat} {Pt KIdx K : Type} [CommRing K] (G : Grid NDim Pt KIdx K)
    (a b : Nat × Nat × Nat → K) : K :=
  ∑ ic ∈ Finset.range G.nC, ∑ s ∈ Finset.range (G.mapping.noncartDims 0),
    ∑ t ∈ Finset.range (G.mapping.noncartDims 1), a (ic, s, t) * b (ic, s, t)

/-- Inner product of two grid tensors over the input dimensions `(nC, nB, cartDims[0])`,
`NDim == 1`. -/
def dotGrid1 {Pt K : Type} [CommRing K] (G : Grid 1 Pt Nat K) (a b : Nat × Nat × Int → K) : K :=
  ∑ ic ∈ Finset.range G.nC, ∑ ib ∈ Finset.range G.nB,
    ∑ g ∈ Finset.range (G.mapping.cartDims 0).toNat, a (ic, ib, (g : Int)) * b (ic, ib, (g : Int))

/-- Every kernel footprint lies inside the scratch box of its bucket, `NDim == 1`. -/
def Grid.FootprintInBox1 {Pt K : Type} (G : Grid 1 Pt Nat K) : Prop :=
  ∀ b ∈ G.mapping.buckets, ∀ si ∈ b.indices, ∀ i1, i1 < G.kW →
    0 ≤ (i1 : Int) + G.mapping.cart si 0 - ((G.kW / 2 : Nat) : Int) - b.minCorner 0 ∧
    (i1 : Int) + G.mapping.cart si 0 - ((G.kW / 2 : Nat) : Int) - b.minCorner 0
      < (b.gridSize 0 : Int)

/-- Reference scatter-add with kernel scale `s`, `NDim == 1`: the value at `(ic, ib, g)`
is the sum over the samples and the kernel taps `i` whose target cell
`cart - PadWidth/2 + i` equals `g` and lies inside the grid of
`kernel(i) * s * basis(trace mod P, ib) * y(ic, sample, trace)`. -/
def scatter1 {Pt K : Type} [CommRing K] (s : K) (G : Grid 1 Pt Nat K)
    (y : Nat × Nat × Nat → K) (j : Nat × Nat × Int) : K :=
  let P := G.basis.dim0
  (G.mapping.samples.map (fun si =>
    let c := G.mapping.cart si
    let n := G.mapping.noncart si
    ∑ i ∈ (Finset.range G.kW).filter (fun i : Nat =>
        c 0 - ((G.kW / 2 : Nat) : Int) + (i : Int) = j.2.2 ∧
          0 ≤ j.2.2 ∧ j.2.2 < G.mapping.cartDims 0),
      G.kernel (G.mapping.offset si) i * s * G.basis.data (n.trace % P, j.2.1)
        * y (j.1, n.sample, n.trace))).sum

/-- Reference scatter-add of the specification, `NDim == 1`: `scatter1` with the
kernel scale `sqrt(P)`, `P = basis.dimension(0)`. -/
def adjointSpec1 {Pt K : Type} [CommRing K] (sqrt : K → K) (G : Grid 1 Pt Nat K)
    (y : Nat × Nat × Nat → K) (j : Nat × Nat × Int) : K :=
  scatter1 (sqrt (G.basis.dim0 : K)) G y j

/-- Every sample slot lies inside the sample tensor: `sample < noncartDims[0]` and
`trace < noncartDims[1]`. -/
def Mapping.SlotsInRange {NDim : Nat} {Pt : Type} (m : Mapping NDim Pt) : Prop :=
  ∀ si ∈ m.samples, (m.noncart si).sample < m.noncartDims 0 ∧
    (m.noncart si).trace < m.noncartDims 1

section Defs4

variable {Pt K : Type} [CommRing K]

/-- Every kernel footprint lies inside the scratch box of its bucket, `NDim == 2`. -/
def Grid.FootprintInBox2 (G : Grid 2 Pt (Nat × Nat) K) : Prop :=
  ∀ b ∈ G.mapping.buckets, ∀ si ∈ b.indices, ∀ (d : Fin 2) (i : Nat), i < G.kW →
    0 ≤ (i : Int) + G.mapping.cart si d - ((G.kW / 2 : Nat) : Int) - b.minCorner d ∧
    (i : Int) + G.mapping.cart si d - ((G.kW / 2 : Nat) : Int) - b.minCorner d
      < (b.gridSize d : Int)

/-- Every kernel footprint lies inside the scratch box of its bucket, `NDim == 3`. -/
def Grid.FootprintInBox3 (G : Grid 3 Pt (Nat × Nat × Nat) K) : Prop :=
  ∀ b ∈ G.mapping.buckets, ∀ si ∈ b.indices, ∀ (d : Fin 3) (i : Nat), i < G.kW →
    0 ≤ (i : Int) + G.mapping.cart si d - ((G.kW / 2 : Nat) : Int) - b.minCorner d ∧
    (i : Int) + G.mapping.cart si d - ((G.kW / 2 : Nat) : Int) - b.minCorner d
      < (b.gridSize d : Int)

/-- Reference scatter-add with kernel scale `s`, `NDim == 2`; the tap `(i2, i1)` of a
sample targets the cell `(c[0] - PadWidth/2 + i2, c[1] - PadWidth/2 + i1)`. -/
def scatter2 (s : K) (G : Grid 2 Pt (Nat × Nat) K) (y : Nat × Nat × Nat → K)
    (j : Nat × Nat × Int × Int) : K :=
  let P := G.basis.dim0
  (G.mapping.samples.map (fun si =>
    let c := G.mapping.cart si
    let n := G.mapping.noncart si
    ∑ i1 ∈ (Finset.range G.kW).filter (fun i : Nat =>
        c 1 - ((G.kW / 2 : Nat) : Int) + (i : Int) = j.2.2.2 ∧
          0 ≤ j.2.2.2 ∧ j.2.2.2 < G.mapping.cartDims 1),
      ∑ i2 ∈ (Finset.range G.kW).filter (fun i : Nat =>
          c 0 - ((G.kW / 2 : Nat) : Int) + (i : Int) = j.2.2.1 ∧
            0 ≤ j.2.2.1 ∧ j.2.2.1 < G.mapping.cartDims 0),
        G.kernel (G.mapping.offset si) (i2, i1) * s * G.basis.data (n.trace % P, j.2.1)
          * y (j.1, n.sample, n.trace))).sum

/-- Reference scatter-add with kernel scale `s`, `NDim == 3`; the tap `(i3, i2, i1)` of a
sample targets the cell
`(c[0] - PadWidth/2 + i3, c[1] - PadWidth/2 + i2, c[2] - PadWidth/2 + i1)`. -/
def scatter3 (s : K) (G : Grid 3 Pt (Nat × Nat × Nat) K) (y : Nat × Nat × Nat → K)
    (j : Nat × Nat × Int × Int × Int) : K :=
  let P := G.basis.dim0
  (G.mapping.samples.map (fun si =>
    let c := G.mapping.cart si
    let n := G.mapping.noncart si
    ∑ i1 ∈ (Finset.range G.kW).filter (fun i : Nat =>
        c 2 - ((G.kW / 2 : Nat) : Int) + (i : Int) = j.2.2.2.2 ∧
          0 ≤ j.2.2.2.2 ∧ j.2.2.2.2 < G.mapping.cartDims 2),
      ∑ i2 ∈ (Finset.range G.kW).filter (fun i : Nat =>
          c 1 - ((G.kW / 2 : Nat) : Int) + (i : Int) = j.2.2.2.1 ∧
            0 ≤ j.2.2.2.1 ∧ j.2.2.2.1 < G.mapping.cartDims 1),
        ∑ i3 ∈ (Finset.range G.kW).filter (fun i : Nat =>
            c 0 - ((G.kW / 2 : Nat) : Int) + (i : Int) = j.2.2.1 ∧
              0 ≤ j.2.2.1 ∧ j.2.2.1 < G.mapping.cartDims 0),
          G.kernel (G.mapping.offset si) (i3, i2, i1) * s * G.basis.data (n.trace % P, j.2.1)
            * y (j.1, n.sample, n.trace))).sum

/-- Inner product of two grid tensors over `(nC, nB, cartDims[0], cartDims[1])`. -/
def dotGrid2 (G : Grid 2 Pt (Nat × Nat) K) (a b : Nat × Nat × Int × Int → K) : K :=
  ∑ ic ∈ Finset.range G.nC, ∑ ib ∈ Finset.range G.nB,
    ∑ g1 ∈ Finset.range (G.mapping.cartDims 1).toNat,
      ∑ g0 ∈ Finset.range (G.mapping.cartDims 0).toNat,
        a (ic, ib, (g0 : Int), (g1 : Int)) * b (ic, ib, (g0 : Int), (g1 : Int))

/-- Inner product of two grid tensors over
`(nC, nB, cartDims[0], cartDims[1], cartDims[2])`. -/
def dotGrid3 (G : Grid 3 Pt (Nat × Nat × Nat) K) (a b : Nat × Nat × Int × Int × Int → K) : K :=
  ∑ ic ∈ Finset.range G.nC, ∑ ib ∈ Finset.range G.nB,
    ∑ g2 ∈ Finset.range (G.mapping.cartDims 2).toNat,
      ∑ g1 ∈ Finset.range (G.mapping.cartDims 1).toNat,
        ∑ g0 ∈ Finset.range (G.mapping.cartDims 0).toNat,
          a (ic, ib, (g0 : Int), (g1 : Int), (g2 : Int))
            * b (ic, ib, (g0 : Int), (g1 : Int), (g2 : Int))

end Defs4

section Defs5

variable {n : Nat} {K : Type} [LinearOrderedField K]

/-- The convergence test `nr < thresh` of the loop, evaluated on the residual after `k`
updates against the threshold `resTol * |r_0|` computed before the loop. -/
def cgConverged (cg : ConjugateGradients n K) (sqrt : K → K) (b : Fin n → K)
    (x0 : Option (Fin n → K)) (k : Nat) : Prop :=
  sqrt (Norm2 (cgIter cg.op k (cgInit cg.op b x0)).r)
    < cg.resTol * sqrt (Norm2 (cgInit cg.op b x0).r)

/-- The operator is linear, symmetric and positive definite for the dot product. -/
def IsSymPosDef (A : (Fin n → K) → (Fin n → K)) : Prop :=
  (∀ u v, A (u + v) = A u + A v) ∧ (∀ (c : K) u, A (c • u) = c • A u) ∧
  (∀ u v, Matrix.dotProduct u (A v) = Matrix.dotProduct (A u) v) ∧
  (∀ u, u ≠ 0 → 0 < Matrix.dotProduct u (A u))

/-- The two properties of the square root that the convergence test relies on. -/
def IsSqrtLike (sqrt : K → K) : Prop :=
  sqrt 0 = 0 ∧ ∀ a, 0 < a → 0 < sqrt a

/-- Squared `A`-norm of the error `xstar - x`. -/
def cgEnergy (A : (Fin n → K) → (Fin n → K)) (xstar x : Fin n → K) : K :=
  Matrix.dotProduct (xstar - x) (A (xstar - x))

end Defs5

section Defs9

variable {n m : Nat} {S : Type}

/-- The termination tests of an iteration in the order of the specification, each with
the `break` it stands for, as comparisons of the arithmetic `F`: the condition number at
floating-point precision (`1 + 1/condA ≤ 1`), the condition number against the bound
(`1/condA ≤ cTol`), `|Aᴴr| / (|A| |r|)` at machine precision, that ratio against `aTol`
(`≤`), `|r| ≤ bTol |b| + aTol |A| |x|`, `|r| / (|b| + |A| |x|)` at machine precision, and
cancellation. -/
def lsqrTests (F : FloatOps S) (L : LSQR n m S) (normb : S) (nm : LSQRNorms S)
    (flag : Bool) : List (Bool × LSQRStop) :=
  [(F.le (F.add (F.lit 1) (F.div (F.lit 1) nm.condA)) (F.lit 1), .condVeryLarge),
   (F.le (F.div (F.lit 1) nm.condA) L.cTol, .condExceededLimit),
   (F.le (F.add (F.lit 1) (F.div nm.normAr (F.mul nm.normA nm.normr))) (F.lit 1),
     .leastSquaresMachinePrecision),
   (F.le (F.div nm.normAr (F.mul nm.normA nm.normr)) L.aTol, .leastSquaresTolerance),
   (F.le nm.normr (F.add (F.mul L.bTol normb) (F.mul (F.mul L.aTol nm.normA) nm.normx)),
     .residualTolerance),
   (F.le (F.add (F.lit 1) (F.div nm.normr (F.add normb (F.mul nm.normA nm.normx))))
     (F.lit 1), .residualMachinePrecision),
   (flag, .interrupted)]

/-- The first test of the list that holds, if any. -/
def lsqrFirstTest (F : FloatOps S) (L : LSQR n m S) (normb : S) (nm : LSQRNorms S)
    (flag : Bool) : Option LSQRStop :=
  ((lsqrTests F L normb nm flag).find? (fun t => t.1)).map (fun t => t.2)

/-- The tests with the second and the fourth one read strictly: the condition number
exceeds `1/cTol` (`1/cTol < condA`) and the ratio is below `aTol` (`<`). -/
def lsqrTestsStrict (F : FloatOps S) (L : LSQR n m S) (normb : S) (nm : LSQRNorms S)
    (flag : Bool) : List (Bool × LSQRStop) :=
  [(F.le (F.add (F.lit 1) (F.div (F.lit 1) nm.condA)) (F.lit 1), .condVeryLarge),
   (F.lt (F.div (F.lit 1) L.cTol) nm.condA, .condExceededLimit),
   (F.le (F.add (F.lit 1) (F.div nm.normAr (F.mul nm.normA nm.normr))) (F.lit 1),
     .leastSquaresMachinePrecision),
   (F.lt (F.div nm.normAr (F.mul nm.normA nm.normr)) L.aTol, .leastSquaresTolerance),
   (F.le nm.normr (F.add (F.mul L.bTol normb) (F.mul (F.mul L.aTol nm.normA) nm.normx)),
     .residualTolerance),
   (F.le (F.add (F.lit 1) (F.div nm.normr (F.add normb (F.mul nm.normA nm.normx))))
     (F.lit 1), .residualMachinePrecision),
   (flag, .interrupted)]

/-- The first test of the strict list that holds, if any. -/
def lsqrFirstTestStrict (F : FloatOps S) (L : LSQR n m S) (normb : S) (nm : LSQRNorms S)
    (flag : Bool) : Option LSQRStop :=
  ((lsqrTestsStrict F L normb nm flag).find? (fun t => t.1)).map (fun t => t.2)

/-- The estimates computed in iteration `j` (counted from 0) of a run from `st0`. -/
def lsqrNormsAt (F : FloatOps S) (norm2 : (Fin n → S) → S) (L : LSQR n m S) (lam : S)
    (j : Nat) (st0 : LSQRState n m S) : LSQRNorms S :=
  (lsqrUpdateF F norm2 L lam j (lsqrIter F norm2 L lam j st0)).2

end Defs9

section Defs13

variable {Kern Map C K : Type} [LinearOrderedField K]

/-- The gridder that `SDC::Pipe` builds for a trajectory: the kernel `NN` or `FI7`, the
mapping of the one-channel trajectory with bucket size 32, and one channel. -/
def SDC.gridder (F : GridFactory Kern Map C K) (inTraj : Trajectory K) (nn : Bool) (os : K) :
    Gridder C K :=
  F.make_grid (F.make_kernel (if nn then "NN" else "FI7") { inTraj.info_ with channels := 1 } os)
    (F.Mapping { info_ := { inTraj.info_ with channels := 1 }, points_ := inTraj.points_ }
      (F.make_kernel (if nn then "NN" else "FI7") { inTraj.info_ with channels := 1 } os)
      os 32) 1

/-- The uniform weights `W_0 = 1` on a tensor of dimensions `(1, read_points, spokes)`. -/
def SDC.start (inTraj : Trajectory K) : Re3 K :=
  { dim0 := 1, dim1 := inTraj.info_.read_points, dim2 := inTraj.info_.spokes,
    data := fun _ => 1 }

end Defs13

/-- The options of `CoreOpts` that the short flag `c` selects. -/
def CoreOpts.selectShort (c : Char) : List OptionSpec :=
  CoreOpts.filter fun o => decide (c ∈ o.shorts)

section Defs16

variable {S : Type}

/-- The point of sample `is` in trace `it` is kept by `downsample`: its norm is at most
`0.5 / dsamp`, in the comparison of the arithmetic `F`. -/
def Trajectory.Retained (F : FloatOps S) (R : Reductions S) (t : Trajectory S) (dsamp : S)
    (is it : Nat) : Prop :=
  F.le (R.Norm (t.point is it)) (F.div (F.lit (1 / 2)) dsamp) = true

instance Trajectory.decidableRetained (F : FloatOps S) (R : Reductions S) (t : Trajectory S)
    (dsamp : S) (is it : Nat) : Decidable (t.Retained F R dsamp is it) :=
  inferInstanceAs
    (Decidable (F.le (R.Norm (t.point is it)) (F.div (F.lit (1 / 2)) dsamp) = true))

/-- Some trace with index at least `lores` has a kept point at the read index `is`. -/
def Trajectory.Counted (F : FloatOps S) (R : Reductions S) (t : Trajectory S) (dsamp : S)
    (lores : Int) (is : Nat) : Prop :=
  ∃ it, it < t.nTraces ∧ lores ≤ (it : Int) ∧ t.Retained F R dsamp is it

/-- What the loops of `downsample` have established once the positions `(it, is)` with
`proc it is` are done: the entries written, the bounds on `minSamp` and `maxSamp`, and
where these two come from. -/
def Trajectory.DsInv (F : FloatOps S) (R : Reductions S) (t : Trajectory S)
    (nan dsamp scale : S) (lores : Int) (proc : Nat → Nat → Prop)
    (st : (Nat × Nat × Nat → S) × Nat × Nat) : Prop :=
  (∀ i is it, is < t.nSamples → it < t.nTraces → proc it is →
    st.1 (i, is, it) =
      if t.Retained F R dsamp is it then F.mul (t.points_.data (i, is, it)) scale
      else nan) ∧
  (∀ is it, is < t.nSamples → it < t.nTraces → proc it is → lores ≤ (it : Int) →
    t.Retained F R dsamp is it → st.2.1 ≤ is ∧ is ≤ st.2.2) ∧
  (st.2.1 = t.nSamples ∨ (st.2.1 < t.nSamples ∧ t.Counted F R dsamp lores st.2.1)) ∧
  (st.2.2 = 0 ∨ (st.2.2 < t.nSamples ∧ t.Counted F R dsamp lores st.2.2))

end Defs16

section Defs17

variable {Pt K : Type} [CommRing K]

/-- The contribution of the sample at position `ii` of the sorted order to the grid, as a
tensor of its own: the block `nbk` of `Adj` placed at the footprint of the sample, moved
down by `off` along `z`. -/
def GridBasis.block (g : GridBasis Pt K) (noncart : Cx3 K) (nC nB : Nat) (off : Int)
    (ii : Nat) : Nat × Nat × Int × Int × Int → K :=
  let scale := g.mapping.scale
  let si := g.mapping.sortedIndices ii
  let c := g.mapping.cart si
  let n := g.mapping.noncart si
  let nc := fun ic => noncart.data (ic, n.read, n.spoke)
  let b := fun ib => g.basis.data (n.spoke % g.basis.dim0, ib)
  let k := g.kernel (g.mapping.offset si)
  let nbk : Nat × Nat × Nat × Nat × Nat → K :=
    fun i => (nc i.1 * scale) * b i.2.1 * k (i.2.2.1, i.2.2.2.1, i.2.2.2.2)
  let stX : Int := c.x - (((g.IP - 1) / 2 : Nat) : Int)
  let stY : Int := c.y - (((g.IP - 1) / 2 : Nat) : Int)
  let stZ : Int := c.z - (((g.TP - 1) / 2 : Nat) : Int) - off
  sliceAdd (fun _ => 0) nC nB g.IP g.TP stX stY stZ nbk

/-- Within every thread range the samples are in non-decreasing order of their grid
position along `z`. -/
def GridBasis.ZSorted (g : GridBasis Pt K) (ranges : List (Nat × Nat)) : Prop :=
  ∀ r, r ∈ ranges → ∀ i j, r.1 ≤ i → i ≤ j → j < r.2 →
    (g.mapping.cart (g.mapping.sortedIndices i)).z ≤
      (g.mapping.cart (g.mapping.sortedIndices j)).z

/-- The workspace of the thread that runs the range `(lo, hi)` in the safe mode, after
its task: it covers `z` from `z(lo) - (TP-1)/2` to `z(hi-1) + TP/2` and holds the blocks
of the samples of the range. -/
def GridBasis.workspace (g : GridBasis Pt K) (noncart : Cx3 K) (nC nB : Nat) (lo hi : Nat) :
    ThreadSpace K :=
  { minZ := (g.mapping.cart (g.mapping.sortedIndices lo)).z - (((g.TP - 1) / 2 : Nat) : Int)
    szZ := (g.mapping.cart (g.mapping.sortedIndices (hi - 1))).z + ((g.TP / 2 : Nat) : Int) -
      ((g.mapping.cart (g.mapping.sortedIndices lo)).z - (((g.TP - 1) / 2 : Nat) : Int)) + 1
    data := ((List.range' lo (hi - lo)).map (fun ii => g.block noncart nC nB
      ((g.mapping.cart (g.mapping.sortedIndices lo)).z - (((g.TP - 1) / 2 : Nat) : Int))
      ii)).sum }

/-- The fold of `Adj` over the thread ranges (grid-basis.hpp:157): the grid and the
thread workspaces after all tasks. -/
def GridBasis.AdjRun (g : GridBasis Pt K) (noncart : Cx3 K) (nC nB : Nat)
    (ranges : List (Nat × Nat))
    (st : (Nat × Nat × Int × Int × Int → K) × List (ThreadSpace K)) :
    (Nat × Nat × Int × Int × Int → K) × List (ThreadSpace K) :=
  ranges.foldl
    (fun (st : (Nat × Nat × Int × Int × Int → K) × List (ThreadSpace K)) (r : Nat × Nat) =>
      let t := g.AdjTask noncart nC nB r.1 r.2 st.1
      (t.1, st.2 ++ [t.2]))
    st

end Defs17

/-! ## Auxiliary notions for the proofs -/

section Defs6

variable {ι K : Type} [AddCommMonoid K]

/-- A state transformer on tensors that adds the fixed tensor `d` to its argument. -/
def Adds (f : (ι → K) → (ι → K)) (d : ι → K) : Prop :=
  ∀ s, f s = s + d

end Defs6

section Defs7

variable {K : Type} [CommRing K]

/-- The output tensor that holds `g ic` in slot `(ic, a, b)` for `ic < nC` and zero
everywhere else. -/
def slotFn (a b nC : Nat) (g : Nat → K) : Nat × Nat × Nat → K :=
  fun j => if j.2.1 = a ∧ j.2.2 = b ∧ j.1 < nC then g j.1 else 0

/-- The grid tensor that holds `F ic ib` at `(ic, ib, cell)` for `ic < nC`, `ib < nB`
and zero everywhere else. -/
def cellFn {C : Type} [DecidableEq C] (cell : C) (nC nB : Nat) (F : Nat → Nat → K) :
    Nat × Nat × C → K :=
  fun j => if j.2.2 = cell ∧ j.1 < nC ∧ j.2.1 < nB then F j.1 j.2.1 else 0

end Defs7

/-! ## Example inputs -/

/-- A one-dimensional operator with a basis of period `P = 4`: one channel, one basis
coefficient (all basis entries `1`), a grid of one cell, a kernel of width `1` with
weight `1`, and one sample at cell `0` with slot `(sample 0, trace 0)` in one bucket. -/
def basisGrid1 (K : Type) [CommRing K] : Grid 1 Unit Nat K :=
  { mapping :=
      { cartDims := fun _ => 1
        noncartDims := fun _ => 1
        cart := fun _ _ => 0
        noncart := fun _ => { sample := 0, trace := 0 }
        offset := fun _ => ()
        buckets := [{ indices := [0], minCorner := fun _ => 0, gridSize := fun _ => 1 }] }
    kW := 1
    kernel := fun _ _ => 1
    basis := { dim0 := 4, dim1 := 1, data := fun _ => 1 }
    nC := 1
    nB := 1 }

/-- A bucket that owns the single sample `si`, whose scratch box starts one cell below
the sample and is three cells wide on every axis. -/
def exBucket (NDim : Nat) (si : Nat) : Bucket NDim :=
  { indices := [si], minCorner := fun _ => (si : Int) - 1, gridSize := fun _ => 3 }

/-- A mapping with two samples in two buckets: sample `si` sits at cell `(si, …, si)`
of a grid with two cells per axis and has slot `(sample 0, trace si)`. -/
def exMapping (NDim : Nat) : Mapping NDim Unit :=
  { cartDims := fun _ => 2
    noncartDims := ![1, 2]
    cart := fun si _ => (si : Int)
    noncart := fun si => { sample := 0, trace := si }
    offset := fun _ => ()
    buckets := [exBucket NDim 0, exBucket NDim 1] }

/-- An operator on `exMapping` with a kernel of width three (all weights `1`), one
channel, and a basis of period `4` with two coefficients (all entries `1`). -/
def exGrid (NDim : Nat) (KIdx K : Type) [CommRing K] : Grid NDim Unit KIdx K :=
  { mapping := exMapping NDim
    kW := 3
    kernel := fun _ _ => 1
    basis := { dim0 := 4, dim1 := 2, data := fun _ => 1 }
    nC := 1
    nB := 2 }

/-- The strictly diagonally dominant, symmetric positive-definite matrix
`diag(1, 1/100)`. -/
def ddMatrix (K : Type) [Field K] : Matrix (Fin 2) (Fin 2) K :=
  !![1, 0; 0, 1 / 100]

/-- A solver on `diag(1, 1/100)` with the default `iterLimit = 16`, `resTol = 1e-6`. -/
def ddCG (K : Type) [Field K] : ConjugateGradients 2 K :=
  { op := (ddMatrix K).mulVec, iterLimit := 16, resTol := 1 / 1000000 }

/-- The right-hand side `(1, 10)`. -/
def ddB (K : Type) [Field K] : Fin 2 → K :=
  ![1, 10]

/-- The bidiagonalisation of the one-by-one system `A = (1)` without preconditioner and
without regulariser: on vectors of length one the norm is the absolute value.
`StableGivens a b` is `(a/ρ, b/ρ, ρ)` with `ρ = sqrt (a² + b²)`. -/
def exRoutines (K : Type) [LinearOrderedField K] (sqrt : K → K) : BidiagRoutines 1 1 K :=
  { BidiagInit := fun _ b x0 _ =>
      let x : Fin 1 → K := match x0 with | some v => v | none => 0
      let u := b - x
      let β := |u 0|
      let u := (1 / β) • u
      let v := u
      let α := |v 0|
      let v := (1 / α) • v
      ({ Mu := u, u := u, v := v, α := α, β := β, ulam := [] }, x)
    Bidiag := fun _ _ bd =>
      let u := bd.v - bd.α • bd.u
      let β := |u 0|
      let u := (1 / β) • u
      let v := u - β • bd.v
      let α := |v 0|
      let v := (1 / α) • v
      { Mu := u, u := u, v := v, α := α, β := β, ulam := bd.ulam }
    StableGivens := fun a b =>
      let ρ := sqrt (a * a + b * b)
      (a / ρ, b / ρ, ρ) }

/-- A solver on `exRoutines` with `iterLimit = 8` and the default tolerances `1e-6`. -/
def exLSQR (K : Type) [LinearOrderedField K] (sqrt : K → K) : LSQR 1 1 K :=
  { routines := exRoutines K sqrt, iterLimit := 8, aTol := 1 / 1000000,
    bTol := 1 / 1000000, cTol := 1 / 1000000, varPre := false }

/-- A header for a `4 × 4 × 4` matrix with unit voxels, one channel, one read point and
one spoke. -/
def exInfo (K : Type) [Field K] : Info K :=
  { matrix := fun _ => 4, voxel_size := fun _ => 1, channels := 1, read_points := 1,
    spokes := 1 }

/-- A points tensor of the given dimensions whose coordinates all equal `c`. -/
def constPoints (K : Type) (d0 d1 d2 : Nat) (c : K) : Re3 K :=
  { dim0 := d0, dim1 := d1, dim2 := d2, data := fun _ => c }

/-- A matrix of the given dimensions with all entries `1`. -/
def onesMatrix (K : Type) [One K] (rows cols : Nat) : Re2 K :=
  { dim0 := rows, dim1 := cols, data := fun _ => 1 }

/-- A trajectory of one coordinate row, two read points and one spoke, all coordinates
zero. -/
def exTraj (K : Type) [Field K] : Trajectory K :=
  { info_ := { exInfo K with read_points := 2 }, points_ := constPoints K 1 2 1 0 }

/-- Factories whose gridder keeps the grid as a copy of the sample tensor and leaves out
every sample with a read index other than `0`: `Adj` copies, `A` copies the samples with
read index `0` and writes `0` for the others. -/
def exFactory (K : Type) [Field K] : GridFactory Unit Unit (Nat × Nat × Nat → K) K :=
  { make_kernel := fun _ _ _ => ()
    Mapping := fun _ _ _ _ => ()
    make_grid := fun _ _ _ =>
      { A := fun c i => if i.2.1 = 0 then c i else 0
        Adj := fun W => W } }

/-- A basis-weighted operator on a `4 × 4 × 4` grid with a kernel of width one, one
channel and one basis coefficient, for 8 read points and 16 spokes, with one sample at
the cell `(1, 1, 1)` in the slot `(read 0, spoke 0)`. -/
def exGridBasis (K : Type) [CommRing K] : GridBasis Unit K :=
  { IP := 1
    TP := 1
    kernel := fun _ _ => 1
    mapping :=
      { size := 1
        cart := fun _ => { x := 1, y := 1, z := 1 }
        noncart := fun _ => { spoke := 0, read := 0 }
        offset := fun _ => ()
        sortedIndices := fun i => i
        scale := 1 }
    safe := true
    inputDimensions := ![1, 1, 4, 4, 4]
    outputDimensions := ![1, 8, 16]
    basis := { dim0 := 1, dim1 := 1, data := fun _ => 1 } }

/-- A `2 × 2` complex matrix with the rows `(1, i)` and `(2, 0)`. -/
def exCx2 : Cx2 ℂ :=
  { dim0 := 2, dim1 := 2,
    data := fun ij => if ij.1 = 0 then (if ij.2 = 0 then 1 else Complex.I)
                      else (if ij.2 = 0 then 2 else 0) }

/-- A trajectory with one coordinate row, one trace and no samples, on the header
`exInfo`. -/
def emptyTraj (K : Type) [Field K] : Trajectory K :=
  { info_ := exInfo K, points_ := constPoints K 1 0 1 0 }

/-- A trajectory with the single point `0.15` (one coordinate row, one sample, one
trace) on the header `exInfo`, whose matrix is `4 × 4 × 4` with unit voxels. -/
def shrinkTraj (K : Type) [Field K] : Trajectory K :=
  { info_ := exInfo K, points_ := constPoints K 1 1 1 (3 / 20) }

/-- The operator `exGridBasis` on a grid of `4 × 8 × 16` cells, whose last two dimensions
are those of the declared output. -/
def exGridBasis2 (K : Type) [CommRing K] : GridBasis Unit K :=
  { exGridBasis K with inputDimensions := ![1, 1, 4, 8, 16] }

/-- Bidiagonalisation routines with fixed outputs, in the arithmetic `F`: `BidiagInit`
gives `α = 3`, `β = 1`, `v = (0)` and `x = (0)`; every `Bidiag` step gives `α = 3`,
`β = 4` and `v = (4)`.  `StableGivens a b` is `(a/ρ, b/ρ, ρ)` with
`ρ = sqrt (a·a + b·b)`. -/
def fixedRoutines {S : Type} (F : FloatOps S) : BidiagRoutines 1 1 S :=
  { BidiagInit := fun _ _ _ _ =>
      ({ Mu := fun _ => F.lit 1, u := fun _ => F.lit 1, v := fun _ => F.lit 0,
         α := F.lit 3, β := F.lit 1, ulam := [] }, fun _ => F.lit 0)
    Bidiag := fun _ _ bd => { bd with v := fun _ => F.lit 4, α := F.lit 3, β := F.lit 4 }
    StableGivens := fun a b =>
      let ρ := F.sqrt (F.add (F.mul a a) (F.mul b b))
      (F.div a ρ, F.div b ρ, ρ) }

/-- A solver on `fixedRoutines` with `iterLimit = 8` and the default tolerances `1e-6`. -/
def fixedLSQR {S : Type} (F : FloatOps S) : LSQR 1 1 S :=
  { routines := fixedRoutines F, iterLimit := 8, aTol := F.lit (1 / 1000000),
    bTol := F.lit (1 / 1000000), cTol := F.lit (1 / 1000000), varPre := false }

/-- The solver `fixedLSQR` with `cTol = 0.25`. -/
def boundLSQR {S : Type} (F : FloatOps S) : LSQR 1 1 S :=
  { fixedLSQR F with cTol := F.lit (1 / 4) }

/-- The solver `fixedLSQR` with `aTol = 0.36`. -/
def ratioLSQR {S : Type} (F : FloatOps S) : LSQR 1 1 S :=
  { fixedLSQR F with aTol := F.lit (9 / 25) }

/-- The squared norm of a tensor with one entry, in the arithmetic `F`. -/
def norm2One {S : Type} (F : FloatOps S) (w : Fin 1 → S) : S :=
  F.mul (w 0) (w 0)

/-! # Lemmas and theorems -/

/-! ## Accumulating loops -/

section Thms8

variable {ι K : Type} [AddCommMonoid K]

theorem adds_addAt [DecidableEq ι] (i : ι) (v : K) :
    Adds (fun s : ι → K => addAt s i v) (Pi.single i v) := by
  intro s
  funext j
  by_cases h : j = i
  · subst h; simp [addAt]
  · simp [addAt, Function.update_noteq h, Pi.single_eq_of_ne h]

theorem forLoop_succ {σ : Type} (n : Nat) (body : Nat → σ → σ) (s : σ) :
    forLoop (n + 1) body s = body n (forLoop n body s) := by
  simp [forLoop, List.range_succ, List.foldl_append]

theorem forLoop_zero {σ : Type} (body : Nat → σ → σ) (s : σ) : forLoop 0 body s = s := rfl

theorem adds_forLoop (n : Nat) (body : Nat → (ι → K) → (ι → K)) (d : Nat → ι → K)
    (h : ∀ i, Adds (body i) (d i)) :
    Adds (forLoop n body) (∑ i ∈ Finset.range n, d i) := by
  intro s
  induction n with
  | zero => simp [forLoop_zero]
  | succ n ih => rw [forLoop_succ, h n, ih, Finset.sum_range_succ, add_assoc]

theorem adds_foldl {α : Type} (l : List α) (f : (ι → K) → α → (ι → K)) (d : α → ι → K)
    (h : ∀ a, Adds (fun s => f s a) (d a)) :
    Adds (fun s => l.foldl f s) ((l.map d).sum) := by
  induction l with
  | nil => intro s; simp
  | cons a l ih =>
    intro s
    have h1 := h a s
    have h2 := ih (f s a)
    simp only [List.foldl_cons, List.map_cons, List.sum_cons] at h1 h2 ⊢
    rw [h2, h1, add_assoc]

theorem adds_ite (c : Prop) [Decidable c] (f : (ι → K) → (ι → K)) (d : ι → K)
    (h : Adds f d) : Adds (fun s => if c then f s else s) (if c then d else 0) := by
  intro s
  by_cases hc : c
  · simp [hc, h s]
  · simp [hc]

theorem list_sum_apply {α : Type} (l : List α) (d : α → ι → K) (j : ι) :
    (l.map d).sum j = (l.map (fun a => d a j)).sum := by
  induction l with
  | nil => simp
  | cons a l ih => simp [ih]

end Thms8

/-! ## Slot tensors -/

section Thms9

variable {K : Type} [CommRing K]

theorem slotFn_sum (a b nC n : Nat) (g : Nat → Nat → K) :
    ∑ i ∈ Finset.range n, slotFn a b nC (g i) =
      slotFn a b nC (fun ic => ∑ i ∈ Finset.range n, g i ic) := by
  funext j
  rw [Finset.sum_apply]
  by_cases h : j.2.1 = a ∧ j.2.2 = b ∧ j.1 < nC
  · simp [slotFn, h]
  · simp [slotFn, h]

theorem slotFn_ite (a b nC : Nat) (c : Prop) [Decidable c] (g : Nat → K) :
    (if c then slotFn a b nC g else 0) = slotFn a b nC (fun ic => if c then g ic else 0) := by
  funext j
  by_cases hc : c
  · simp [hc]
  · simp [hc, slotFn]

theorem single_sum_eq_slotFn (a b nC : Nat) (g : Nat → K) :
    ∑ ic ∈ Finset.range nC, Pi.single (ic, a, b) (g ic) = slotFn a b nC g := by
  funext j
  obtain ⟨j1, j2, j3⟩ := j
  rw [Finset.sum_apply]
  simp only [Pi.single_apply, slotFn, Prod.mk.injEq]
  by_cases h : j2 = a ∧ j3 = b
  · obtain ⟨h2, h3⟩ := h
    subst h2 h3
    simp [Finset.sum_ite_eq, Finset.mem_range]
  · have : ∀ ic, ¬ (j1 = ic ∧ j2 = a ∧ j3 = b) := fun ic hh => h hh.2
    have h' : ¬ (j2 = a ∧ j3 = b ∧ j1 < nC) := fun hh => h ⟨hh.1, hh.2.1⟩
    simp [this, h']

/-- The two innermost loops of `forward` (over `ib`, then `ic`) add the basis
contraction to the slot `(·, a, b)`. -/
theorem adds_fwdBlock (nB nC a b : Nat) (F : Nat → Nat → K) :
    Adds (fun output : Nat × Nat × Nat → K =>
        forLoop nB (fun ib output =>
          forLoop nC (fun ic output => addAt output (ic, a, b) (F ic ib)) output) output)
      (slotFn a b nC (fun ic => ∑ ib ∈ Finset.range nB, F ic ib)) := by
  have h := adds_forLoop nB
    (fun ib (output : Nat × Nat × Nat → K) =>
      forLoop nC (fun ic output => addAt output (ic, a, b) (F ic ib)) output)
    (fun ib => slotFn a b nC (fun ic => F ic ib))
    (fun ib => by
      have := adds_forLoop nC
        (fun ic (output : Nat × Nat × Nat → K) => addAt output (ic, a, b) (F ic ib))
        (fun ic => Pi.single (ic, a, b) (F ic ib)) (fun ic => adds_addAt _ _)
      rwa [single_sum_eq_slotFn] at this)
  rwa [slotFn_sum] at h

theorem adds_forLoop_slot (a b nC n : Nat)
    (body : Nat → (Nat × Nat × Nat → K) → (Nat × Nat × Nat → K)) (g : Nat → Nat → K)
    (h : ∀ i, Adds (body i) (slotFn a b nC (g i))) :
    Adds (forLoop n body) (slotFn a b nC (fun ic => ∑ i ∈ Finset.range n, g i ic)) := by
  have := adds_forLoop n body (fun i => slotFn a b nC (g i)) h
  rwa [slotFn_sum] at this

theorem adds_ite_slot (a b nC : Nat) (c : Prop) [Decidable c]
    (f : (Nat × Nat × Nat → K) → (Nat × Nat × Nat → K)) (g : Nat → K)
    (h : Adds f (slotFn a b nC g)) :
    Adds (fun s => if c then f s else s) (slotFn a b nC (fun ic => if c then g ic else 0)) := by
  have := adds_ite c f _ h
  rwa [slotFn_ite] at this

end Thms9

/-! ## Per-sample value of `forward` -/

theorem Wrap_gt_iff (ii sz : Int) : Wrap ii sz > -1 ↔ 0 ≤ ii ∧ ii < sz := by
  unfold Wrap
  split_ifs <;> omega

theorem Wrap_of_inGrid (ii sz : Int) (h : 0 ≤ ii ∧ ii < sz) : Wrap ii sz = ii := by
  unfold Wrap
  split_ifs <;> omega

theorem Wrap_of_not_inGrid (ii sz : Int) (h : ¬ (0 ≤ ii ∧ ii < sz)) : Wrap ii sz = -1 := by
  unfold Wrap
  split_ifs <;> omega

section Thms10

variable {Pt K : Type} [CommRing K]

theorem adds_forward1Sample (sqrt : K → K) (G : Grid 1 Pt Nat K) (x : Nat × Nat × Int → K)
    (si : Nat) :
    Adds (forLoop G.kW (forward1Tap sqrt G x si))
      (slotFn (G.mapping.noncart si).sample (G.mapping.noncart si).trace G.nC
        (forwardSpec1 sqrt G x si)) := by
  have h := adds_forLoop_slot (G.mapping.noncart si).sample (G.mapping.noncart si).trace G.nC
    G.kW (forward1Tap sqrt G x si) _
    (fun i1 => adds_ite_slot _ _ _ _ _ _ (adds_fwdBlock G.nB G.nC _ _ _))
  refine (congrArg (fun g => Adds (forLoop G.kW (forward1Tap sqrt G x si))
      (slotFn (G.mapping.noncart si).sample (G.mapping.noncart si).trace G.nC g)) ?_).mp h
  funext ic
  simp only [forwardSpec1]
  rw [Finset.sum_comm]
  rw [Finset.sum_filter]
  refine Finset.sum_congr rfl (fun i1 _ => ?_)
  simp only [Wrap_gt_iff]
  split_ifs with hc
  · refine Finset.sum_congr rfl (fun ib _ => ?_)
    rw [Wrap_of_inGrid _ _ hc]
    ring
  · rfl

theorem adds_forward2Sample (sqrt : K → K) (G : Grid 2 Pt (Nat × Nat) K)
    (x : Nat × Nat × Int × Int → K) (si : Nat) :
    Adds (forLoop G.kW (forward2Row sqrt G x si))
      (slotFn (G.mapping.noncart si).sample (G.mapping.noncart si).trace G.nC
        (forwardSpec2 sqrt G x si)) := by
  have h := adds_forLoop_slot (G.mapping.noncart si).sample (G.mapping.noncart si).trace G.nC
    G.kW (forward2Row sqrt G x si) _
    (fun i1 => adds_ite_slot _ _ _ _ _ _
      (adds_forLoop_slot _ _ _ G.kW (forward2Tap sqrt G x si _ i1) _
        (fun i2 => adds_ite_slot _ _ _ _ _ _ (adds_fwdBlock G.nB G.nC _ _ _))))
  refine (congrArg (fun g => Adds (forLoop G.kW (forward2Row sqrt G x si))
      (slotFn (G.mapping.noncart si).sample (G.mapping.noncart si).trace G.nC g)) ?_).mp h
  funext ic
  simp only [forwardSpec2]
  rw [Finset.sum_comm, Finset.sum_filter]
  refine Finset.sum_congr rfl (fun i1 _ => ?_)
  simp only [Wrap_gt_iff]
  split_ifs with hc1
  · rw [Finset.sum_comm, Finset.sum_filter]
    refine Finset.sum_congr rfl (fun i2 _ => ?_)
    split_ifs with hc2
    · refine Finset.sum_congr rfl (fun ib _ => ?_)
      rw [Wrap_of_inGrid _ _ hc1, Wrap_of_inGrid _ _ hc2]
      ring
    · rfl
  · rfl

theorem adds_forward3Sample (sqrt : K → K) (G : Grid 3 Pt (Nat × Nat × Nat) K)
    (x : Nat × Nat × Int × Int × Int → K) (si : Nat) :
    Adds (forLoop G.kW (forward3Slab sqrt G x si))
      (slotFn (G.mapping.noncart si).sample (G.mapping.noncart si).trace G.nC
        (forwardSpec3 sqrt G x si)) := by
  have h := adds_forLoop_slot (G.mapping.noncart si).sample (G.mapping.noncart si).trace G.nC
    G.kW (forward3Slab sqrt G x si) _
    (fun i1 => adds_ite_slot _ _ _ _ _ _
      (adds_forLoop_slot _ _ _ G.kW (forward3Row sqrt G x si _ i1) _
        (fun i2 => adds_ite_slot _ _ _ _ _ _
          (adds_forLoop_slot _ _ _ G.kW (forward3Tap sqrt G x si _ _ i1 i2) _
            (fun i3 => adds_ite_slot _ _ _ _ _ _ (adds_fwdBlock G.nB G.nC _ _ _))))))
  refine (congrArg (fun g => Adds (forLoop G.kW (forward3Slab sqrt G x si))
      (slotFn (G.mapping.noncart si).sample (G.mapping.noncart si).trace G.nC g)) ?_).mp h
  funext ic
  simp only [forwardSpec3]
  rw [Finset.sum_comm, Finset.sum_filter]
  refine Finset.sum_congr rfl (fun i1 _ => ?_)
  simp only [Wrap_gt_iff]
  split_ifs with hc1
  · rw [Finset.sum_comm, Finset.sum_filter]
    refine Finset.sum_congr rfl (fun i2 _ => ?_)
    split_ifs with hc2
    · rw [Finset.sum_comm, Finset.sum_filter]
      refine Finset.sum_congr rfl (fun i3 _ => ?_)
      split_ifs with hc3
      · refine Finset.sum_congr rfl (fun ib _ => ?_)
        rw [Wrap_of_inGrid _ _ hc1, Wrap_of_inGrid _ _ hc2, Wrap_of_inGrid _ _ hc3]
        ring
      · rfl
    · rfl
  · rfl

end Thms10

/-! ## `forward` as a sum over the samples -/

section Thms11

variable {Pt K : Type} [CommRing K]

theorem sum_map_sum_eq_flatMap {α β M : Type} [AddCommMonoid M] (l : List α) (g : α → List β)
    (f : β → M) :
    (l.map (fun a => ((g a).map f).sum)).sum = ((l.flatMap g).map f).sum := by
  induction l with
  | nil => simp
  | cons a l ih => simp [ih]

theorem slotFn_congr (a b nC : Nat) (g g' : Nat → K) (h : ∀ ic, ic < nC → g ic = g' ic) :
    slotFn a b nC g = slotFn a b nC g' := by
  funext j
  unfold slotFn
  split_ifs with hc
  · exact h _ hc.2.2
  · rfl

/-- With pairwise distinct slots, the sum of the per-sample slot tensors evaluated at
the slot of one sample is that sample's own value. -/
theorem sum_slotFn_pick (noncart : Nat → NoncartesianIndex) (nC : Nat) (g : Nat → Nat → K)
    (l : List Nat) (hnd : (l.map noncart).Nodup) (si0 : Nat) (hsi : si0 ∈ l) (ic : Nat)
    (hic : ic < nC) :
    (l.map (fun si => slotFn (noncart si).sample (noncart si).trace nC (g si)
      (ic, (noncart si0).sample, (noncart si0).trace))).sum = g si0 ic := by
  have hzero : ∀ (l' : List Nat) (a : Nat), noncart a ∉ l'.map noncart →
      (l'.map (fun si => slotFn (noncart si).sample (noncart si).trace nC (g si)
        (ic, (noncart a).sample, (noncart a).trace))).sum = 0 := by
    intro l' a ha
    apply List.sum_eq_zero
    intro v hv
    obtain ⟨si, hsi', rfl⟩ := List.mem_map.mp hv
    have hne : noncart si ≠ noncart a := fun h => ha (h ▸ List.mem_map_of_mem noncart hsi')
    have : ¬ ((noncart a).sample = (noncart si).sample ∧ (noncart a).trace = (noncart si).trace
        ∧ ic < nC) := by
      rintro ⟨h1, h2, _⟩
      apply hne
      cases hs : noncart si; cases ha' : noncart a
      simp_all
    simp [slotFn, this]
  induction l with
  | nil => simp at hsi
  | cons a l ih =>
    rw [List.map_cons, List.nodup_cons] at hnd
    rw [List.map_cons, List.sum_cons]
    rcases List.mem_cons.mp hsi with h | h
    · subst h
      rw [hzero l si0 hnd.1]
      simp [slotFn, hic]
    · have hne : noncart a ≠ noncart si0 := fun hh => hnd.1 (hh ▸ List.mem_map_of_mem noncart h)
      have : ¬ ((noncart si0).sample = (noncart a).sample ∧
          (noncart si0).trace = (noncart a).trace ∧ ic < nC) := by
        rintro ⟨h1, h2, _⟩
        apply hne
        cases hs : noncart si0; cases ha' : noncart a
        simp_all
      rw [ih hnd.2 h]
      simp [slotFn, this]

theorem forward1_eq (sqrt : K → K) (G : Grid 1 Pt Nat K) (prev : Nat × Nat × Nat → K)
    (x : Nat × Nat × Int → K) :
    forward1 sqrt G prev x = (G.mapping.samples.map (fun si =>
      slotFn (G.mapping.noncart si).sample (G.mapping.noncart si).trace G.nC
        (forwardSpec1 sqrt G x si))).sum := by
  have h := adds_foldl G.mapping.buckets
    (fun (output : Nat × Nat × Nat → K) (bucket : Bucket 1) =>
      bucket.indices.foldl (fun output si => forLoop G.kW (forward1Tap sqrt G x si) output) output)
    _ (fun b => adds_foldl b.indices _ _ (fun si => adds_forward1Sample sqrt G x si))
      (setConstant prev 0)
  rw [sum_map_sum_eq_flatMap] at h
  have h0 : (setConstant prev (0 : K)) = 0 := rfl
  rw [h0, zero_add] at h
  exact h

theorem forward2_eq (sqrt : K → K) (G : Grid 2 Pt (Nat × Nat) K) (prev : Nat × Nat × Nat → K)
    (x : Nat × Nat × Int × Int → K) :
    forward2 sqrt G prev x = (G.mapping.samples.map (fun si =>
      slotFn (G.mapping.noncart si).sample (G.mapping.noncart si).trace G.nC
        (forwardSpec2 sqrt G x si))).sum := by
  have h := adds_foldl G.mapping.buckets
    (fun (output : Nat × Nat × Nat → K) (bucket : Bucket 2) =>
      bucket.indices.foldl (fun output si => forLoop G.kW (forward2Row sqrt G x si) output) output)
    _ (fun b => adds_foldl b.indices _ _ (fun si => adds_forward2Sample sqrt G x si))
      (setConstant prev 0)
  rw [sum_map_sum_eq_flatMap] at h
  have h0 : (setConstant prev (0 : K)) = 0 := rfl
  rw [h0, zero_add] at h
  exact h

theorem forward3_eq (sqrt : K → K) (G : Grid 3 Pt (Nat × Nat × Nat) K)
    (prev : Nat × Nat × Nat → K) (x : Nat × Nat × Int × Int × Int → K) :
    forward3 sqrt G prev x = (G.mapping.samples.map (fun si =>
      slotFn (G.mapping.noncart si).sample (G.mapping.noncart si).trace G.nC
        (forwardSpec3 sqrt G x si))).sum := by
  have h := adds_foldl G.mapping.buckets
    (fun (output : Nat × Nat × Nat → K) (bucket : Bucket 3) =>
      bucket.indices.foldl (fun output si => forLoop G.kW (forward3Slab sqrt G x si) output) output)
    _ (fun b => adds_foldl b.indices _ _ (fun si => adds_forward3Sample sqrt G x si))
      (setConstant prev 0)
  rw [sum_map_sum_eq_flatMap] at h
  have h0 : (setConstant prev (0 : K)) = 0 := rfl
  rw [h0, zero_add] at h
  exact h

end Thms11

/-! ## C3: the value `forward` writes -/

section Thms12

variable {Pt K : Type} [CommRing K]

theorem forwardSpec1_noBasis (sqrt : K → K) (h1 : sqrt 1 = 1) (m : Mapping 1 Pt) (kW : Nat)
    (kernel : Pt → Nat → K) (nC : Nat) (x : Nat × Nat × Int → K) (si ic : Nat) :
    forwardSpec1 sqrt (Grid.make m kW kernel nC none) x si ic = gather1 m kW kernel x si ic := by
  simp [forwardSpec1, gather1, Grid.make, h1]

theorem forwardSpec2_noBasis (sqrt : K → K) (h1 : sqrt 1 = 1) (m : Mapping 2 Pt) (kW : Nat)
    (kernel : Pt → Nat × Nat → K) (nC : Nat) (x : Nat × Nat × Int × Int → K) (si ic : Nat) :
    forwardSpec2 sqrt (Grid.make m kW kernel nC none) x si ic = gather2 m kW kernel x si ic := by
  simp [forwardSpec2, gather2, Grid.make, h1]

theorem forwardSpec3_noBasis (sqrt : K → K) (h1 : sqrt 1 = 1) (m : Mapping 3 Pt) (kW : Nat)
    (kernel : Pt → Nat × Nat × Nat → K) (nC : Nat) (x : Nat × Nat × Int × Int × Int → K)
    (si ic : Nat) :
    forwardSpec3 sqrt (Grid.make m kW kernel nC none) x si ic = gather3 m kW kernel x si ic := by
  simp [forwardSpec3, gather3, Grid.make, h1]

theorem forward1_slot (sqrt : K → K) (G : Grid 1 Pt Nat K) (prev : Nat × Nat × Nat → K)
    (x : Nat × Nat × Int → K) (hd : G.mapping.DistinctSlots) (si : Nat)
    (hsi : si ∈ G.mapping.samples) (ic : Nat) (hic : ic < G.nC) :
    forward1 sqrt G prev x (ic, (G.mapping.noncart si).sample, (G.mapping.noncart si).trace)
      = forwardSpec1 sqrt G x si ic := by
  rw [forward1_eq, list_sum_apply]
  exact sum_slotFn_pick G.mapping.noncart G.nC _ _ hd si hsi ic hic

theorem forward2_slot (sqrt : K → K) (G : Grid 2 Pt (Nat × Nat) K) (prev : Nat × Nat × Nat → K)
    (x : Nat × Nat × Int × Int → K) (hd : G.mapping.DistinctSlots) (si : Nat)
    (hsi : si ∈ G.mapping.samples) (ic : Nat) (hic : ic < G.nC) :
    forward2 sqrt G prev x (ic, (G.mapping.noncart si).sample, (G.mapping.noncart si).trace)
      = forwardSpec2 sqrt G x si ic := by
  rw [forward2_eq, list_sum_apply]
  exact sum_slotFn_pick G.mapping.noncart G.nC _ _ hd si hsi ic hic

theorem forward3_slot (sqrt : K → K) (G : Grid 3 Pt (Nat × Nat × Nat) K)
    (prev : Nat × Nat × Nat → K) (x : Nat × Nat × Int × Int × Int → K)
    (hd : G.mapping.DistinctSlots) (si : Nat)
    (hsi : si ∈ G.mapping.samples) (ic : Nat) (hic : ic < G.nC) :
    forward3 sqrt G prev x (ic, (G.mapping.noncart si).sample, (G.mapping.noncart si).trace)
      = forwardSpec3 sqrt G x si ic := by
  rw [forward3_eq, list_sum_apply]
  exact sum_slotFn_pick G.mapping.noncart G.nC _ _ hd si hsi ic hic

/-- C3. For each of `NDim = 1, 2, 3`, when the samples of the mapping have pairwise
distinct slots, `Grid::forward` leaves in the slot `(ic, sample, trace)` of every sample
the sum over basis coefficients and in-grid kernel taps of
`x * kernel * sqrt(P) * basis(trace mod P, ib)`; for an operator built without a basis
(and `sqrt 1 = 1`) this is the plain kernel-weighted gather. -/
theorem forward_gather (sqrt : K → K) :
    (∀ (G : Grid 1 Pt Nat K) (prev : Nat × Nat × Nat → K) (x : Nat × Nat × Int → K)
        (si ic : Nat), G.mapping.DistinctSlots → si ∈ G.mapping.samples → ic < G.nC →
        forward1 sqrt G prev x (ic, (G.mapping.noncart si).sample, (G.mapping.noncart si).trace)
          = forwardSpec1 sqrt G x si ic) ∧
    (∀ (G : Grid 2 Pt (Nat × Nat) K) (prev : Nat × Nat × Nat → K)
        (x : Nat × Nat × Int × Int → K)
        (si ic : Nat), G.mapping.DistinctSlots → si ∈ G.mapping.samples → ic < G.nC →
        forward2 sqrt G prev x (ic, (G.mapping.noncart si).sample, (G.mapping.noncart si).trace)
          = forwardSpec2 sqrt G x si ic) ∧
    (∀ (G : Grid 3 Pt (Nat × Nat × Nat) K) (prev : Nat × Nat × Nat → K)
        (x : Nat × Nat × Int × Int × Int → K)
        (si ic : Nat), G.mapping.DistinctSlots → si ∈ G.mapping.samples → ic < G.nC →
        forward3 sqrt G prev x (ic, (G.mapping.noncart si).sample, (G.mapping.noncart si).trace)
          = forwardSpec3 sqrt G x si ic) ∧
    (sqrt 1 = 1 →
      (∀ (m : Mapping 1 Pt) (kW : Nat) (kernel : Pt → Nat → K) (nC : Nat)
          (prev : Nat × Nat × Nat → K) (x : Nat × Nat × Int → K) (si ic : Nat),
          m.DistinctSlots → si ∈ m.samples → ic < nC →
          forward1 sqrt (Grid.make m kW kernel nC none) prev x
            (ic, (m.noncart si).sample, (m.noncart si).trace) = gather1 m kW kernel x si ic) ∧
      (∀ (m : Mapping 2 Pt) (kW : Nat) (kernel : Pt → Nat × Nat → K) (nC : Nat)
          (prev : Nat × Nat × Nat → K) (x : Nat × Nat × Int × Int → K) (si ic : Nat),
          m.DistinctSlots → si ∈ m.samples → ic < nC →
          forward2 sqrt (Grid.make m kW kernel nC none) prev x
            (ic, (m.noncart si).sample, (m.noncart si).trace) = gather2 m kW kernel x si ic) ∧
      (∀ (m : Mapping 3 Pt) (kW : Nat) (kernel : Pt → Nat × Nat × Nat → K) (nC : Nat)
          (prev : Nat × Nat × Nat → K) (x : Nat × Nat × Int × Int × Int → K) (si ic : Nat),
          m.DistinctSlots → si ∈ m.samples → ic < nC →
          forward3 sqrt (Grid.make m kW kernel nC none) prev x
            (ic, (m.noncart si).sample, (m.noncart si).trace) = gather3 m kW kernel x si ic)) := by
  refine ⟨fun G prev x si ic hd hsi hic => forward1_slot sqrt G prev x hd si hsi ic hic,
    fun G prev x si ic hd hsi hic => forward2_slot sqrt G prev x hd si hsi ic hic,
    fun G prev x si ic hd hsi hic => forward3_slot sqrt G prev x hd si hsi ic hic,
    fun h1 => ⟨?_, ?_, ?_⟩⟩
  · intro m kW kernel nC prev x si ic hd hsi hic
    rw [← forwardSpec1_noBasis sqrt h1 m kW kernel nC x si ic]
    exact forward1_slot sqrt (Grid.make m kW kernel nC none) prev x hd si hsi ic hic
  · intro m kW kernel nC prev x si ic hd hsi hic
    rw [← forwardSpec2_noBasis sqrt h1 m kW kernel nC x si ic]
    exact forward2_slot sqrt (Grid.make m kW kernel nC none) prev x hd si hsi ic hic
  · intro m kW kernel nC prev x si ic hd hsi hic
    rw [← forwardSpec3_noBasis sqrt h1 m kW kernel nC x si ic]
    exact forward3_slot sqrt (Grid.make m kW kernel nC none) prev x hd si hsi ic hic

end Thms12

/-! ## C5, C6: bucket order and statelessness -/

section Thms13

variable {Pt K : Type} [CommRing K]

theorem adds_zero {ι M : Type} [AddCommMonoid M] {f : (ι → M) → (ι → M)} {d : ι → M}
    (h : Adds f d) : Adds f (f 0) := by
  have h0 : f 0 = d := by rw [h 0, zero_add]
  rw [h0]; exact h

theorem adds_adjoint1Merge (G : Grid 1 Pt Nat K) (b : Bucket 1) (bGrid : Nat × Nat × Int → K) :
    Adds (adjoint1Merge G b bGrid) (adjoint1Merge G b bGrid 0) :=
  adds_zero (adds_forLoop _ _ _ (fun _ => adds_ite _ _ _
    (adds_forLoop _ _ _ (fun _ => adds_forLoop _ _ _ (fun _ => adds_addAt _ _)))))

theorem adds_adjoint2Merge (G : Grid 2 Pt (Nat × Nat) K) (b : Bucket 2)
    (bGrid : Nat × Nat × Int × Int → K) :
    Adds (adjoint2Merge G b bGrid) (adjoint2Merge G b bGrid 0) :=
  adds_zero (adds_forLoop _ _ _ (fun _ => adds_ite _ _ _
    (adds_forLoop _ _ _ (fun _ => adds_ite _ _ _
      (adds_forLoop _ _ _ (fun _ => adds_forLoop _ _ _ (fun _ => adds_addAt _ _)))))))

theorem adds_adjoint3Merge (G : Grid 3 Pt (Nat × Nat × Nat) K) (b : Bucket 3)
    (bGrid : Nat × Nat × Int × Int × Int → K) :
    Adds (adjoint3Merge G b bGrid) (adjoint3Merge G b bGrid 0) :=
  adds_zero (adds_forLoop _ _ _ (fun _ => adds_ite _ _ _
    (adds_forLoop _ _ _ (fun _ => adds_ite _ _ _
      (adds_forLoop _ _ _ (fun _ => adds_ite _ _ _
        (adds_forLoop _ _ _ (fun _ => adds_forLoop _ _ _ (fun _ => adds_addAt _ _)))))))))

/-- `adjoint` (`NDim == 1`) is the sum over the buckets of the merged scratch tensors. -/
theorem adjoint1_eq_sum (sqrt : K → K) (G : Grid 1 Pt Nat K) (prev : Nat × Nat × Int → K)
    (y : Nat × Nat × Nat → K) :
    adjoint1 sqrt G prev y = (G.mapping.buckets.map
      (fun b => adjoint1Merge G b (adjoint1Scratch sqrt G y b) 0)).sum := by
  have h := adds_foldl G.mapping.buckets
    (fun (input : Nat × Nat × Int → K) (b : Bucket 1) =>
      adjoint1Merge G b (adjoint1Scratch sqrt G y b) input) _
    (fun b => adds_adjoint1Merge G b (adjoint1Scratch sqrt G y b)) (setConstant prev 0)
  have h0 : (setConstant prev (0 : K)) = 0 := rfl
  rw [h0, zero_add] at h
  exact h

/-- `adjoint` (`NDim == 2`) is the sum over the buckets of the merged scratch tensors. -/
theorem adjoint2_eq_sum (sqrt : K → K) (G : Grid 2 Pt (Nat × Nat) K)
    (prev : Nat × Nat × Int × Int → K) (y : Nat × Nat × Nat → K) :
    adjoint2 sqrt G prev y = (G.mapping.buckets.map
      (fun b => adjoint2Merge G b (adjoint2Scratch sqrt G y b) 0)).sum := by
  have h := adds_foldl G.mapping.buckets
    (fun (input : Nat × Nat × Int × Int → K) (b : Bucket 2) =>
      adjoint2Merge G b (adjoint2Scratch sqrt G y b) input) _
    (fun b => adds_adjoint2Merge G b (adjoint2Scratch sqrt G y b)) (setConstant prev 0)
  have h0 : (setConstant prev (0 : K)) = 0 := rfl
  rw [h0, zero_add] at h
  exact h

/-- `adjoint` (`NDim == 3`) is the sum over the buckets of the merged scratch tensors. -/
theorem adjoint3_eq_sum (sqrt : K → K) (G : Grid 3 Pt (Nat × Nat × Nat) K)
    (prev : Nat × Nat × Int × Int × Int → K) (y : Nat × Nat × Nat → K) :
    adjoint3 sqrt G prev y = (G.mapping.buckets.map
      (fun b => adjoint3Merge G b (adjoint3Scratch sqrt G y b) 0)).sum := by
  have h := adds_foldl G.mapping.buckets
    (fun (input : Nat × Nat × Int × Int × Int → K) (b : Bucket 3) =>
      adjoint3Merge G b (adjoint3Scratch sqrt G y b) input) _
    (fun b => adds_adjoint3Merge G b (adjoint3Scratch sqrt G y b)) (setConstant prev 0)
  have h0 : (setConstant prev (0 : K)) = 0 := rfl
  rw [h0, zero_add] at h
  exact h

/-- C5. In exact arithmetic `Grid::adjoint` does not depend on the order in which the
buckets are processed and merged: for `NDim = 1, 2, 3`, replacing the bucket list by any
permutation of it leaves the returned grid tensor unchanged. -/
theorem adjoint_bucket_order_invariant (sqrt : K → K) :
    (∀ (G : Grid 1 Pt Nat K) (bs : List (Bucket 1)) (prev : Nat × Nat × Int → K)
        (y : Nat × Nat × Nat → K), bs.Perm G.mapping.buckets →
        adjoint1 sqrt (G.withBuckets bs) prev y = adjoint1 sqrt G prev y) ∧
    (∀ (G : Grid 2 Pt (Nat × Nat) K) (bs : List (Bucket 2))
        (prev : Nat × Nat × Int × Int → K) (y : Nat × Nat × Nat → K),
        bs.Perm G.mapping.buckets →
        adjoint2 sqrt (G.withBuckets bs) prev y = adjoint2 sqrt G prev y) ∧
    (∀ (G : Grid 3 Pt (Nat × Nat × Nat) K) (bs : List (Bucket 3))
        (prev : Nat × Nat × Int × Int × Int → K) (y : Nat × Nat × Nat → K),
        bs.Perm G.mapping.buckets →
        adjoint3 sqrt (G.withBuckets bs) prev y = adjoint3 sqrt G prev y) := by
  refine ⟨?_, ?_, ?_⟩
  · intro G bs prev y hperm
    rw [adjoint1_eq_sum, adjoint1_eq_sum]
    exact (hperm.map _).sum_eq
  · intro G bs prev y hperm
    rw [adjoint2_eq_sum, adjoint2_eq_sum]
    exact (hperm.map _).sum_eq
  · intro G bs prev y hperm
    rw [adjoint3_eq_sum, adjoint3_eq_sum]
    exact (hperm.map _).sum_eq

/-- C6. `Grid::forward` and `Grid::adjoint` carry no state between calls: the result
does not depend on what the internal output (respectively grid) buffer held before the
call, so a second call with the same argument, which starts from the buffer the first
call left, returns the same tensor. -/
theorem grid_calls_stateless (sqrt : K → K) :
    (∀ (G : Grid 1 Pt Nat K) (prev prev' : Nat × Nat × Nat → K) (x : Nat × Nat × Int → K),
        forward1 sqrt G prev x = forward1 sqrt G prev' x) ∧
    (∀ (G : Grid 2 Pt (Nat × Nat) K) (prev prev' : Nat × Nat × Nat → K)
        (x : Nat × Nat × Int × Int → K),
        forward2 sqrt G prev x = forward2 sqrt G prev' x) ∧
    (∀ (G : Grid 3 Pt (Nat × Nat × Nat) K) (prev prev' : Nat × Nat × Nat → K)
        (x : Nat × Nat × Int × Int × Int → K),
        forward3 sqrt G prev x = forward3 sqrt G prev' x) ∧
    (∀ (G : Grid 1 Pt Nat K) (prev prev' : Nat × Nat × Int → K) (y : Nat × Nat × Nat → K),
        adjoint1 sqrt G prev y = adjoint1 sqrt G prev' y) ∧
    (∀ (G : Grid 2 Pt (Nat × Nat) K) (prev prev' : Nat × Nat × Int × Int → K)
        (y : Nat × Nat × Nat → K),
        adjoint2 sqrt G prev y = adjoint2 sqrt G prev' y) ∧
    (∀ (G : Grid 3 Pt (Nat × Nat × Nat) K) (prev prev' : Nat × Nat × Int × Int × Int → K)
        (y : Nat × Nat × Nat → K),
        adjoint3 sqrt G prev y = adjoint3 sqrt G prev' y) ∧
    (∀ (G : Grid 1 Pt Nat K) (prev : Nat × Nat × Nat → K) (x : Nat × Nat × Int → K),
        forward1 sqrt G (forward1 sqrt G prev x) x = forward1 sqrt G prev x) ∧
    (∀ (G : Grid 2 Pt (Nat × Nat) K) (prev : Nat × Nat × Nat → K)
        (x : Nat × Nat × Int × Int → K),
        forward2 sqrt G (forward2 sqrt G prev x) x = forward2 sqrt G prev x) ∧
    (∀ (G : Grid 3 Pt (Nat × Nat × Nat) K) (prev : Nat × Nat × Nat → K)
        (x : Nat × Nat × Int × Int × Int → K),
        forward3 sqrt G (forward3 sqrt G prev x) x = forward3 sqrt G prev x) ∧
    (∀ (G : Grid 1 Pt Nat K) (prev : Nat × Nat × Int → K) (y : Nat × Nat × Nat → K),
        adjoint1 sqrt G (adjoint1 sqrt G prev y) y = adjoint1 sqrt G prev y) ∧
    (∀ (G : Grid 2 Pt (Nat × Nat) K) (prev : Nat × Nat × Int × Int → K)
        (y : Nat × Nat × Nat → K),
        adjoint2 sqrt G (adjoint2 sqrt G prev y) y = adjoint2 sqrt G prev y) ∧
    (∀ (G : Grid 3 Pt (Nat × Nat × Nat) K) (prev : Nat × Nat × Int × Int × Int → K)
        (y : Nat × Nat × Nat → K),
        adjoint3 sqrt G (adjoint3 sqrt G prev y) y = adjoint3 sqrt G prev y) := by
  refine ⟨?_, ?_, ?_, ?_, ?_, ?_, ?_, ?_, ?_, ?_, ?_, ?_⟩ <;> intros <;> rfl

end Thms13

/-! ## C4: `forward` stays inside the grid -/

section Thms14

variable {Pt K : Type} [CommRing K]

theorem Wrap_eq_ite (ii sz : Int) : Wrap ii sz = if 0 ≤ ii ∧ ii < sz then ii else -1 := by
  unfold Wrap
  split_ifs <;> omega

theorem forward1_congr (sqrt : K → K) (G : Grid 1 Pt Nat K) (prev : Nat × Nat × Nat → K)
    (x x' : Nat × Nat × Int → K)
    (hx : ∀ ic ib g, ic < G.nC → ib < G.nB → 0 ≤ g ∧ g < G.mapping.cartDims 0 →
      x (ic, ib, g) = x' (ic, ib, g)) :
    forward1 sqrt G prev x = forward1 sqrt G prev x' := by
  rw [forward1_eq, forward1_eq]
  congr 1
  refine List.map_congr_left (fun si _ => slotFn_congr _ _ _ _ _ (fun ic hic => ?_))
  unfold forwardSpec1
  refine Finset.sum_congr rfl (fun ib hib => Finset.sum_congr rfl (fun i hi => ?_))
  rw [hx ic ib _ hic (Finset.mem_range.mp hib) (Finset.mem_filter.mp hi).2]

theorem forward2_congr (sqrt : K → K) (G : Grid 2 Pt (Nat × Nat) K)
    (prev : Nat × Nat × Nat → K) (x x' : Nat × Nat × Int × Int → K)
    (hx : ∀ ic ib g0 g1, ic < G.nC → ib < G.nB → 0 ≤ g0 ∧ g0 < G.mapping.cartDims 0 →
      0 ≤ g1 ∧ g1 < G.mapping.cartDims 1 → x (ic, ib, g0, g1) = x' (ic, ib, g0, g1)) :
    forward2 sqrt G prev x = forward2 sqrt G prev x' := by
  rw [forward2_eq, forward2_eq]
  congr 1
  refine List.map_congr_left (fun si _ => slotFn_congr _ _ _ _ _ (fun ic hic => ?_))
  unfold forwardSpec2
  refine Finset.sum_congr rfl (fun ib hib => Finset.sum_congr rfl (fun i1 hi1 =>
    Finset.sum_congr rfl (fun i2 hi2 => ?_)))
  rw [hx ic ib _ _ hic (Finset.mem_range.mp hib) (Finset.mem_filter.mp hi2).2
    (Finset.mem_filter.mp hi1).2]

theorem forward3_congr (sqrt : K → K) (G : Grid 3 Pt (Nat × Nat × Nat) K)
    (prev : Nat × Nat × Nat → K) (x x' : Nat × Nat × Int × Int × Int → K)
    (hx : ∀ ic ib g0 g1 g2, ic < G.nC → ib < G.nB → 0 ≤ g0 ∧ g0 < G.mapping.cartDims 0 →
      0 ≤ g1 ∧ g1 < G.mapping.cartDims 1 → 0 ≤ g2 ∧ g2 < G.mapping.cartDims 2 →
      x (ic, ib, g0, g1, g2) = x' (ic, ib, g0, g1, g2)) :
    forward3 sqrt G prev x = forward3 sqrt G prev x' := by
  rw [forward3_eq, forward3_eq]
  congr 1
  refine List.map_congr_left (fun si _ => slotFn_congr _ _ _ _ _ (fun ic hic => ?_))
  unfold forwardSpec3
  refine Finset.sum_congr rfl (fun ib hib => Finset.sum_congr rfl (fun i1 hi1 =>
    Finset.sum_congr rfl (fun i2 hi2 => Finset.sum_congr rfl (fun i3 hi3 => ?_))))
  rw [hx ic ib _ _ _ hic (Finset.mem_range.mp hib) (Finset.mem_filter.mp hi3).2
    (Finset.mem_filter.mp hi2).2 (Finset.mem_filter.mp hi1).2]

/-- C4. `Wrap(ii, sz)` is `ii` when `0 ≤ ii < sz` and `-1` otherwise, so the guard
`Wrap > -1` holds exactly for in-grid indices; a stencil tap whose cell leaves the grid on
some axis leaves the output unchanged (it contributes zero and nothing fails); and
`Grid::forward` never reads the grid tensor out of range: two grid tensors that agree
on every in-range entry give the same output, for `NDim = 1, 2, 3`. -/
theorem forward_stays_in_grid (sqrt : K → K) :
    (∀ ii sz : Int, Wrap ii sz = if 0 ≤ ii ∧ ii < sz then ii else -1) ∧
    (∀ ii sz : Int, Wrap ii sz > -1 ↔ (0 ≤ ii ∧ ii < sz)) ∧
    (∀ (G : Grid 1 Pt Nat K) (x : Nat × Nat × Int → K) (si i1 : Nat)
        (output : Nat × Nat × Nat → K),
        ¬ (0 ≤ G.mapping.cart si 0 - (((G.kW - 1) / 2 : Nat) : Int) + (i1 : Int) ∧
          G.mapping.cart si 0 - (((G.kW - 1) / 2 : Nat) : Int) + (i1 : Int)
            < G.mapping.cartDims 0) →
        forward1Tap sqrt G x si i1 output = output) ∧
    (∀ (G : Grid 2 Pt (Nat × Nat) K) (x : Nat × Nat × Int × Int → K) (si i1 : Nat)
        (output : Nat × Nat × Nat → K),
        ¬ (0 ≤ G.mapping.cart si 1 - (((G.kW - 1) / 2 : Nat) : Int) + (i1 : Int) ∧
          G.mapping.cart si 1 - (((G.kW - 1) / 2 : Nat) : Int) + (i1 : Int)
            < G.mapping.cartDims 1) →
        forward2Row sqrt G x si i1 output = output) ∧
    (∀ (G : Grid 2 Pt (Nat × Nat) K) (x : Nat × Nat × Int × Int → K) (si : Nat) (ii1 : Int)
        (i1 i2 : Nat) (output : Nat × Nat × Nat → K),
        ¬ (0 ≤ G.mapping.cart si 0 - (((G.kW - 1) / 2 : Nat) : Int) + (i2 : Int) ∧
          G.mapping.cart si 0 - (((G.kW - 1) / 2 : Nat) : Int) + (i2 : Int)
            < G.mapping.cartDims 0) →
        forward2Tap sqrt G x si ii1 i1 i2 output = output) ∧
    (∀ (G : Grid 3 Pt (Nat × Nat × Nat) K) (x : Nat × Nat × Int × Int × Int → K)
        (si i1 : Nat) (output : Nat × Nat × Nat → K),
        ¬ (0 ≤ G.mapping.cart si 2 - (((G.kW - 1) / 2 : Nat) : Int) + (i1 : Int) ∧
          G.mapping.cart si 2 - (((G.kW - 1) / 2 : Nat) : Int) + (i1 : Int)
            < G.mapping.cartDims 2) →
        forward3Slab sqrt G x si i1 output = output) ∧
    (∀ (G : Grid 3 Pt (Nat × Nat × Nat) K) (x : Nat × Nat × Int × Int × Int → K)
        (si : Nat) (ii1 : Int) (i1 i2 : Nat) (output : Nat × Nat × Nat → K),
        ¬ (0 ≤ G.mapping.cart si 1 - (((G.kW - 1) / 2 : Nat) : Int) + (i2 : Int) ∧
          G.mapping.cart si 1 - (((G.kW - 1) / 2 : Nat) : Int) + (i2 : Int)
            < G.mapping.cartDims 1) →
        forward3Row sqrt G x si ii1 i1 i2 output = output) ∧
    (∀ (G : Grid 3 Pt (Nat × Nat × Nat) K) (x : Nat × Nat × Int × Int × Int → K)
        (si : Nat) (ii1 ii2 : Int) (i1 i2 i3 : Nat) (output : Nat × Nat × Nat → K),
        ¬ (0 ≤ G.mapping.cart si 0 - (((G.kW - 1) / 2 : Nat) : Int) + (i3 : Int) ∧
          G.mapping.cart si 0 - (((G.kW - 1) / 2 : Nat) : Int) + (i3 : Int)
            < G.mapping.cartDims 0) →
        forward3Tap sqrt G x si ii1 ii2 i1 i2 i3 output = output) ∧
    (∀ (G : Grid 1 Pt Nat K) (prev : Nat × Nat × Nat → K) (x x' : Nat × Nat × Int → K),
        (∀ ic ib g, ic < G.nC → ib < G.nB → 0 ≤ g ∧ g < G.mapping.cartDims 0 →
          x (ic, ib, g) = x' (ic, ib, g)) →
        forward1 sqrt G prev x = forward1 sqrt G prev x') ∧
    (∀ (G : Grid 2 Pt (Nat × Nat) K) (prev : Nat × Nat × Nat → K)
        (x x' : Nat × Nat × Int × Int → K),
        (∀ ic ib g0 g1, ic < G.nC → ib < G.nB → 0 ≤ g0 ∧ g0 < G.mapping.cartDims 0 →
          0 ≤ g1 ∧ g1 < G.mapping.cartDims 1 → x (ic, ib, g0, g1) = x' (ic, ib, g0, g1)) →
        forward2 sqrt G prev x = forward2 sqrt G prev x') ∧
    (∀ (G : Grid 3 Pt (Nat × Nat × Nat) K) (prev : Nat × Nat × Nat → K)
        (x x' : Nat × Nat × Int × Int × Int → K),
        (∀ ic ib g0 g1 g2, ic < G.nC → ib < G.nB → 0 ≤ g0 ∧ g0 < G.mapping.cartDims 0 →
          0 ≤ g1 ∧ g1 < G.mapping.cartDims 1 → 0 ≤ g2 ∧ g2 < G.mapping.cartDims 2 →
          x (ic, ib, g0, g1, g2) = x' (ic, ib, g0, g1, g2)) →
        forward3 sqrt G prev x = forward3 sqrt G prev x') := by
  refine ⟨Wrap_eq_ite, Wrap_gt_iff, ?_, ?_, ?_, ?_, ?_, ?_, forward1_congr sqrt,
    forward2_congr sqrt, forward3_congr sqrt⟩
  · intro G x si i1 output h
    unfold forward1Tap
    simp only [Wrap_gt_iff, h, if_false]
  · intro G x si i1 output h
    unfold forward2Row
    simp only [Wrap_gt_iff, h, if_false]
  · intro G x si ii1 i1 i2 output h
    unfold forward2Tap
    simp only [Wrap_gt_iff, h, if_false]
  · intro G x si i1 output h
    unfold forward3Slab
    simp only [Wrap_gt_iff, h, if_false]
  · intro G x si ii1 i1 i2 output h
    unfold forward3Row
    simp only [Wrap_gt_iff, h, if_false]
  · intro G x si ii1 ii2 i1 i2 i3 output h
    unfold forward3Tap
    simp only [Wrap_gt_iff, h, if_false]

end Thms14

/-! ## C1, C2: the one-dimensional `adjoint` -/

theorem real_sqrt_four : Real.sqrt 4 = 2 := by
  rw [show (4 : ℝ) = 2 ^ 2 by norm_num]
  exact Real.sqrt_sq (by norm_num)

/-- C1 (failing input). For `NDim == 1` and a basis of period `4` the pair is not
adjoint: on the well-formed one-sample operator `basisGrid1`, with `x = 1` and `y = 1`,
`<forward(x), y> = 2` while `<x, adjoint(y)> = 1`. -/
theorem forward_adjoint_mismatch_1d :
    (basisGrid1 ℝ).mapping.DistinctSlots ∧ (basisGrid1 ℝ).FootprintInBox1 ∧
    (basisGrid1 ℝ).kW % 2 = 1 ∧ 1 ≤ (basisGrid1 ℝ).basis.dim0 ∧
    dotSamples (basisGrid1 ℝ) (forward1 Real.sqrt (basisGrid1 ℝ) 0 (fun _ => 1)) (fun _ => 1)
      = 2 ∧
    dotGrid1 (basisGrid1 ℝ) (fun _ => 1) (adjoint1 Real.sqrt (basisGrid1 ℝ) 0 (fun _ => 1))
      = 1 := by
  refine ⟨?_, ?_, rfl, by decide, ?_, ?_⟩
  · simp [Mapping.DistinctSlots, Mapping.samples, basisGrid1]
  · intro b hb si hsi i1 hi1
    simp only [basisGrid1, List.mem_singleton] at hb hi1
    subst hb
    simp only [basisGrid1]
    omega
  · simp [dotSamples, forward1, forward1Tap, forLoop, addAt, setConstant, Wrap, basisGrid1,
      List.range_succ, real_sqrt_four]
  · simp [dotGrid1, adjoint1, adjoint1Merge, adjoint1Scratch, forLoop, addAt, setConstant, Wrap,
      basisGrid1, List.range_succ]

/-- C2 (failing input). For `NDim == 1` the factor `sqrt(P)` is not applied: on
`basisGrid1` (`P = 4`) with `y = 1`, `Grid::adjoint` leaves `1` in the grid cell
`(0, 0, 0)` where the reference scatter-add gives `sqrt(4) = 2`. -/
theorem adjoint_1d_misses_scale :
    adjoint1 Real.sqrt (basisGrid1 ℝ) 0 (fun _ => 1) (0, 0, 0) = 1 ∧
    adjointSpec1 Real.sqrt (basisGrid1 ℝ) (fun _ => 1) (0, 0, 0) = 2 := by
  constructor
  · simp [adjoint1, adjoint1Merge, adjoint1Scratch, forLoop, addAt, setConstant, Wrap,
      basisGrid1, List.range_succ]
  · simp [adjointSpec1, scatter1, Mapping.samples, basisGrid1, Finset.filter_true_of_mem,
      real_sqrt_four]

/-! ## Witnesses for the gridding theorems -/

theorem exMapping_distinctSlots (NDim : Nat) : (exMapping NDim).DistinctSlots := by
  simp [Mapping.DistinctSlots, Mapping.samples, exMapping, exBucket]

theorem exMapping_mem_samples (NDim : Nat) : 1 ∈ (exMapping NDim).samples := by
  simp [Mapping.samples, exMapping, exBucket]

/-- Witness for `forward_gather`: the hypotheses hold for sample `1` of the example
operators, with and without a basis, over the reals. -/
theorem forward_gather_witness :
    (exMapping 1).DistinctSlots ∧ 1 ∈ (exMapping 1).samples ∧ Real.sqrt 1 = 1 ∧
    forward1 Real.sqrt (exGrid 1 Nat ℝ) 0 (fun _ => 1) (0, 0, 1)
      = forwardSpec1 Real.sqrt (exGrid 1 Nat ℝ) (fun _ => 1) 1 0 ∧
    forward2 Real.sqrt (exGrid 2 (Nat × Nat) ℝ) 0 (fun _ => 1) (0, 0, 1)
      = forwardSpec2 Real.sqrt (exGrid 2 (Nat × Nat) ℝ) (fun _ => 1) 1 0 ∧
    forward3 Real.sqrt (exGrid 3 (Nat × Nat × Nat) ℝ) 0 (fun _ => 1) (0, 0, 1)
      = forwardSpec3 Real.sqrt (exGrid 3 (Nat × Nat × Nat) ℝ) (fun _ => 1) 1 0 ∧
    forward1 Real.sqrt (Grid.make (exMapping 1) 3 (fun _ _ => 1) 1 none) 0 (fun _ => 1)
      (0, 0, 1) = gather1 (exMapping 1) 3 (fun _ _ => (1 : ℝ)) (fun _ => 1) 1 0 ∧
    forward2 Real.sqrt (Grid.make (exMapping 2) 3 (fun _ _ => 1) 1 none) 0 (fun _ => 1)
      (0, 0, 1) = gather2 (exMapping 2) 3 (fun _ _ => (1 : ℝ)) (fun _ => 1) 1 0 ∧
    forward3 Real.sqrt (Grid.make (exMapping 3) 3 (fun _ _ => 1) 1 none) 0 (fun _ => 1)
      (0, 0, 1) = gather3 (exMapping 3) 3 (fun _ _ => (1 : ℝ)) (fun _ => 1) 1 0 :=
  ⟨exMapping_distinctSlots 1, exMapping_mem_samples 1, Real.sqrt_one,
    (forward_gather Real.sqrt).1 (exGrid 1 Nat ℝ) 0 (fun _ => 1) 1 0
      (exMapping_distinctSlots 1) (exMapping_mem_samples 1) (by decide),
    (forward_gather Real.sqrt).2.1 (exGrid 2 (Nat × Nat) ℝ) 0 (fun _ => 1) 1 0
      (exMapping_distinctSlots 2) (exMapping_mem_samples 2) (by decide),
    (forward_gather Real.sqrt).2.2.1 (exGrid 3 (Nat × Nat × Nat) ℝ) 0 (fun _ => 1) 1 0
      (exMapping_distinctSlots 3) (exMapping_mem_samples 3) (by decide),
    ((forward_gather Real.sqrt).2.2.2 Real.sqrt_one).1 (exMapping 1) 3 (fun _ _ => 1) 1 0
      (fun _ => 1) 1 0 (exMapping_distinctSlots 1) (exMapping_mem_samples 1) (by decide),
    ((forward_gather Real.sqrt).2.2.2 Real.sqrt_one).2.1 (exMapping 2) 3 (fun _ _ => 1) 1 0
      (fun _ => 1) 1 0 (exMapping_distinctSlots 2) (exMapping_mem_samples 2) (by decide),
    ((forward_gather Real.sqrt).2.2.2 Real.sqrt_one).2.2 (exMapping 3) 3 (fun _ _ => 1) 1 0
      (fun _ => 1) 1 0 (exMapping_distinctSlots 3) (exMapping_mem_samples 3) (by decide)⟩

/-- Witness for `adjoint_bucket_order_invariant`: swapping the two buckets of the
example operators. -/
theorem adjoint_bucket_order_invariant_witness :
    [exBucket 1 1, exBucket 1 0].Perm (exGrid 1 Nat ℝ).mapping.buckets ∧
    adjoint1 Real.sqrt ((exGrid 1 Nat ℝ).withBuckets [exBucket 1 1, exBucket 1 0]) 0
      (fun _ => 1) = adjoint1 Real.sqrt (exGrid 1 Nat ℝ) 0 (fun _ => 1) ∧
    adjoint2 Real.sqrt ((exGrid 2 (Nat × Nat) ℝ).withBuckets [exBucket 2 1, exBucket 2 0]) 0
      (fun _ => 1) = adjoint2 Real.sqrt (exGrid 2 (Nat × Nat) ℝ) 0 (fun _ => 1) ∧
    adjoint3 Real.sqrt
      ((exGrid 3 (Nat × Nat × Nat) ℝ).withBuckets [exBucket 3 1, exBucket 3 0]) 0
      (fun _ => 1) = adjoint3 Real.sqrt (exGrid 3 (Nat × Nat × Nat) ℝ) 0 (fun _ => 1) :=
  ⟨List.Perm.swap _ _ _,
    (adjoint_bucket_order_invariant Real.sqrt).1 (exGrid 1 Nat ℝ) _ 0 (fun _ => 1)
      (List.Perm.swap _ _ _),
    (adjoint_bucket_order_invariant Real.sqrt).2.1 (exGrid 2 (Nat × Nat) ℝ) _ 0 (fun _ => 1)
      (List.Perm.swap _ _ _),
    (adjoint_bucket_order_invariant Real.sqrt).2.2 (exGrid 3 (Nat × Nat × Nat) ℝ) _ 0
      (fun _ => 1) (List.Perm.swap _ _ _)⟩

/-! ## Cell tensors -/

section Thms15

variable {K : Type} [CommRing K]

theorem single_sum_eq_cellFn {C : Type} [DecidableEq C] (cell : C) (nC nB : Nat)
    (F : Nat → Nat → K) :
    ∑ ib ∈ Finset.range nB, ∑ ic ∈ Finset.range nC, Pi.single (ic, ib, cell) (F ic ib)
      = cellFn cell nC nB F := by
  funext j
  obtain ⟨j1, j2, j3⟩ := j
  simp only [Finset.sum_apply, Pi.single_apply, cellFn, Prod.mk.injEq]
  by_cases h3 : j3 = cell
  · subst h3
    simp only [true_and, and_true]
    by_cases h1 : j1 < nC
    · by_cases h2 : j2 < nB
      · rw [Finset.sum_eq_single j2]
        · rw [Finset.sum_eq_single j1]
          · simp [h1, h2]
          · intro b _ hb
            simp [Ne.symm hb]
          · intro h; exact absurd (Finset.mem_range.mpr h1) h
        · intro b _ hb
          apply Finset.sum_eq_zero
          intro i _
          simp [Ne.symm hb]
        · intro h; exact absurd (Finset.mem_range.mpr h2) h
      · simp only [h1, h2, and_false, if_false]
        apply Finset.sum_eq_zero
        intro b hb
        apply Finset.sum_eq_zero
        intro i _
        have : j2 ≠ b := fun e => h2 (e ▸ Finset.mem_range.mp hb)
        simp [this]
    · simp only [h1, false_and, if_false]
      apply Finset.sum_eq_zero
      intro b _
      apply Finset.sum_eq_zero
      intro i hi
      have : j1 ≠ i := fun e => h1 (e ▸ Finset.mem_range.mp hi)
      simp [this]
  · simp only [h3, false_and, if_false]
    apply Finset.sum_eq_zero
    intro b _
    apply Finset.sum_eq_zero
    intro i _
    simp [h3]

/-- The two innermost loops of `adjoint` (over `ib`, then `ic`) add `F ic ib` to the
entries `(ic, ib, cell)`. -/
theorem adds_adjBlock {C : Type} [DecidableEq C] (cell : C) (nC nB : Nat) (F : Nat → Nat → K) :
    Adds (fun t : Nat × Nat × C → K =>
        forLoop nB (fun ib t =>
          forLoop nC (fun ic t => addAt t (ic, ib, cell) (F ic ib)) t) t)
      (cellFn cell nC nB F) := by
  have h := adds_forLoop nB
    (fun ib (t : Nat × Nat × C → K) =>
      forLoop nC (fun ic t => addAt t (ic, ib, cell) (F ic ib)) t)
    (fun ib => ∑ ic ∈ Finset.range nC, Pi.single (ic, ib, cell) (F ic ib))
    (fun ib => adds_forLoop nC
        (fun ic (t : Nat × Nat × C → K) => addAt t (ic, ib, cell) (F ic ib))
        (fun ic => Pi.single (ic, ib, cell) (F ic ib)) (fun ic => adds_addAt _ _))
  rwa [single_sum_eq_cellFn] at h

theorem indicator_sum_cast (n : Nat) (J : Int) (F : Nat → K) :
    ∑ i ∈ Finset.range n, (if (i : Int) = J then F i else 0)
      = if 0 ≤ J ∧ J < n then F J.toNat else 0 := by
  split_ifs with h
  · rw [Finset.sum_eq_single J.toNat]
    · have : ((J.toNat : Nat) : Int) = J := Int.toNat_of_nonneg h.1
      simp [this]
    · intro b _ hb
      have : (b : Int) ≠ J := fun e => hb (by omega)
      simp [this]
    · intro hn
      exfalso; apply hn; rw [Finset.mem_range]; omega
  · apply Finset.sum_eq_zero
    intro i hi
    have hi' := Finset.mem_range.mp hi
    have : (i : Int) ≠ J := fun e => h ⟨by omega, by omega⟩
    simp [this]

theorem finset_sum_list_sum {α ι : Type} (s : Finset ι) (l : List α) (f : ι → α → K) :
    ∑ i ∈ s, (l.map (f i)).sum = (l.map (fun a => ∑ i ∈ s, f i a)).sum := by
  induction l with
  | nil => simp
  | cons a l ih => simp [Finset.sum_add_distrib, ih]

end Thms15

/-! ## `adjoint`, `NDim == 1`: scratch and merge -/

section Thms16

variable {Pt K : Type} [CommRing K]

theorem adjoint1Scratch_eq (sqrt : K → K) (G : Grid 1 Pt Nat K) (y : Nat × Nat × Nat → K)
    (b : Bucket 1) :
    adjoint1Scratch sqrt G y b = (b.indices.map (fun si =>
      ∑ i1 ∈ Finset.range G.kW,
        cellFn ((i1 : Int) + G.mapping.cart si 0 - ((G.kW / 2 : Nat) : Int) - b.minCorner 0)
          G.nC G.nB (fun ic ib =>
            y (ic, (G.mapping.noncart si).sample, (G.mapping.noncart si).trace)
              * G.basis.data ((G.mapping.noncart si).trace % G.basis.dim0, ib)
              * G.kernel (G.mapping.offset si) i1))).sum := by
  have h := adds_foldl b.indices _ _
    (fun si => adds_forLoop G.kW _ _ (fun i1 => adds_adjBlock
      ((i1 : Int) + G.mapping.cart si 0 - ((G.kW / 2 : Nat) : Int) - b.minCorner 0)
      G.nC G.nB (fun ic ib =>
        y (ic, (G.mapping.noncart si).sample, (G.mapping.noncart si).trace)
          * G.basis.data ((G.mapping.noncart si).trace % G.basis.dim0, ib)
          * G.kernel (G.mapping.offset si) i1))) (0 : Nat × Nat × Int → K)
  rw [zero_add] at h
  exact h

theorem adjoint1Merge_eq (G : Grid 1 Pt Nat K) (b : Bucket 1) (bGrid : Nat × Nat × Int → K) :
    adjoint1Merge G b bGrid 0 = ∑ i1 ∈ Finset.range (b.gridSize 0),
      if Wrap (b.minCorner 0 + i1) (G.mapping.cartDims 0) > -1 then
        cellFn (Wrap (b.minCorner 0 + i1) (G.mapping.cartDims 0)) G.nC G.nB
          (fun ic ib => bGrid (ic, ib, (i1 : Int)))
      else 0 := by
  have h := adds_forLoop (b.gridSize 0) _ _
    (fun i1 => adds_ite (Wrap (b.minCorner 0 + i1) (G.mapping.cartDims 0) > -1) _ _
      (adds_adjBlock (Wrap (b.minCorner 0 + i1) (G.mapping.cartDims 0)) G.nC G.nB
        (fun ic ib => bGrid (ic, ib, (i1 : Int))))) (0 : Nat × Nat × Int → K)
  rw [zero_add] at h
  exact h

end Thms16

/-! ## `adjoint`, `NDim == 1`: value added by a bucket -/

section Thms17

variable {Pt K : Type} [CommRing K]

theorem cellFn_apply_of_lt {C : Type} [DecidableEq C] (cell : C) (nC nB : Nat)
    (F : Nat → Nat → K) (ic ib : Nat) (g : C) (hic : ic < nC) (hib : ib < nB) :
    cellFn cell nC nB F (ic, ib, g) = if g = cell then F ic ib else 0 := by
  simp [cellFn, hic, hib]

/-- Value that one bucket of `adjoint` (`NDim == 1`) adds to an entry of the grid. -/
theorem adjoint1_bucket_value (sqrt : K → K) (G : Grid 1 Pt Nat K) (y : Nat × Nat × Nat → K)
    (b : Bucket 1)
    (hbox : ∀ si ∈ b.indices, ∀ i1, i1 < G.kW →
      0 ≤ (i1 : Int) + G.mapping.cart si 0 - ((G.kW / 2 : Nat) : Int) - b.minCorner 0 ∧
      (i1 : Int) + G.mapping.cart si 0 - ((G.kW / 2 : Nat) : Int) - b.minCorner 0
        < (b.gridSize 0 : Int))
    (ic ib : Nat) (g : Int) (hic : ic < G.nC) (hib : ib < G.nB) :
    adjoint1Merge G b (adjoint1Scratch sqrt G y b) 0 (ic, ib, g)
      = (b.indices.map (fun si =>
          ∑ i ∈ (Finset.range G.kW).filter (fun i : Nat =>
              G.mapping.cart si 0 - ((G.kW / 2 : Nat) : Int) + (i : Int) = g ∧
                0 ≤ g ∧ g < G.mapping.cartDims 0),
            G.kernel (G.mapping.offset si) i * 1
              * G.basis.data ((G.mapping.noncart si).trace % G.basis.dim0, ib)
              * y (ic, (G.mapping.noncart si).sample, (G.mapping.noncart si).trace))).sum := by
  rw [adjoint1Merge_eq, Finset.sum_apply]
  have hterm : ∀ i1 : Nat,
      (if Wrap (b.minCorner 0 + i1) (G.mapping.cartDims 0) > -1 then
        cellFn (Wrap (b.minCorner 0 + i1) (G.mapping.cartDims 0)) G.nC G.nB
          (fun ic ib => adjoint1Scratch sqrt G y b (ic, ib, (i1 : Int)))
      else 0) (ic, ib, g)
      = if (i1 : Int) = g - b.minCorner 0 then
          (if 0 ≤ g ∧ g < G.mapping.cartDims 0 then
            adjoint1Scratch sqrt G y b (ic, ib, (i1 : Int)) else 0)
        else 0 := by
    intro i1
    by_cases hw : 0 ≤ b.minCorner 0 + (i1 : Int) ∧ b.minCorner 0 + (i1 : Int) < G.mapping.cartDims 0
    · rw [if_pos ((Wrap_gt_iff _ _).mpr hw), Wrap_of_inGrid _ _ hw,
        cellFn_apply_of_lt _ _ _ _ _ _ _ hic hib]
      by_cases he : g = b.minCorner 0 + (i1 : Int)
      · have h1 : (i1 : Int) = g - b.minCorner 0 := by omega
        have h2 : 0 ≤ g ∧ g < G.mapping.cartDims 0 := by rw [he]; exact hw
        rw [if_pos he, if_pos h1, if_pos h2]
      · have h1 : ¬ (i1 : Int) = g - b.minCorner 0 := by omega
        rw [if_neg he, if_neg h1]
    · rw [if_neg (fun h => hw ((Wrap_gt_iff _ _).mp h))]
      by_cases h1 : (i1 : Int) = g - b.minCorner 0
      · have h2 : ¬ (0 ≤ g ∧ g < G.mapping.cartDims 0) := by
          intro h; apply hw; constructor <;> omega
        rw [if_pos h1, if_neg h2]; rfl
      · rw [if_neg h1]; rfl
  rw [Finset.sum_congr rfl (fun i1 _ => hterm i1), indicator_sum_cast]
  by_cases hg : 0 ≤ g ∧ g < G.mapping.cartDims 0
  · simp only [hg, and_self, if_true, and_true]
    by_cases hb : 0 ≤ g - b.minCorner 0 ∧ g - b.minCorner 0 < (b.gridSize 0 : Int)
    · rw [if_pos hb, Int.toNat_of_nonneg hb.1, adjoint1Scratch_eq, list_sum_apply]
      congr 1
      refine List.map_congr_left (fun si _ => ?_)
      rw [Finset.sum_apply, Finset.sum_filter]
      refine Finset.sum_congr rfl (fun i1 _ => ?_)
      rw [cellFn_apply_of_lt _ _ _ _ _ _ _ hic hib]
      by_cases he : G.mapping.cart si 0 - ((G.kW / 2 : Nat) : Int) + (i1 : Int) = g
      · have he' : g - b.minCorner 0
            = (i1 : Int) + G.mapping.cart si 0 - ((G.kW / 2 : Nat) : Int) - b.minCorner 0 := by
          omega
        rw [if_pos he, if_pos he']; ring
      · have he' : ¬ g - b.minCorner 0
            = (i1 : Int) + G.mapping.cart si 0 - ((G.kW / 2 : Nat) : Int) - b.minCorner 0 := by
          omega
        rw [if_neg he, if_neg he']
    · rw [if_neg hb]
      symm
      apply List.sum_eq_zero
      intro v hv
      obtain ⟨si, hsi, rfl⟩ := List.mem_map.mp hv
      apply Finset.sum_eq_zero
      intro i1 hi1
      exfalso
      obtain ⟨hr, he⟩ := Finset.mem_filter.mp hi1
      have := hbox si hsi i1 (Finset.mem_range.mp hr)
      apply hb
      constructor <;> omega
  · simp only [hg, and_false, if_false, ite_self]
    symm
    apply List.sum_eq_zero
    intro v hv
    obtain ⟨si, _, rfl⟩ := List.mem_map.mp hv
    simp

end Thms17

/-! ## `adjoint`, `NDim == 1`: value; `forward` paired with a sample tensor -/

section Thms18

variable {Pt K : Type} [CommRing K]

/-- With every kernel footprint inside its bucket's scratch box, `adjoint` for
`NDim == 1` is the reference scatter-add with kernel scale `1`. -/
theorem adjoint1_value (sqrt : K → K) (G : Grid 1 Pt Nat K) (prev : Nat × Nat × Int → K)
    (y : Nat × Nat × Nat → K) (hbox : G.FootprintInBox1) (ic ib : Nat) (g : Int)
    (hic : ic < G.nC) (hib : ib < G.nB) :
    adjoint1 sqrt G prev y (ic, ib, g) = scatter1 1 G y (ic, ib, g) := by
  rw [adjoint1_eq_sum, list_sum_apply]
  unfold scatter1 Mapping.samples
  rw [← sum_map_sum_eq_flatMap]
  congr 1
  refine List.map_congr_left (fun b hb => ?_)
  exact adjoint1_bucket_value sqrt G y b (hbox b hb) ic ib g hic hib

theorem slotFn_pair (a b nC nS nT : Nat) (g : Nat → K) (y : Nat × Nat × Nat → K)
    (ha : a < nS) (hb : b < nT) :
    ∑ ic ∈ Finset.range nC, ∑ s ∈ Finset.range nS, ∑ t ∈ Finset.range nT,
        slotFn a b nC g (ic, s, t) * y (ic, s, t)
      = ∑ ic ∈ Finset.range nC, g ic * y (ic, a, b) := by
  refine Finset.sum_congr rfl (fun ic hic => ?_)
  have hic' := Finset.mem_range.mp hic
  rw [Finset.sum_eq_single a]
  · rw [Finset.sum_eq_single b]
    · simp [slotFn, hic']
    · intro t _ ht
      simp [slotFn, ht]
    · intro h; exact absurd (Finset.mem_range.mpr hb) h
  · intro s _ hs
    apply Finset.sum_eq_zero
    intro t _
    simp [slotFn, hs]
  · intro h; exact absurd (Finset.mem_range.mpr ha) h

/-- `<forward(x), y>` as a sum over the samples, given the per-sample slot values. -/
theorem dotSamples_of_slots {NDim : Nat} {KIdx : Type} (G : Grid NDim Pt KIdx K)
    (hr : G.mapping.SlotsInRange) (spec : Nat → Nat → K) (y : Nat × Nat × Nat → K) :
    dotSamples G (G.mapping.samples.map (fun si =>
        slotFn (G.mapping.noncart si).sample (G.mapping.noncart si).trace G.nC (spec si))).sum y
      = (G.mapping.samples.map (fun si => ∑ ic ∈ Finset.range G.nC,
          spec si ic * y (ic, (G.mapping.noncart si).sample, (G.mapping.noncart si).trace))).sum := by
  unfold dotSamples
  simp only [list_sum_apply, ← List.sum_map_mul_right, List.map_map, Function.comp_def]
  rw [Finset.sum_congr rfl (fun ic _ => Finset.sum_congr rfl (fun s _ =>
    finset_sum_list_sum _ _ _))]
  rw [Finset.sum_congr rfl (fun ic _ => finset_sum_list_sum _ _ _)]
  rw [finset_sum_list_sum]
  congr 1
  refine List.map_congr_left (fun si hsi => ?_)
  exact slotFn_pair _ _ _ _ _ _ y (hr si hsi).1 (hr si hsi).2

end Thms18

/-! ## `forward` against `adjoint`, `NDim == 1` -/

section Thms19

variable {Pt K : Type} [CommRing K]

/-- Summing over the grid cells `g` the taps whose target is `g` is the same as summing
over the taps whose target lies in the grid. -/
theorem sum_cells_taps (N : Int) (kW : Nat) (cell : Nat → Int) (H : Int → Nat → K) :
    ∑ g ∈ Finset.range N.toNat,
        ∑ i ∈ (Finset.range kW).filter
            (fun i : Nat => cell i = (g : Int) ∧ 0 ≤ (g : Int) ∧ (g : Int) < N), H g i
      = ∑ i ∈ (Finset.range kW).filter (fun i : Nat => 0 ≤ cell i ∧ cell i < N),
          H (cell i) i := by
  simp only [Finset.sum_filter]
  rw [Finset.sum_comm]
  refine Finset.sum_congr rfl (fun i _ => ?_)
  have h := indicator_sum_cast N.toNat (cell i)
    (fun _ => if 0 ≤ cell i ∧ cell i < N then H (cell i) i else 0)
  have hterm : ∀ g : Nat,
      (if cell i = (g : Int) ∧ 0 ≤ (g : Int) ∧ (g : Int) < N then H g i else 0)
      = (if (g : Int) = cell i then
          (if 0 ≤ cell i ∧ cell i < N then H (cell i) i else 0) else 0) := by
    intro g
    by_cases he : (g : Int) = cell i
    · rw [if_pos he, ← he]
      by_cases hg : 0 ≤ (g : Int) ∧ (g : Int) < N
      · rw [if_pos ⟨rfl, hg⟩, if_pos hg]
      · rw [if_neg (fun hh => hg hh.2), if_neg hg]
    · rw [if_neg he, if_neg (fun hh => he hh.1.symm)]
  rw [Finset.sum_congr rfl (fun g _ => hterm g), h]
  by_cases hc : 0 ≤ cell i ∧ cell i < N
  · have : 0 ≤ cell i ∧ cell i < (N.toNat : Int) := by
      constructor
      · exact hc.1
      · rw [Int.toNat_of_nonneg (by omega)]; exact hc.2
    rw [if_pos this]
  · simp [hc]

/-- Adjointness up to scale, `NDim == 1`: with every footprint inside its scratch box, every slot
inside the sample tensor and an odd kernel width,
`<forward(x), y> = sqrt(P) * <x, adjoint(y)>`: the pair is adjoint only up to the factor
`sqrt(P)` that `adjoint` leaves out. -/
theorem forward1_adjoint1_pair (sqrt : K → K) (G : Grid 1 Pt Nat K)
    (prevO : Nat × Nat × Nat → K) (prevI : Nat × Nat × Int → K)
    (x : Nat × Nat × Int → K) (y : Nat × Nat × Nat → K)
    (hbox : G.FootprintInBox1) (hr : G.mapping.SlotsInRange) (hodd : G.kW % 2 = 1) :
    dotSamples G (forward1 sqrt G prevO x) y
      = sqrt (G.basis.dim0 : K) * dotGrid1 G x (adjoint1 sqrt G prevI y) := by
  rw [forward1_eq, dotSamples_of_slots G hr]
  unfold dotGrid1
  have hval : ∀ ic ∈ Finset.range G.nC, ∀ ib ∈ Finset.range G.nB,
      ∀ g ∈ Finset.range (G.mapping.cartDims 0).toNat,
      x (ic, ib, (g : Int)) * adjoint1 sqrt G prevI y (ic, ib, (g : Int))
        = x (ic, ib, (g : Int)) * scatter1 1 G y (ic, ib, (g : Int)) := by
    intro ic hic ib hib g _
    rw [adjoint1_value sqrt G prevI y hbox ic ib g (Finset.mem_range.mp hic)
      (Finset.mem_range.mp hib)]
  rw [Finset.sum_congr rfl (fun ic hic => Finset.sum_congr rfl (fun ib hib =>
    Finset.sum_congr rfl (fun g hg => hval ic hic ib hib g hg)))]
  unfold scatter1
  simp only [← List.sum_map_mul_left, List.map_map, Function.comp_def]
  rw [Finset.sum_congr rfl (fun ic _ => Finset.sum_congr rfl (fun ib _ =>
    finset_sum_list_sum _ _ _))]
  rw [Finset.sum_congr rfl (fun ic _ => finset_sum_list_sum _ _ _)]
  rw [finset_sum_list_sum, ← List.sum_map_mul_left]
  congr 1
  refine List.map_congr_left (fun si _ => ?_)
  rw [Finset.mul_sum]
  refine Finset.sum_congr rfl (fun ic _ => ?_)
  unfold forwardSpec1
  simp only []
  rw [Finset.sum_mul, Finset.mul_sum]
  refine Finset.sum_congr rfl (fun ib _ => ?_)
  simp only [Finset.mul_sum]
  rw [sum_cells_taps (G.mapping.cartDims 0) G.kW
    (fun i => G.mapping.cart si 0 - ((G.kW / 2 : Nat) : Int) + (i : Int))
    (fun g i => sqrt (G.basis.dim0 : K) * (x (ic, ib, g) * (G.kernel (G.mapping.offset si) i * 1
      * G.basis.data ((G.mapping.noncart si).trace % G.basis.dim0, ib)
      * y (ic, (G.mapping.noncart si).sample, (G.mapping.noncart si).trace))))]
  have hh : (G.kW - 1) / 2 = G.kW / 2 := by omega
  rw [hh, Finset.sum_mul]
  refine Finset.sum_congr rfl (fun i _ => ?_)
  ring

end Thms19

/-! ## `adjoint`, `NDim == 2`: scratch and merge -/

section Thms20

variable {Pt K : Type} [CommRing K]

theorem merge_axis (min N : Int) (bSz : Nat) (g : Int) (F : Nat → K) :
    ∑ i ∈ Finset.range bSz,
        (if Wrap (min + i) N > -1 then (if g = Wrap (min + i) N then F i else 0) else 0)
      = if (0 ≤ g ∧ g < N) ∧ (0 ≤ g - min ∧ g - min < bSz) then F (g - min).toNat else 0 := by
  have hterm : ∀ i : Nat,
      (if Wrap (min + i) N > -1 then (if g = Wrap (min + i) N then F i else 0) else 0)
      = if (i : Int) = g - min then (if 0 ≤ g ∧ g < N then F i else 0) else 0 := by
    intro i
    by_cases hw : 0 ≤ min + (i : Int) ∧ min + (i : Int) < N
    · rw [if_pos ((Wrap_gt_iff _ _).mpr hw), Wrap_of_inGrid _ _ hw]
      by_cases he : g = min + (i : Int)
      · rw [if_pos he, if_pos (by omega), if_pos (by rw [he]; exact hw)]
      · rw [if_neg he, if_neg (by omega)]
    · rw [if_neg (fun h => hw ((Wrap_gt_iff _ _).mp h))]
      by_cases h1 : (i : Int) = g - min
      · rw [if_pos h1, if_neg (fun h => hw (by constructor <;> omega))]
      · rw [if_neg h1]
  rw [Finset.sum_congr rfl (fun i _ => hterm i), indicator_sum_cast]
  by_cases hg : 0 ≤ g ∧ g < N
  · by_cases hb : 0 ≤ g - min ∧ g - min < (bSz : Int)
    · rw [if_pos hb, if_pos hg, if_pos ⟨hg, hb⟩]
    · rw [if_neg hb, if_neg (fun h => hb h.2)]
  · simp [hg]

theorem adjoint2Scratch_eq (sqrt : K → K) (G : Grid 2 Pt (Nat × Nat) K)
    (y : Nat × Nat × Nat → K) (b : Bucket 2) :
    adjoint2Scratch sqrt G y b = (b.indices.map (fun si =>
      ∑ i1 ∈ Finset.range G.kW, ∑ i2 ∈ Finset.range G.kW,
        cellFn
          ((i2 : Int) + G.mapping.cart si 0 - ((G.kW / 2 : Nat) : Int) - b.minCorner 0,
            (i1 : Int) + G.mapping.cart si 1 - ((G.kW / 2 : Nat) : Int) - b.minCorner 1)
          G.nC G.nB (fun ic ib =>
            y (ic, (G.mapping.noncart si).sample, (G.mapping.noncart si).trace)
              * G.basis.data ((G.mapping.noncart si).trace % G.basis.dim0, ib)
              * (G.kernel (G.mapping.offset si) (i2, i1) * sqrt (G.basis.dim0 : K))))).sum := by
  have h := adds_foldl b.indices _ _
    (fun si => adds_forLoop G.kW _ _ (fun i1 => adds_forLoop G.kW _ _ (fun i2 =>
      adds_adjBlock
        ((i2 : Int) + G.mapping.cart si 0 - ((G.kW / 2 : Nat) : Int) - b.minCorner 0,
          (i1 : Int) + G.mapping.cart si 1 - ((G.kW / 2 : Nat) : Int) - b.minCorner 1)
        G.nC G.nB (fun ic ib =>
          y (ic, (G.mapping.noncart si).sample, (G.mapping.noncart si).trace)
            * G.basis.data ((G.mapping.noncart si).trace % G.basis.dim0, ib)
            * (G.kernel (G.mapping.offset si) (i2, i1) * sqrt (G.basis.dim0 : K))))))
    (0 : Nat × Nat × Int × Int → K)
  rw [zero_add] at h
  exact h

theorem adjoint2Merge_eq (G : Grid 2 Pt (Nat × Nat) K) (b : Bucket 2)
    (bGrid : Nat × Nat × Int × Int → K) :
    adjoint2Merge G b bGrid 0 = ∑ i1 ∈ Finset.range (b.gridSize 1),
      if Wrap (b.minCorner 1 + i1) (G.mapping.cartDims 1) > -1 then
        ∑ i2 ∈ Finset.range (b.gridSize 0),
          if Wrap (b.minCorner 0 + i2) (G.mapping.cartDims 0) > -1 then
            cellFn (Wrap (b.minCorner 0 + i2) (G.mapping.cartDims 0),
                Wrap (b.minCorner 1 + i1) (G.mapping.cartDims 1)) G.nC G.nB
              (fun ic ib => bGrid (ic, ib, (i2 : Int), (i1 : Int)))
          else 0
      else 0 := by
  have h := adds_forLoop (b.gridSize 1) _ _
    (fun i1 => adds_ite (Wrap (b.minCorner 1 + i1) (G.mapping.cartDims 1) > -1) _ _
      (adds_forLoop (b.gridSize 0) _ _
        (fun i2 => adds_ite (Wrap (b.minCorner 0 + i2) (G.mapping.cartDims 0) > -1) _ _
          (adds_adjBlock (Wrap (b.minCorner 0 + i2) (G.mapping.cartDims 0),
              Wrap (b.minCorner 1 + i1) (G.mapping.cartDims 1)) G.nC G.nB
            (fun ic ib => bGrid (ic, ib, (i2 : Int), (i1 : Int)))))))
    (0 : Nat × Nat × Int × Int → K)
  rw [zero_add] at h
  exact h

end Thms20

/-! ## `adjoint`, `NDim == 2`: value added by a bucket -/

section Thms21

variable {Pt K : Type} [CommRing K]

/-- Value that one bucket of `adjoint` (`NDim == 2`) adds to an entry of the grid. -/
theorem adjoint2_bucket_value (sqrt : K → K) (G : Grid 2 Pt (Nat × Nat) K)
    (y : Nat × Nat × Nat → K) (b : Bucket 2)
    (hbox : ∀ si ∈ b.indices, ∀ (d : Fin 2) (i : Nat), i < G.kW →
      0 ≤ (i : Int) + G.mapping.cart si d - ((G.kW / 2 : Nat) : Int) - b.minCorner d ∧
      (i : Int) + G.mapping.cart si d - ((G.kW / 2 : Nat) : Int) - b.minCorner d
        < (b.gridSize d : Int))
    (ic ib : Nat) (g0 g1 : Int) (hic : ic < G.nC) (hib : ib < G.nB) :
    adjoint2Merge G b (adjoint2Scratch sqrt G y b) 0 (ic, ib, g0, g1)
      = (b.indices.map (fun si =>
          ∑ i1 ∈ (Finset.range G.kW).filter (fun i : Nat =>
              G.mapping.cart si 1 - ((G.kW / 2 : Nat) : Int) + (i : Int) = g1 ∧
                0 ≤ g1 ∧ g1 < G.mapping.cartDims 1),
            ∑ i2 ∈ (Finset.range G.kW).filter (fun i : Nat =>
                G.mapping.cart si 0 - ((G.kW / 2 : Nat) : Int) + (i : Int) = g0 ∧
                  0 ≤ g0 ∧ g0 < G.mapping.cartDims 0),
              G.kernel (G.mapping.offset si) (i2, i1) * sqrt (G.basis.dim0 : K)
                * G.basis.data ((G.mapping.noncart si).trace % G.basis.dim0, ib)
                * y (ic, (G.mapping.noncart si).sample, (G.mapping.noncart si).trace))).sum := by
  rw [adjoint2Merge_eq, Finset.sum_apply]
  have hterm : ∀ i1 : Nat,
      (if Wrap (b.minCorner 1 + i1) (G.mapping.cartDims 1) > -1 then
        ∑ i2 ∈ Finset.range (b.gridSize 0),
          if Wrap (b.minCorner 0 + i2) (G.mapping.cartDims 0) > -1 then
            cellFn (Wrap (b.minCorner 0 + i2) (G.mapping.cartDims 0),
                Wrap (b.minCorner 1 + i1) (G.mapping.cartDims 1)) G.nC G.nB
              (fun ic ib => adjoint2Scratch sqrt G y b (ic, ib, (i2 : Int), (i1 : Int)))
          else 0
      else 0) (ic, ib, g0, g1)
      = if Wrap (b.minCorner 1 + i1) (G.mapping.cartDims 1) > -1 then
          (if g1 = Wrap (b.minCorner 1 + i1) (G.mapping.cartDims 1) then
            ∑ i2 ∈ Finset.range (b.gridSize 0),
              (if Wrap (b.minCorner 0 + i2) (G.mapping.cartDims 0) > -1 then
                (if g0 = Wrap (b.minCorner 0 + i2) (G.mapping.cartDims 0) then
                  adjoint2Scratch sqrt G y b (ic, ib, (i2 : Int), (i1 : Int)) else 0)
              else 0)
          else 0)
        else 0 := by
    intro i1
    by_cases h1 : Wrap (b.minCorner 1 + i1) (G.mapping.cartDims 1) > -1
    · rw [if_pos h1, if_pos h1, Finset.sum_apply]
      have hin : ∀ i2 : Nat,
          (if Wrap (b.minCorner 0 + i2) (G.mapping.cartDims 0) > -1 then
            cellFn (Wrap (b.minCorner 0 + i2) (G.mapping.cartDims 0),
                Wrap (b.minCorner 1 + i1) (G.mapping.cartDims 1)) G.nC G.nB
              (fun ic ib => adjoint2Scratch sqrt G y b (ic, ib, (i2 : Int), (i1 : Int)))
          else 0) (ic, ib, g0, g1)
          = if g1 = Wrap (b.minCorner 1 + i1) (G.mapping.cartDims 1) then
              (if Wrap (b.minCorner 0 + i2) (G.mapping.cartDims 0) > -1 then
                (if g0 = Wrap (b.minCorner 0 + i2) (G.mapping.cartDims 0) then
                  adjoint2Scratch sqrt G y b (ic, ib, (i2 : Int), (i1 : Int)) else 0)
              else 0)
            else 0 := by
        intro i2
        by_cases h2 : Wrap (b.minCorner 0 + i2) (G.mapping.cartDims 0) > -1
        · rw [if_pos h2, if_pos h2, cellFn_apply_of_lt _ _ _ _ _ _ _ hic hib]
          simp only [Prod.mk.injEq]
          by_cases e1 : g1 = Wrap (b.minCorner 1 + i1) (G.mapping.cartDims 1)
          · by_cases e0 : g0 = Wrap (b.minCorner 0 + i2) (G.mapping.cartDims 0)
            · rw [if_pos ⟨e0, e1⟩, if_pos e1, if_pos e0]
            · rw [if_neg (fun h => e0 h.1), if_pos e1, if_neg e0]
          · rw [if_neg (fun h => e1 h.2), if_neg e1]
        · rw [if_neg h2, if_neg h2]
          simp
      rw [Finset.sum_congr rfl (fun i2 _ => hin i2)]
      by_cases e1 : g1 = Wrap (b.minCorner 1 + i1) (G.mapping.cartDims 1)
      · simp only [if_pos e1]
      · simp only [if_neg e1, Finset.sum_const_zero]
    · rw [if_neg h1, if_neg h1]; rfl
  rw [Finset.sum_congr rfl (fun i1 _ => hterm i1)]
  simp only [merge_axis]
  rw [adjoint2Scratch_eq]
  simp only [Finset.sum_filter]
  by_cases hc : ((0 ≤ g1 ∧ g1 < G.mapping.cartDims 1) ∧
      0 ≤ g1 - b.minCorner 1 ∧ g1 - b.minCorner 1 < (b.gridSize 1 : Int)) ∧
      ((0 ≤ g0 ∧ g0 < G.mapping.cartDims 0) ∧
      0 ≤ g0 - b.minCorner 0 ∧ g0 - b.minCorner 0 < (b.gridSize 0 : Int))
  · rw [if_pos hc.1, if_pos hc.2, list_sum_apply]
    congr 1
    refine List.map_congr_left (fun si _ => ?_)
    rw [Finset.sum_apply]
    refine Finset.sum_congr rfl (fun i1 _ => ?_)
    rw [Finset.sum_apply]
    by_cases p1 : G.mapping.cart si 1 - ((G.kW / 2 : Nat) : Int) + (i1 : Int) = g1
    · rw [if_pos ⟨p1, hc.1.1⟩]
      refine Finset.sum_congr rfl (fun i2 _ => ?_)
      rw [cellFn_apply_of_lt _ _ _ _ _ _ _ hic hib]
      simp only [Prod.mk.injEq, Int.toNat_of_nonneg hc.1.2.1, Int.toNat_of_nonneg hc.2.2.1]
      by_cases p0 : G.mapping.cart si 0 - ((G.kW / 2 : Nat) : Int) + (i2 : Int) = g0
      · rw [if_pos (by constructor <;> omega), if_pos ⟨p0, hc.2.1⟩]
        ring
      · rw [if_neg (fun h => p0 (by have := h.1; omega)), if_neg (fun h => p0 h.1)]
    · rw [if_neg (fun h => p1 h.1)]
      apply Finset.sum_eq_zero
      intro i2 _
      rw [cellFn_apply_of_lt _ _ _ _ _ _ _ hic hib]
      simp only [Prod.mk.injEq, Int.toNat_of_nonneg hc.1.2.1, Int.toNat_of_nonneg hc.2.2.1]
      rw [if_neg (fun h => p1 (by have := h.2; omega))]
  · have hz : (if (0 ≤ g1 ∧ g1 < G.mapping.cartDims 1) ∧
          0 ≤ g1 - b.minCorner 1 ∧ g1 - b.minCorner 1 < (b.gridSize 1 : Int) then
        (if (0 ≤ g0 ∧ g0 < G.mapping.cartDims 0) ∧
            0 ≤ g0 - b.minCorner 0 ∧ g0 - b.minCorner 0 < (b.gridSize 0 : Int) then
          (List.map (fun si => ∑ i1 ∈ Finset.range G.kW, ∑ i2 ∈ Finset.range G.kW,
            cellFn
              ((i2 : Int) + G.mapping.cart si 0 - ((G.kW / 2 : Nat) : Int) - b.minCorner 0,
                (i1 : Int) + G.mapping.cart si 1 - ((G.kW / 2 : Nat) : Int) - b.minCorner 1)
              G.nC G.nB (fun ic ib =>
                y (ic, (G.mapping.noncart si).sample, (G.mapping.noncart si).trace)
                  * G.basis.data ((G.mapping.noncart si).trace % G.basis.dim0, ib)
                  * (G.kernel (G.mapping.offset si) (i2, i1) * sqrt (G.basis.dim0 : K))))
            b.indices).sum
            (ic, ib, ((g0 - b.minCorner 0).toNat : Int), ((g1 - b.minCorner 1).toNat : Int))
        else 0) else 0) = 0 := by
      split_ifs with a1 a0
      · exact absurd ⟨a1, a0⟩ hc
      · rfl
      · rfl
    rw [hz]
    symm
    apply List.sum_eq_zero
    intro v hv
    obtain ⟨si, hsi, rfl⟩ := List.mem_map.mp hv
    apply Finset.sum_eq_zero
    intro i1 hi1
    split_ifs with p1
    · apply Finset.sum_eq_zero
      intro i2 hi2
      split_ifs with p0
      · exfalso
        have b1 := hbox si hsi 1 i1 (Finset.mem_range.mp hi1)
        have b0 := hbox si hsi 0 i2 (Finset.mem_range.mp hi2)
        apply hc
        refine ⟨⟨p1.2, ?_, ?_⟩, ⟨p0.2, ?_, ?_⟩⟩ <;> omega
      · rfl
    · rfl

end Thms21

/-! ## `forward` against `adjoint`, `NDim == 2` -/

section Thms22

variable {Pt K : Type} [CommRing K]

/-- Two-axis form of `sum_cells_taps`. -/
theorem sum_cells_taps2 (N0 N1 : Int) (kW : Nat) (cell0 cell1 : Nat → Int)
    (H : Int → Int → Nat → Nat → K) :
    ∑ g1 ∈ Finset.range N1.toNat, ∑ g0 ∈ Finset.range N0.toNat,
        ∑ i1 ∈ (Finset.range kW).filter
            (fun i : Nat => cell1 i = (g1 : Int) ∧ 0 ≤ (g1 : Int) ∧ (g1 : Int) < N1),
          ∑ i2 ∈ (Finset.range kW).filter
              (fun i : Nat => cell0 i = (g0 : Int) ∧ 0 ≤ (g0 : Int) ∧ (g0 : Int) < N0),
            H g0 g1 i2 i1
      = ∑ i1 ∈ (Finset.range kW).filter (fun i : Nat => 0 ≤ cell1 i ∧ cell1 i < N1),
          ∑ i2 ∈ (Finset.range kW).filter (fun i : Nat => 0 ≤ cell0 i ∧ cell0 i < N0),
            H (cell0 i2) (cell1 i1) i2 i1 := by
  have h1 : ∀ g1 : Nat,
      ∑ g0 ∈ Finset.range N0.toNat,
        ∑ i1 ∈ (Finset.range kW).filter
            (fun i : Nat => cell1 i = (g1 : Int) ∧ 0 ≤ (g1 : Int) ∧ (g1 : Int) < N1),
          ∑ i2 ∈ (Finset.range kW).filter
              (fun i : Nat => cell0 i = (g0 : Int) ∧ 0 ≤ (g0 : Int) ∧ (g0 : Int) < N0),
            H g0 g1 i2 i1
      = ∑ i1 ∈ (Finset.range kW).filter
            (fun i : Nat => cell1 i = (g1 : Int) ∧ 0 ≤ (g1 : Int) ∧ (g1 : Int) < N1),
          ∑ i2 ∈ (Finset.range kW).filter (fun i : Nat => 0 ≤ cell0 i ∧ cell0 i < N0),
            H (cell0 i2) g1 i2 i1 := by
    intro g1
    rw [Finset.sum_comm]
    refine Finset.sum_congr rfl (fun i1 _ => ?_)
    exact sum_cells_taps N0 kW cell0 (fun g i2 => H g g1 i2 i1)
  rw [Finset.sum_congr rfl (fun g1 _ => h1 g1)]
  exact sum_cells_taps N1 kW cell1 (fun g i1 =>
    ∑ i2 ∈ (Finset.range kW).filter (fun i : Nat => 0 ≤ cell0 i ∧ cell0 i < N0),
      H (cell0 i2) g i2 i1)

/-- With every kernel footprint inside its bucket's scratch box, `adjoint` for
`NDim == 2` is the reference scatter-add with kernel scale `sqrt(P)`. -/
theorem adjoint2_value (sqrt : K → K) (G : Grid 2 Pt (Nat × Nat) K)
    (prev : Nat × Nat × Int × Int → K) (y : Nat × Nat × Nat → K) (hbox : G.FootprintInBox2)
    (ic ib : Nat) (g0 g1 : Int) (hic : ic < G.nC) (hib : ib < G.nB) :
    adjoint2 sqrt G prev y (ic, ib, g0, g1)
      = scatter2 (sqrt (G.basis.dim0 : K)) G y (ic, ib, g0, g1) := by
  rw [adjoint2_eq_sum, list_sum_apply]
  unfold scatter2 Mapping.samples
  rw [← sum_map_sum_eq_flatMap]
  congr 1
  refine List.map_congr_left (fun b hb => ?_)
  exact adjoint2_bucket_value sqrt G y b (hbox b hb) ic ib g0 g1 hic hib

/-- Adjointness, `NDim == 2`: with every footprint inside its scratch box, every slot inside the
sample tensor and an odd kernel width, `<forward(x), y> = <x, adjoint(y)>`. -/
theorem forward2_adjoint2_pair (sqrt : K → K) (G : Grid 2 Pt (Nat × Nat) K)
    (prevO : Nat × Nat × Nat → K) (prevI : Nat × Nat × Int × Int → K)
    (x : Nat × Nat × Int × Int → K) (y : Nat × Nat × Nat → K)
    (hbox : G.FootprintInBox2) (hr : G.mapping.SlotsInRange) (hodd : G.kW % 2 = 1) :
    dotSamples G (forward2 sqrt G prevO x) y = dotGrid2 G x (adjoint2 sqrt G prevI y) := by
  rw [forward2_eq, dotSamples_of_slots G hr]
  unfold dotGrid2
  have hval : ∀ ic ∈ Finset.range G.nC, ∀ ib ∈ Finset.range G.nB,
      ∀ g1 ∈ Finset.range (G.mapping.cartDims 1).toNat,
      ∀ g0 ∈ Finset.range (G.mapping.cartDims 0).toNat,
      x (ic, ib, (g0 : Int), (g1 : Int)) * adjoint2 sqrt G prevI y (ic, ib, (g0 : Int), (g1 : Int))
        = x (ic, ib, (g0 : Int), (g1 : Int))
          * scatter2 (sqrt (G.basis.dim0 : K)) G y (ic, ib, (g0 : Int), (g1 : Int)) := by
    intro ic hic ib hib g1 _ g0 _
    rw [adjoint2_value sqrt G prevI y hbox ic ib g0 g1 (Finset.mem_range.mp hic)
      (Finset.mem_range.mp hib)]
  rw [Finset.sum_congr rfl (fun ic hic => Finset.sum_congr rfl (fun ib hib =>
    Finset.sum_congr rfl (fun g1 hg1 => Finset.sum_congr rfl (fun g0 hg0 =>
      hval ic hic ib hib g1 hg1 g0 hg0))))]
  unfold scatter2
  simp only [← List.sum_map_mul_left, List.map_map, Function.comp_def]
  rw [Finset.sum_congr rfl (fun ic _ => Finset.sum_congr rfl (fun ib _ =>
    Finset.sum_congr rfl (fun g1 _ => finset_sum_list_sum _ _ _)))]
  rw [Finset.sum_congr rfl (fun ic _ => Finset.sum_congr rfl (fun ib _ =>
    finset_sum_list_sum _ _ _))]
  rw [Finset.sum_congr rfl (fun ic _ => finset_sum_list_sum _ _ _)]
  rw [finset_sum_list_sum]
  congr 1
  refine List.map_congr_left (fun si _ => ?_)
  refine Finset.sum_congr rfl (fun ic _ => ?_)
  unfold forwardSpec2
  simp only []
  rw [Finset.sum_mul]
  refine Finset.sum_congr rfl (fun ib _ => ?_)
  simp only [Finset.mul_sum]
  rw [sum_cells_taps2 (G.mapping.cartDims 0) (G.mapping.cartDims 1) G.kW
    (fun i => G.mapping.cart si 0 - ((G.kW / 2 : Nat) : Int) + (i : Int))
    (fun i => G.mapping.cart si 1 - ((G.kW / 2 : Nat) : Int) + (i : Int))
    (fun g0 g1 i2 i1 => x (ic, ib, g0, g1) *
      (G.kernel (G.mapping.offset si) (i2, i1) * sqrt (G.basis.dim0 : K)
        * G.basis.data ((G.mapping.noncart si).trace % G.basis.dim0, ib)
        * y (ic, (G.mapping.noncart si).sample, (G.mapping.noncart si).trace)))]
  have hh : (G.kW - 1) / 2 = G.kW / 2 := by omega
  rw [hh, Finset.sum_mul]
  refine Finset.sum_congr rfl (fun i1 _ => ?_)
  rw [Finset.sum_mul]
  refine Finset.sum_congr rfl (fun i2 _ => ?_)
  ring

end Thms22

/-! ## `adjoint`, `NDim == 3`: scratch and merge -/

section Thms23

variable {Pt K : Type} [CommRing K]

theorem adjoint3Scratch_eq (sqrt : K → K) (G : Grid 3 Pt (Nat × Nat × Nat) K)
    (y : Nat × Nat × Nat → K) (b : Bucket 3) :
    adjoint3Scratch sqrt G y b = (b.indices.map (fun si =>
      ∑ i1 ∈ Finset.range G.kW, ∑ i2 ∈ Finset.range G.kW, ∑ i3 ∈ Finset.range G.kW,
        cellFn
          ((i3 : Int) + G.mapping.cart si 0 - ((G.kW / 2 : Nat) : Int) - b.minCorner 0,
            (i2 : Int) + G.mapping.cart si 1 - ((G.kW / 2 : Nat) : Int) - b.minCorner 1,
            (i1 : Int) + G.mapping.cart si 2 - ((G.kW / 2 : Nat) : Int) - b.minCorner 2)
          G.nC G.nB (fun ic ib =>
            y (ic, (G.mapping.noncart si).sample, (G.mapping.noncart si).trace)
              * G.basis.data ((G.mapping.noncart si).trace % G.basis.dim0, ib)
              * (G.kernel (G.mapping.offset si) (i3, i2, i1)
                * sqrt (G.basis.dim0 : K))))).sum := by
  have h := adds_foldl b.indices _ _
    (fun si => adds_forLoop G.kW _ _ (fun i1 => adds_forLoop G.kW _ _ (fun i2 =>
      adds_forLoop G.kW _ _ (fun i3 =>
        adds_adjBlock
          ((i3 : Int) + G.mapping.cart si 0 - ((G.kW / 2 : Nat) : Int) - b.minCorner 0,
            (i2 : Int) + G.mapping.cart si 1 - ((G.kW / 2 : Nat) : Int) - b.minCorner 1,
            (i1 : Int) + G.mapping.cart si 2 - ((G.kW / 2 : Nat) : Int) - b.minCorner 2)
          G.nC G.nB (fun ic ib =>
            y (ic, (G.mapping.noncart si).sample, (G.mapping.noncart si).trace)
              * G.basis.data ((G.mapping.noncart si).trace % G.basis.dim0, ib)
              * (G.kernel (G.mapping.offset si) (i3, i2, i1)
                * sqrt (G.basis.dim0 : K)))))))
    (0 : Nat × Nat × Int × Int × Int → K)
  rw [zero_add] at h
  exact h

theorem adjoint3Merge_eq (G : Grid 3 Pt (Nat × Nat × Nat) K) (b : Bucket 3)
    (bGrid : Nat × Nat × Int × Int × Int → K) :
    adjoint3Merge G b bGrid 0 = ∑ i1 ∈ Finset.range (b.gridSize 2),
      if Wrap (b.minCorner 2 + i1) (G.mapping.cartDims 2) > -1 then
        ∑ i2 ∈ Finset.range (b.gridSize 1),
          if Wrap (b.minCorner 1 + i2) (G.mapping.cartDims 1) > -1 then
            ∑ i3 ∈ Finset.range (b.gridSize 0),
              if Wrap (b.minCorner 0 + i3) (G.mapping.cartDims 0) > -1 then
                cellFn (Wrap (b.minCorner 0 + i3) (G.mapping.cartDims 0),
                    Wrap (b.minCorner 1 + i2) (G.mapping.cartDims 1),
                    Wrap (b.minCorner 2 + i1) (G.mapping.cartDims 2)) G.nC G.nB
                  (fun ic ib => bGrid (ic, ib, (i3 : Int), (i2 : Int), (i1 : Int)))
              else 0
          else 0
      else 0 := by
  have h := adds_forLoop (b.gridSize 2) _ _
    (fun i1 => adds_ite (Wrap (b.minCorner 2 + i1) (G.mapping.cartDims 2) > -1) _ _
      (adds_forLoop (b.gridSize 1) _ _
        (fun i2 => adds_ite (Wrap (b.minCorner 1 + i2) (G.mapping.cartDims 1) > -1) _ _
          (adds_forLoop (b.gridSize 0) _ _
            (fun i3 => adds_ite (Wrap (b.minCorner 0 + i3) (G.mapping.cartDims 0) > -1) _ _
              (adds_adjBlock (Wrap (b.minCorner 0 + i3) (G.mapping.cartDims 0),
                  Wrap (b.minCorner 1 + i2) (G.mapping.cartDims 1),
                  Wrap (b.minCorner 2 + i1) (G.mapping.cartDims 2)) G.nC G.nB
                (fun ic ib => bGrid (ic, ib, (i3 : Int), (i2 : Int), (i1 : Int)))))))))
    (0 : Nat × Nat × Int × Int × Int → K)
  rw [zero_add] at h
  exact h

/-- Entry of the merged scratch tensor of one bucket (`NDim == 3`): the scratch entry at
the cell's offset inside the box when the cell is in the grid and in the box. -/
theorem adjoint3Merge_apply (G : Grid 3 Pt (Nat × Nat × Nat) K) (b : Bucket 3)
    (bGrid : Nat × Nat × Int × Int × Int → K) (ic ib : Nat) (g0 g1 g2 : Int)
    (hic : ic < G.nC) (hib : ib < G.nB) :
    adjoint3Merge G b bGrid 0 (ic, ib, g0, g1, g2)
      = if (0 ≤ g2 ∧ g2 < G.mapping.cartDims 2) ∧
            0 ≤ g2 - b.minCorner 2 ∧ g2 - b.minCorner 2 < (b.gridSize 2 : Int) then
          (if (0 ≤ g1 ∧ g1 < G.mapping.cartDims 1) ∧
              0 ≤ g1 - b.minCorner 1 ∧ g1 - b.minCorner 1 < (b.gridSize 1 : Int) then
            (if (0 ≤ g0 ∧ g0 < G.mapping.cartDims 0) ∧
                0 ≤ g0 - b.minCorner 0 ∧ g0 - b.minCorner 0 < (b.gridSize 0 : Int) then
              bGrid (ic, ib, ((g0 - b.minCorner 0).toNat : Int),
                ((g1 - b.minCorner 1).toNat : Int), ((g2 - b.minCorner 2).toNat : Int))
            else 0)
          else 0)
        else 0 := by
  rw [adjoint3Merge_eq, Finset.sum_apply]
  have hterm : ∀ i1 : Nat,
      (if Wrap (b.minCorner 2 + i1) (G.mapping.cartDims 2) > -1 then
        ∑ i2 ∈ Finset.range (b.gridSize 1),
          if Wrap (b.minCorner 1 + i2) (G.mapping.cartDims 1) > -1 then
            ∑ i3 ∈ Finset.range (b.gridSize 0),
              if Wrap (b.minCorner 0 + i3) (G.mapping.cartDims 0) > -1 then
                cellFn (Wrap (b.minCorner 0 + i3) (G.mapping.cartDims 0),
                    Wrap (b.minCorner 1 + i2) (G.mapping.cartDims 1),
                    Wrap (b.minCorner 2 + i1) (G.mapping.cartDims 2)) G.nC G.nB
                  (fun ic ib => bGrid (ic, ib, (i3 : Int), (i2 : Int), (i1 : Int)))
              else 0
          else 0
      else 0) (ic, ib, g0, g1, g2)
      = if Wrap (b.minCorner 2 + i1) (G.mapping.cartDims 2) > -1 then
          (if g2 = Wrap (b.minCorner 2 + i1) (G.mapping.cartDims 2) then
            ∑ i2 ∈ Finset.range (b.gridSize 1),
              (if Wrap (b.minCorner 1 + i2) (G.mapping.cartDims 1) > -1 then
                (if g1 = Wrap (b.minCorner 1 + i2) (G.mapping.cartDims 1) then
                  ∑ i3 ∈ Finset.range (b.gridSize 0),
                    (if Wrap (b.minCorner 0 + i3) (G.mapping.cartDims 0) > -1 then
                      (if g0 = Wrap (b.minCorner 0 + i3) (G.mapping.cartDims 0) then
                        bGrid (ic, ib, (i3 : Int), (i2 : Int), (i1 : Int)) else 0)
                    else 0)
                else 0)
              else 0)
          else 0)
        else 0 := by
    intro i1
    simp only [ite_apply, Pi.zero_apply, Finset.sum_apply,
      cellFn_apply_of_lt _ _ _ _ _ _ _ hic hib, Prod.mk.injEq]
    by_cases h1 : Wrap (b.minCorner 2 + i1) (G.mapping.cartDims 2) > -1
    · rw [if_pos h1, if_pos h1]
      by_cases e1 : g2 = Wrap (b.minCorner 2 + i1) (G.mapping.cartDims 2)
      · rw [if_pos e1]
        refine Finset.sum_congr rfl (fun i2 _ => ?_)
        by_cases h2 : Wrap (b.minCorner 1 + i2) (G.mapping.cartDims 1) > -1
        · rw [if_pos h2, if_pos h2]
          by_cases e2 : g1 = Wrap (b.minCorner 1 + i2) (G.mapping.cartDims 1)
          · rw [if_pos e2]
            refine Finset.sum_congr rfl (fun i3 _ => ?_)
            by_cases h3 : Wrap (b.minCorner 0 + i3) (G.mapping.cartDims 0) > -1
            · rw [if_pos h3, if_pos h3]
              by_cases e3 : g0 = Wrap (b.minCorner 0 + i3) (G.mapping.cartDims 0)
              · rw [if_pos ⟨e3, e2, e1⟩, if_pos e3]
              · rw [if_neg (fun h => e3 h.1), if_neg e3]
            · rw [if_neg h3, if_neg h3]
          · rw [if_neg e2]
            apply Finset.sum_eq_zero
            intro i3 _
            by_cases h3 : Wrap (b.minCorner 0 + i3) (G.mapping.cartDims 0) > -1
            · rw [if_pos h3, if_neg (fun h => e2 h.2.1)]
            · rw [if_neg h3]
        · rw [if_neg h2, if_neg h2]
      · rw [if_neg e1]
        apply Finset.sum_eq_zero
        intro i2 _
        by_cases h2 : Wrap (b.minCorner 1 + i2) (G.mapping.cartDims 1) > -1
        · rw [if_pos h2]
          apply Finset.sum_eq_zero
          intro i3 _
          by_cases h3 : Wrap (b.minCorner 0 + i3) (G.mapping.cartDims 0) > -1
          · rw [if_pos h3, if_neg (fun h => e1 h.2.2)]
          · rw [if_neg h3]
        · rw [if_neg h2]
    · rw [if_neg h1, if_neg h1]
  rw [Finset.sum_congr rfl (fun i1 _ => hterm i1)]
  simp only [merge_axis]

end Thms23

/-! ## `adjoint`, `NDim == 3`: value -/

section Thms24

variable {Pt K : Type} [CommRing K]

/-- Value that one bucket of `adjoint` (`NDim == 3`) adds to an entry of the grid. -/
theorem adjoint3_bucket_value (sqrt : K → K) (G : Grid 3 Pt (Nat × Nat × Nat) K)
    (y : Nat × Nat × Nat → K) (b : Bucket 3)
    (hbox : ∀ si ∈ b.indices, ∀ (d : Fin 3) (i : Nat), i < G.kW →
      0 ≤ (i : Int) + G.mapping.cart si d - ((G.kW / 2 : Nat) : Int) - b.minCorner d ∧
      (i : Int) + G.mapping.cart si d - ((G.kW / 2 : Nat) : Int) - b.minCorner d
        < (b.gridSize d : Int))
    (ic ib : Nat) (g0 g1 g2 : Int) (hic : ic < G.nC) (hib : ib < G.nB) :
    adjoint3Merge G b (adjoint3Scratch sqrt G y b) 0 (ic, ib, g0, g1, g2)
      = (b.indices.map (fun si =>
          ∑ i1 ∈ (Finset.range G.kW).filter (fun i : Nat =>
              G.mapping.cart si 2 - ((G.kW / 2 : Nat) : Int) + (i : Int) = g2 ∧
                0 ≤ g2 ∧ g2 < G.mapping.cartDims 2),
            ∑ i2 ∈ (Finset.range G.kW).filter (fun i : Nat =>
                G.mapping.cart si 1 - ((G.kW / 2 : Nat) : Int) + (i : Int) = g1 ∧
                  0 ≤ g1 ∧ g1 < G.mapping.cartDims 1),
              ∑ i3 ∈ (Finset.range G.kW).filter (fun i : Nat =>
                  G.mapping.cart si 0 - ((G.kW / 2 : Nat) : Int) + (i : Int) = g0 ∧
                    0 ≤ g0 ∧ g0 < G.mapping.cartDims 0),
                G.kernel (G.mapping.offset si) (i3, i2, i1) * sqrt (G.basis.dim0 : K)
                  * G.basis.data ((G.mapping.noncart si).trace % G.basis.dim0, ib)
                  * y (ic, (G.mapping.noncart si).sample,
                      (G.mapping.noncart si).trace))).sum := by
  rw [adjoint3Merge_apply G b _ ic ib g0 g1 g2 hic hib]
  simp only [Finset.sum_filter]
  by_cases hc : ((0 ≤ g2 ∧ g2 < G.mapping.cartDims 2) ∧
      0 ≤ g2 - b.minCorner 2 ∧ g2 - b.minCorner 2 < (b.gridSize 2 : Int)) ∧
      ((0 ≤ g1 ∧ g1 < G.mapping.cartDims 1) ∧
      0 ≤ g1 - b.minCorner 1 ∧ g1 - b.minCorner 1 < (b.gridSize 1 : Int)) ∧
      ((0 ≤ g0 ∧ g0 < G.mapping.cartDims 0) ∧
      0 ≤ g0 - b.minCorner 0 ∧ g0 - b.minCorner 0 < (b.gridSize 0 : Int))
  · rw [if_pos hc.1, if_pos hc.2.1, if_pos hc.2.2, adjoint3Scratch_eq, list_sum_apply]
    congr 1
    refine List.map_congr_left (fun si _ => ?_)
    rw [Finset.sum_apply]
    refine Finset.sum_congr rfl (fun i1 _ => ?_)
    rw [Finset.sum_apply]
    by_cases p1 : G.mapping.cart si 2 - ((G.kW / 2 : Nat) : Int) + (i1 : Int) = g2
    · rw [if_pos ⟨p1, hc.1.1⟩]
      refine Finset.sum_congr rfl (fun i2 _ => ?_)
      rw [Finset.sum_apply]
      by_cases p2 : G.mapping.cart si 1 - ((G.kW / 2 : Nat) : Int) + (i2 : Int) = g1
      · rw [if_pos ⟨p2, hc.2.1.1⟩]
        refine Finset.sum_congr rfl (fun i3 _ => ?_)
        rw [cellFn_apply_of_lt _ _ _ _ _ _ _ hic hib]
        simp only [Prod.mk.injEq, Int.toNat_of_nonneg hc.1.2.1,
          Int.toNat_of_nonneg hc.2.1.2.1, Int.toNat_of_nonneg hc.2.2.2.1]
        by_cases p3 : G.mapping.cart si 0 - ((G.kW / 2 : Nat) : Int) + (i3 : Int) = g0
        · rw [if_pos (by refine ⟨?_, ?_, ?_⟩ <;> omega), if_pos ⟨p3, hc.2.2.1⟩]
          ring
        · rw [if_neg (fun h => p3 (by have := h.1; omega)), if_neg (fun h => p3 h.1)]
      · rw [if_neg (fun h => p2 h.1)]
        apply Finset.sum_eq_zero
        intro i3 _
        rw [cellFn_apply_of_lt _ _ _ _ _ _ _ hic hib]
        simp only [Prod.mk.injEq, Int.toNat_of_nonneg hc.1.2.1,
          Int.toNat_of_nonneg hc.2.1.2.1, Int.toNat_of_nonneg hc.2.2.2.1]
        rw [if_neg (fun h => p2 (by have := h.2.1; omega))]
    · rw [if_neg (fun h => p1 h.1)]
      apply Finset.sum_eq_zero
      intro i2 _
      rw [Finset.sum_apply]
      apply Finset.sum_eq_zero
      intro i3 _
      rw [cellFn_apply_of_lt _ _ _ _ _ _ _ hic hib]
      simp only [Prod.mk.injEq, Int.toNat_of_nonneg hc.1.2.1,
        Int.toNat_of_nonneg hc.2.1.2.1, Int.toNat_of_nonneg hc.2.2.2.1]
      rw [if_neg (fun h => p1 (by have := h.2.2; omega))]
  · have hz : ∀ v : K, (if (0 ≤ g2 ∧ g2 < G.mapping.cartDims 2) ∧
          0 ≤ g2 - b.minCorner 2 ∧ g2 - b.minCorner 2 < (b.gridSize 2 : Int) then
        (if (0 ≤ g1 ∧ g1 < G.mapping.cartDims 1) ∧
            0 ≤ g1 - b.minCorner 1 ∧ g1 - b.minCorner 1 < (b.gridSize 1 : Int) then
          (if (0 ≤ g0 ∧ g0 < G.mapping.cartDims 0) ∧
              0 ≤ g0 - b.minCorner 0 ∧ g0 - b.minCorner 0 < (b.gridSize 0 : Int) then v
          else 0) else 0) else 0) = 0 := by
      intro v
      split_ifs with a2 a1 a0
      · exact absurd ⟨a2, a1, a0⟩ hc
      · rfl
      · rfl
      · rfl
    rw [hz]
    symm
    apply List.sum_eq_zero
    intro v hv
    obtain ⟨si, hsi, rfl⟩ := List.mem_map.mp hv
    apply Finset.sum_eq_zero
    intro i1 hi1
    split_ifs with p1
    · apply Finset.sum_eq_zero
      intro i2 hi2
      split_ifs with p2
      · apply Finset.sum_eq_zero
        intro i3 hi3
        split_ifs with p3
        · exfalso
          have b2 := hbox si hsi 2 i1 (Finset.mem_range.mp hi1)
          have b1 := hbox si hsi 1 i2 (Finset.mem_range.mp hi2)
          have b0 := hbox si hsi 0 i3 (Finset.mem_range.mp hi3)
          apply hc
          refine ⟨⟨p1.2, ?_, ?_⟩, ⟨p2.2, ?_, ?_⟩, ⟨p3.2, ?_, ?_⟩⟩ <;> omega
        · rfl
      · rfl
    · rfl

/-- With every kernel footprint inside its bucket's scratch box, `adjoint` for
`NDim == 3` is the reference scatter-add with kernel scale `sqrt(P)`. -/
theorem adjoint3_value (sqrt : K → K) (G : Grid 3 Pt (Nat × Nat × Nat) K)
    (prev : Nat × Nat × Int × Int × Int → K) (y : Nat × Nat × Nat → K)
    (hbox : G.FootprintInBox3)
    (ic ib : Nat) (g0 g1 g2 : Int) (hic : ic < G.nC) (hib : ib < G.nB) :
    adjoint3 sqrt G prev y (ic, ib, g0, g1, g2)
      = scatter3 (sqrt (G.basis.dim0 : K)) G y (ic, ib, g0, g1, g2) := by
  rw [adjoint3_eq_sum, list_sum_apply]
  unfold scatter3 Mapping.samples
  rw [← sum_map_sum_eq_flatMap]
  congr 1
  refine List.map_congr_left (fun b hb => ?_)
  exact adjoint3_bucket_value sqrt G y b (hbox b hb) ic ib g0 g1 g2 hic hib

end Thms24

/-! ## `forward` against `adjoint`, `NDim == 3` -/

section Thms25

variable {Pt K : Type} [CommRing K]

/-- Three-axis form of `sum_cells_taps`. -/
theorem sum_cells_taps3 (N0 N1 N2 : Int) (kW : Nat) (cell0 cell1 cell2 : Nat → Int)
    (H : Int → Int → Int → Nat → Nat → Nat → K) :
    ∑ g2 ∈ Finset.range N2.toNat, ∑ g1 ∈ Finset.range N1.toNat,
      ∑ g0 ∈ Finset.range N0.toNat,
        ∑ i1 ∈ (Finset.range kW).filter
            (fun i : Nat => cell2 i = (g2 : Int) ∧ 0 ≤ (g2 : Int) ∧ (g2 : Int) < N2),
          ∑ i2 ∈ (Finset.range kW).filter
              (fun i : Nat => cell1 i = (g1 : Int) ∧ 0 ≤ (g1 : Int) ∧ (g1 : Int) < N1),
            ∑ i3 ∈ (Finset.range kW).filter
                (fun i : Nat => cell0 i = (g0 : Int) ∧ 0 ≤ (g0 : Int) ∧ (g0 : Int) < N0),
              H g0 g1 g2 i3 i2 i1
      = ∑ i1 ∈ (Finset.range kW).filter (fun i : Nat => 0 ≤ cell2 i ∧ cell2 i < N2),
          ∑ i2 ∈ (Finset.range kW).filter (fun i : Nat => 0 ≤ cell1 i ∧ cell1 i < N1),
            ∑ i3 ∈ (Finset.range kW).filter (fun i : Nat => 0 ≤ cell0 i ∧ cell0 i < N0),
              H (cell0 i3) (cell1 i2) (cell2 i1) i3 i2 i1 := by
  have h1 : ∀ g2 : Nat,
      ∑ g1 ∈ Finset.range N1.toNat, ∑ g0 ∈ Finset.range N0.toNat,
        ∑ i1 ∈ (Finset.range kW).filter
            (fun i : Nat => cell2 i = (g2 : Int) ∧ 0 ≤ (g2 : Int) ∧ (g2 : Int) < N2),
          ∑ i2 ∈ (Finset.range kW).filter
              (fun i : Nat => cell1 i = (g1 : Int) ∧ 0 ≤ (g1 : Int) ∧ (g1 : Int) < N1),
            ∑ i3 ∈ (Finset.range kW).filter
                (fun i : Nat => cell0 i = (g0 : Int) ∧ 0 ≤ (g0 : Int) ∧ (g0 : Int) < N0),
              H g0 g1 g2 i3 i2 i1
      = ∑ i1 ∈ (Finset.range kW).filter
            (fun i : Nat => cell2 i = (g2 : Int) ∧ 0 ≤ (g2 : Int) ∧ (g2 : Int) < N2),
          ∑ i2 ∈ (Finset.range kW).filter (fun i : Nat => 0 ≤ cell1 i ∧ cell1 i < N1),
            ∑ i3 ∈ (Finset.range kW).filter (fun i : Nat => 0 ≤ cell0 i ∧ cell0 i < N0),
              H (cell0 i3) (cell1 i2) g2 i3 i2 i1 := by
    intro g2
    rw [Finset.sum_congr rfl (fun g1 _ => Finset.sum_comm)]
    rw [Finset.sum_comm]
    refine Finset.sum_congr rfl (fun i1 _ => ?_)
    exact sum_cells_taps2 N0 N1 kW cell0 cell1 (fun g0 g1 i3 i2 => H g0 g1 g2 i3 i2 i1)
  rw [Finset.sum_congr rfl (fun g2 _ => h1 g2)]
  exact sum_cells_taps N2 kW cell2 (fun g i1 =>
    ∑ i2 ∈ (Finset.range kW).filter (fun i : Nat => 0 ≤ cell1 i ∧ cell1 i < N1),
      ∑ i3 ∈ (Finset.range kW).filter (fun i : Nat => 0 ≤ cell0 i ∧ cell0 i < N0),
        H (cell0 i3) (cell1 i2) g i3 i2 i1)

/-- Adjointness, `NDim == 3`: with every footprint inside its scratch box, every slot inside the
sample tensor and an odd kernel width, `<forward(x), y> = <x, adjoint(y)>`. -/
theorem forward3_adjoint3_pair (sqrt : K → K) (G : Grid 3 Pt (Nat × Nat × Nat) K)
    (prevO : Nat × Nat × Nat → K) (prevI : Nat × Nat × Int × Int × Int → K)
    (x : Nat × Nat × Int × Int × Int → K) (y : Nat × Nat × Nat → K)
    (hbox : G.FootprintInBox3) (hr : G.mapping.SlotsInRange) (hodd : G.kW % 2 = 1) :
    dotSamples G (forward3 sqrt G prevO x) y = dotGrid3 G x (adjoint3 sqrt G prevI y) := by
  rw [forward3_eq, dotSamples_of_slots G hr]
  unfold dotGrid3
  have hval : ∀ ic ∈ Finset.range G.nC, ∀ ib ∈ Finset.range G.nB,
      ∀ g2 ∈ Finset.range (G.mapping.cartDims 2).toNat,
      ∀ g1 ∈ Finset.range (G.mapping.cartDims 1).toNat,
      ∀ g0 ∈ Finset.range (G.mapping.cartDims 0).toNat,
      x (ic, ib, (g0 : Int), (g1 : Int), (g2 : Int))
          * adjoint3 sqrt G prevI y (ic, ib, (g0 : Int), (g1 : Int), (g2 : Int))
        = x (ic, ib, (g0 : Int), (g1 : Int), (g2 : Int))
          * scatter3 (sqrt (G.basis.dim0 : K)) G y
              (ic, ib, (g0 : Int), (g1 : Int), (g2 : Int)) := by
    intro ic hic ib hib g2 _ g1 _ g0 _
    rw [adjoint3_value sqrt G prevI y hbox ic ib g0 g1 g2 (Finset.mem_range.mp hic)
      (Finset.mem_range.mp hib)]
  rw [Finset.sum_congr rfl (fun ic hic => Finset.sum_congr rfl (fun ib hib =>
    Finset.sum_congr rfl (fun g2 hg2 => Finset.sum_congr rfl (fun g1 hg1 =>
      Finset.sum_congr rfl (fun g0 hg0 => hval ic hic ib hib g2 hg2 g1 hg1 g0 hg0)))))]
  unfold scatter3
  simp only [← List.sum_map_mul_left, List.map_map, Function.comp_def]
  rw [Finset.sum_congr rfl (fun ic _ => Finset.sum_congr rfl (fun ib _ =>
    Finset.sum_congr rfl (fun g2 _ => Finset.sum_congr rfl (fun g1 _ =>
      finset_sum_list_sum _ _ _))))]
  rw [Finset.sum_congr rfl (fun ic _ => Finset.sum_congr rfl (fun ib _ =>
    Finset.sum_congr rfl (fun g2 _ => finset_sum_list_sum _ _ _)))]
  rw [Finset.sum_congr rfl (fun ic _ => Finset.sum_congr rfl (fun ib _ =>
    finset_sum_list_sum _ _ _))]
  rw [Finset.sum_congr rfl (fun ic _ => finset_sum_list_sum _ _ _)]
  rw [finset_sum_list_sum]
  congr 1
  refine List.map_congr_left (fun si _ => ?_)
  refine Finset.sum_congr rfl (fun ic _ => ?_)
  unfold forwardSpec3
  simp only []
  rw [Finset.sum_mul]
  refine Finset.sum_congr rfl (fun ib _ => ?_)
  simp only [Finset.mul_sum]
  rw [sum_cells_taps3 (G.mapping.cartDims 0) (G.mapping.cartDims 1) (G.mapping.cartDims 2) G.kW
    (fun i => G.mapping.cart si 0 - ((G.kW / 2 : Nat) : Int) + (i : Int))
    (fun i => G.mapping.cart si 1 - ((G.kW / 2 : Nat) : Int) + (i : Int))
    (fun i => G.mapping.cart si 2 - ((G.kW / 2 : Nat) : Int) + (i : Int))
    (fun g0 g1 g2 i3 i2 i1 => x (ic, ib, g0, g1, g2) *
      (G.kernel (G.mapping.offset si) (i3, i2, i1) * sqrt (G.basis.dim0 : K)
        * G.basis.data ((G.mapping.noncart si).trace % G.basis.dim0, ib)
        * y (ic, (G.mapping.noncart si).sample, (G.mapping.noncart si).trace)))]
  have hh : (G.kW - 1) / 2 = G.kW / 2 := by omega
  rw [hh, Finset.sum_mul]
  refine Finset.sum_congr rfl (fun i1 _ => ?_)
  rw [Finset.sum_mul]
  refine Finset.sum_congr rfl (fun i2 _ => ?_)
  rw [Finset.sum_mul]
  refine Finset.sum_congr rfl (fun i3 _ => ?_)
  ring

end Thms25

/-! ## C7 and the loop of `ConjugateGradients::run` -/

section Thms26

variable {n : Nat} {K : Type} [LinearOrderedField K]

theorem cgUpdate_eq_step (A : (Fin n → K) → (Fin n → K)) (st : CGState n K) :
    (cgUpdate A st).1.x = (cgStep A st).x ∧ (cgUpdate A st).1.r = (cgStep A st).r ∧
      (cgUpdate A st).1.p = (cgStep A st).p ∧ (cgUpdate A st).2 = Norm2 (cgStep A st).r :=
  ⟨rfl, rfl, rfl, rfl⟩

theorem cgLoop_spec (A : (Fin n → K) → (Fin n → K)) (sqrt : K → K) (thresh : K)
    (st0 : CGState n K) (fuel icg : Nat) (res : CGState n K × Nat)
    (hres : cgLoop A sqrt thresh (fun _ => false) fuel icg (cgIter A icg st0) = res) :
    res.1.x = (cgIter A res.2 st0).x ∧ res.1.r = (cgIter A res.2 st0).r ∧
      res.1.p = (cgIter A res.2 st0).p ∧ icg ≤ res.2 ∧ res.2 ≤ icg + fuel ∧
      (∀ k, icg < k → k < res.2 → ¬ sqrt (Norm2 (cgIter A k st0).r) < thresh) ∧
      (res.2 = icg + fuel ∨ sqrt (Norm2 (cgIter A res.2 st0).r) < thresh) ∧
      (res.2 < icg + fuel → icg < res.2) := by
  induction fuel generalizing icg with
  | zero =>
    simp only [cgLoop] at hres
    subst hres
    exact ⟨rfl, rfl, rfl, le_refl _, le_refl _, fun k h1 h2 => absurd h1 (by omega),
      Or.inl rfl, fun h => absurd h (by simp)⟩
  | succ fuel ih =>
    simp only [cgLoop] at hres
    by_cases hstop : sqrt (cgUpdate A (cgIter A icg st0)).2 < thresh
    · rw [if_pos hstop] at hres
      subst hres
      exact ⟨rfl, rfl, rfl, Nat.le_succ _, by simp, fun k h1 h2 => absurd h1 (by simp at h2; omega),
        Or.inr hstop, fun _ => Nat.lt_succ_self _⟩
    · rw [if_neg hstop, if_neg Bool.false_ne_true] at hres
      obtain ⟨h1, h2, h3, h4, h5, h6, h7, h8⟩ := ih (icg + 1) hres
      refine ⟨h1, h2, h3, by omega, by omega, ?_, ?_, fun _ => by omega⟩
      · intro k hk1 hk2
        by_cases hk : k = icg + 1
        · subst hk; exact hstop
        · exact h6 k (by omega) hk2
      · rcases h7 with h7 | h7
        · left; omega
        · right; exact h7

/-- C7. `NormalEqOp::forward(x)` is `op.adjfwd(x)`, which is `op.adjoint(op.forward(x))`,
whatever the input buffer held before; and `NormalEqOp` reports `outputDimensions` equal
to `inputDimensions`, both being the wrapped operator's input dimensions. -/
theorem normalEq_forward {In Out InDims OutDims : Type}
    (N : NormalEqOp In Out InDims OutDims) (input x : In) :
    N.forward input x = N.op.adjfwd x ∧
    N.forward input x = N.op.adjoint (N.op.forward x) ∧
    N.outputDimensions = N.inputDimensions ∧
    N.inputDimensions = N.op.inputDimensions :=
  ⟨rfl, rfl, rfl, rfl⟩

end Thms26

/-! ## C8: the stopping rule -/

section Thms27

variable {n : Nat} {K : Type} [LinearOrderedField K]

theorem cgInit_r_old (A : (Fin n → K) → (Fin n → K)) (b : Fin n → K)
    (x0 : Option (Fin n → K)) : (cgInit A b x0).r_old = Norm2 (cgInit A b x0).r := by
  cases x0 <;> rfl

theorem runState_spec (cg : ConjugateGradients n K) (sqrt : K → K) (b : Fin n → K)
    (x0 : Option (Fin n → K)) :
    let N := (cg.runState sqrt (fun _ => false) b x0).2
    N ≤ cg.iterLimit ∧
    (cg.runState sqrt (fun _ => false) b x0).1.x = (cgIter cg.op N (cgInit cg.op b x0)).x ∧
    (cg.runState sqrt (fun _ => false) b x0).1.r = (cgIter cg.op N (cgInit cg.op b x0)).r ∧
    (∀ k, 1 ≤ k → k < N → ¬ cgConverged cg sqrt b x0 k) ∧
    (N = cg.iterLimit ∨ cgConverged cg sqrt b x0 N) ∧
    (N < cg.iterLimit → 1 ≤ N) := by
  intro N
  have hrun : cgLoop cg.op sqrt (cg.resTol * sqrt (Norm2 (cgInit cg.op b x0).r))
      (fun _ => false) cg.iterLimit 0 (cgIter cg.op 0 (cgInit cg.op b x0))
      = cg.runState sqrt (fun _ => false) b x0 := by
    simp only [ConjugateGradients.runState, cgInit_r_old, cgIter]
  obtain ⟨h1, h2, _, _, h5, h6, h7, h8⟩ := cgLoop_spec cg.op sqrt _ (cgInit cg.op b x0)
    cg.iterLimit 0 _ hrun
  refine ⟨by simpa using h5, h1, h2, fun k hk1 hk2 => h6 k hk1 hk2, ?_,
    fun hlt => h8 (by simpa using hlt)⟩
  rcases h7 with h7 | h7
  · left; simpa using h7
  · right; exact h7

/-- The stopping rule of the loop without an interrupt, as `cg_stopping` states it. -/
theorem runState_stopping (cg : ConjugateGradients n K) (sqrt : K → K) (b : Fin n → K)
    (x0 : Option (Fin n → K)) :
    (cgInit cg.op b x0).r = (match x0 with | some v => b - cg.op v | none => b) ∧
    (cgIter cg.op 0 (cgInit cg.op b x0)).x = (match x0 with | some v => v | none => 0) ∧
    (IsLeast {k | 1 ≤ k ∧ k ≤ cg.iterLimit ∧ cgConverged cg sqrt b x0 k}
        (cg.runState sqrt (fun _ => false) b x0).2 ∨
      ((∀ k, 1 ≤ k → k ≤ cg.iterLimit → ¬ cgConverged cg sqrt b x0 k) ∧
        (cg.runState sqrt (fun _ => false) b x0).2 = cg.iterLimit)) ∧
    cg.run sqrt (fun _ => false) b x0 =
      (cgIter cg.op (cg.runState sqrt (fun _ => false) b x0).2 (cgInit cg.op b x0)).x := by
  obtain ⟨h1, h2, _, h4, h5, h6⟩ := runState_spec cg sqrt b x0
  refine ⟨by cases x0 <;> rfl, by cases x0 <;> rfl, ?_, h2⟩
  by_cases hc : cgConverged cg sqrt b x0 (cg.runState sqrt (fun _ => false) b x0).2 ∧
      1 ≤ (cg.runState sqrt (fun _ => false) b x0).2
  · left
    refine ⟨⟨hc.2, h1, hc.1⟩, fun k hk => ?_⟩
    by_contra hlt
    exact h4 k hk.1 (not_le.mp hlt) hk.2.2
  · right
    have hN : (cg.runState sqrt (fun _ => false) b x0).2 = cg.iterLimit := by
      rcases h5 with h5 | h5
      · exact h5
      · by_contra hne
        exact hc ⟨h5, h6 (lt_of_le_of_ne h1 hne)⟩
    refine ⟨fun k hk1 hk2 hconv => ?_, hN⟩
    rcases lt_or_eq_of_le (hN ▸ hk2 : k ≤ (cg.runState sqrt (fun _ => false) b x0).2) with hlt | heq
    · exact h4 k hk1 hlt hconv
    · exact hc ⟨heq ▸ hconv, heq ▸ hk1⟩

/-- C8. Without an interrupt, `ConjugateGradients::run` tests every residual against
the one threshold `resTol * |r_0|` (`r_0 = b`, or `b - A x0` for a warm start), performs
`N` iterations where `N` is the least `k` in `1..iterLimit` with `|r_k| < resTol * |r_0|`
if there is one and `iterLimit` otherwise, and returns the iterate after `N` updates
(`x0`, or zero, when no update is made). -/
theorem cg_stopping (cg : ConjugateGradients n K) (sqrt : K → K) (b : Fin n → K)
    (x0 : Option (Fin n → K)) :
    (cgInit cg.op b x0).r = (match x0 with | some v => b - cg.op v | none => b) ∧
    (cgIter cg.op 0 (cgInit cg.op b x0)).x = (match x0 with | some v => v | none => 0) ∧
    (IsLeast {k | 1 ≤ k ∧ k ≤ cg.iterLimit ∧ cgConverged cg sqrt b x0 k}
        (cg.runState sqrt (fun _ => false) b x0).2 ∨
      ((∀ k, 1 ≤ k → k ≤ cg.iterLimit → ¬ cgConverged cg sqrt b x0 k) ∧
        (cg.runState sqrt (fun _ => false) b x0).2 = cg.iterLimit)) ∧
    cg.run sqrt (fun _ => false) b x0 =
      (cgIter cg.op (cg.runState sqrt (fun _ => false) b x0).2 (cgInit cg.op b x0)).x :=
  runState_stopping cg sqrt b x0

end Thms27

/-! ## Orthogonality of a conjugate-gradient recurrence -/

section Thms28

variable {n : Nat} {K : Type} [LinearOrderedField K]

/-- Mutual orthogonality of the residuals and `A`-conjugacy of the search directions of
a conjugate-gradient recurrence whose first `m` residuals are non-zero. -/
theorem cg_recurrence_orthogonal (A : (Fin n → K) → (Fin n → K))
    (hadd : ∀ u v, A (u + v) = A u + A v) (hsmul : ∀ (c : K) u, A (c • u) = c • A u)
    (hsym : ∀ u v, Matrix.dotProduct u (A v) = Matrix.dotProduct (A u) v)
    (r p : Nat → Fin n → K) (α β : Nat → K) (m : Nat)
    (hp0 : p 0 = r 0)
    (hr : ∀ k, r (k + 1) = r k - α k • A (p k))
    (hp : ∀ k, p (k + 1) = r (k + 1) + β k • p k)
    (hα : ∀ k, k < m → α k * Matrix.dotProduct (p k) (A (p k)) = Matrix.dotProduct (r k) (r k))
    (hβ : ∀ k, k < m →
      β k * Matrix.dotProduct (r k) (r k) = Matrix.dotProduct (r (k + 1)) (r (k + 1)))
    (hne : ∀ k, k < m → r k ≠ 0) :
    ∀ k, k ≤ m → ∀ j, j ≤ k → ∀ i, i < j →
      Matrix.dotProduct (r i) (r j) = 0 ∧ Matrix.dotProduct (p i) (A (p j)) = 0 := by
  intro k
  induction k with
  | zero =>
    intro _ j hj i hi
    omega
  | succ k ih =>
    intro hk j hj i hi
    have Q := ih (by omega)
    rcases Nat.lt_or_ge j (k + 1) with hjk | hjk
    · exact Q j (by omega) i hi
    have hjeq : j = k + 1 := by omega
    subst hjeq
    have hkm : k < m := by omega
    -- residual against the current direction
    have F1 : ∀ i, i < k → Matrix.dotProduct (r i) (A (p k)) = 0 := by
      intro i hik
      cases i with
      | zero => rw [← hp0]; exact (Q k (le_refl _) 0 hik).2
      | succ i' =>
        have e : r (i' + 1) = p (i' + 1) - β i' • p i' := by rw [hp i']; simp
        rw [e, Matrix.sub_dotProduct, Matrix.smul_dotProduct,
          (Q k (le_refl _) (i' + 1) hik).2, (Q k (le_refl _) i' (by omega)).2]
        simp
    have F1k : Matrix.dotProduct (r k) (A (p k)) = Matrix.dotProduct (p k) (A (p k)) := by
      cases k with
      | zero => rw [hp0]
      | succ k' =>
        have e : r (k' + 1) = p (k' + 1) - β k' • p k' := by rw [hp k']; simp
        rw [e, Matrix.sub_dotProduct, Matrix.smul_dotProduct,
          (Q (k' + 1) (le_refl _) k' (by omega)).2]
        simp
    have F2 : ∀ i, i ≤ k → Matrix.dotProduct (r i) (r (k + 1)) = 0 := by
      intro i hik
      rw [hr k, Matrix.dotProduct_sub, Matrix.dotProduct_smul, smul_eq_mul]
      rcases Nat.lt_or_ge i k with h | h
      · rw [(Q k (le_refl _) i h).1, F1 i h]; simp
      · have : i = k := by omega
        subst this
        rw [F1k, hα i hkm]; simp
    have F3 : ∀ i, i ≤ k → Matrix.dotProduct (p i) (A (p (k + 1))) = 0 := by
      intro i hik
      have him : i < m := by omega
      have hrr : Matrix.dotProduct (r i) (r i) ≠ 0 := fun h =>
        hne i him (Matrix.dotProduct_self_eq_zero.mp h)
      have hαne : α i ≠ 0 := by
        intro h0
        have := hα i him
        rw [h0, zero_mul] at this
        exact hrr this.symm
      have hA : α i • A (p i) = r i - r (i + 1) := by rw [hr i]; simp
      have key : α i * Matrix.dotProduct (p i) (A (p (k + 1))) = 0 := by
        rw [hp k, hadd, hsmul, Matrix.dotProduct_add, Matrix.dotProduct_smul, smul_eq_mul, hsym,
          mul_add, ← smul_eq_mul, ← Matrix.smul_dotProduct, hA, Matrix.sub_dotProduct]
        rcases Nat.lt_or_ge i k with h | h
        · rw [F2 i hik, F2 (i + 1) (by omega), (Q k (le_refl _) i h).2]; simp
        · have : i = k := by omega
          subst this
          rw [F2 i hik]
          have e1 := hα i hkm
          have e2 := hβ i hkm
          calc 0 - Matrix.dotProduct (r (i + 1)) (r (i + 1))
                + α i * (β i * Matrix.dotProduct (p i) (A (p i)))
              = β i * (α i * Matrix.dotProduct (p i) (A (p i)))
                  - Matrix.dotProduct (r (i + 1)) (r (i + 1)) := by ring
            _ = 0 := by rw [e1, e2]; ring
      exact (mul_eq_zero.mp key).resolve_left hαne
    exact ⟨F2 i (by omega), F3 i (by omega)⟩

end Thms28

/-! ## Invariants of the iterates -/

section Thms29

variable {n : Nat} {K : Type} [LinearOrderedField K]

theorem cgIter_r_old (A : (Fin n → K) → (Fin n → K)) (st0 : CGState n K)
    (h0 : st0.r_old = Norm2 st0.r) (k : Nat) :
    (cgIter A k st0).r_old = Norm2 (cgIter A k st0).r := by
  cases k with
  | zero => exact h0
  | succ k => rfl

theorem cgIter_succ_x (A : (Fin n → K) → (Fin n → K)) (st0 : CGState n K) (k : Nat) :
    (cgIter A (k + 1) st0).x = (cgIter A k st0).x +
      ((cgIter A k st0).r_old / Matrix.dotProduct (cgIter A k st0).p (A (cgIter A k st0).p))
        • (cgIter A k st0).p := rfl

theorem cgIter_succ_r (A : (Fin n → K) → (Fin n → K)) (st0 : CGState n K) (k : Nat) :
    (cgIter A (k + 1) st0).r = (cgIter A k st0).r -
      ((cgIter A k st0).r_old / Matrix.dotProduct (cgIter A k st0).p (A (cgIter A k st0).p))
        • A (cgIter A k st0).p := rfl

theorem cgIter_succ_p (A : (Fin n → K) → (Fin n → K)) (st0 : CGState n K) (k : Nat) :
    (cgIter A (k + 1) st0).p = (cgIter A (k + 1) st0).r +
      (Matrix.dotProduct (cgIter A (k + 1) st0).r (cgIter A (k + 1) st0).r
        / (cgIter A k st0).r_old) • (cgIter A k st0).p := rfl

/-- Residual invariant: `r = b - A x` is preserved by every iteration. -/
theorem cgIter_residual (A : (Fin n → K) → (Fin n → K))
    (hadd : ∀ u v, A (u + v) = A u + A v) (hsmul : ∀ (c : K) u, A (c • u) = c • A u)
    (b : Fin n → K) (st0 : CGState n K) (h0 : st0.r = b - A st0.x) (k : Nat) :
    (cgIter A k st0).r = b - A (cgIter A k st0).x := by
  induction k with
  | zero => exact h0
  | succ k ih =>
    rw [cgIter_succ_r, cgIter_succ_x, hadd, hsmul, ih]
    abel

theorem cgInit_residual (A : (Fin n → K) → (Fin n → K))
    (hsmul : ∀ (c : K) u, A (c • u) = c • A u) (b : Fin n → K) (x0 : Option (Fin n → K)) :
    (cgInit A b x0).r = b - A (cgInit A b x0).x := by
  cases x0 with
  | some v => rfl
  | none =>
    have h0 : A 0 = 0 := by simpa using hsmul 0 0
    show b = b - A 0
    rw [h0, sub_zero]

theorem cgInit_p (A : (Fin n → K) → (Fin n → K)) (b : Fin n → K) (x0 : Option (Fin n → K)) :
    (cgInit A b x0).p = (cgInit A b x0).r := by
  cases x0 <;> rfl

/-- The search direction and the residual satisfy `p·r = r·r` at every iterate. -/
theorem cgIter_p_dot_r (A : (Fin n → K) → (Fin n → K)) (hA : IsSymPosDef A)
    (st0 : CGState n K) (hp : st0.p = st0.r) (h0 : st0.r_old = Norm2 st0.r) (k : Nat) :
    Matrix.dotProduct (cgIter A k st0).p (cgIter A k st0).r
      = Matrix.dotProduct (cgIter A k st0).r (cgIter A k st0).r := by
  obtain ⟨_, _, _, hpd⟩ := hA
  induction k with
  | zero => show Matrix.dotProduct st0.p st0.r = _; rw [hp]; rfl
  | succ k ih =>
    have hold := cgIter_r_old A st0 h0 k
    have hz : Matrix.dotProduct (cgIter A k st0).p (cgIter A (k + 1) st0).r = 0 := by
      by_cases hp0 : (cgIter A k st0).p = 0
      · rw [hp0]; simp
      · have hpos := hpd _ hp0
        rw [cgIter_succ_r, Matrix.dotProduct_sub, Matrix.dotProduct_smul, smul_eq_mul,
          div_mul_cancel₀ _ (ne_of_gt hpos), ih, hold]
        exact sub_self _
    rw [cgIter_succ_p, Matrix.add_dotProduct, Matrix.smul_dotProduct, hz]
    simp

theorem orthogonal_family_card_le (m : Nat) (v : Fin (m + 1) → Fin n → K)
    (hne : ∀ i, v i ≠ 0) (horth : ∀ i j, i ≠ j → Matrix.dotProduct (v i) (v j) = 0) :
    m + 1 ≤ n := by
  have hli : LinearIndependent K v := by
    rw [Fintype.linearIndependent_iff]
    intro g hg j
    have h1 : Matrix.dotProduct (v j) (∑ i, g i • v i) = g j * Matrix.dotProduct (v j) (v j) := by
      unfold Matrix.dotProduct
      simp only [Finset.sum_apply, Pi.smul_apply, smul_eq_mul, Finset.mul_sum]
      rw [Finset.sum_comm]
      rw [Finset.sum_eq_single j]
      · refine Finset.sum_congr rfl (fun x _ => by ring)
      · intro i _ hij
        have := horth j i (Ne.symm hij)
        unfold Matrix.dotProduct at this
        calc ∑ x, v j x * (g i * v i x) = g i * ∑ x, v j x * v i x := by
              rw [Finset.mul_sum]; refine Finset.sum_congr rfl (fun x _ => by ring)
          _ = 0 := by rw [this, mul_zero]
      · intro h; exact absurd (Finset.mem_univ j) h
    rw [hg] at h1
    simp only [Matrix.dotProduct_zero] at h1
    have hjj : Matrix.dotProduct (v j) (v j) ≠ 0 := fun h =>
      hne j (Matrix.dotProduct_self_eq_zero.mp h)
    exact (mul_eq_zero.mp h1.symm).resolve_right hjj
  have := hli.fintype_card_le_finrank
  simpa using this

end Thms29

/-! ## C9: convergence within `n` iterations -/

section Thms30

variable {n : Nat} {K : Type} [LinearOrderedField K]

theorem dotProduct_self_pos {v : Fin n → K} (h : v ≠ 0) : 0 < Matrix.dotProduct v v := by
  have h0 : 0 ≤ Matrix.dotProduct v v := Finset.sum_nonneg (fun i _ => mul_self_nonneg (v i))
  exact lt_of_le_of_ne h0 (fun h' => h (Matrix.dotProduct_self_eq_zero.mp h'.symm))

/-- While the residuals are non-zero they are pairwise orthogonal. -/
theorem cgIter_residuals_orthogonal (A : (Fin n → K) → (Fin n → K)) (hA : IsSymPosDef A)
    (st0 : CGState n K) (hp : st0.p = st0.r) (h0 : st0.r_old = Norm2 st0.r) (m : Nat)
    (hne : ∀ k, k < m → (cgIter A k st0).r ≠ 0) :
    ∀ j, j ≤ m → ∀ i, i < j →
      Matrix.dotProduct (cgIter A i st0).r (cgIter A j st0).r = 0 := by
  have hA' := hA
  obtain ⟨hadd, hsmul, hsym, hpd⟩ := hA'
  have hpAp : ∀ k, k < m →
      Matrix.dotProduct (cgIter A k st0).p (A (cgIter A k st0).p) ≠ 0 := by
    intro k hk
    have hrr := dotProduct_self_pos (hne k hk)
    have hpne : (cgIter A k st0).p ≠ 0 := by
      intro hp0
      have := cgIter_p_dot_r A hA st0 hp h0 k
      rw [hp0] at this
      rw [Matrix.zero_dotProduct] at this
      exact hne k hk (Matrix.dotProduct_self_eq_zero.mp this.symm)
    exact ne_of_gt (hpd _ hpne)
  have h := cg_recurrence_orthogonal A hadd hsmul hsym
    (fun k => (cgIter A k st0).r) (fun k => (cgIter A k st0).p)
    (fun k => (cgIter A k st0).r_old /
      Matrix.dotProduct (cgIter A k st0).p (A (cgIter A k st0).p))
    (fun k => Matrix.dotProduct (cgIter A (k + 1) st0).r (cgIter A (k + 1) st0).r
      / (cgIter A k st0).r_old) m hp
    (fun k => cgIter_succ_r A st0 k) (fun k => cgIter_succ_p A st0 k)
    (fun k hk => by
      show _ / _ * _ = _
      rw [div_mul_cancel₀ _ (hpAp k hk), cgIter_r_old A st0 h0 k]; rfl)
    (fun k hk => by
      show _ / _ * _ = _
      rw [cgIter_r_old A st0 h0 k]
      exact div_mul_cancel₀ _ (ne_of_gt (dotProduct_self_pos (hne k hk))))
    hne
  intro j hj i hi
  exact (h m (le_refl _) j hj i hi).1

/-- In dimension `n` some residual among `r_0, …, r_n` vanishes. -/
theorem cgIter_residual_vanishes (A : (Fin n → K) → (Fin n → K)) (hA : IsSymPosDef A)
    (st0 : CGState n K) (hp : st0.p = st0.r) (h0 : st0.r_old = Norm2 st0.r) :
    ∃ k, k ≤ n ∧ (cgIter A k st0).r = 0 := by
  by_contra hcon
  have hne : ∀ k, k < n + 1 → (cgIter A k st0).r ≠ 0 := fun k hk h =>
    hcon ⟨k, by omega, h⟩
  have horth := cgIter_residuals_orthogonal A hA st0 hp h0 (n + 1) hne
  have := orthogonal_family_card_le n (fun i : Fin (n + 1) => (cgIter A i.val st0).r)
    (fun i => hne i.val i.isLt)
    (fun i j hij => by
      rcases Nat.lt_or_ge i.val j.val with h | h
      · exact horth j.val (by omega) i.val h
      · have hlt : j.val < i.val := lt_of_le_of_ne h (fun e => hij (Fin.ext e.symm))
        rw [Matrix.dotProduct_comm]
        exact horth i.val (by omega) j.val hlt)
  omega

/-- C9. For a symmetric positive-definite operator on `K^n`, a right-hand side
`b = A x*` with `x* ≠ 0`, `resTol > 0` and `iterLimit ≥ n`, `ConjugateGradients::run`
without warm start returns `x` with `|b - A x| < resTol * |b|`. -/
theorem cg_converges (cg : ConjugateGradients n K) (sqrt : K → K) (hA : IsSymPosDef cg.op)
    (hs : IsSqrtLike sqrt) (xstar : Fin n → K) (hx : xstar ≠ 0) (hres : 0 < cg.resTol)
    (hlim : n ≤ cg.iterLimit) :
    sqrt (Norm2 (cg.op xstar - cg.op (cg.run sqrt (fun _ => false) (cg.op xstar) none)))
      < cg.resTol * sqrt (Norm2 (cg.op xstar)) := by
  have hA' := hA
  obtain ⟨hadd, hsmul, hsym, hpd⟩ := hA'
  have hb : cg.op xstar ≠ 0 := by
    intro h
    have := hpd xstar hx
    rw [h] at this
    simp at this
  have hthresh : 0 < cg.resTol * sqrt (Norm2 (cg.op xstar)) :=
    mul_pos hres (hs.2 _ (dotProduct_self_pos hb))
  have hp := cgInit_p cg.op (cg.op xstar) none
  have h0 := cgInit_r_old cg.op (cg.op xstar) none
  obtain ⟨k, hkn, hk⟩ := cgIter_residual_vanishes cg.op hA _ hp h0
  have hk1 : 1 ≤ k := by
    rcases Nat.eq_zero_or_pos k with h | h
    · subst h; exact absurd hk hb
    · exact h
  have hconv : cgConverged cg sqrt (cg.op xstar) none k := by
    unfold cgConverged
    rw [hk]
    have : Norm2 (0 : Fin n → K) = 0 := by simp [Norm2]
    rw [this, hs.1]
    exact hthresh
  obtain ⟨_, _, hN, hrun⟩ := runState_stopping cg sqrt (cg.op xstar) none
  rcases hN with hN | hN
  · have hc := hN.1.2.2
    unfold cgConverged at hc
    rw [cgIter_residual cg.op hadd hsmul (cg.op xstar) _
      (cgInit_residual cg.op hsmul (cg.op xstar) none), ← hrun] at hc
    exact hc
  · exact absurd hconv (hN.1 k hk1 (le_trans hkn hlim))

end Thms30

/-! ## C10: the energy norm -/

section Thms31

variable {n : Nat} {K : Type} [LinearOrderedField K]

theorem isSymPosDef_sub {A : (Fin n → K) → (Fin n → K)} (hA : IsSymPosDef A)
    (u v : Fin n → K) : A (u - v) = A u - A v := by
  have h1 := hA.1 u ((-1 : K) • v)
  have h2 := hA.2.1 (-1) v
  rw [h2] at h1
  simpa [sub_eq_add_neg] using h1

/-- C10 (amended). For a symmetric positive-definite operator and `b = A x*`, the
`A`-norm of the error does not increase in an iteration of `ConjugateGradients::run`
that starts from a non-zero residual. -/
theorem cg_energy_monotone (A : (Fin n → K) → (Fin n → K)) (hA : IsSymPosDef A)
    (xstar : Fin n → K) (x0 : Option (Fin n → K)) (k : Nat)
    (hk : (cgIter A k (cgInit A (A xstar) x0)).r ≠ 0) :
    cgEnergy A xstar (cgIter A (k + 1) (cgInit A (A xstar) x0)).x
      ≤ cgEnergy A xstar (cgIter A k (cgInit A (A xstar) x0)).x := by
  have hA' := hA
  obtain ⟨hadd, hsmul, hsym, hpd⟩ := hA'
  have hres := cgIter_residual A hadd hsmul (A xstar) _ (cgInit_residual A hsmul (A xstar) x0) k
  have hold := cgIter_r_old A _ (cgInit_r_old A (A xstar) x0) k
  have hpr := cgIter_p_dot_r A hA _ (cgInit_p A (A xstar) x0) (cgInit_r_old A (A xstar) x0) k
  rw [← isSymPosDef_sub hA] at hres
  have hrr := dotProduct_self_pos hk
  have hpne : (cgIter A k (cgInit A (A xstar) x0)).p ≠ 0 := by
    intro hp0
    rw [hp0, Matrix.zero_dotProduct] at hpr
    exact ne_of_gt hrr hpr.symm
  have hpAp := hpd _ hpne
  unfold cgEnergy
  rw [cgIter_succ_x, hold]
  generalize hα : Norm2 (cgIter A k (cgInit A (A xstar) x0)).r /
    Matrix.dotProduct (cgIter A k (cgInit A (A xstar) x0)).p
      (A (cgIter A k (cgInit A (A xstar) x0)).p) = α
  have hαpos : 0 ≤ α := by rw [← hα]; exact div_nonneg (le_of_lt hrr) (le_of_lt hpAp)
  have hαeq : α * Matrix.dotProduct (cgIter A k (cgInit A (A xstar) x0)).p
      (A (cgIter A k (cgInit A (A xstar) x0)).p)
      = Matrix.dotProduct (cgIter A k (cgInit A (A xstar) x0)).r
        (cgIter A k (cgInit A (A xstar) x0)).r := by
    rw [← hα]; exact div_mul_cancel₀ _ (ne_of_gt hpAp)
  generalize (cgIter A k (cgInit A (A xstar) x0)).p = p at *
  generalize (cgIter A k (cgInit A (A xstar) x0)).r = r at *
  generalize (cgIter A k (cgInit A (A xstar) x0)).x = x at *
  have e1 : xstar - (x + α • p) = (xstar - x) - α • p := by abel
  rw [e1, isSymPosDef_sub hA, hsmul, ← hres, Matrix.sub_dotProduct, Matrix.dotProduct_sub,
    Matrix.dotProduct_sub, Matrix.smul_dotProduct, Matrix.smul_dotProduct,
    Matrix.dotProduct_smul, Matrix.dotProduct_smul, hres, hsym (xstar - x) p, ← hres]
  simp only [smul_eq_mul]
  rw [Matrix.dotProduct_comm r p, hpr]
  have : Matrix.dotProduct (xstar - x) r - α * Matrix.dotProduct r r
      - (α * Matrix.dotProduct r r - α * (α * Matrix.dotProduct p (A p)))
      = Matrix.dotProduct (xstar - x) r - α * Matrix.dotProduct r r := by
    rw [hαeq]; ring
  rw [this]
  have := mul_nonneg hαpos (le_of_lt hrr)
  linarith

end Thms31

/-! ## C10: the residual norm on a concrete system -/

theorem ddMatrix_spd (K : Type) [LinearOrderedField K] : IsSymPosDef (ddMatrix K).mulVec := by
  refine ⟨fun u v => Matrix.mulVec_add _ u v, fun c u => Matrix.mulVec_smul _ c u, ?_, ?_⟩
  · intro u v
    simp [ddMatrix, Matrix.mulVec, Matrix.dotProduct, Fin.sum_univ_two]
    ring
  · intro u hu
    have h : u 0 ≠ 0 ∨ u 1 ≠ 0 := by
      by_contra hcon
      push_neg at hcon
      apply hu
      funext i
      fin_cases i
      · exact hcon.1
      · exact hcon.2
    simp [ddMatrix, Matrix.mulVec, Matrix.dotProduct, Fin.sum_univ_two]
    rcases h with h | h
    · have := mul_self_pos.mpr h
      have := mul_self_nonneg (u 1)
      nlinarith
    · have := mul_self_pos.mpr h
      have := mul_self_nonneg (u 0)
      nlinarith

theorem ddCG_op_apply (K : Type) [Field K] (v : Fin 2 → K) :
    (ddCG K).op v = ![v 0, v 1 / 100] := by
  funext i
  fin_cases i
  · simp [ddCG, ddMatrix, Matrix.mulVec, Matrix.dotProduct, Fin.sum_univ_two]
  · simp [ddCG, ddMatrix, Matrix.mulVec, Matrix.dotProduct, Fin.sum_univ_two]
    ring

theorem ddCG_first_residual (K : Type) [LinearOrderedField K] :
    (cgIter (ddCG K).op 1 (cgInit (ddCG K).op (ddB K) none)).r = ![-99 / 2, 99 / 20] := by
  have hr : (cgIter (ddCG K).op 1 (cgInit (ddCG K).op (ddB K) none)).r
      = ddB K - (Norm2 (ddB K) / Matrix.dotProduct (ddB K) ((ddCG K).op (ddB K)))
          • (ddCG K).op (ddB K) := rfl
  rw [hr, ddCG_op_apply]
  funext i
  fin_cases i <;> simp [Norm2, ddB, Matrix.dotProduct, Fin.sum_univ_two] <;> norm_num

theorem isSqrtLike_real : IsSqrtLike Real.sqrt :=
  ⟨Real.sqrt_zero, fun _ ha => Real.sqrt_pos.mpr ha⟩

theorem ddB_ne_zero (K : Type) [LinearOrderedField K] : ddB K ≠ 0 := by
  intro h
  have := congrFun h 0
  simp [ddB] at this

/-- C10 (counterexample). On the strictly diagonally dominant, symmetric positive-definite
matrix `diag(1, 1/100)` with `b = (1, 10)`, the first iteration of
`ConjugateGradients::run` is performed and increases the residual norm:
`|r_0|^2 = 101` and `|r_1|^2 = 989901/400`. -/
theorem cg_residual_norm_increases :
    IsSymPosDef (ddMatrix ℝ).mulVec ∧
    (∀ i, ∑ j ∈ Finset.univ.erase i, |ddMatrix ℝ i j| < |ddMatrix ℝ i i|) ∧
    1 ≤ ((ddCG ℝ).runState Real.sqrt (fun _ => false) (ddB ℝ) none).2 ∧
    ¬ (Real.sqrt (Norm2 (cgIter (ddCG ℝ).op 1 (cgInit (ddCG ℝ).op (ddB ℝ) none)).r)
        ≤ Real.sqrt (Norm2 (cgIter (ddCG ℝ).op 0 (cgInit (ddCG ℝ).op (ddB ℝ) none)).r)) := by
  refine ⟨ddMatrix_spd ℝ, ?_, ?_, ?_⟩
  · intro i
    fin_cases i <;> simp [ddMatrix, Finset.sum_erase]
  · obtain ⟨h1, _, _, _, h5, h6⟩ := runState_spec (ddCG ℝ) Real.sqrt (ddB ℝ) none
    rcases h5 with h5 | h5
    · rw [h5]; decide
    · by_contra hlt
      have h0 : ((ddCG ℝ).runState Real.sqrt (fun _ => false) (ddB ℝ) none).2 = 0 := by omega
      have := h6 (by rw [h0]; decide)
      omega
  · have e0 : Norm2 (cgIter (ddCG ℝ).op 0 (cgInit (ddCG ℝ).op (ddB ℝ) none)).r = 101 := by
      simp [cgIter, cgInit, Norm2, ddB, Matrix.dotProduct, Fin.sum_univ_two]
      norm_num
    have e1 : Norm2 (cgIter (ddCG ℝ).op 1 (cgInit (ddCG ℝ).op (ddB ℝ) none)).r
        = 989901 / 400 := by
      rw [ddCG_first_residual]
      simp [Norm2, Matrix.dotProduct, Fin.sum_univ_two]
      norm_num
    rw [e0, e1, not_le]
    exact Real.sqrt_lt_sqrt (by norm_num) (by norm_num)

/-! ## Witnesses for the solver theorems -/

theorem ddCG_rhs_ne_zero : (ddCG ℝ).op (ddB ℝ) ≠ 0 := by
  intro h
  have := congrFun h 0
  rw [ddCG_op_apply] at this
  simp [ddB] at this

/-- Witness for `cg_converges`: `diag(1, 1/100)` with `x* = (1, 10)` over the reals. -/
theorem cg_converges_witness :
    IsSymPosDef (ddCG ℝ).op ∧ IsSqrtLike Real.sqrt ∧ ddB ℝ ≠ 0 ∧ 0 < (ddCG ℝ).resTol ∧
    2 ≤ (ddCG ℝ).iterLimit ∧
    Real.sqrt (Norm2 ((ddCG ℝ).op (ddB ℝ) -
        (ddCG ℝ).op ((ddCG ℝ).run Real.sqrt (fun _ => false) ((ddCG ℝ).op (ddB ℝ)) none)))
      < (ddCG ℝ).resTol * Real.sqrt (Norm2 ((ddCG ℝ).op (ddB ℝ))) :=
  ⟨ddMatrix_spd ℝ, isSqrtLike_real, ddB_ne_zero ℝ, by norm_num [ddCG], by decide,
    cg_converges (ddCG ℝ) Real.sqrt (ddMatrix_spd ℝ) isSqrtLike_real (ddB ℝ) (ddB_ne_zero ℝ)
      (by norm_num [ddCG]) (by decide)⟩

/-- Witness for `cg_energy_monotone`: the first iteration on `diag(1, 1/100)` with
`x* = (1, 10)`. -/
theorem cg_energy_monotone_witness :
    IsSymPosDef (ddCG ℝ).op ∧
    (cgIter (ddCG ℝ).op 0 (cgInit (ddCG ℝ).op ((ddCG ℝ).op (ddB ℝ)) none)).r ≠ 0 ∧
    cgEnergy (ddCG ℝ).op (ddB ℝ)
        (cgIter (ddCG ℝ).op (0 + 1) (cgInit (ddCG ℝ).op ((ddCG ℝ).op (ddB ℝ)) none)).x
      ≤ cgEnergy (ddCG ℝ).op (ddB ℝ)
        (cgIter (ddCG ℝ).op 0 (cgInit (ddCG ℝ).op ((ddCG ℝ).op (ddB ℝ)) none)).x :=
  ⟨ddMatrix_spd ℝ, ddCG_rhs_ne_zero,
    cg_energy_monotone (ddCG ℝ).op (ddMatrix_spd ℝ) (ddB ℝ) none 0 ddCG_rhs_ne_zero⟩

/-! ## C20: one iteration of `ConjugateGradients::run` -/

section Thms32

variable {n : Nat} {K : Type} [LinearOrderedField K]

/-- C20. One pass through the loop body of `ConjugateGradients::run` from the workspace
`(x, r, p, rr_old)` computes `q = A p`, `alpha = rr_old / (p·q)`, `x' = x + alpha p`,
`r' = r - alpha q`, `beta = (r'·r') / rr_old`, `p' = r' + beta p`; it returns `x'` when
the loop is left and otherwise carries on from `(x', r', p', r'·r')`.  The workspace
starts as `x = x0`, `r = p = b - A x0` for a warm start and `x = 0`, `r = p = b` without
one, and at the start of every iteration `rr_old` is the squared norm of the residual. -/
theorem cg_iteration_recurrence (A : (Fin n → K) → (Fin n → K)) (sqrt : K → K) (thresh : K)
    (interrupt : Nat → Bool) (b : Fin n → K) (x0 : Option (Fin n → K)) (fuel icg : Nat)
    (st : CGState n K) :
    let q := A st.p
    let alpha := st.r_old / Matrix.dotProduct st.p q
    let x' := st.x + alpha • st.p
    let r' := st.r - alpha • q
    let beta := Matrix.dotProduct r' r' / st.r_old
    let p' := r' + beta • st.p
    let rr := Matrix.dotProduct r' r'
    cgLoop A sqrt thresh interrupt (fuel + 1) icg st =
      (if sqrt rr < thresh then ({ x := x', r := r', p := p', r_old := st.r_old }, icg + 1)
       else if interrupt icg then ({ x := x', r := r', p := p', r_old := rr }, icg + 1)
       else cgLoop A sqrt thresh interrupt fuel (icg + 1)
         { x := x', r := r', p := p', r_old := rr }) ∧
    cgStep A st = { x := x', r := r', p := p', r_old := rr } ∧
    (cgInit A b x0).x = (match x0 with | some v => v | none => 0) ∧
    (cgInit A b x0).r = (match x0 with | some v => b - A v | none => b) ∧
    (cgInit A b x0).p = (cgInit A b x0).r ∧
    ∀ k, (cgIter A k (cgInit A b x0)).r_old =
      Matrix.dotProduct (cgIter A k (cgInit A b x0)).r (cgIter A k (cgInit A b x0)).r := by
  intro q alpha x' r' beta p' rr
  refine ⟨rfl, rfl, ?_, ?_, ?_, ?_⟩
  · cases x0 <;> rfl
  · cases x0 <;> rfl
  · cases x0 <;> rfl
  · intro k
    cases k with
    | zero => exact cgInit_r_old A b x0
    | succ k => rfl

end Thms32

/-! ## C11: cancellation -/

section Thms33

variable {n : Nat} {K : Type} [LinearOrderedField K]

/-- A loop whose interrupt flag is first set at iteration `k` behaves as a loop without
interrupt that is limited to the iterations up to `k`. -/
theorem cgLoop_interrupt (A : (Fin n → K) → (Fin n → K)) (sqrt : K → K) (thresh : K)
    (interrupt : Nat → Bool) (k : Nat) (hset : interrupt k = true)
    (hfirst : ∀ j, j < k → interrupt j = false) (fuel icg : Nat) (st : CGState n K)
    (hicg : icg ≤ k) (hfuel : k < icg + fuel) :
    cgLoop A sqrt thresh interrupt fuel icg st =
      cgLoop A sqrt thresh (fun _ => false) (k + 1 - icg) icg st := by
  induction fuel generalizing icg st with
  | zero => omega
  | succ fuel ih =>
    have hk : k + 1 - icg = (k - icg) + 1 := by omega
    rw [hk]
    simp only [cgLoop]
    by_cases hstop : sqrt (cgUpdate A st).2 < thresh
    · rw [if_pos hstop, if_pos hstop]
    · rw [if_neg hstop, if_neg hstop]
      by_cases hik : icg = k
      · subst hik
        simp [hset, cgLoop]
      · have hlt : icg < k := lt_of_le_of_ne hicg hik
        rw [hfirst icg hlt]
        simp only [Bool.false_eq_true, if_false]
        rw [ih (icg + 1) _ hlt (by omega)]
        congr 1
        omega

/-- With the flag first set at iteration `k < iterLimit`, the solver returns what it
returns with `iterLimit = k + 1` and no interrupt. -/
theorem cg_runState_interrupt (cg : ConjugateGradients n K) (sqrt : K → K)
    (interrupt : Nat → Bool) (b : Fin n → K) (x0 : Option (Fin n → K)) (k : Nat)
    (hk : k < cg.iterLimit) (hset : interrupt k = true)
    (hfirst : ∀ j, j < k → interrupt j = false) :
    cg.runState sqrt interrupt b x0 =
      ConjugateGradients.runState { cg with iterLimit := k + 1 } sqrt (fun _ => false) b x0 := by
  simp only [ConjugateGradients.runState]
  rw [cgLoop_interrupt cg.op sqrt _ interrupt k hset hfirst cg.iterLimit 0 _ (Nat.zero_le _)
    (by omega)]
  rfl

/-- A loop that is not stopped by the threshold during its first `k + 1` iterations
reaches the end of iteration `k`. -/
theorem cg_runState_reaches (cg : ConjugateGradients n K) (sqrt : K → K)
    (b : Fin n → K) (x0 : Option (Fin n → K)) (k : Nat)
    (hreach : ∀ j, 1 ≤ j → j ≤ k → ¬ cgConverged cg sqrt b x0 j) :
    (ConjugateGradients.runState { cg with iterLimit := k + 1 } sqrt (fun _ => false) b x0).2
      = k + 1 := by
  obtain ⟨h1, _, _, h4, h5, h6⟩ :=
    runState_spec { cg with iterLimit := k + 1 } sqrt b x0
  by_contra hne
  have hlt := lt_of_le_of_ne h1 hne
  have h1' := h6 hlt
  rcases h5 with h5 | h5
  · exact hne h5
  · exact hreach _ h1' (by simpa using Nat.lt_succ_iff.mp hlt) h5

end Thms33

section Thms34

variable {n m : Nat} {S : Type}

/-- One pass through the loop body: the first test that holds ends the loop. -/
theorem lsqrLoop_succ (F : FloatOps S) (norm2 : (Fin n → S) → S) (L : LSQR n m S) (lam normb : S)
    (interrupt : Nat → Bool) (fuel ii : Nat) (st : LSQRState n m S) :
    lsqrLoop F norm2 L lam normb interrupt (fuel + 1) ii st =
      (match lsqrFirstTest F L normb (lsqrUpdateF F norm2 L lam ii st).2 (interrupt ii) with
       | some t => ((lsqrUpdateF F norm2 L lam ii st).1, ii + 1, some t)
       | none => lsqrLoop F norm2 L lam normb interrupt fuel (ii + 1)
           (lsqrUpdateF F norm2 L lam ii st).1) := by
  simp only [lsqrLoop, lsqrFirstTest, lsqrTests]
  split_ifs with h1 h2 h3 h4 h5 h6 h7 <;>
    simp_all only [List.find?, decide_True, decide_False, Option.map, Bool.not_eq_true]

/-- The cancellation flag is looked at only when none of the six numerical tests holds. -/
theorem lsqrFirstTest_flag (F : FloatOps S) (L : LSQR n m S) (normb : S) (nm : LSQRNorms S) (flag : Bool) :
    lsqrFirstTest F L normb nm flag =
      (match lsqrFirstTest F L normb nm false with
       | some t => some t
       | none => if flag then some .interrupted else none) := by
  simp only [lsqrFirstTest, lsqrTests, List.find?]
  split <;> rename_i h1
  · rfl
  · split <;> rename_i h2
    · rfl
    · split <;> rename_i h3
      · rfl
      · split <;> rename_i h4
        · rfl
        · split <;> rename_i h5
          · rfl
          · split <;> rename_i h6
            · rfl
            · cases flag <;> rfl

theorem lsqrLoop_spec (F : FloatOps S) (norm2 : (Fin n → S) → S) (L : LSQR n m S) (lam normb : S)
    (interrupt : Nat → Bool) (st0 : LSQRState n m S) (fuel ii : Nat)
    (res : LSQRState n m S × Nat × Option LSQRStop)
    (hres : lsqrLoop F norm2 L lam normb interrupt fuel ii (lsqrIter F norm2 L lam ii st0) = res) :
    res.1 = lsqrIter F norm2 L lam res.2.1 st0 ∧ ii ≤ res.2.1 ∧ res.2.1 ≤ ii + fuel ∧
    (∀ j, ii ≤ j → j + 1 < res.2.1 →
      lsqrFirstTest F L normb (lsqrNormsAt F norm2 L lam j st0) (interrupt j) = none) ∧
    (∀ t, res.2.2 = some t → ii < res.2.1 ∧
      lsqrFirstTest F L normb (lsqrNormsAt F norm2 L lam (res.2.1 - 1) st0)
        (interrupt (res.2.1 - 1)) = some t) ∧
    (res.2.2 = none → res.2.1 = ii + fuel ∧ ∀ j, ii ≤ j → j < res.2.1 →
      lsqrFirstTest F L normb (lsqrNormsAt F norm2 L lam j st0) (interrupt j) = none) := by
  induction fuel generalizing ii with
  | zero =>
    simp only [lsqrLoop] at hres
    subst hres
    refine ⟨rfl, le_refl _, le_refl _, fun j h1 h2 => ?_, fun t ht => ?_, fun _ => ⟨rfl, ?_⟩⟩
    · exact absurd h2 (by simp only []; omega)
    · exact absurd ht (by simp)
    · intro j h1 h2
      exact absurd h2 (by simp only []; omega)
  | succ fuel ih =>
    rw [lsqrLoop_succ] at hres
    cases htest : lsqrFirstTest F L normb (lsqrNormsAt F norm2 L lam ii st0) (interrupt ii) with
    | some t =>
      have htest' := htest
      simp only [lsqrNormsAt] at htest'
      rw [htest'] at hres
      subst hres
      refine ⟨rfl, Nat.le_succ _, by simp, fun j h1 h2 => ?_, fun t' ht' => ?_, fun h => ?_⟩
      · exact absurd h2 (by simp only []; omega)
      · simp only [Option.some.injEq] at ht'
        subst ht'
        exact ⟨Nat.lt_succ_self _, by simpa using htest⟩
      · exact absurd h (by simp)
    | none =>
      have htest' := htest
      simp only [lsqrNormsAt] at htest'
      rw [htest'] at hres
      obtain ⟨h1, h2, h3, h4, h5, h6⟩ := ih (ii + 1) hres
      refine ⟨h1, by omega, by omega, fun j hj1 hj2 => ?_, fun t ht => ?_, fun h => ?_⟩
      · by_cases hj : j = ii
        · subst hj; exact htest
        · exact h4 j (by omega) hj2
      · exact ⟨by have := (h5 t ht).1; omega, (h5 t ht).2⟩
      · refine ⟨by have := (h6 h).1; omega, fun j hj1 hj2 => ?_⟩
        by_cases hj : j = ii
        · subst hj; exact htest
        · exact (h6 h).2 j (by omega) hj2

/-- A loop whose interrupt flag is first set at iteration `k` ends with the workspace
and the iteration count of a loop without interrupt limited to the iterations up to `k`. -/
theorem lsqrLoop_interrupt (F : FloatOps S) (norm2 : (Fin n → S) → S) (L : LSQR n m S) (lam normb : S)
    (interrupt : Nat → Bool) (k : Nat) (hset : interrupt k = true)
    (hfirst : ∀ j, j < k → interrupt j = false) (fuel ii : Nat) (st : LSQRState n m S)
    (hii : ii ≤ k) (hfuel : k < ii + fuel) :
    (lsqrLoop F norm2 L lam normb interrupt fuel ii st).1 =
      (lsqrLoop F norm2 L lam normb (fun _ => false) (k + 1 - ii) ii st).1 ∧
    (lsqrLoop F norm2 L lam normb interrupt fuel ii st).2.1 =
      (lsqrLoop F norm2 L lam normb (fun _ => false) (k + 1 - ii) ii st).2.1 := by
  induction fuel generalizing ii st with
  | zero => omega
  | succ fuel ih =>
    have hk : k + 1 - ii = (k - ii) + 1 := by omega
    rw [hk, lsqrLoop_succ, lsqrLoop_succ, lsqrFirstTest_flag F L normb _ (interrupt ii)]
    cases lsqrFirstTest F L normb (lsqrUpdateF F norm2 L lam ii st).2 false with
    | some t => exact ⟨rfl, rfl⟩
    | none =>
      by_cases hik : ii = k
      · subst hik
        simp [hset, lsqrLoop]
      · have hlt : ii < k := lt_of_le_of_ne hii hik
        have hk' : k - ii = k + 1 - (ii + 1) := by omega
        simp only [hfirst ii hlt, Bool.false_eq_true, if_false, hk']
        exact ih (ii + 1) _ hlt (by omega)

end Thms34

section Thms35

variable {n m : Nat} {S : Type}

/-- The loop body does not read `iterLimit`. -/
theorem lsqrLoop_iterLimit (F : FloatOps S) (norm2 : (Fin n → S) → S) (L : LSQR n m S) (N : Nat) (lam normb : S)
    (interrupt : Nat → Bool) (fuel ii : Nat) (st : LSQRState n m S) :
    lsqrLoop F norm2 { L with iterLimit := N } lam normb interrupt fuel ii st =
      lsqrLoop F norm2 L lam normb interrupt fuel ii st := by
  induction fuel generalizing ii st with
  | zero => rfl
  | succ fuel ih =>
    rw [lsqrLoop_succ, lsqrLoop_succ]
    have hu : lsqrUpdateF F norm2 { L with iterLimit := N } lam ii st = lsqrUpdateF F norm2 L lam ii st :=
      rfl
    have ht : ∀ nm flag, lsqrFirstTest F { L with iterLimit := N } normb nm flag =
        lsqrFirstTest F L normb nm flag := fun _ _ => rfl
    rw [hu, ht, ih]

/-- With the flag first set at iteration `k < iterLimit`, `LSQR::run` ends with the
workspace and the count it has with `iterLimit = k + 1` and no interrupt. -/
theorem lsqr_runState_interrupt (F : FloatOps S) (norm2 : (Fin n → S) → S) (L : LSQR n m S) (interrupt : Nat → Bool)
    (b : Fin m → S) (lam : S) (x0 cc : Option (Fin n → S)) (k : Nat)
    (hk : k < L.iterLimit) (hset : interrupt k = true)
    (hfirst : ∀ j, j < k → interrupt j = false) :
    (L.runState F norm2 interrupt b lam x0 cc).1 =
      (LSQR.runState F norm2 { L with iterLimit := k + 1 } (fun _ => false) b lam x0 cc).1 ∧
    (L.runState F norm2 interrupt b lam x0 cc).2.1 =
      (LSQR.runState F norm2 { L with iterLimit := k + 1 } (fun _ => false) b lam x0 cc).2.1 :=
  by
  have h := lsqrLoop_interrupt F norm2 L lam (lsqrInitF F L lam b x0 cc).bd.β interrupt k hset hfirst
    L.iterLimit 0 (lsqrInitF F L lam b x0 cc) (Nat.zero_le _) (by omega)
  have hi : lsqrInitF F { L with iterLimit := k + 1 } lam b x0 cc = lsqrInitF F L lam b x0 cc := rfl
  simp only [LSQR.runState, hi, lsqrLoop_iterLimit]
  exact h

/-- The run as a whole: the iterations performed, the workspace returned and the test
that ended the loop. -/
theorem lsqr_runState_spec (F : FloatOps S) (norm2 : (Fin n → S) → S) (L : LSQR n m S) (interrupt : Nat → Bool)
    (b : Fin m → S) (lam : S) (x0 cc : Option (Fin n → S)) :
    (L.runState F norm2 interrupt b lam x0 cc).2.1 ≤ L.iterLimit ∧
    (L.runState F norm2 interrupt b lam x0 cc).1 =
      lsqrIter F norm2 L lam (L.runState F norm2 interrupt b lam x0 cc).2.1
        (lsqrInitF F L lam b x0 cc) ∧
    (∀ j, j + 1 < (L.runState F norm2 interrupt b lam x0 cc).2.1 →
      lsqrFirstTest F L (lsqrInitF F L lam b x0 cc).bd.β
        (lsqrNormsAt F norm2 L lam j (lsqrInitF F L lam b x0 cc)) (interrupt j) = none) ∧
    (∀ t, (L.runState F norm2 interrupt b lam x0 cc).2.2 = some t →
      0 < (L.runState F norm2 interrupt b lam x0 cc).2.1 ∧
      lsqrFirstTest F L (lsqrInitF F L lam b x0 cc).bd.β
        (lsqrNormsAt F norm2 L lam ((L.runState F norm2 interrupt b lam x0 cc).2.1 - 1)
          (lsqrInitF F L lam b x0 cc))
        (interrupt ((L.runState F norm2 interrupt b lam x0 cc).2.1 - 1)) = some t) ∧
    ((L.runState F norm2 interrupt b lam x0 cc).2.2 = none →
      (L.runState F norm2 interrupt b lam x0 cc).2.1 = L.iterLimit ∧
      ∀ j, j < L.iterLimit →
        lsqrFirstTest F L (lsqrInitF F L lam b x0 cc).bd.β
          (lsqrNormsAt F norm2 L lam j (lsqrInitF F L lam b x0 cc)) (interrupt j) = none) := by
  have hrun : lsqrLoop F norm2 L lam (lsqrInitF F L lam b x0 cc).bd.β interrupt L.iterLimit 0
      (lsqrIter F norm2 L lam 0 (lsqrInitF F L lam b x0 cc)) = L.runState F norm2 interrupt b lam x0 cc :=
    rfl
  obtain ⟨h1, _, h3, h4, h5, h6⟩ := lsqrLoop_spec F norm2 L lam _ interrupt _ _ _ _ hrun
  refine ⟨by simpa using h3, h1, fun j hj => h4 j (Nat.zero_le _) hj, h5, fun h => ?_⟩
  obtain ⟨h7, h8⟩ := h6 h
  have h7' : (L.runState F norm2 interrupt b lam x0 cc).2.1 = L.iterLimit := by simpa using h7
  exact ⟨h7', fun j hj => h8 j (Nat.zero_le _) (by omega)⟩

end Thms35

section Thms36

variable {n m : Nat} {S : Type}

/-- A loop in which none of the numerical tests holds during the first `k` iterations
reaches the end of iteration `k`. -/
theorem lsqrLoop_reaches (F : FloatOps S) (norm2 : (Fin n → S) → S) (L : LSQR n m S) (lam normb : S)
    (st0 : LSQRState n m S) (k : Nat)
    (hreach : ∀ j, j < k →
      lsqrFirstTest F L normb (lsqrNormsAt F norm2 L lam j st0) false = none) :
    (lsqrLoop F norm2 L lam normb (fun _ => false) (k + 1) 0 st0).2.1 = k + 1 := by
  obtain ⟨_, _, h3, _, h5, h6⟩ := lsqrLoop_spec F norm2 L lam normb (fun _ => false) st0 (k + 1) 0
    (lsqrLoop F norm2 L lam normb (fun _ => false) (k + 1) 0 st0) rfl
  cases hr : (lsqrLoop F norm2 L lam normb (fun _ => false) (k + 1) 0 st0).2.2 with
  | none => simpa using (h6 hr).1
  | some t =>
    obtain ⟨h7, h8⟩ := h5 t hr
    by_contra hne
    have hlt : (lsqrLoop F norm2 L lam normb (fun _ => false) (k + 1) 0 st0).2.1 - 1 < k := by
      omega
    rw [hreach _ hlt] at h8
    exact absurd h8 (by simp)

/-- C11. Cancellation in both solvers, with `interrupt i` the value of the flag read at
the end of iteration `i` and the flag first set at iteration `k` below the iteration
limit; `LSQR::run` is taken in an arbitrary single-precision arithmetic `F`, and its
termination tests are the comparisons of `F`.
`ConjugateGradients::run` and `LSQR::run` then return what they return with
`iterLimit = k + 1` and no interrupt; when no other test ends the loop before iteration
`k`, exactly `k + 1` iterations are performed and the value returned is the iterate after
`k + 1` updates.  Both functions are total, so a value is returned and nothing is raised;
and with the flag set from the start the first iteration is still performed, the value
returned being the iterate after one update. -/
theorem solver_cancellation {n' : Nat} {K : Type} [LinearOrderedField K]
    (cg : ConjugateGradients n' K) (sqrt : K → K) (F : FloatOps S)
    (norm2 : (Fin n → S) → S) (L : LSQR n m S) (interrupt : Nat → Bool) (bc : Fin n' → K)
    (xc : Option (Fin n' → K)) (b : Fin m → S) (lam : S) (x0 cc : Option (Fin n → S)) (k : Nat)
    (hset : interrupt k = true) (hfirst : ∀ j, j < k → interrupt j = false) :
    (k < cg.iterLimit →
      cg.run sqrt interrupt bc xc =
        ConjugateGradients.run { cg with iterLimit := k + 1 } sqrt (fun _ => false) bc xc ∧
      ((∀ j, 1 ≤ j → j ≤ k → ¬ cgConverged cg sqrt bc xc j) →
        (cg.runState sqrt interrupt bc xc).2 = k + 1 ∧
        cg.run sqrt interrupt bc xc = (cgIter cg.op (k + 1) (cgInit cg.op bc xc)).x)) ∧
    (k < L.iterLimit →
      L.run F norm2 interrupt b lam x0 cc =
        LSQR.run F norm2 { L with iterLimit := k + 1 } (fun _ => false) b lam x0 cc ∧
      ((∀ j, j < k → lsqrFirstTest F L (lsqrInitF F L lam b x0 cc).bd.β
          (lsqrNormsAt F norm2 L lam j (lsqrInitF F L lam b x0 cc)) false = none) →
        (L.runState F norm2 interrupt b lam x0 cc).2.1 = k + 1 ∧
        L.run F norm2 interrupt b lam x0 cc =
          (lsqrIter F norm2 L lam (k + 1) (lsqrInitF F L lam b x0 cc)).x)) ∧
    (0 < cg.iterLimit →
      cg.run sqrt (fun _ => true) bc xc = (cgIter cg.op 1 (cgInit cg.op bc xc)).x) ∧
    (0 < L.iterLimit →
      L.run F norm2 (fun _ => true) b lam x0 cc =
        (lsqrIter F norm2 L lam 1 (lsqrInitF F L lam b x0 cc)).x) := by
  refine ⟨fun hk => ⟨?_, fun hreach => ?_⟩, fun hk => ⟨?_, fun hreach => ?_⟩, fun h0 => ?_,
    fun h0 => ?_⟩
  · simp only [ConjugateGradients.run, cg_runState_interrupt cg sqrt interrupt bc xc k hk hset
      hfirst]
  · have he := cg_runState_interrupt cg sqrt interrupt bc xc k hk hset hfirst
    have hN := cg_runState_reaches cg sqrt bc xc k hreach
    obtain ⟨_, h2, _⟩ := runState_spec { cg with iterLimit := k + 1 } sqrt bc xc
    simp only [ConjugateGradients.run, he, hN]
    rw [hN] at h2
    exact ⟨trivial, h2⟩
  · simp only [LSQR.run, (lsqr_runState_interrupt F norm2 L interrupt b lam x0 cc k hk hset
      hfirst).1]
  · have hi := lsqrLoop_interrupt F norm2 L lam (lsqrInitF F L lam b x0 cc).bd.β interrupt k hset
      hfirst L.iterLimit 0 (lsqrInitF F L lam b x0 cc) (Nat.zero_le _) (by omega)
    have hN := lsqrLoop_reaches F norm2 L lam _ (lsqrInitF F L lam b x0 cc) k hreach
    obtain ⟨h1, _⟩ := lsqrLoop_spec F norm2 L lam (lsqrInitF F L lam b x0 cc).bd.β (fun _ => false)
      (lsqrInitF F L lam b x0 cc) (k + 1) 0
      (lsqrLoop F norm2 L lam (lsqrInitF F L lam b x0 cc).bd.β (fun _ => false) (k + 1) 0
        (lsqrInitF F L lam b x0 cc)) rfl
    have hs : (L.runState F norm2 interrupt b lam x0 cc).1 =
        lsqrIter F norm2 L lam (k + 1) (lsqrInitF F L lam b x0 cc) := by
      rw [hN] at h1
      exact hi.1.trans h1
    exact ⟨hi.2.trans hN, by simp only [LSQR.run, hs]⟩
  · obtain ⟨fuel, hf⟩ := Nat.exists_eq_succ_of_ne_zero (Nat.pos_iff_ne_zero.mp h0)
    simp only [ConjugateGradients.run, ConjugateGradients.runState, hf, cgLoop]
    split_ifs <;> rfl
  · obtain ⟨fuel, hf⟩ := Nat.exists_eq_succ_of_ne_zero (Nat.pos_iff_ne_zero.mp h0)
    simp only [LSQR.run, LSQR.runState, hf, lsqrLoop]
    split_ifs <;> rfl

/-- C12, as amended. In whatever single-precision arithmetic `F`, `LSQR::run` evaluates,
in every iteration, the comparisons `1 + 1/condA ≤ 1`, `1/condA ≤ cTol`,
`1 + normAr/(normA normr) ≤ 1`, `normAr/(normA normr) ≤ aTol`,
`normr ≤ bTol normb + aTol normA normx`, `1 + normr/(normb + normA normx) ≤ 1` and the
cancellation flag, in this order, the second and the fourth one holding also at
equality; the first one that holds ends the loop, the workspace
of that iteration being returned, and when none holds the loop carries on.  For the run
as a whole: no test holds before the last iteration performed, the test that ended the
loop is the first one holding in the last iteration, the loop ends without any test
exactly when none holds in `iterLimit` iterations, and the value returned is the iterate
after the iterations performed. -/
theorem lsqr_termination_order (F : FloatOps S) (norm2 : (Fin n → S) → S) (L : LSQR n m S)
    (interrupt : Nat → Bool) (b : Fin m → S) (lam : S) (x0 cc : Option (Fin n → S)) :
    (∀ normb fuel ii st,
      lsqrLoop F norm2 L lam normb interrupt (fuel + 1) ii st =
        (match lsqrFirstTest F L normb (lsqrUpdateF F norm2 L lam ii st).2 (interrupt ii) with
         | some t => ((lsqrUpdateF F norm2 L lam ii st).1, ii + 1, some t)
         | none => lsqrLoop F norm2 L lam normb interrupt fuel (ii + 1)
             (lsqrUpdateF F norm2 L lam ii st).1)) ∧
    (L.runState F norm2 interrupt b lam x0 cc).2.1 ≤ L.iterLimit ∧
    L.run F norm2 interrupt b lam x0 cc =
      (lsqrIter F norm2 L lam (L.runState F norm2 interrupt b lam x0 cc).2.1
        (lsqrInitF F L lam b x0 cc)).x ∧
    (∀ j, j + 1 < (L.runState F norm2 interrupt b lam x0 cc).2.1 →
      lsqrFirstTest F L (lsqrInitF F L lam b x0 cc).bd.β
        (lsqrNormsAt F norm2 L lam j (lsqrInitF F L lam b x0 cc)) (interrupt j) = none) ∧
    (∀ t, (L.runState F norm2 interrupt b lam x0 cc).2.2 = some t →
      0 < (L.runState F norm2 interrupt b lam x0 cc).2.1 ∧
      lsqrFirstTest F L (lsqrInitF F L lam b x0 cc).bd.β
        (lsqrNormsAt F norm2 L lam ((L.runState F norm2 interrupt b lam x0 cc).2.1 - 1)
          (lsqrInitF F L lam b x0 cc))
        (interrupt ((L.runState F norm2 interrupt b lam x0 cc).2.1 - 1)) = some t) ∧
    ((L.runState F norm2 interrupt b lam x0 cc).2.2 = none ↔
      ∀ j, j < L.iterLimit →
        lsqrFirstTest F L (lsqrInitF F L lam b x0 cc).bd.β
          (lsqrNormsAt F norm2 L lam j (lsqrInitF F L lam b x0 cc)) (interrupt j) = none) ∧
    ((L.runState F norm2 interrupt b lam x0 cc).2.2 = none →
      (L.runState F norm2 interrupt b lam x0 cc).2.1 = L.iterLimit) := by
  obtain ⟨h1, h2, h3, h4, h5⟩ := lsqr_runState_spec F norm2 L interrupt b lam x0 cc
  refine ⟨fun normb fuel ii st => lsqrLoop_succ F norm2 L lam normb interrupt fuel ii st, h1,
    by simp only [LSQR.run]; rw [← h2], h3, h4, ⟨fun h => (h5 h).2, fun hall => ?_⟩,
    fun h => (h5 h).1⟩
  cases hr : (L.runState F norm2 interrupt b lam x0 cc).2.2 with
  | none => rfl
  | some t =>
    obtain ⟨h6, h7⟩ := h4 t hr
    rw [hall _ (by omega)] at h7
    exact absurd h7 (by simp)

end Thms36

/-! ## The solver in exact arithmetic -/

section Thms52

variable {n m : Nat} {K : Type} [LinearOrderedField K] [FloorRing K]

/-- In exact arithmetic the initialisation in the arithmetic `F` is `lsqrInit`. -/
theorem lsqrInitF_exact (sqrt : K → K) (L : LSQR n m K) (lam : K) (b : Fin m → K)
    (x0 cc : Option (Fin n → K)) :
    lsqrInitF (FloatOps.exact K sqrt) L lam b x0 cc = lsqrInit L lam b x0 cc := by
  simp [lsqrInitF, lsqrInit, FloatOps.exact]

/-- In exact arithmetic the weight in the arithmetic `F` is `lsqrWeight`. -/
theorem lsqrWeightF_exact (sqrt : K → K) (varPre : Bool) (ii : Nat) :
    lsqrWeightF (FloatOps.exact K sqrt) varPre ii = lsqrWeight varPre ii := by
  simp [lsqrWeightF, lsqrWeight, FloatOps.exact]

/-- In exact arithmetic the rotation in the arithmetic `F` is `lsqrGivens`. -/
theorem lsqrGivensF_exact (sqrt : K → K) (L : LSQR n m K) (lam : K) (bd : BidiagVars n m K)
    (ρbar φbar : K) :
    lsqrGivensF (FloatOps.exact K sqrt) L lam bd ρbar φbar = lsqrGivens L lam bd ρbar φbar := by
  simp [lsqrGivensF, lsqrGivens, FloatOps.exact]

/-- In exact arithmetic the updates of an iteration in the arithmetic `F` are
`lsqrUpdate`. -/
theorem lsqrUpdateF_exact (sqrt : K → K) (L : LSQR n m K) (lam : K) (ii : Nat)
    (st : LSQRState n m K) :
    lsqrUpdateF (FloatOps.exact K sqrt) Norm2 L lam ii st = lsqrUpdate L sqrt lam ii st := by
  have hsm : ∀ (c : K) (a b : Fin n → K), (fun i => a i + b i * c) = a + c • b := by
    intro c a b
    funext i
    simp [mul_comm]
  have hsm' : ∀ (c : K) (a b : Fin n → K), (fun i => a i - b i * c) = a - c • b := by
    intro c a b
    funext i
    simp [mul_comm]
  simp only [lsqrUpdateF, lsqrWeightF_exact, lsqrGivensF_exact]
  simp only [FloatOps.exact, hsm, hsm', lsqrUpdate]

end Thms52

/-! ## C11, C12: the example runs -/

/-- A non-negative number is the square root of its square. -/
theorem real_sqrt_eq {x y : ℝ} (hy : 0 ≤ y) (h : y * y = x) : Real.sqrt x = y := by
  rw [← h]
  exact Real.sqrt_mul_self hy

/-- The estimates of the first iteration on `fixedRoutines`, in exact arithmetic:
`ρ = sqrt (3·3 + 4·4) = 5`, `c = 3/5`, `s = 4/5`, `w = (4)`, `ddnorm = 16/25`,
`normA = 5` and `condA = 5 · sqrt (16/25) = 4`. -/
theorem fixed_norms_zero (L : LSQR 1 1 ℝ)
    (hr : L.routines = fixedRoutines (FloatOps.exact ℝ Real.sqrt)) (hv : L.varPre = false) :
    lsqrNormsAt (FloatOps.exact ℝ Real.sqrt) (norm2One (FloatOps.exact ℝ Real.sqrt)) L 0 0
      (lsqrInitF (FloatOps.exact ℝ Real.sqrt) L 0 ![1] none none) =
      { normr := 4 / 5, normAr := 36 / 25, normA := 5, condA := 4, normx := 3 / 25 } := by
  have h25 : Real.sqrt 25 = 5 := real_sqrt_eq (by norm_num) (by norm_num)
  have h16 : Real.sqrt 16 = 4 := real_sqrt_eq (by norm_num) (by norm_num)
  have h9 : Real.sqrt 9 = 3 := real_sqrt_eq (by norm_num) (by norm_num)
  have h625 : Real.sqrt 625 = 25 := real_sqrt_eq (by norm_num) (by norm_num)
  have habs : |(12 : ℝ) / 25| = 12 / 25 := abs_of_pos (by norm_num)
  simp only [lsqrNormsAt, lsqrIter, lsqrUpdateF, lsqrInitF, lsqrGivensF, lsqrWeightF, hr, hv,
    fixedRoutines, norm2One, FloatOps.exact]
  norm_num [h25, h16, h9, h625, habs]

/-- On `fixedRoutines` with the default tolerances none of the numerical tests holds in
the first iteration. -/
theorem fixed_first_test :
    lsqrFirstTest (FloatOps.exact ℝ Real.sqrt) (fixedLSQR (FloatOps.exact ℝ Real.sqrt))
      (lsqrInitF (FloatOps.exact ℝ Real.sqrt) (fixedLSQR (FloatOps.exact ℝ Real.sqrt)) 0 ![1]
        none none).bd.β
      (lsqrNormsAt (FloatOps.exact ℝ Real.sqrt) (norm2One (FloatOps.exact ℝ Real.sqrt))
        (fixedLSQR (FloatOps.exact ℝ Real.sqrt)) 0 0
        (lsqrInitF (FloatOps.exact ℝ Real.sqrt) (fixedLSQR (FloatOps.exact ℝ Real.sqrt)) 0 ![1]
          none none)) false = none := by
  rw [fixed_norms_zero _ rfl rfl]
  simp only [lsqrFirstTest, lsqrTests, lsqrInitF, fixedLSQR, fixedRoutines, FloatOps.exact]
  norm_num [List.find?]

/-- The residual of `ddCG` after one iteration is not below the threshold. -/
theorem ddCG_not_converged_one : ¬ cgConverged (ddCG ℝ) Real.sqrt (ddB ℝ) none 1 := by
  have e0 : Norm2 (cgInit (ddCG ℝ).op (ddB ℝ) none).r = 101 := by
    have hr : (cgInit (ddCG ℝ).op (ddB ℝ) none).r = ddB ℝ := rfl
    rw [hr]
    simp [Norm2, ddB, Matrix.dotProduct, Fin.sum_univ_two]
    norm_num
  have e1 : Norm2 (cgIter (ddCG ℝ).op 1 (cgInit (ddCG ℝ).op (ddB ℝ) none)).r = 989901 / 400 := by
    rw [ddCG_first_residual]
    simp [Norm2, Matrix.dotProduct, Fin.sum_univ_two]
    norm_num
  have h1 : (1 : ℝ) ≤ Real.sqrt (989901 / 400) :=
    (Real.le_sqrt' (by norm_num)).mpr (by norm_num)
  have h2 : Real.sqrt 101 ≤ 11 := Real.sqrt_le_iff.mpr ⟨by norm_num, by norm_num⟩
  have ht : (ddCG ℝ).resTol = 1 / 1000000 := rfl
  rw [cgConverged, e0, e1, ht, not_lt]
  linarith

/-- C12, counterexample. On `fixedRoutines` the first iteration gives `condA = 4` and
the ratio `normAr / (normA normr) = 9/25`.  With `cTol = 0.25` the condition number
equals `1/cTol` and does not exceed it, and with `aTol = 0.36` the ratio equals `aTol`
and is not below it; in either case none of the tests holds when the second and the
fourth are read strictly, so that a second iteration would be due, `iterLimit` being
`8`.  The loop is left after the first iteration, through the second `break` as
`1/condA ≤ cTol` holds, and through the fourth as the ratio is `≤ aTol`.  In single
precision the values are the same floats: `ρ = normA = 5`, `ddnorm = 0.64f`,
`condA = 4`, `1/condA = 0.25f`, and the ratio is `1.44f / 4 = 0.36f`. -/
theorem lsqr_stops_at_equality :
    ((boundLSQR (FloatOps.exact ℝ Real.sqrt)).cTol = 1 / 4 ∧
      (lsqrNormsAt (FloatOps.exact ℝ Real.sqrt) (norm2One (FloatOps.exact ℝ Real.sqrt))
        (boundLSQR (FloatOps.exact ℝ Real.sqrt)) 0 0
        (lsqrInitF (FloatOps.exact ℝ Real.sqrt) (boundLSQR (FloatOps.exact ℝ Real.sqrt)) 0
          ![1] none none)).condA = 4 ∧
      ¬ (1 / (boundLSQR (FloatOps.exact ℝ Real.sqrt)).cTol < (4 : ℝ)) ∧
      lsqrFirstTestStrict (FloatOps.exact ℝ Real.sqrt)
        (boundLSQR (FloatOps.exact ℝ Real.sqrt))
        (lsqrInitF (FloatOps.exact ℝ Real.sqrt) (boundLSQR (FloatOps.exact ℝ Real.sqrt)) 0
          ![1] none none).bd.β
        (lsqrNormsAt (FloatOps.exact ℝ Real.sqrt) (norm2One (FloatOps.exact ℝ Real.sqrt))
          (boundLSQR (FloatOps.exact ℝ Real.sqrt)) 0 0
          (lsqrInitF (FloatOps.exact ℝ Real.sqrt) (boundLSQR (FloatOps.exact ℝ Real.sqrt)) 0
            ![1] none none)) false = none ∧
      1 < (boundLSQR (FloatOps.exact ℝ Real.sqrt)).iterLimit ∧
      ((boundLSQR (FloatOps.exact ℝ Real.sqrt)).runState (FloatOps.exact ℝ Real.sqrt)
        (norm2One (FloatOps.exact ℝ Real.sqrt)) (fun _ => false) ![1] 0 none none).2 =
          (1, some .condExceededLimit)) ∧
    ((ratioLSQR (FloatOps.exact ℝ Real.sqrt)).aTol = 9 / 25 ∧
      (lsqrNormsAt (FloatOps.exact ℝ Real.sqrt) (norm2One (FloatOps.exact ℝ Real.sqrt))
        (ratioLSQR (FloatOps.exact ℝ Real.sqrt)) 0 0
        (lsqrInitF (FloatOps.exact ℝ Real.sqrt) (ratioLSQR (FloatOps.exact ℝ Real.sqrt)) 0
          ![1] none none)) =
        { normr := 4 / 5, normAr := 36 / 25, normA := 5, condA := 4, normx := 3 / 25 } ∧
      ¬ ((36 / 25 : ℝ) / (5 * (4 / 5)) < (ratioLSQR (FloatOps.exact ℝ Real.sqrt)).aTol) ∧
      lsqrFirstTestStrict (FloatOps.exact ℝ Real.sqrt)
        (ratioLSQR (FloatOps.exact ℝ Real.sqrt))
        (lsqrInitF (FloatOps.exact ℝ Real.sqrt) (ratioLSQR (FloatOps.exact ℝ Real.sqrt)) 0
          ![1] none none).bd.β
        (lsqrNormsAt (FloatOps.exact ℝ Real.sqrt) (norm2One (FloatOps.exact ℝ Real.sqrt))
          (ratioLSQR (FloatOps.exact ℝ Real.sqrt)) 0 0
          (lsqrInitF (FloatOps.exact ℝ Real.sqrt) (ratioLSQR (FloatOps.exact ℝ Real.sqrt)) 0
            ![1] none none)) false = none ∧
      1 < (ratioLSQR (FloatOps.exact ℝ Real.sqrt)).iterLimit ∧
      ((ratioLSQR (FloatOps.exact ℝ Real.sqrt)).runState (FloatOps.exact ℝ Real.sqrt)
        (norm2One (FloatOps.exact ℝ Real.sqrt)) (fun _ => false) ![1] 0 none none).2 =
          (1, some .leastSquaresTolerance)) := by
  have hc : (boundLSQR (FloatOps.exact ℝ Real.sqrt)).cTol = 1 / 4 := by
    simp [boundLSQR, FloatOps.exact]
  have ha : (ratioLSQR (FloatOps.exact ℝ Real.sqrt)).aTol = 9 / 25 := by
    simp [ratioLSQR, FloatOps.exact]
  refine ⟨⟨hc, ?_, ?_, ?_, by decide, ?_⟩, ⟨ha, fixed_norms_zero _ rfl rfl, ?_, ?_, by decide, ?_⟩⟩
  · rw [fixed_norms_zero _ rfl rfl]
  · rw [hc]
    norm_num
  · rw [fixed_norms_zero _ rfl rfl]
    simp only [lsqrFirstTestStrict, lsqrTestsStrict, lsqrInitF, boundLSQR, fixedLSQR,
      fixedRoutines, FloatOps.exact]
    norm_num [List.find?]
  · have hn := fixed_norms_zero (boundLSQR (FloatOps.exact ℝ Real.sqrt)) rfl rfl
    simp only [lsqrNormsAt, lsqrIter] at hn
    have hl : (boundLSQR (FloatOps.exact ℝ Real.sqrt)).iterLimit = 7 + 1 := rfl
    have ht : lsqrFirstTest (FloatOps.exact ℝ Real.sqrt)
        (boundLSQR (FloatOps.exact ℝ Real.sqrt))
        (lsqrInitF (FloatOps.exact ℝ Real.sqrt) (boundLSQR (FloatOps.exact ℝ Real.sqrt)) 0
          ![1] none none).bd.β
        { normr := 4 / 5, normAr := 36 / 25, normA := 5, condA := 4, normx := 3 / 25 }
        false = some .condExceededLimit := by
      simp only [lsqrFirstTest, lsqrTests, lsqrInitF, boundLSQR, fixedLSQR, fixedRoutines,
        FloatOps.exact]
      norm_num [List.find?]
    simp only [LSQR.runState, hl]
    rw [lsqrLoop_succ, hn, ht]
  · rw [ha]
    norm_num
  · rw [fixed_norms_zero _ rfl rfl]
    simp only [lsqrFirstTestStrict, lsqrTestsStrict, lsqrInitF, ratioLSQR, fixedLSQR,
      fixedRoutines, FloatOps.exact]
    norm_num [List.find?]
  · have hn := fixed_norms_zero (ratioLSQR (FloatOps.exact ℝ Real.sqrt)) rfl rfl
    simp only [lsqrNormsAt, lsqrIter] at hn
    have hl : (ratioLSQR (FloatOps.exact ℝ Real.sqrt)).iterLimit = 7 + 1 := rfl
    have ht : lsqrFirstTest (FloatOps.exact ℝ Real.sqrt)
        (ratioLSQR (FloatOps.exact ℝ Real.sqrt))
        (lsqrInitF (FloatOps.exact ℝ Real.sqrt) (ratioLSQR (FloatOps.exact ℝ Real.sqrt)) 0
          ![1] none none).bd.β
        { normr := 4 / 5, normAr := 36 / 25, normA := 5, condA := 4, normx := 3 / 25 }
        false = some .leastSquaresTolerance := by
      simp only [lsqrFirstTest, lsqrTests, lsqrInitF, ratioLSQR, fixedLSQR, fixedRoutines,
        FloatOps.exact]
      norm_num [List.find?]
    simp only [LSQR.runState, hl]
    rw [lsqrLoop_succ, hn, ht]

/-- Witness for `solver_cancellation`: the flag is set at the end of the first iteration.
Both solvers then perform one iteration, `LSQR::run` leaving through the `break` of the
flag, where they perform at least two without it. -/
theorem solver_cancellation_witness :
    (fun j => decide (j = 0)) 0 = true ∧
    (∀ j, j < 0 → (fun j => decide (j = 0)) j = false) ∧
    ((ddCG ℝ).runState Real.sqrt (fun j => decide (j = 0)) (ddB ℝ) none).2 = 0 + 1 ∧
    2 ≤ ((ddCG ℝ).runState Real.sqrt (fun _ => false) (ddB ℝ) none).2 ∧
    (ddCG ℝ).run Real.sqrt (fun j => decide (j = 0)) (ddB ℝ) none =
      (cgIter (ddCG ℝ).op (0 + 1) (cgInit (ddCG ℝ).op (ddB ℝ) none)).x ∧
    ((fixedLSQR (FloatOps.exact ℝ Real.sqrt)).runState (FloatOps.exact ℝ Real.sqrt)
      (norm2One (FloatOps.exact ℝ Real.sqrt)) (fun j => decide (j = 0)) ![1] 0 none
      none).2 = (0 + 1, some .interrupted) ∧
    2 ≤ ((fixedLSQR (FloatOps.exact ℝ Real.sqrt)).runState (FloatOps.exact ℝ Real.sqrt)
      (norm2One (FloatOps.exact ℝ Real.sqrt)) (fun _ => false) ![1] 0 none none).2.1 ∧
    (fixedLSQR (FloatOps.exact ℝ Real.sqrt)).run (FloatOps.exact ℝ Real.sqrt)
      (norm2One (FloatOps.exact ℝ Real.sqrt)) (fun j => decide (j = 0)) ![1] 0 none none =
      (lsqrIter (FloatOps.exact ℝ Real.sqrt) (norm2One (FloatOps.exact ℝ Real.sqrt))
        (fixedLSQR (FloatOps.exact ℝ Real.sqrt)) 0 (0 + 1)
        (lsqrInitF (FloatOps.exact ℝ Real.sqrt) (fixedLSQR (FloatOps.exact ℝ Real.sqrt)) 0
          ![1] none none)).x :=
  have h := solver_cancellation (ddCG ℝ) Real.sqrt (FloatOps.exact ℝ Real.sqrt)
    (norm2One (FloatOps.exact ℝ Real.sqrt)) (fixedLSQR (FloatOps.exact ℝ Real.sqrt))
    (fun j => decide (j = 0)) (ddB ℝ) none ![1] 0 none none 0 (by decide)
    (fun j hj => absurd hj (Nat.not_lt_zero j))
  have hcg := (h.1 (by decide)).2 (fun j h1 h2 => absurd h1 (by omega))
  have hls := (h.2.1 (by decide)).2 (fun j hj => absurd hj (Nat.not_lt_zero j))
  have hcg2 : 2 ≤ ((ddCG ℝ).runState Real.sqrt (fun _ => false) (ddB ℝ) none).2 := by
    obtain ⟨_, _, _, _, h5, h6⟩ := runState_spec (ddCG ℝ) Real.sqrt (ddB ℝ) none
    have hlim : (ddCG ℝ).iterLimit = 16 := rfl
    by_contra hlt
    have hlt' : ((ddCG ℝ).runState Real.sqrt (fun _ => false) (ddB ℝ) none).2 < 16 := by omega
    have h1 := h6 (by rw [hlim]; exact hlt')
    have heq : ((ddCG ℝ).runState Real.sqrt (fun _ => false) (ddB ℝ) none).2 = 1 := by omega
    rcases h5 with h5 | h5
    · omega
    · rw [heq] at h5
      exact ddCG_not_converged_one h5
  have hstop : ((fixedLSQR (FloatOps.exact ℝ Real.sqrt)).runState (FloatOps.exact ℝ Real.sqrt)
      (norm2One (FloatOps.exact ℝ Real.sqrt)) (fun j => decide (j = 0)) ![1] 0 none
      none).2 = (0 + 1, some .interrupted) := by
    have hl : (fixedLSQR (FloatOps.exact ℝ Real.sqrt)).iterLimit = 7 + 1 := rfl
    have ht := fixed_first_test
    simp only [lsqrNormsAt, lsqrIter] at ht
    simp only [LSQR.runState, hl]
    rw [lsqrLoop_succ, lsqrFirstTest_flag, ht]
    rfl
  have hls2 : 2 ≤ ((fixedLSQR (FloatOps.exact ℝ Real.sqrt)).runState
      (FloatOps.exact ℝ Real.sqrt) (norm2One (FloatOps.exact ℝ Real.sqrt)) (fun _ => false)
      ![1] 0 none none).2.1 := by
    obtain ⟨_, _, _, h4, h5⟩ := lsqr_runState_spec (FloatOps.exact ℝ Real.sqrt)
      (norm2One (FloatOps.exact ℝ Real.sqrt)) (fixedLSQR (FloatOps.exact ℝ Real.sqrt))
      (fun _ => false) ![1] 0 none none
    have hl : (fixedLSQR (FloatOps.exact ℝ Real.sqrt)).iterLimit = 8 := rfl
    cases hr : ((fixedLSQR (FloatOps.exact ℝ Real.sqrt)).runState
      (FloatOps.exact ℝ Real.sqrt) (norm2One (FloatOps.exact ℝ Real.sqrt)) (fun _ => false)
      ![1] 0 none none).2.2 with
    | none =>
      rw [(h5 hr).1, hl]
      decide
    | some t =>
      obtain ⟨h6, h7⟩ := h4 t hr
      by_contra hlt
      have heq : ((fixedLSQR (FloatOps.exact ℝ Real.sqrt)).runState
        (FloatOps.exact ℝ Real.sqrt) (norm2One (FloatOps.exact ℝ Real.sqrt)) (fun _ => false)
        ![1] 0 none none).2.1 - 1 = 0 := by omega
      rw [heq, fixed_first_test] at h7
      exact absurd h7 (by simp)
  ⟨by decide, fun j hj => absurd hj (Nat.not_lt_zero j), hcg.1, hcg2, hcg.2, hstop, hls2,
    hls.2⟩

/-! ## C13, C14, C15: validation of a trajectory -/

/-- The entries of a tensor are its values at the indices within its dimensions. -/
theorem mem_elements {K : Type} (t : Re3 K) (v : K) :
    v ∈ t.elements ↔ ∃ i j k, i < t.dim0 ∧ j < t.dim1 ∧ k < t.dim2 ∧ t.data (i, j, k) = v := by
  simp only [Re3.elements, List.mem_flatMap, List.mem_map, List.mem_range]
  constructor
  · rintro ⟨k, hk, j, hj, i, hi, h⟩
    exact ⟨i, j, k, hi, hj, hk, h⟩
  · rintro ⟨i, j, k, hi, hj, hk, h⟩
    exact ⟨k, hk, j, hj, i, hi, h⟩

section Thms37

variable {K : Type} [LinearOrderedField K]

theorem lt_foldl_max_iff (c a : K) (xs : List K) :
    c < xs.foldl max a ↔ c < a ∨ ∃ x ∈ xs, c < x := by
  induction xs generalizing a with
  | nil => simp
  | cons y ys ih =>
    rw [List.foldl_cons, ih, lt_max_iff]
    constructor
    · rintro ((h | h) | ⟨x, hx, h⟩)
      · exact Or.inl h
      · exact Or.inr ⟨y, List.mem_cons_self _ _, h⟩
      · exact Or.inr ⟨x, List.mem_cons_of_mem _ hx, h⟩
    · rintro (h | ⟨x, hx, h⟩)
      · exact Or.inl (Or.inl h)
      · rcases List.mem_cons.mp hx with rfl | hx
        · exact Or.inl (Or.inr h)
        · exact Or.inr ⟨x, hx, h⟩

theorem foldl_max_mem (a : K) (xs : List K) : xs.foldl max a = a ∨ xs.foldl max a ∈ xs := by
  induction xs generalizing a with
  | nil => exact Or.inl rfl
  | cons y ys ih =>
    rw [List.foldl_cons]
    rcases ih (max a y) with h | h
    · rcases max_choice a y with h' | h'
      · left; rw [h, h']
      · right; rw [h, h']; exact List.mem_cons_self _ _
    · right; exact List.mem_cons_of_mem _ h

theorem le_foldl_max (a : K) (xs : List K) (x : K) (hx : x ∈ xs) : x ≤ xs.foldl max a := by
  by_contra h
  have h' := not_le.mp h
  have := (lt_foldl_max_iff (xs.foldl max a) a xs).mpr (Or.inr ⟨x, hx, h'⟩)
  exact lt_irrefl _ this

theorem floatLowest_lt_half : (floatLowest : K) < 1 / 2 := by
  have h : (0 : K) < 340282346638528859811704183484516925440 := by norm_num
  have h2 : (0 : K) < 1 / 2 := by norm_num
  simp only [floatLowest]
  linarith

/-- The maximum absolute coordinate exceeds `0.5` exactly when some coordinate does. -/
theorem maximum_abs_gt_half (t : Re3 K) :
    1 / 2 < Maximum t.abs ↔
      ∃ i j k, i < t.dim0 ∧ j < t.dim1 ∧ k < t.dim2 ∧ 1 / 2 < |t.data (i, j, k)| := by
  rw [Maximum, lt_foldl_max_iff]
  constructor
  · rintro (h | ⟨x, hx, h⟩)
    · exact absurd h (not_lt.mpr (le_of_lt floatLowest_lt_half))
    · obtain ⟨i, j, k, hi, hj, hk, he⟩ := (mem_elements _ _).mp hx
      exact ⟨i, j, k, hi, hj, hk, by rw [← he] at h; exact h⟩
  · rintro ⟨i, j, k, hi, hj, hk, h⟩
    exact Or.inr ⟨_, (mem_elements t.abs _).mpr ⟨i, j, k, hi, hj, hk, rfl⟩, h⟩

/-- When the maximum absolute coordinate exceeds `0.5` it is the absolute value of a
coordinate and bounds all of them. -/
theorem maximum_abs_attained (t : Re3 K) (h : 1 / 2 < Maximum t.abs) :
    (∃ i j k, i < t.dim0 ∧ j < t.dim1 ∧ k < t.dim2 ∧ Maximum t.abs = |t.data (i, j, k)|) ∧
    ∀ i j k, i < t.dim0 → j < t.dim1 → k < t.dim2 → |t.data (i, j, k)| ≤ Maximum t.abs := by
  constructor
  · rcases foldl_max_mem floatLowest t.abs.elements with h' | h'
    · rw [Maximum, h'] at h
      exact absurd h (not_lt.mpr (le_of_lt floatLowest_lt_half))
    · obtain ⟨i, j, k, hi, hj, hk, he⟩ := (mem_elements _ _).mp h'
      exact ⟨i, j, k, hi, hj, hk, he.symm⟩
  · intro i j k hi hj hk
    exact le_foldl_max _ _ _ ((mem_elements t.abs _).mpr ⟨i, j, k, hi, hj, hk, rfl⟩)

/-- The outcome of the constructor in terms of the two tests of `init`. -/
theorem make_eq (info : Info K) (points : Re3 K) :
    Trajectory.make info points =
      if points.dim0 < 1 ∨ points.dim0 > 3 then
        .error { fmt := "Trajectory has \x7b\x7d dimensions", args := [.index points.dim0] }
      else if 1 / 2 < Maximum points.abs then
        .error { fmt := "Maximum trajectory co-ordinate \x7b\x7d exceeded 0.5",
                 args := [.real (Maximum points.abs)] }
      else .ok { info_ := info, points_ := points } := by
  simp only [Trajectory.make, Trajectory.init, gt_iff_lt]
  split_ifs <;> rfl

end Thms37

section Thms38

variable {K : Type} [LinearOrderedField K]

/-- C13. Constructing a `Trajectory` fails exactly when the first dimension of the points
tensor is below 1 or above 3, or the maximum absolute coordinate exceeds `0.5`, which
is the case exactly when some coordinate exceeds `0.5` in absolute value.  With one to
three rows and every coordinate within `±0.5`, bounds included, the trajectory is
constructed; and with one to three rows the failure carries the maximum absolute
coordinate, which is attained by a coordinate and bounds all of them. -/
theorem trajectory_make_fails_iff (info : Info K) (points : Re3 K) :
    ((∃ e, Trajectory.make info points = .error e) ↔
      (points.dim0 < 1 ∨ 3 < points.dim0) ∨ 1 / 2 < Maximum points.abs) ∧
    (1 / 2 < Maximum points.abs ↔
      ∃ i j k, i < points.dim0 ∧ j < points.dim1 ∧ k < points.dim2 ∧
        1 / 2 < |points.data (i, j, k)|) ∧
    (1 ≤ points.dim0 → points.dim0 ≤ 3 →
      (∀ i j k, i < points.dim0 → j < points.dim1 → k < points.dim2 →
        |points.data (i, j, k)| ≤ 1 / 2) →
      Trajectory.make info points = .ok { info_ := info, points_ := points }) ∧
    (1 ≤ points.dim0 → points.dim0 ≤ 3 → 1 / 2 < Maximum points.abs →
      Trajectory.make info points =
        .error { fmt := "Maximum trajectory co-ordinate \x7b\x7d exceeded 0.5",
                 args := [.real (Maximum points.abs)] } ∧
      (∃ i j k, i < points.dim0 ∧ j < points.dim1 ∧ k < points.dim2 ∧
        Maximum points.abs = |points.data (i, j, k)|) ∧
      ∀ i j k, i < points.dim0 → j < points.dim1 → k < points.dim2 →
        |points.data (i, j, k)| ≤ Maximum points.abs) := by
  refine ⟨?_, maximum_abs_gt_half points, fun h1 h3 hall => ?_, fun h1 h3 hmax => ?_⟩
  · rw [make_eq]
    split_ifs with hd hm
    · exact ⟨fun _ => Or.inl hd, fun _ => ⟨_, rfl⟩⟩
    · exact ⟨fun _ => Or.inr hm, fun _ => ⟨_, rfl⟩⟩
    · constructor
      · rintro ⟨e, he⟩
        exact absurd he (by simp)
      · rintro (h | h)
        · exact absurd h hd
        · exact absurd h hm
  · rw [make_eq, if_neg (by omega), if_neg]
    rw [maximum_abs_gt_half]
    rintro ⟨i, j, k, hi, hj, hk, h⟩
    exact absurd h (not_lt.mpr (hall i j k hi hj hk))
  · rw [make_eq, if_neg (by omega), if_pos hmax]
    exact ⟨rfl, maximum_abs_attained points hmax⟩

/-- C14, as amended. The range policy of the constructor is a test of the single
coordinates: construction fails whenever some coordinate of some sample exceeds `0.5`
in absolute value, and the squared radius of a sample of a constructed trajectory is at
most a quarter of the number of coordinate rows. -/
theorem trajectory_coordinate_policy (info : Info K) (points : Re3 K) :
    ((∃ i j k, i < points.dim0 ∧ j < points.dim1 ∧ k < points.dim2 ∧
        1 / 2 < |points.data (i, j, k)|) →
      ∃ e, Trajectory.make info points = .error e) ∧
    (∀ t, Trajectory.make info points = .ok t →
      ∀ j k, j < points.dim1 → k < points.dim2 →
        ∑ i ∈ Finset.range points.dim0, points.data (i, j, k) * points.data (i, j, k)
          ≤ (points.dim0 : K) / 4) := by
  constructor
  · intro h
    rw [make_eq]
    split_ifs with hd hm
    · exact ⟨_, rfl⟩
    · exact ⟨_, rfl⟩
    · exact absurd ((maximum_abs_gt_half points).mpr h) hm
  · intro t ht j k hj hk
    rw [make_eq] at ht
    split_ifs at ht with hd hm
    have hle : ∀ i, i ∈ Finset.range points.dim0 →
        points.data (i, j, k) * points.data (i, j, k) ≤ 1 / 4 := by
      intro i hi
      have hi' := Finset.mem_range.mp hi
      have hb : |points.data (i, j, k)| ≤ 1 / 2 := by
        by_contra hc
        exact hm ((maximum_abs_gt_half points).mpr ⟨i, j, k, hi', hj, hk, not_le.mp hc⟩)
      have h0 := abs_nonneg (points.data (i, j, k))
      have : |points.data (i, j, k)| * |points.data (i, j, k)| ≤ 1 / 2 * (1 / 2) :=
        mul_le_mul hb hb h0 (by norm_num)
      rw [abs_mul_abs_self] at this
      linarith
    calc ∑ i ∈ Finset.range points.dim0, points.data (i, j, k) * points.data (i, j, k)
        ≤ ∑ _i ∈ Finset.range points.dim0, (1 / 4 : K) := Finset.sum_le_sum hle
      _ = (points.dim0 : K) / 4 := by
        rw [Finset.sum_const, Finset.card_range, nsmul_eq_mul]
        ring

/-- C15, as amended. A points tensor with one to three coordinate rows and no samples
per trace, or no traces, is accepted: the constructor returns the empty trajectory. -/
theorem empty_trajectory_accepted (info : Info K) (points : Re3 K)
    (hlo : 1 ≤ points.dim0) (hhi : points.dim0 ≤ 3)
    (hempty : points.dim1 = 0 ∨ points.dim2 = 0) :
    Trajectory.make info points = .ok { info_ := info, points_ := points } := by
  rw [make_eq, if_neg (by omega), if_neg]
  rw [maximum_abs_gt_half]
  rintro ⟨i, j, k, hi, hj, hk, h⟩
  rcases hempty with h0 | h0
  · rw [h0] at hj; exact absurd hj (Nat.not_lt_zero _)
  · rw [h0] at hk; exact absurd hk (Nat.not_lt_zero _)

end Thms38

/-- C14, counterexample. The single sample `(2/5, 2/5)` has radius above `0.5`, yet
the trajectory is constructed. -/
theorem trajectory_radius_not_checked :
    (∃ j k, j < (constPoints ℝ 2 1 1 (2 / 5)).dim1 ∧ k < (constPoints ℝ 2 1 1 (2 / 5)).dim2 ∧
      1 / 2 < Norm Real.sqrt (Trajectory.point
        { info_ := exInfo ℝ, points_ := constPoints ℝ 2 1 1 (2 / 5) } j k)) ∧
    Trajectory.make (exInfo ℝ) (constPoints ℝ 2 1 1 (2 / 5)) =
      .ok { info_ := exInfo ℝ, points_ := constPoints ℝ 2 1 1 (2 / 5) } := by
  constructor
  · refine ⟨0, 0, by decide, by decide, ?_⟩
    simp only [Norm, Trajectory.point, constPoints, Finset.sum_range_succ, Finset.sum_range_zero]
    rw [Real.lt_sqrt (by norm_num)]
    norm_num
  · rw [make_eq, if_neg (by simp [constPoints]), if_neg]
    rw [maximum_abs_gt_half]
    rintro ⟨i, j, k, _, _, _, h⟩
    simp only [constPoints] at h
    rw [abs_of_pos (by norm_num)] at h
    norm_num at h

/-- Witness for `trajectory_coordinate_policy`: the coordinate `3/4` of a one-row
trajectory. -/
theorem trajectory_coordinate_policy_witness :
    (∃ i j k, i < (constPoints ℚ 1 1 1 (3 / 4)).dim0 ∧ j < (constPoints ℚ 1 1 1 (3 / 4)).dim1 ∧
      k < (constPoints ℚ 1 1 1 (3 / 4)).dim2 ∧
      1 / 2 < |(constPoints ℚ 1 1 1 (3 / 4)).data (i, j, k)|) ∧
    ∃ e, Trajectory.make (exInfo ℚ) (constPoints ℚ 1 1 1 (3 / 4)) = .error e :=
  have h : ∃ i j k, i < (constPoints ℚ 1 1 1 (3 / 4)).dim0 ∧
      j < (constPoints ℚ 1 1 1 (3 / 4)).dim1 ∧ k < (constPoints ℚ 1 1 1 (3 / 4)).dim2 ∧
      1 / 2 < |(constPoints ℚ 1 1 1 (3 / 4)).data (i, j, k)| :=
    ⟨0, 0, 0, by decide, by decide, by decide, by
      simp only [constPoints]; rw [abs_of_pos (by norm_num)]; norm_num⟩
  ⟨h, (trajectory_coordinate_policy (exInfo ℚ) (constPoints ℚ 1 1 1 (3 / 4))).1 h⟩

/-- C15, counterexample. One coordinate row, no samples, one trace: the constructor
does not fail. -/
theorem empty_trajectory_not_fatal :
    (constPoints ℚ 1 0 1 0).dim0 = 1 ∧ (constPoints ℚ 1 0 1 0).dim1 = 0 ∧
    ¬ ∃ e, Trajectory.make (exInfo ℚ) (constPoints ℚ 1 0 1 0) = .error e := by
  refine ⟨rfl, rfl, ?_⟩
  rw [make_eq, if_neg (by simp [constPoints]), if_neg]
  · rintro ⟨e, he⟩
    exact absurd he (by simp)
  · rw [maximum_abs_gt_half]
    rintro ⟨i, j, k, _, hj, _, _⟩
    exact absurd hj (Nat.not_lt_zero _)

/-- Witness for `empty_trajectory_accepted`: three coordinate rows, four samples per
trace, no traces. -/
theorem empty_trajectory_accepted_witness :
    1 ≤ (constPoints ℚ 3 4 0 0).dim0 ∧ (constPoints ℚ 3 4 0 0).dim0 ≤ 3 ∧
    ((constPoints ℚ 3 4 0 0).dim1 = 0 ∨ (constPoints ℚ 3 4 0 0).dim2 = 0) ∧
    Trajectory.make (exInfo ℚ) (constPoints ℚ 3 4 0 0) =
      .ok { info_ := exInfo ℚ, points_ := constPoints ℚ 3 4 0 0 } :=
  ⟨by decide, by decide, Or.inr rfl,
    empty_trajectory_accepted (exInfo ℚ) (constPoints ℚ 3 4 0 0) (by decide) (by decide)
      (Or.inr rfl)⟩

/-! ## C17: the reordering check of `Basis::Basis` -/

section Thms39

variable {K : Type} [LinearOrderedField K]

/-- The constructor fails exactly for a non-empty reorder list shorter than `nRetain`. -/
theorem select_error_iff (svdVals : List K) (V : Re2 K) (thresh : K) (nBasis : Int)
    (reorder : List Int) :
    (∃ e, Basis.select svdVals V thresh nBasis reorder = .error e) ↔
      reorder ≠ [] ∧ (reorder.length : Int) < Basis.nRetain svdVals thresh nBasis := by
  have hne : reorder.length ≠ 0 ↔ reorder ≠ [] := by
    rw [Ne, List.length_eq_zero]
  simp only [Basis.select]
  split_ifs with h1 h2
  · exact ⟨fun _ => ⟨hne.mp h1, h2⟩, fun _ => ⟨_, rfl⟩⟩
  · constructor
    · rintro ⟨e, he⟩
      exact absurd he (by simp)
    · rintro ⟨_, h⟩
      exact absurd h h2
  · constructor
    · rintro ⟨e, he⟩
      exact absurd he (by simp)
    · rintro ⟨h, _⟩
      exact absurd (hne.mpr h) h1

/-- C17, as amended. With a non-empty reorder list the constructor fails, with the
message 'Basis and reordering size did not match', exactly when the list is shorter than
the number of retained basis vectors `nRetain`; a list at least that long is accepted.
With an empty reorder list it does not fail.  `nRetain` is `nBasis` when that is not
zero and otherwise the number of cumulative-energy percentages below `thresh`. -/
theorem basis_reorder_check (svdVals : List K) (V : Re2 K) (thresh : K) (nBasis : Int)
    (reorder : List Int) :
    ((∃ e, Basis.select svdVals V thresh nBasis reorder = .error e) ↔
      reorder ≠ [] ∧ (reorder.length : Int) < Basis.nRetain svdVals thresh nBasis) ∧
    (∀ e, Basis.select svdVals V thresh nBasis reorder = .error e →
      e.fmt = "Basis and reordering size did not match") ∧
    (reorder = [] → ∃ basis, Basis.select svdVals V thresh nBasis reorder = .ok basis) ∧
    (nBasis ≠ 0 → Basis.nRetain svdVals thresh nBasis = nBasis) ∧
    (nBasis = 0 → Basis.nRetain svdVals thresh nBasis =
      (((Basis.cumsum svdVals).filter fun c => c < thresh).length : Int)) := by
  refine ⟨select_error_iff svdVals V thresh nBasis reorder, ?_, ?_,
    fun h => by simp only [Basis.nRetain, if_pos h],
    fun h => by simp only [Basis.nRetain, h, ne_eq, not_true_eq_false, if_false]⟩
  · intro e he
    simp only [Basis.select] at he
    split_ifs at he with h1 h2
    cases he
    rfl
  · intro h
    subst h
    simp only [Basis.select, List.length_nil, ne_eq, not_true_eq_false, if_false]
    exact ⟨_, rfl⟩

end Thms39

/-- C17, counterexample. A reorder list of three entries with two retained basis
vectors: the sizes differ and the constructor does not fail. -/
theorem basis_longer_reorder_accepted :
    ([0, 1, 2] : List Int) ≠ [] ∧
    (([0, 1, 2] : List Int).length : Int) ≠ Basis.nRetain ([2, 1, 1] : List ℚ) 100 2 ∧
    ¬ ∃ e, Basis.select ([2, 1, 1] : List ℚ) (onesMatrix ℚ 3 3) 100 2 [0, 1, 2] = .error e := by
  refine ⟨by decide, by simp [Basis.nRetain], ?_⟩
  rw [select_error_iff]
  rintro ⟨_, h⟩
  simp [Basis.nRetain] at h

/-! ## C18, C19: `SDC::Pipe` -/

section Thms40

variable {Kern Map C K : Type} [LinearOrderedField K]

theorem pipeLoop_spec (gridder : Gridder C K) (sqrt : K → K) (W0 : Re3 K) (fuel ii : Nat)
    (res : Re3 K × Nat)
    (hres : pipeLoop gridder sqrt fuel ii (pipeIter gridder ii W0) = res) :
    res.1 = pipeIter gridder res.2 W0 ∧ ii ≤ res.2 ∧ res.2 ≤ ii + fuel ∧
    (∀ j, ii ≤ j → j + 1 < res.2 →
      ¬ pipeDelta gridder sqrt (pipeIter gridder j W0) < 1 / 10000000) ∧
    (res.2 = ii + fuel ∨
      (ii < res.2 ∧ pipeDelta gridder sqrt (pipeIter gridder (res.2 - 1) W0) < 1 / 10000000)) := by
  induction fuel generalizing ii with
  | zero =>
    simp only [pipeLoop] at hres
    subst hres
    exact ⟨rfl, le_refl _, le_refl _, fun j h1 h2 => absurd h2 (by simp only []; omega),
      Or.inl rfl⟩
  | succ fuel ih =>
    simp only [pipeLoop] at hres
    by_cases hstop : pipeDelta gridder sqrt (pipeIter gridder ii W0) < 1 / 10000000
    · rw [if_pos hstop] at hres
      subst hres
      exact ⟨rfl, Nat.le_succ _, by simp, fun j h1 h2 => absurd h2 (by simp only []; omega),
        Or.inr ⟨Nat.lt_succ_self _, by simpa using hstop⟩⟩
    · rw [if_neg hstop] at hres
      obtain ⟨h1, h2, h3, h4, h5⟩ := ih (ii + 1) hres
      refine ⟨h1, by omega, by omega, fun j hj1 hj2 => ?_, ?_⟩
      · by_cases hj : j = ii
        · subst hj; exact hstop
        · exact h4 j (by omega) hj2
      · rcases h5 with h5 | h5
        · left; omega
        · right; exact ⟨by omega, h5.2⟩

/-- The dimensions of the weights never change. -/
theorem pipeIter_dims (gridder : Gridder C K) (W0 : Re3 K) (k : Nat) :
    (pipeIter gridder k W0).dim0 = W0.dim0 ∧ (pipeIter gridder k W0).dim1 = W0.dim1 ∧
      (pipeIter gridder k W0).dim2 = W0.dim2 := by
  induction k with
  | zero => exact ⟨rfl, rfl, rfl⟩
  | succ k ih => exact ih

/-- A weight is zero after an iteration in which `A(Adj(W))` is not positive there, and
a weight that is zero stays zero. -/
theorem pipeIter_zero (gridder : Gridder C K) (W0 : Re3 K) (j : Nat) (s : Nat × Nat × Nat)
    (hnp : ¬ 0 < gridder.A (gridder.Adj (pipeIter gridder j W0).data) s) (k : Nat)
    (hk : j < k) : (pipeIter gridder k W0).data s = 0 := by
  induction k with
  | zero => omega
  | succ k ih =>
    show (if gridder.A (gridder.Adj (pipeIter gridder k W0).data) s > 0 then
      (pipeIter gridder k W0).data s / gridder.A (gridder.Adj (pipeIter gridder k W0).data) s
      else 0) = 0
    by_cases hjk : j = k
    · subst hjk
      rw [if_neg hnp]
    · rw [ih (by omega), zero_div, ite_self]

/-- A valid trajectory passes the validation again when its header is changed. -/
theorem make_of_init (info : Info K) (t : Trajectory K) (h : t.init = .ok ()) :
    Trajectory.make info t.points = .ok { info_ := info, points_ := t.points_ } := by
  simp only [Trajectory.make, Trajectory.points]
  have h' : Trajectory.init { info_ := info, points_ := t.points_ } = .ok () := h
  rw [h']

/-- On a valid trajectory `SDC::Pipe` runs its loop from the constant tensor `1`. -/
theorem pipeState_eq (F : GridFactory Kern Map C K) (sqrt : K → K)
    (Winit : Nat × Nat × Nat → K) (inTraj : Trajectory K) (nn : Bool) (os : K) (its : Nat)
    (hvalid : inTraj.init = .ok ()) :
    SDC.PipeState F sqrt Winit inTraj nn os its =
      .ok (pipeLoop (SDC.gridder F inTraj nn os) sqrt its 0 (SDC.start inTraj)) := by
  simp only [SDC.PipeState, Trajectory.info, make_of_init _ inTraj hvalid]
  cases nn <;> rfl

/-- C18. On a valid trajectory `SDC::Pipe` starts from the uniform weights `W_0 = 1`,
sets in each iteration `W_(k+1) = W_k / (A(Adj(W_k)))` where `A(Adj(W_k))` is positive and
`0` elsewhere, performs `N` iterations with `N` at most `its`, where no iteration before
the last one has a relative change `|W_(k+1) - W_k| / |W_k|` below `1e-7` and either
`N = its` or the last iteration has such a change, and returns the weights after `N`
iterations as a tensor of dimensions `(read_points, spokes)`. -/
theorem pipe_fixed_point (F : GridFactory Kern Map C K) (sqrt : K → K)
    (Winit : Nat × Nat × Nat → K) (inTraj : Trajectory K) (nn : Bool) (os : K) (its : Nat)
    (hvalid : inTraj.init = .ok ()) :
    ∃ N, N ≤ its ∧
      SDC.Pipe F sqrt Winit inTraj nn os its =
        .ok { dim0 := inTraj.info_.read_points, dim1 := inTraj.info_.spokes,
              data := fun jk => (pipeIter (SDC.gridder F inTraj nn os) N
                (SDC.start inTraj)).data (0, jk.1, jk.2) } ∧
      (∀ j, j + 1 < N → ¬ pipeDelta (SDC.gridder F inTraj nn os) sqrt
        (pipeIter (SDC.gridder F inTraj nn os) j (SDC.start inTraj)) < 1 / 10000000) ∧
      (N = its ∨ (0 < N ∧ pipeDelta (SDC.gridder F inTraj nn os) sqrt
        (pipeIter (SDC.gridder F inTraj nn os) (N - 1) (SDC.start inTraj)) < 1 / 10000000)) ∧
      (∀ i, (pipeIter (SDC.gridder F inTraj nn os) 0 (SDC.start inTraj)).data i = 1) ∧
      (∀ k i, (pipeIter (SDC.gridder F inTraj nn os) (k + 1) (SDC.start inTraj)).data i =
        if 0 < (SDC.gridder F inTraj nn os).A ((SDC.gridder F inTraj nn os).Adj
            (pipeIter (SDC.gridder F inTraj nn os) k (SDC.start inTraj)).data) i then
          (pipeIter (SDC.gridder F inTraj nn os) k (SDC.start inTraj)).data i /
            (SDC.gridder F inTraj nn os).A ((SDC.gridder F inTraj nn os).Adj
              (pipeIter (SDC.gridder F inTraj nn os) k (SDC.start inTraj)).data) i
        else 0) ∧
      (∀ k, pipeDelta (SDC.gridder F inTraj nn os) sqrt
          (pipeIter (SDC.gridder F inTraj nn os) k (SDC.start inTraj)) =
        Norm3 sqrt { dim0 := 1, dim1 := inTraj.info_.read_points, dim2 := inTraj.info_.spokes,
                     data := fun i =>
                       (pipeIter (SDC.gridder F inTraj nn os) (k + 1) (SDC.start inTraj)).data i -
                       (pipeIter (SDC.gridder F inTraj nn os) k (SDC.start inTraj)).data i } /
          Norm3 sqrt (pipeIter (SDC.gridder F inTraj nn os) k (SDC.start inTraj))) := by
  obtain ⟨h1, _, h3, h4, h5⟩ := pipeLoop_spec (SDC.gridder F inTraj nn os) sqrt
    (SDC.start inTraj) its 0
    (pipeLoop (SDC.gridder F inTraj nn os) sqrt its 0 (SDC.start inTraj)) rfl
  refine ⟨(pipeLoop (SDC.gridder F inTraj nn os) sqrt its 0 (SDC.start inTraj)).2,
    by simpa using h3, ?_, fun j hj => h4 j (Nat.zero_le _) hj, ?_, fun _ => rfl,
    fun _ _ => rfl, fun k => ?_⟩
  · obtain ⟨_, hd1, hd2⟩ := pipeIter_dims (SDC.gridder F inTraj nn os) (SDC.start inTraj)
      (pipeLoop (SDC.gridder F inTraj nn os) sqrt its 0 (SDC.start inTraj)).2
    simp only [SDC.Pipe, pipeState_eq F sqrt Winit inTraj nn os its hvalid]
    rw [h1, hd1, hd2]
    rfl
  · rcases h5 with h5 | h5
    · left; simpa using h5
    · right; exact h5
  · obtain ⟨hd0, hd1, hd2⟩ := pipeIter_dims (SDC.gridder F inTraj nn os) (SDC.start inTraj)
      (k + 1)
    simp only [pipeDelta]
    congr 2
    show ({ dim0 := (pipeIter (SDC.gridder F inTraj nn os) (k + 1) (SDC.start inTraj)).dim0,
            dim1 := (pipeIter (SDC.gridder F inTraj nn os) (k + 1) (SDC.start inTraj)).dim1,
            dim2 := (pipeIter (SDC.gridder F inTraj nn os) (k + 1) (SDC.start inTraj)).dim2,
            data := _ } : Re3 K) = _
    rw [hd0, hd1, hd2]
    rfl

/-- C19. In a run of `SDC::Pipe` on a valid trajectory, a slot at which `A(Adj(W))` is
not positive in an iteration that is performed has weight `0` after that iteration, in
every later iterate and in the tensor returned; in particular, when the forward
transform writes `0` at a slot whatever the grid and at least one iteration is made, the
weight returned at that slot is `0`. -/
theorem pipe_excluded_sample_zero (F : GridFactory Kern Map C K) (sqrt : K → K)
    (Winit : Nat × Nat × Nat → K) (inTraj : Trajectory K) (nn : Bool) (os : K) (its : Nat)
    (res : Re3 K × Nat) (hvalid : inTraj.init = .ok ())
    (hres : SDC.PipeState F sqrt Winit inTraj nn os its = .ok res) :
    (∀ j s, j < res.2 →
      ¬ 0 < (SDC.gridder F inTraj nn os).A ((SDC.gridder F inTraj nn os).Adj
        (pipeIter (SDC.gridder F inTraj nn os) j (SDC.start inTraj)).data) s →
      (∀ k, j < k → (pipeIter (SDC.gridder F inTraj nn os) k (SDC.start inTraj)).data s = 0) ∧
      res.1.data s = 0 ∧
      ∀ out, SDC.Pipe F sqrt Winit inTraj nn os its = .ok out → s.1 = 0 →
        out.data (s.2.1, s.2.2) = 0) ∧
    (∀ s, 0 < its → (∀ c, (SDC.gridder F inTraj nn os).A c s = 0) → res.1.data s = 0) := by
  rw [pipeState_eq F sqrt Winit inTraj nn os its hvalid] at hres
  simp only [Except.ok.injEq] at hres
  obtain ⟨h1, _, _, _, h5⟩ := pipeLoop_spec (SDC.gridder F inTraj nn os) sqrt
    (SDC.start inTraj) its 0 res hres
  constructor
  · intro j s hj hnp
    have hz := pipeIter_zero (SDC.gridder F inTraj nn os) (SDC.start inTraj) j s hnp
    refine ⟨hz, by rw [h1]; exact hz _ hj, fun out hout hs => ?_⟩
    simp only [SDC.Pipe, pipeState_eq F sqrt Winit inTraj nn os its hvalid, hres,
      Except.ok.injEq] at hout
    rw [← hout]
    show res.1.data (0, s.2.1, s.2.2) = 0
    rw [← hs, h1]
    exact hz _ hj
  · intro s hits hzero
    have hpos : 0 < res.2 := by
      rcases h5 with h5 | h5
      · omega
      · exact h5.1
    rw [h1]
    exact pipeIter_zero (SDC.gridder F inTraj nn os) (SDC.start inTraj) 0 s
      (by rw [hzero]; exact lt_irrefl _) _ hpos

end Thms40

/-! ## Witnesses for the theorems on `SDC::Pipe` -/

theorem exTraj_valid : (exTraj ℝ).init = .ok () := by
  have hm : ¬ 1 / 2 < Maximum (exTraj ℝ).points_.abs := by
    rw [maximum_abs_gt_half]
    rintro ⟨i, j, k, _, _, _, h⟩
    simp only [exTraj, constPoints, abs_zero] at h
    norm_num at h
  have hm' : ¬ Maximum (exTraj ℝ).points_.abs > 1 / 2 := hm
  simp only [Trajectory.init, if_neg hm']
  rw [if_neg]
  simp [exTraj, constPoints]

theorem exPipe_state :
    SDC.PipeState (exFactory ℝ) Real.sqrt (fun _ => 0) (exTraj ℝ) false 2 1 =
      .ok (pipeUpdate (SDC.gridder (exFactory ℝ) (exTraj ℝ) false 2) (SDC.start (exTraj ℝ)), 1) := by
  rw [pipeState_eq _ _ _ _ _ _ _ exTraj_valid]
  simp only [pipeLoop]
  split_ifs <;> rfl

/-- Witness for `pipe_fixed_point`: the trajectory `exTraj` with the gridder of
`exFactory` and the limit of 40 iterations that `SDC::Choose` passes. -/
theorem pipe_fixed_point_witness :
    (exTraj ℝ).init = .ok () ∧
    ∃ N, N ≤ 40 ∧
      SDC.Pipe (exFactory ℝ) Real.sqrt (fun _ => 0) (exTraj ℝ) false 2 40 =
        .ok { dim0 := (exTraj ℝ).info_.read_points, dim1 := (exTraj ℝ).info_.spokes,
              data := fun jk => (pipeIter (SDC.gridder (exFactory ℝ) (exTraj ℝ) false 2) N
                (SDC.start (exTraj ℝ))).data (0, jk.1, jk.2) } :=
  ⟨exTraj_valid,
    match pipe_fixed_point (exFactory ℝ) Real.sqrt (fun _ => 0) (exTraj ℝ) false 2 40
      exTraj_valid with
    | ⟨N, h1, h2, _⟩ => ⟨N, h1, h2⟩⟩

/-- Witness for `pipe_excluded_sample_zero`: one iteration on `exTraj`, whose second read
point the gridder of `exFactory` leaves out. -/
theorem pipe_excluded_sample_zero_witness :
    (exTraj ℝ).init = .ok () ∧
    SDC.PipeState (exFactory ℝ) Real.sqrt (fun _ => 0) (exTraj ℝ) false 2 1 =
      .ok (pipeUpdate (SDC.gridder (exFactory ℝ) (exTraj ℝ) false 2) (SDC.start (exTraj ℝ)), 1) ∧
    (pipeUpdate (SDC.gridder (exFactory ℝ) (exTraj ℝ) false 2) (SDC.start (exTraj ℝ))).data
      (0, 1, 0) = 0 :=
  ⟨exTraj_valid, exPipe_state,
    (pipe_excluded_sample_zero (exFactory ℝ) Real.sqrt (fun _ => 0) (exTraj ℝ) false 2 1 _
      exTraj_valid exPipe_state).2 (0, 1, 0) (by decide) (fun c => by
        simp [SDC.gridder, exFactory])⟩

/-! ## C16: the dimension checks of `GridBasis` -/

section Thms41

variable {Pt K : Type} [CommRing K]

/-- `GridBasis::A` fails exactly when the last four dimensions of its argument differ
from those of the declared input dimensions. -/
theorem gridBasis_A_error_iff (g : GridBasis Pt K) (cart : Cx5 K) :
    (∃ e, g.A cart = .error e) ↔ LastN 4 cart.dims ≠ LastN 4 g.inputDimensions := by
  simp only [GridBasis.A]
  split_ifs with h
  · exact ⟨fun _ => h, fun _ => ⟨_, rfl⟩⟩
  · constructor
    · rintro ⟨e, he⟩
      exact absurd he (by simp)
    · intro h'
      exact absurd h' h

/-- `GridBasis::Adj` fails exactly when the last two of the declared input dimensions
differ from the last two of the declared output dimensions. -/
theorem gridBasis_Adj_error_iff (g : GridBasis Pt K) (ranges : List (Nat × Nat))
    (cartInit : Nat × Nat × Int × Int × Int → K) (noncart : Cx3 K) :
    (∃ e, g.Adj ranges cartInit noncart = .error e) ↔
      LastN 2 g.inputDimensions ≠ LastN 2 g.outputDimensions := by
  simp only [GridBasis.Adj]
  split_ifs with h hs
  · exact ⟨fun _ => h, fun _ => ⟨_, rfl⟩⟩
  · constructor
    · rintro ⟨e, he⟩
      exact absurd he (by simp)
    · intro h'
      exact absurd h' h
  · constructor
    · rintro ⟨e, he⟩
      exact absurd he (by simp)
    · intro h'
      exact absurd h' h

end Thms41

/-- C16. `GridBasis::A` fails exactly when the last four dimensions of `cart` differ
from the declared input dimensions, before any sample is gridded.  `GridBasis::Adj` does
not look at the dimensions of its argument: it fails exactly when the last two declared
input dimensions differ from the last two declared output dimensions.  On the operator
`exGridBasis` (grid `4 × 4 × 4`, 8 read points, 16 spokes) it fails for an argument of the
declared dimensions `(1, 8, 16)`; on an operator whose grid is `4 × 8 × 16` it accepts an
argument of dimensions `(1, 3, 5)`. -/
theorem gridBasis_adj_check_ignores_argument :
    (∀ (g : GridBasis Unit ℚ) (cart : Cx5 ℚ),
      (∃ e, g.A cart = .error e) ↔ LastN 4 cart.dims ≠ LastN 4 g.inputDimensions) ∧
    (∀ (g : GridBasis Unit ℚ) ranges cartInit (noncart : Cx3 ℚ),
      (∃ e, g.Adj ranges cartInit noncart = .error e) ↔
        LastN 2 g.inputDimensions ≠ LastN 2 g.outputDimensions) ∧
    (LastN 2 (![1, 8, 16] : Fin 3 → Nat) = LastN 2 (exGridBasis ℚ).outputDimensions ∧
      ∃ e, (exGridBasis ℚ).Adj [(0, 1)] (fun _ => 0)
        { dims := ![1, 8, 16], data := fun _ => 0 } = .error e) ∧
    (LastN 2 (![1, 3, 5] : Fin 3 → Nat) ≠ LastN 2 (exGridBasis ℚ).outputDimensions ∧
      ¬ ∃ e, GridBasis.Adj { exGridBasis ℚ with inputDimensions := ![1, 1, 4, 8, 16] }
        [(0, 1)] (fun _ => 0) { dims := ![1, 3, 5], data := fun _ => 0 } = .error e) := by
  refine ⟨fun g cart => gridBasis_A_error_iff g cart,
    fun g ranges cartInit noncart => gridBasis_Adj_error_iff g ranges cartInit noncart,
    ⟨rfl, ?_⟩, ⟨by decide, ?_⟩⟩
  · rw [gridBasis_Adj_error_iff]
    decide
  · rw [gridBasis_Adj_error_iff]
    decide

/-! ## C21, C22: the rotation and the preconditioner weight of `LSQR::run` -/

section Thms42

variable {n m : Nat} {K : Type} [LinearOrderedField K]

/-- The rotation of an iteration in terms of `lam` and the workspace of the regulariser. -/
theorem lsqrGivens_eq (L : LSQR n m K) (lam : K) (bd : BidiagVars n m K) (ρbar φbar : K) :
    lsqrGivens L lam bd ρbar φbar =
      if lam ≠ 0 ∧ bd.ulam = [] then
        (L.routines.StableGivens (L.routines.StableGivens ρbar lam).2.2 bd.β,
          (L.routines.StableGivens ρbar lam).2.1 * φbar,
          (L.routines.StableGivens ρbar lam).1 * φbar)
      else (L.routines.StableGivens ρbar bd.β, 0, φbar) := by
  simp only [lsqrGivens]
  by_cases h1 : lam = 0
  · rw [if_pos (Or.inl h1), if_neg (fun h => h.1 h1)]
  · by_cases h2 : bd.ulam = []
    · rw [if_neg, if_pos ⟨h1, h2⟩]
      rintro (h | h)
      · exact h1 h
      · exact h (by rw [h2]; rfl)
    · rw [if_pos, if_neg (fun h => h2 h.2)]
      right
      rwa [Ne, List.length_eq_zero]

/-- C21, as amended. In an iteration of `LSQR::run` the auxiliary rotation
`StableGivens(ρbar, λ)`, with `ψ = s1 φbar` and `φbar = c1 φbar`, followed by
`StableGivens(ρbar1, β)`, is performed exactly when `λ ≠ 0` and the workspace `uλ` of the
regulariser is empty; when `λ = 0` or the workspace is not empty the single rotation
`StableGivens(ρbar, β)` is used and `ψ = 0`.  The rotation is applied to the values that
`Bidiag` has just produced, and `ψ` enters `res2`. -/
theorem lsqr_givens_selection (L : LSQR n m K) (sqrt : K → K) (lam : K)
    (bd : BidiagVars n m K) (ρbar φbar : K) (ii : Nat) (st : LSQRState n m K) :
    (lam ≠ 0 ∧ bd.ulam = [] →
      lsqrGivens L lam bd ρbar φbar =
        (L.routines.StableGivens (L.routines.StableGivens ρbar lam).2.2 bd.β,
          (L.routines.StableGivens ρbar lam).2.1 * φbar,
          (L.routines.StableGivens ρbar lam).1 * φbar)) ∧
    (lam = 0 ∨ bd.ulam ≠ [] →
      lsqrGivens L lam bd ρbar φbar = (L.routines.StableGivens ρbar bd.β, 0, φbar)) ∧
    (lsqrUpdate L sqrt lam ii st).1.res2 = st.res2 +
      (lsqrGivens L lam (L.routines.Bidiag lam (lsqrWeight L.varPre ii) st.bd)
          st.ρbar st.φbar).2.1 *
        (lsqrGivens L lam (L.routines.Bidiag lam (lsqrWeight L.varPre ii) st.bd)
          st.ρbar st.φbar).2.1 := by
  refine ⟨fun h => ?_, fun h => ?_, rfl⟩
  · rw [lsqrGivens_eq, if_pos h]
  · rw [lsqrGivens_eq, if_neg]
    rintro ⟨h1, h2⟩
    rcases h with h | h
    · exact h1 h
    · exact h h2

end Thms42

/-- C21, counterexample. With `λ = 4`, `ρbar = 3`, `φbar = 1` and a non-empty workspace of
the regulariser the single rotation is used (`ψ = 0`), where the auxiliary one would give
`ψ = 4/5`; with the same values and an empty workspace the auxiliary rotation is
performed (`ψ = 4/5`). -/
theorem lsqr_aux_rotation_on_empty_workspace :
    (lsqrGivens (exLSQR ℝ Real.sqrt) 4
      { Mu := 0, u := 0, v := 0, α := 1, β := 1, ulam := [1] } 3 1).2.1 = 0 ∧
    ((exLSQR ℝ Real.sqrt).routines.StableGivens 3 4).2.1 * 1 = 4 / 5 ∧
    (lsqrGivens (exLSQR ℝ Real.sqrt) 4
      { Mu := 0, u := 0, v := 0, α := 1, β := 1, ulam := [] } 3 1).2.1 = 4 / 5 := by
  have h25 : Real.sqrt (3 * 3 + 4 * 4) = 5 := by
    rw [show (3 * 3 + 4 * 4 : ℝ) = 5 ^ 2 by norm_num]
    exact Real.sqrt_sq (by norm_num)
  refine ⟨?_, ?_, ?_⟩
  · rw [lsqrGivens_eq, if_neg (fun h => by simp at h)]
  · simp only [exLSQR, exRoutines, h25]
    norm_num
  · rw [lsqrGivens_eq, if_pos ⟨by norm_num, rfl⟩]
    simp only [exLSQR, exRoutines, h25]
    norm_num

section Thms43

variable {n : Nat} {K : Type} [LinearOrderedField K]

/-- The updates of an iteration keep `r = b - A x`. -/
theorem cgUpdate_residual (A : (Fin n → K) → (Fin n → K))
    (hadd : ∀ u v, A (u + v) = A u + A v) (hsmul : ∀ (c : K) u, A (c • u) = c • A u)
    (b : Fin n → K) (st : CGState n K) (h : st.r = b - A st.x) :
    (cgUpdate A st).1.r = b - A (cgUpdate A st).1.x := by
  show st.r - _ • A st.p = b - A (st.x + _ • st.p)
  rw [hadd, hsmul, h]
  abel

/-- The loop keeps `r = b - A x`, however it is left. -/
theorem cgLoop_residual (A : (Fin n → K) → (Fin n → K))
    (hadd : ∀ u v, A (u + v) = A u + A v) (hsmul : ∀ (c : K) u, A (c • u) = c • A u)
    (sqrt : K → K) (thresh : K) (interrupt : Nat → Bool) (b : Fin n → K) (fuel icg : Nat)
    (st : CGState n K) (h : st.r = b - A st.x) :
    (cgLoop A sqrt thresh interrupt fuel icg st).1.r =
      b - A (cgLoop A sqrt thresh interrupt fuel icg st).1.x := by
  induction fuel generalizing icg st with
  | zero => exact h
  | succ fuel ih =>
    have hu := cgUpdate_residual A hadd hsmul b st h
    simp only [cgLoop]
    split_ifs
    · exact hu
    · exact hu
    · exact ih (icg + 1) _ hu

/-- The loop with an interrupt: the iterations performed and the threshold tests that
did not hold before the last one. -/
theorem cgLoop_reached (A : (Fin n → K) → (Fin n → K)) (sqrt : K → K) (thresh : K)
    (interrupt : Nat → Bool) (st0 : CGState n K) (fuel icg : Nat) (res : CGState n K × Nat)
    (hres : cgLoop A sqrt thresh interrupt fuel icg (cgIter A icg st0) = res) :
    res.1.x = (cgIter A res.2 st0).x ∧ icg ≤ res.2 ∧ res.2 ≤ icg + fuel ∧
      (∀ k, icg < k → k < res.2 → ¬ sqrt (Norm2 (cgIter A k st0).r) < thresh) := by
  induction fuel generalizing icg with
  | zero =>
    simp only [cgLoop] at hres
    subst hres
    exact ⟨rfl, le_refl _, le_refl _, fun k h1 h2 => absurd h1 (by omega)⟩
  | succ fuel ih =>
    simp only [cgLoop] at hres
    by_cases hstop : sqrt (cgUpdate A (cgIter A icg st0)).2 < thresh
    · rw [if_pos hstop] at hres
      subst hres
      exact ⟨rfl, Nat.le_succ _, by simp,
        fun k h1 h2 => absurd h1 (by simp at h2; omega)⟩
    · rw [if_neg hstop] at hres
      by_cases hint : interrupt icg = true
      · rw [if_pos hint] at hres
        subst hres
        exact ⟨rfl, Nat.le_succ _, by simp,
          fun k h1 h2 => absurd h1 (by simp at h2; omega)⟩
      · rw [if_neg hint] at hres
        obtain ⟨h1, h2, h3, h4⟩ := ih (icg + 1) hres
        refine ⟨h1, by omega, by omega, fun k hk1 hk2 => ?_⟩
        by_cases hk : k = icg + 1
        · subst hk; exact hstop
        · exact h4 k (by omega) hk2

/-- C23. For a linear operator `A` the workspace of `ConjugateGradients::run` satisfies
`r = b - A x` before the first iteration and after every iteration, with `x = x0` at the
start for a warm start and `x = 0` without one, and the workspace that the run ends with
satisfies it too: the residual of the returned `x` is the tracked `r`. -/
theorem cg_residual_invariant (cg : ConjugateGradients n K) (sqrt : K → K)
    (interrupt : Nat → Bool) (b : Fin n → K) (x0 : Option (Fin n → K))
    (hadd : ∀ u v, cg.op (u + v) = cg.op u + cg.op v)
    (hsmul : ∀ (c : K) u, cg.op (c • u) = c • cg.op u) :
    (∀ k, (cgIter cg.op k (cgInit cg.op b x0)).r =
      b - cg.op (cgIter cg.op k (cgInit cg.op b x0)).x) ∧
    (cgInit cg.op b x0).x = (match x0 with | some v => v | none => 0) ∧
    (cg.runState sqrt interrupt b x0).1.r = b - cg.op (cg.run sqrt interrupt b x0) ∧
    (cg.run sqrt (fun _ => false) b x0 =
      (cgIter cg.op (cg.runState sqrt (fun _ => false) b x0).2 (cgInit cg.op b x0)).x) := by
  have h0 := cgInit_residual cg.op hsmul b x0
  refine ⟨fun k => cgIter_residual cg.op hadd hsmul b _ h0 k, by cases x0 <;> rfl, ?_,
    (runState_spec cg sqrt b x0).2.1⟩
  exact cgLoop_residual cg.op hadd hsmul sqrt _ interrupt b cg.iterLimit 0 _ h0

/-- C24. For a symmetric positive-definite `A`, a non-zero initial residual and a
positive `resTol`, every divisor of an iteration that `ConjugateGradients::run` performs
is positive: the workspace at the start of iteration `k` is the `k`-th iterate, and there
`p·(A p) > 0`, the divisor of `alpha`, and `r_old > 0`, the divisor of `beta`. -/
theorem cg_divisors_positive (cg : ConjugateGradients n K) (sqrt : K → K)
    (interrupt : Nat → Bool) (b : Fin n → K) (x0 : Option (Fin n → K))
    (hA : IsSymPosDef cg.op) (hsqrt : IsSqrtLike sqrt)
    (hr0 : (cgInit cg.op b x0).r ≠ 0) (htol : 0 < cg.resTol) :
    ∀ k, k < (cg.runState sqrt interrupt b x0).2 →
      0 < CheckedDot (cgIter cg.op k (cgInit cg.op b x0)).p
        (cg.op (cgIter cg.op k (cgInit cg.op b x0)).p) ∧
      0 < (cgIter cg.op k (cgInit cg.op b x0)).r_old := by
  intro k hk
  have hrun : cgLoop cg.op sqrt (cg.resTol * sqrt (Norm2 (cgInit cg.op b x0).r))
      interrupt cg.iterLimit 0 (cgIter cg.op 0 (cgInit cg.op b x0))
      = cg.runState sqrt interrupt b x0 := by
    simp only [ConjugateGradients.runState, cgInit_r_old, cgIter]
  obtain ⟨_, _, _, h4⟩ := cgLoop_reached cg.op sqrt _ interrupt (cgInit cg.op b x0)
    cg.iterLimit 0 _ hrun
  have hthresh : 0 < cg.resTol * sqrt (Norm2 (cgInit cg.op b x0).r) :=
    mul_pos htol (hsqrt.2 _ (dotProduct_self_pos hr0))
  have hrk : (cgIter cg.op k (cgInit cg.op b x0)).r ≠ 0 := by
    rcases Nat.eq_zero_or_pos k with h | h
    · subst h; exact hr0
    · intro hz
      apply h4 k h hk
      rw [hz]
      have : Norm2 (0 : Fin n → K) = 0 := by simp [Norm2]
      rw [this, hsqrt.1]
      exact hthresh
  have hrr := dotProduct_self_pos hrk
  have hold := cgIter_r_old cg.op (cgInit cg.op b x0) (cgInit_r_old cg.op b x0) k
  have hpr := cgIter_p_dot_r cg.op hA (cgInit cg.op b x0) (cgInit_p cg.op b x0)
    (cgInit_r_old cg.op b x0) k
  have hp : (cgIter cg.op k (cgInit cg.op b x0)).p ≠ 0 := by
    intro hz
    rw [hz, Matrix.zero_dotProduct] at hpr
    rw [← hpr] at hrr
    exact lt_irrefl _ hrr
  exact ⟨hA.2.2.2 _ hp, by rw [hold]; exact hrr⟩

/-- With a zero right-hand side and no warm start every iterate is the zero workspace. -/
theorem cgIter_zero_rhs (A : (Fin n → K) → (Fin n → K)) (k : Nat) :
    cgIter A k (cgInit A 0 none) = { x := 0, r := 0, p := 0, r_old := 0 } := by
  have hinit : cgInit A 0 none = { x := 0, r := 0, p := 0, r_old := 0 } := by
    simp [cgInit, Norm2]
  induction k with
  | zero => exact hinit
  | succ k ih =>
    show cgStep A (cgIter A k (cgInit A 0 none)) = _
    rw [ih]
    simp [cgStep, cgUpdate, Norm2, CheckedDot]

/-- C25. For `b = 0` without a warm start and `iterLimit ≥ 1`, with `sqrt 0 = 0`: the
threshold is `0`; at the first iteration `r_old = r·r = 0` and the divisor `p·q` of
`alpha` is `0`, as is the divisor `r_old` of `beta`; the test `|r| < threshold` holds in no
iteration, and without an interrupt all `iterLimit` iterations are performed. -/
theorem cg_zero_rhs_runs_to_limit (cg : ConjugateGradients n K) (sqrt : K → K)
    (hsqrt : sqrt 0 = 0) (hlim : 1 ≤ cg.iterLimit) :
    cg.resTol * sqrt (cgInit cg.op 0 none).r_old = 0 ∧
    (cgInit cg.op 0 none).r_old = 0 ∧
    Norm2 (cgInit cg.op 0 none).r = 0 ∧
    CheckedDot (cgInit cg.op 0 none).p (cg.op (cgInit cg.op 0 none).p) = 0 ∧
    (∀ k, ¬ cgConverged cg sqrt 0 none k) ∧
    (cg.runState sqrt (fun _ => false) 0 none).2 = cg.iterLimit ∧
    1 ≤ (cg.runState sqrt (fun _ => false) 0 none).2 := by
  have hinit := cgIter_zero_rhs cg.op 0
  simp only [cgIter] at hinit
  have hconv : ∀ k, ¬ cgConverged cg sqrt 0 none k := by
    intro k
    simp only [cgConverged, cgIter_zero_rhs]
    rw [hinit]
    simp [Norm2, hsqrt]
  have hN : (cg.runState sqrt (fun _ => false) 0 none).2 = cg.iterLimit := by
    obtain ⟨_, _, _, _, h5, _⟩ := runState_spec cg sqrt 0 none
    rcases h5 with h5 | h5
    · exact h5
    · exact absurd h5 (hconv _)
  refine ⟨by rw [hinit]; simp [hsqrt], by rw [hinit], by rw [hinit]; simp [Norm2],
    by rw [hinit]; simp [CheckedDot], hconv, hN, by rw [hN]; exact hlim⟩

end Thms43

/-- Witness for `cg_residual_invariant`: the solver on `diag(1, 1/100)`, whose operator
is linear. -/
theorem cg_residual_invariant_witness :
    (∀ u v, (ddCG ℝ).op (u + v) = (ddCG ℝ).op u + (ddCG ℝ).op v) ∧
    (∀ (c : ℝ) u, (ddCG ℝ).op (c • u) = c • (ddCG ℝ).op u) ∧
    ((ddCG ℝ).runState Real.sqrt (fun _ => false) (ddB ℝ) none).1.r =
      ddB ℝ - (ddCG ℝ).op ((ddCG ℝ).run Real.sqrt (fun _ => false) (ddB ℝ) none) :=
  ⟨(ddMatrix_spd ℝ).1, (ddMatrix_spd ℝ).2.1,
    (cg_residual_invariant (ddCG ℝ) Real.sqrt (fun _ => false) (ddB ℝ) none (ddMatrix_spd ℝ).1
      (ddMatrix_spd ℝ).2.1).2.2.1⟩

/-- Witness for `cg_divisors_positive`: the solver on `diag(1, 1/100)` with the
right-hand side `(1, 10)`. -/
theorem cg_divisors_positive_witness :
    IsSymPosDef (ddCG ℝ).op ∧ IsSqrtLike Real.sqrt ∧
    (cgInit (ddCG ℝ).op (ddB ℝ) none).r ≠ 0 ∧ 0 < (ddCG ℝ).resTol ∧
    ∀ k, k < ((ddCG ℝ).runState Real.sqrt (fun _ => false) (ddB ℝ) none).2 →
      0 < CheckedDot (cgIter (ddCG ℝ).op k (cgInit (ddCG ℝ).op (ddB ℝ) none)).p
        ((ddCG ℝ).op (cgIter (ddCG ℝ).op k (cgInit (ddCG ℝ).op (ddB ℝ) none)).p) ∧
      0 < (cgIter (ddCG ℝ).op k (cgInit (ddCG ℝ).op (ddB ℝ) none)).r_old :=
  ⟨ddMatrix_spd ℝ, isSqrtLike_real, ddB_ne_zero ℝ, by norm_num [ddCG],
    cg_divisors_positive (ddCG ℝ) Real.sqrt (fun _ => false) (ddB ℝ) none (ddMatrix_spd ℝ)
      isSqrtLike_real (ddB_ne_zero ℝ) (by norm_num [ddCG])⟩

/-- Witness for `cg_zero_rhs_runs_to_limit`: the solver on `diag(1, 1/100)` performs its
16 iterations on `b = 0`. -/
theorem cg_zero_rhs_runs_to_limit_witness :
    Real.sqrt 0 = 0 ∧ 1 ≤ (ddCG ℝ).iterLimit ∧
    ((ddCG ℝ).runState Real.sqrt (fun _ => false) 0 none).2 = (ddCG ℝ).iterLimit :=
  ⟨Real.sqrt_zero, by decide,
    (cg_zero_rhs_runs_to_limit (ddCG ℝ) Real.sqrt Real.sqrt_zero (by decide)).2.2.2.2.2.1⟩

/-! ## C29: `Covariance` -/

section Thms44

variable {K : Type} [RCLike K]

/-- A diagonal entry of the covariance is the mean of the squared moduli of a row. -/
theorem covariance_diag (data : Cx2 K) (i : Nat) :
    (Covariance data).data (i, i) =
      (((∑ k ∈ Finset.range data.dim1, ‖data.data (i, k)‖ ^ 2) / (data.dim1 : ℝ) : ℝ) : K) := by
  simp only [Covariance]
  have h : ∀ k, star (data.data (i, k)) * data.data (i, k) =
      ((‖data.data (i, k)‖ ^ 2 : ℝ) : K) := by
    intro k
    rw [← starRingEnd_apply, RCLike.conj_mul]
    push_cast
    rfl
  simp only [h]
  push_cast
  ring

/-- C29. For a matrix with `N > 0` columns `Covariance` returns the square matrix with
the entries `(1/N) Σ_k conj(data(i,k)) data(j,k)`; it is Hermitian, and its diagonal
entries are real and not negative. -/
theorem covariance_hermitian (data : Cx2 K) (hN : 0 < data.dim1) :
    (Covariance data).dim0 = data.dim0 ∧ (Covariance data).dim1 = data.dim0 ∧
    (∀ i j, (Covariance data).data (i, j) =
      (1 / (data.dim1 : K)) *
        ∑ k ∈ Finset.range data.dim1, star (data.data (i, k)) * data.data (j, k)) ∧
    (∀ i j, (Covariance data).data (j, i) = star ((Covariance data).data (i, j))) ∧
    (∀ i, RCLike.im ((Covariance data).data (i, i)) = 0 ∧
      0 ≤ RCLike.re ((Covariance data).data (i, i))) := by
  refine ⟨rfl, rfl, fun i j => mul_comm _ _, fun i j => ?_, fun i => ?_⟩
  · simp only [Covariance, star_mul', star_sum, star_star, star_div₀, star_one, star_natCast]
    congr 1
    exact Finset.sum_congr rfl (fun k _ => mul_comm _ _)
  · rw [covariance_diag]
    refine ⟨RCLike.ofReal_im _, ?_⟩
    rw [RCLike.ofReal_re]
    have hpos : (0 : ℝ) < (data.dim1 : ℝ) := by exact_mod_cast hN
    exact div_nonneg (Finset.sum_nonneg (fun k _ => sq_nonneg _)) (le_of_lt hpos)

end Thms44

/-- Witness for `covariance_hermitian`: the matrix `exCx2` with two columns. -/
theorem covariance_hermitian_witness :
    0 < exCx2.dim1 ∧
    ∀ i j, (Covariance exCx2).data (j, i) = star ((Covariance exCx2).data (i, j)) :=
  ⟨by decide, (covariance_hermitian exCx2 (by decide)).2.2.2.1⟩

/-! ## C30: the flags of `CoreOpts` -/

/-- C30. The long flags that `CoreOpts` registers are pairwise distinct, but its short
flags are not: `-k` is registered for `ktype` (`{'k', "kernel"}`) and again for
`keepTrajectory` (`{"keep", 'k'}`), so the short flag `k` selects two options, while `o`,
`s` and `b` select one each. -/
theorem coreOpts_short_flag_clash :
    (CoreOpts.map fun o => o.member) =
      ["iname", "oname", "ktype", "osamp", "fov", "bucketSize", "basisFile",
        "keepTrajectory"] ∧
    (CoreOpts.flatMap fun o => o.longs).Nodup ∧
    (CoreOpts.flatMap fun o => o.shorts) = ['o', 'k', 's', 'b', 'k'] ∧
    ¬ (CoreOpts.flatMap fun o => o.shorts).Nodup ∧
    ((CoreOpts.selectShort 'k').map fun o => o.member) = ["ktype", "keepTrajectory"] ∧
    (CoreOpts.selectShort 'o').length = 1 ∧ (CoreOpts.selectShort 's').length = 1 ∧
    (CoreOpts.selectShort 'b').length = 1 := by
  refine ⟨rfl, by decide, rfl, by decide, by decide, by decide, by decide, by decide⟩

/-! ## The loops of `Trajectory::downsample` -/

theorem forLoop_invariant {σ : Type} (P : Nat → σ → Prop) (n : Nat) (body : Nat → σ → σ)
    (s : σ) (h0 : P 0 s) (hstep : ∀ i s, i < n → P i s → P (i + 1) (body i s)) :
    P n (forLoop n body s) := by
  have h : ∀ m, m ≤ n → P m (forLoop m body s) := by
    intro m
    induction m with
    | zero => intro _; exact h0
    | succ m ih =>
      intro hm
      rw [forLoop_succ]
      exact hstep m _ (by omega) (ih (by omega))
  exact h n (le_refl n)

section Thms45

variable {S : Type}

theorem dsInv_mono (F : FloatOps S) (R : Reductions S) (t : Trajectory S)
    (nan dsamp scale : S) (lores : Int)
    (proc proc' : Nat → Nat → Prop) (st : (Nat × Nat × Nat → S) × Nat × Nat)
    (hp : ∀ it is, is < t.nSamples → it < t.nTraces → proc' it is → proc it is)
    (h : t.DsInv F R nan dsamp scale lores proc st) :
    t.DsInv F R nan dsamp scale lores proc' st :=
  ⟨fun i is it h1 h2 h3 => h.1 i is it h1 h2 (hp it is h1 h2 h3),
    fun is it h1 h2 h3 => h.2.1 is it h1 h2 (hp it is h1 h2 h3), h.2.2.1, h.2.2.2⟩

theorem dsInv_step (F : FloatOps S) (R : Reductions S) (t : Trajectory S)
    (nan dsamp scale : S) (lores : Int)
    (proc : Nat → Nat → Prop) (st : (Nat × Nat × Nat → S) × Nat × Nat) (it0 is0 : Nat)
    (his : is0 < t.nSamples) (hit : it0 < t.nTraces)
    (h : t.DsInv F R nan dsamp scale lores proc st) :
    t.DsInv F R nan dsamp scale lores (fun it is => proc it is ∨ (it = it0 ∧ is = is0))
      (t.downsampleStep F R nan dsamp scale lores it0 is0 st) := by
  obtain ⟨hd, hr, hmin, hmax⟩ := h
  by_cases hq : F.le (R.Norm (t.point is0 it0)) (F.div (F.lit (1 / 2)) dsamp) = true
  · have hq' : t.Retained F R dsamp is0 it0 := hq
    by_cases hl : (it0 : Int) ≥ lores
    · have hc : t.Counted F R dsamp lores is0 := ⟨it0, hit, hl, hq'⟩
      simp only [Trajectory.downsampleStep, if_pos hq, if_pos hl]
      refine ⟨fun i is it h1 h2 h3 => ?_, fun is it h1 h2 h3 h4 h5 => ?_, ?_, ?_⟩
      · by_cases he : is = is0 ∧ it = it0
        · obtain ⟨rfl, rfl⟩ := he
          simp only [and_self, if_true, if_pos hq']
          rfl
        · simp only [if_neg he]
          rcases h3 with h3 | h3
          · exact hd i is it h1 h2 h3
          · exact absurd ⟨h3.2, h3.1⟩ he
      · rcases h3 with h3 | h3
        · obtain ⟨ha, hb⟩ := hr is it h1 h2 h3 h4 h5
          exact ⟨le_trans (min_le_left _ _) ha, le_trans hb (le_max_left _ _)⟩
        · rw [h3.2]
          exact ⟨min_le_right _ _, le_max_right _ _⟩
      · right
        show min st.2.1 is0 < t.nSamples ∧ t.Counted F R dsamp lores (min st.2.1 is0)
        rcases min_choice st.2.1 is0 with hm | hm
        · rw [hm]
          rcases hmin with h' | h'
          · have : st.2.1 ≤ is0 := by rw [← hm]; exact min_le_right _ _
            omega
          · exact h'
        · rw [hm]; exact ⟨his, hc⟩
      · right
        show max st.2.2 is0 < t.nSamples ∧ t.Counted F R dsamp lores (max st.2.2 is0)
        rcases max_choice st.2.2 is0 with hm | hm
        · rw [hm]
          rcases hmax with h' | h'
          · have : is0 ≤ st.2.2 := by rw [← hm]; exact le_max_right _ _
            have h0 : is0 = 0 := by omega
            rw [h', ← h0]; exact ⟨his, hc⟩
          · exact h'
        · rw [hm]; exact ⟨his, hc⟩
    · simp only [Trajectory.downsampleStep, if_pos hq, if_neg hl]
      refine ⟨fun i is it h1 h2 h3 => ?_, fun is it h1 h2 h3 h4 h5 => ?_, hmin, hmax⟩
      · by_cases he : is = is0 ∧ it = it0
        · obtain ⟨rfl, rfl⟩ := he
          simp only [and_self, if_true, if_pos hq']
          rfl
        · simp only [if_neg he]
          rcases h3 with h3 | h3
          · exact hd i is it h1 h2 h3
          · exact absurd ⟨h3.2, h3.1⟩ he
      · rcases h3 with h3 | h3
        · exact hr is it h1 h2 h3 h4 h5
        · rw [h3.1] at h4
          exact absurd h4 hl
  · have hq' : ¬ t.Retained F R dsamp is0 it0 := hq
    simp only [Trajectory.downsampleStep, if_neg hq]
    refine ⟨fun i is it h1 h2 h3 => ?_, fun is it h1 h2 h3 h4 h5 => ?_, hmin, hmax⟩
    · by_cases he : is = is0 ∧ it = it0
      · obtain ⟨rfl, rfl⟩ := he
        simp only [and_self, if_true, if_neg hq']
      · simp only [if_neg he]
        rcases h3 with h3 | h3
        · exact hd i is it h1 h2 h3
        · exact absurd ⟨h3.2, h3.1⟩ he
    · rcases h3 with h3 | h3
      · exact hr is it h1 h2 h3 h4 h5
      · rw [h3.1, h3.2] at h5
        exact absurd h5 hq'

/-- The state after the two loops of `downsample`. -/
theorem downsampleLoop_inv (F : FloatOps S) (R : Reductions S) (t : Trajectory S)
    (nan dsamp scale : S)
    (lores : Int) (dsInit : Nat × Nat × Nat → S) :
    t.DsInv F R nan dsamp scale lores (fun _ _ => True)
      (t.downsampleLoop F R nan dsamp scale lores dsInit) := by
  have houter : t.DsInv F R nan dsamp scale lores (fun it _ => it < t.nTraces)
      (t.downsampleLoop F R nan dsamp scale lores dsInit) := by
    apply forLoop_invariant
      (fun T st => t.DsInv F R nan dsamp scale lores (fun it _ => it < T) st)
    · exact ⟨fun i is it _ _ h3 => absurd h3 (Nat.not_lt_zero _),
        fun is it _ _ h3 => absurd h3 (Nat.not_lt_zero _), Or.inl rfl, Or.inl rfl⟩
    · intro T st hT hst
      have hinner := forLoop_invariant
        (fun S st => t.DsInv F R nan dsamp scale lores
          (fun it is => it < T ∨ (it = T ∧ is < S)) st)
        t.nSamples (fun is st => t.downsampleStep F R nan dsamp scale lores T is st) st
        (dsInv_mono F R t nan dsamp scale lores _ _ st
          (fun it is _ _ h => by
            rcases h with h | h
            · exact h
            · exact absurd h.2 (Nat.not_lt_zero _)) hst)
        (fun S st' hS hst' =>
          dsInv_mono F R t nan dsamp scale lores _ _ _
            (fun it is _ _ h => by
              rcases h with h | ⟨h1, h2⟩
              · exact Or.inl (Or.inl h)
              · rcases Nat.lt_succ_iff_lt_or_eq.mp h2 with h3 | h3
                · exact Or.inl (Or.inr ⟨h1, h3⟩)
                · exact Or.inr ⟨h1, h3⟩)
            (dsInv_step F R t nan dsamp scale lores _ st' T S hS hT hst'))
      exact dsInv_mono F R t nan dsamp scale lores _ _ _
        (fun it is h1 _ h => by
          rcases Nat.lt_succ_iff_lt_or_eq.mp h with h3 | h3
          · exact Or.inl h3
          · exact Or.inr ⟨h3, h1⟩) hinner
  exact dsInv_mono F R t nan dsamp scale lores _ _ _ (fun it is _ h2 _ => h2) houter

end Thms45

/-! ## C26, C27: `Trajectory::downsample` -/

section Thms46

variable {S : Type}

/-- `minSamp` and `maxSamp` after the loops: the least and the greatest counted read
index if there is one, and the initial values otherwise. -/
theorem downsampleLoop_range (F : FloatOps S) (R : Reductions S) (t : Trajectory S)
    (nan dsamp scale : S)
    (lores : Int) (dsInit : Nat × Nat × Nat → S) :
    ((∃ is, is < t.nSamples ∧ t.Counted F R dsamp lores is) →
      IsLeast {is | is < t.nSamples ∧ t.Counted F R dsamp lores is}
        (t.downsampleLoop F R nan dsamp scale lores dsInit).2.1 ∧
      IsGreatest {is | is < t.nSamples ∧ t.Counted F R dsamp lores is}
        (t.downsampleLoop F R nan dsamp scale lores dsInit).2.2) ∧
    ((¬ ∃ is, is < t.nSamples ∧ t.Counted F R dsamp lores is) →
      (t.downsampleLoop F R nan dsamp scale lores dsInit).2.1 = t.nSamples ∧
      (t.downsampleLoop F R nan dsamp scale lores dsInit).2.2 = 0) := by
  obtain ⟨_, hr, hmin, hmax⟩ := downsampleLoop_inv F R t nan dsamp scale lores dsInit
  have hb : ∀ is, is < t.nSamples → t.Counted F R dsamp lores is →
      (t.downsampleLoop F R nan dsamp scale lores dsInit).2.1 ≤ is ∧
      is ≤ (t.downsampleLoop F R nan dsamp scale lores dsInit).2.2 := by
    rintro is his ⟨it, hit, hl, hq⟩
    exact hr is it his hit trivial hl hq
  constructor
  · rintro ⟨is0, his0, hc0⟩
    obtain ⟨ha, hb'⟩ := hb is0 his0 hc0
    refine ⟨⟨?_, fun is h => (hb is h.1 h.2).1⟩, ⟨?_, fun is h => (hb is h.1 h.2).2⟩⟩
    · rcases hmin with h | h
      · omega
      · exact h
    · rcases hmax with h | h
      · have h0 : is0 = 0 := by omega
        rw [h, ← h0]
        exact ⟨his0, hc0⟩
      · exact h
  · intro hno
    constructor
    · rcases hmin with h | h
      · exact h
      · exact absurd ⟨_, h⟩ hno
    · rcases hmax with h | h
      · exact h
      · exact absurd ⟨_, h⟩ hno

end Thms46

section Thms47

variable {S C : Type}

/-- A trajectory that the constructor returns holds the header and the points given. -/
theorem makeF_ok (F : FloatOps S) (R : Reductions S) (info : Info S) (points : Re3 S)
    (traj : Trajectory S) (h : Trajectory.makeF F R info points = .ok traj) :
    traj = { info_ := info, points_ := points } := by
  simp only [Trajectory.makeF] at h
  split at h
  · exact absurd h (by simp)
  · simp only [Except.ok.injEq] at h
    exact h.symm

/-- The outcome of the constructor in terms of the two tests of `init`. -/
theorem makeF_eq (F : FloatOps S) (R : Reductions S) (info : Info S) (points : Re3 S) :
    Trajectory.makeF F R info points =
      if points.dim0 < 1 ∨ points.dim0 > 3 then
        .error { fmt := "Trajectory has \x7b\x7d dimensions", args := [.index points.dim0] }
      else if F.lt (F.lit (1 / 2)) (R.Maximum (points.absF F)) = true then
        .error { fmt := "Maximum trajectory co-ordinate \x7b\x7d exceeded 0.5",
                 args := [.real (R.Maximum (points.absF F))] }
      else .ok { info_ := info, points_ := points } := by
  simp only [Trajectory.makeF, Trajectory.initF]
  split_ifs <;> rfl

/-- Past the test of the factor and with the slice in range, `downsample` hands the
rescaled header and the slice of `dsPoints` to the constructor: it fails as the
constructor does, and returns the trajectory constructed with `minSamp` and the count. -/
theorem downsample_in_range (F : FloatOps S) (R : Reductions S) (t : Trajectory S) (nan : S)
    (dsInit : Nat × Nat × Nat → S) (res : S) (lores : Int) (shrink : Bool)
    (hd : F.lt (t.dsamp F R res) (F.lit 1) = false)
    (hs : sliceInRange (t.dsLoop F R nan dsInit res lores shrink).2.1
      (dsCount (t.dsLoop F R nan dsInit res lores shrink)) t.nSamples) :
    (∀ e, Trajectory.makeF F R (t.dsInfoScale F (t.dsamp F R res) shrink).1
        { dim0 := t.nDims, dim1 := (dsCount (t.dsLoop F R nan dsInit res lores shrink)).toNat,
          dim2 := t.nTraces,
          data := fun i => (t.dsLoop F R nan dsInit res lores shrink).1
            (i.1, (t.dsLoop F R nan dsInit res lores shrink).2.1 + i.2.1, i.2.2) } = .error e →
      t.downsample F R nan dsInit res lores shrink = some (.error e)) ∧
    (∀ traj, Trajectory.makeF F R (t.dsInfoScale F (t.dsamp F R res) shrink).1
        { dim0 := t.nDims, dim1 := (dsCount (t.dsLoop F R nan dsInit res lores shrink)).toNat,
          dim2 := t.nTraces,
          data := fun i => (t.dsLoop F R nan dsInit res lores shrink).1
            (i.1, (t.dsLoop F R nan dsInit res lores shrink).2.1 + i.2.1, i.2.2) } = .ok traj →
      t.downsample F R nan dsInit res lores shrink =
        some (.ok (traj, (t.dsLoop F R nan dsInit res lores shrink).2.1,
          dsCount (t.dsLoop F R nan dsInit res lores shrink)))) := by
  constructor
  · intro e he
    simp only [Trajectory.downsample, hd, Bool.false_eq_true, if_false, if_pos hs, he]
  · intro traj he
    simp only [Trajectory.downsample, hd, Bool.false_eq_true, if_false, if_pos hs, he]

/-- Past the test of the factor and with the slice out of range, `downsample` has no
defined result. -/
theorem downsample_out_of_range (F : FloatOps S) (R : Reductions S) (t : Trajectory S)
    (nan : S) (dsInit : Nat × Nat × Nat → S) (res : S) (lores : Int) (shrink : Bool)
    (hd : F.lt (t.dsamp F R res) (F.lit 1) = false)
    (hs : ¬ sliceInRange (t.dsLoop F R nan dsInit res lores shrink).2.1
      (dsCount (t.dsLoop F R nan dsInit res lores shrink)) t.nSamples) :
    t.downsample F R nan dsInit res lores shrink = none := by
  simp only [Trajectory.downsample, hd, Bool.false_eq_true, if_false, if_neg hs]

/-- What `downsample` returns when it returns: the trajectory built from the rescaled
header and the slice of `dsPoints`, `minSamp` and `dsSamples`, the slice being in
range. -/
theorem downsample_ok (F : FloatOps S) (R : Reductions S) (t : Trajectory S) (nan : S)
    (dsInit : Nat × Nat × Nat → S) (res : S) (lores : Int) (shrink : Bool)
    (traj : Trajectory S) (minSamp : Nat) (dsSamples : Int)
    (h : t.downsample F R nan dsInit res lores shrink = some (.ok (traj, minSamp, dsSamples))) :
    F.lt (t.dsamp F R res) (F.lit 1) = false ∧
    minSamp = (t.dsLoop F R nan dsInit res lores shrink).2.1 ∧
    dsSamples = dsCount (t.dsLoop F R nan dsInit res lores shrink) ∧
    sliceInRange minSamp dsSamples t.nSamples ∧
    traj = { info_ := (t.dsInfoScale F (t.dsamp F R res) shrink).1,
             points_ := { dim0 := t.nDims, dim1 := dsSamples.toNat, dim2 := t.nTraces,
                          data := fun i => (t.dsLoop F R nan dsInit res lores shrink).1
                            (i.1, minSamp + i.2.1, i.2.2) } } := by
  cases hd : F.lt (t.dsamp F R res) (F.lit 1) with
  | true =>
    simp only [Trajectory.downsample, hd, if_true] at h
    exact absurd h (by simp)
  | false =>
    by_cases hs : sliceInRange (t.dsLoop F R nan dsInit res lores shrink).2.1
        (dsCount (t.dsLoop F R nan dsInit res lores shrink)) t.nSamples
    · obtain ⟨he, ho⟩ := downsample_in_range F R t nan dsInit res lores shrink hd hs
      cases hm : Trajectory.makeF F R (t.dsInfoScale F (t.dsamp F R res) shrink).1
          { dim0 := t.nDims,
            dim1 := (dsCount (t.dsLoop F R nan dsInit res lores shrink)).toNat,
            dim2 := t.nTraces,
            data := fun i => (t.dsLoop F R nan dsInit res lores shrink).1
              (i.1, (t.dsLoop F R nan dsInit res lores shrink).2.1 + i.2.1, i.2.2) } with
      | error e =>
        rw [he e hm] at h
        exact absurd h (by simp)
      | ok traj' =>
        rw [ho traj' hm] at h
        simp only [Option.some.injEq, Except.ok.injEq, Prod.mk.injEq] at h
        obtain ⟨h1, h2, h3⟩ := h
        subst h1 h2 h3
        exact ⟨rfl, rfl, rfl, hs, makeF_ok F R _ _ _ hm⟩
    · rw [downsample_out_of_range F R t nan dsInit res lores shrink hd hs] at h
      exact absurd h (by simp)

end Thms47

section Thms48

variable {S C : Type}

/-- C27, as amended. In whatever single-precision arithmetic `F`, with
`dsamp = res / min(voxel_size)`: `minSamp` and `maxSamp` are the least and the greatest
read index at which some trace with index at least `lores` has a point of norm at most
`0.5 / dsamp`, whenever there is such an index; then `minSamp ≤ maxSamp < nSamples`, the
count `dsSamples = maxSamp + 1 - minSamp` lies in `1..nSamples` and the slice of that
range exists.  When there is none, `minSamp = nSamples`, `maxSamp = 0` and the count is
`1 - nSamples`, which is not positive if the trajectory has at least one sample per
trace; the slice then exists only for `nSamples = 1`.  Past the test of `dsamp`, the
call has a result exactly when the slice exists, and the result is that of the
constructor on the slice.  A trajectory that is returned comes with `minSamp` and the
count, has `dsSamples` samples per trace, the read indices from `minSamp` on of the
input (rescaled where kept), and the k-space overloads slice the read index from
`minSamp` with the same count. -/
theorem downsample_read_range (F : FloatOps S) (R : Reductions S) (t : Trajectory S) (nan : S)
    (dsInit : Nat × Nat × Nat → S) (res : S) (lores : Int) (shrink : Bool)
    (ks5 : Ks5 C) (ks4 : Ks4 C) :
    ((∃ is, is < t.nSamples ∧ t.Counted F R (t.dsamp F R res) lores is) →
      IsLeast {is | is < t.nSamples ∧ t.Counted F R (t.dsamp F R res) lores is}
        (t.dsLoop F R nan dsInit res lores shrink).2.1 ∧
      IsGreatest {is | is < t.nSamples ∧ t.Counted F R (t.dsamp F R res) lores is}
        (t.dsLoop F R nan dsInit res lores shrink).2.2 ∧
      (t.dsLoop F R nan dsInit res lores shrink).2.1 ≤
        (t.dsLoop F R nan dsInit res lores shrink).2.2 ∧
      (t.dsLoop F R nan dsInit res lores shrink).2.2 < t.nSamples ∧
      1 ≤ dsCount (t.dsLoop F R nan dsInit res lores shrink) ∧
      dsCount (t.dsLoop F R nan dsInit res lores shrink) ≤ (t.nSamples : Int) ∧
      sliceInRange (t.dsLoop F R nan dsInit res lores shrink).2.1
        (dsCount (t.dsLoop F R nan dsInit res lores shrink)) t.nSamples) ∧
    ((¬ ∃ is, is < t.nSamples ∧ t.Counted F R (t.dsamp F R res) lores is) →
      (t.dsLoop F R nan dsInit res lores shrink).2.1 = t.nSamples ∧
      (t.dsLoop F R nan dsInit res lores shrink).2.2 = 0 ∧
      dsCount (t.dsLoop F R nan dsInit res lores shrink) = 1 - (t.nSamples : Int) ∧
      (1 ≤ t.nSamples → dsCount (t.dsLoop F R nan dsInit res lores shrink) ≤ 0) ∧
      (sliceInRange (t.dsLoop F R nan dsInit res lores shrink).2.1
        (dsCount (t.dsLoop F R nan dsInit res lores shrink)) t.nSamples ↔ t.nSamples = 1)) ∧
    (F.lt (t.dsamp F R res) (F.lit 1) = false →
      (t.downsample F R nan dsInit res lores shrink = none ↔
        ¬ sliceInRange (t.dsLoop F R nan dsInit res lores shrink).2.1
          (dsCount (t.dsLoop F R nan dsInit res lores shrink)) t.nSamples) ∧
      (sliceInRange (t.dsLoop F R nan dsInit res lores shrink).2.1
          (dsCount (t.dsLoop F R nan dsInit res lores shrink)) t.nSamples →
        ∀ traj, Trajectory.makeF F R (t.dsInfoScale F (t.dsamp F R res) shrink).1
            { dim0 := t.nDims,
              dim1 := (dsCount (t.dsLoop F R nan dsInit res lores shrink)).toNat,
              dim2 := t.nTraces,
              data := fun i => (t.dsLoop F R nan dsInit res lores shrink).1
                (i.1, (t.dsLoop F R nan dsInit res lores shrink).2.1 + i.2.1, i.2.2) }
            = .ok traj →
          t.downsample F R nan dsInit res lores shrink =
            some (.ok (traj, (t.dsLoop F R nan dsInit res lores shrink).2.1,
              dsCount (t.dsLoop F R nan dsInit res lores shrink))))) ∧
    (∀ traj minSamp dsSamples,
      t.downsample F R nan dsInit res lores shrink = some (.ok (traj, minSamp, dsSamples)) →
      minSamp = (t.dsLoop F R nan dsInit res lores shrink).2.1 ∧
      dsSamples = ((t.dsLoop F R nan dsInit res lores shrink).2.2 : Int) + 1 -
        (minSamp : Int) ∧
      0 ≤ dsSamples ∧ (minSamp : Int) + dsSamples ≤ (t.nSamples : Int) ∧
      ((∃ is, is < t.nSamples ∧ t.Counted F R (t.dsamp F R res) lores is) →
        1 ≤ dsSamples ∧ dsSamples ≤ (t.nSamples : Int)) ∧
      traj.nSamples = dsSamples.toNat ∧ traj.nTraces = t.nTraces ∧ traj.nDims = t.nDims ∧
      ∀ i j k, minSamp + j < t.nSamples → k < t.nTraces →
        traj.points_.data (i, j, k) =
          if t.Retained F R (t.dsamp F R res) (minSamp + j) k then
            F.mul (t.points_.data (i, minSamp + j, k))
              (t.dsInfoScale F (t.dsamp F R res) shrink).2
          else nan) ∧
    (∀ traj dsKs,
      t.downsample5 F R nan dsInit ks5 res lores shrink = some (.ok (traj, dsKs)) →
      ∃ minSamp nSamp, t.downsample F R nan dsInit res lores shrink
          = some (.ok (traj, minSamp, nSamp)) ∧
        sliceInRange minSamp nSamp (ks5.dims 1) ∧ dsKs.dims 1 = nSamp.toNat ∧
        ∀ i, dsKs.data i = ks5.data (i.1, minSamp + i.2.1, i.2.2)) ∧
    (∀ traj dsKs,
      t.downsample4 F R nan dsInit ks4 res lores shrink = some (.ok (traj, dsKs)) →
      ∃ minSamp nSamp, t.downsample F R nan dsInit res lores shrink
          = some (.ok (traj, minSamp, nSamp)) ∧
        sliceInRange minSamp nSamp (ks4.dims 1) ∧ dsKs.dims 1 = nSamp.toNat ∧
        ∀ i, dsKs.data i = ks4.data (i.1, minSamp + i.2.1, i.2.2)) := by
  obtain ⟨hex, hno⟩ := downsampleLoop_range F R t nan (t.dsamp F R res)
    (t.dsInfoScale F (t.dsamp F R res) shrink).2 lores dsInit
  have hex' : (∃ is, is < t.nSamples ∧ t.Counted F R (t.dsamp F R res) lores is) →
      (t.dsLoop F R nan dsInit res lores shrink).2.1 ≤
        (t.dsLoop F R nan dsInit res lores shrink).2.2 ∧
      (t.dsLoop F R nan dsInit res lores shrink).2.2 < t.nSamples := by
    intro h
    obtain ⟨h1, h2⟩ := hex h
    exact ⟨h2.2 h1.1, h2.1.1⟩
  refine ⟨fun h => ?_, fun h => ?_, fun hd => ⟨⟨fun hn hs => ?_, fun hs => ?_⟩, fun hs => ?_⟩,
    ?_, ?_, ?_⟩
  · obtain ⟨ha, hb⟩ := hex' h
    refine ⟨(hex h).1, (hex h).2, ha, hb, ?_, ?_, ?_, ?_⟩ <;>
      simp only [dsCount] <;> omega
  · obtain ⟨ha, hb⟩ := hno h
    have ha' : (t.dsLoop F R nan dsInit res lores shrink).2.1 = t.nSamples := ha
    have hb' : (t.dsLoop F R nan dsInit res lores shrink).2.2 = 0 := hb
    refine ⟨ha', hb', ?_, fun h1 => ?_, ?_⟩
    · simp only [dsCount, ha', hb']
      push_cast
      ring
    · simp only [dsCount, ha', hb']
      push_cast
      omega
    · simp only [sliceInRange, dsCount, ha', hb']
      push_cast
      omega
  · obtain ⟨he, ho⟩ := downsample_in_range F R t nan dsInit res lores shrink hd hs
    cases hm : Trajectory.makeF F R (t.dsInfoScale F (t.dsamp F R res) shrink).1
        { dim0 := t.nDims,
          dim1 := (dsCount (t.dsLoop F R nan dsInit res lores shrink)).toNat,
          dim2 := t.nTraces,
          data := fun i => (t.dsLoop F R nan dsInit res lores shrink).1
            (i.1, (t.dsLoop F R nan dsInit res lores shrink).2.1 + i.2.1, i.2.2) } with
    | error e =>
      rw [he e hm] at hn
      exact absurd hn (by simp)
    | ok traj' =>
      rw [ho traj' hm] at hn
      exact absurd hn (by simp)
  · exact downsample_out_of_range F R t nan dsInit res lores shrink hd hs
  · exact (downsample_in_range F R t nan dsInit res lores shrink hd hs).2
  · intro traj minSamp dsSamples h
    obtain ⟨_, h2, h3, h4, h5⟩ := downsample_ok F R t nan dsInit res lores shrink traj minSamp
      dsSamples h
    obtain ⟨hd, _⟩ := downsampleLoop_inv F R t nan (t.dsamp F R res)
      (t.dsInfoScale F (t.dsamp F R res) shrink).2 lores dsInit
    refine ⟨h2, by rw [h3, h2]; rfl, h4.1, h4.2, fun he => ?_, by rw [h5]; rfl, by rw [h5]; rfl,
      by rw [h5]; rfl, fun i j k hj hk => ?_⟩
    · obtain ⟨ha, hb⟩ := hex' he
      rw [h3]
      simp only [dsCount]
      omega
    · rw [h5]
      show (t.dsLoop F R nan dsInit res lores shrink).1 (i, minSamp + j, k) = _
      exact hd i (minSamp + j) k hj hk trivial
  · intro traj dsKs h
    simp only [Trajectory.downsample5] at h
    split at h
    · exact absurd h (by simp)
    · exact absurd h (by simp)
    · rename_i dsTraj minSamp nSamp heq
      split_ifs at h with hs
      simp only [Option.some.injEq, Except.ok.injEq, Prod.mk.injEq] at h
      obtain ⟨h1, h2⟩ := h
      subst h1 h2
      exact ⟨minSamp, nSamp, heq, hs, rfl, fun _ => rfl⟩
  · intro traj dsKs h
    simp only [Trajectory.downsample4] at h
    split at h
    · exact absurd h (by simp)
    · exact absurd h (by simp)
    · rename_i dsTraj minSamp nSamp heq
      split_ifs at h with hs
      simp only [Option.some.injEq, Except.ok.injEq, Prod.mk.injEq] at h
      obtain ⟨h1, h2⟩ := h
      subst h1 h2
      exact ⟨minSamp, nSamp, heq, hs, rfl, fun _ => rfl⟩

end Thms48

/-- In exact arithmetic the constructor in the arithmetic `F` is `Trajectory.make`. -/
theorem makeF_exact {K : Type} [LinearOrderedField K] [FloorRing K] (sqrt : K → K)
    (info : Info K) (points : Re3 K) :
    Trajectory.makeF (FloatOps.exact K sqrt) (Reductions.exact K sqrt) info points =
      Trajectory.make info points := by
  have hhalf : ((1 / 2 : ℚ) : K) = 1 / 2 := by norm_num
  simp only [Trajectory.makeF, Trajectory.initF, Trajectory.make, Trajectory.init,
    FloatOps.exact, Reductions.exact, Re3.absF, Re3.abs, decide_eq_true_eq, hhalf, gt_iff_lt]

theorem exInfo_minVoxel : (exInfo ℝ).minVoxel = 1 := by
  simp [Info.minVoxel, exInfo]

/-- The factor of the example trajectories in exact arithmetic is the resolution asked
for, the voxels being of size one. -/
theorem exInfo_dsamp (t : Trajectory ℝ) (ht : t.info_ = exInfo ℝ) (res : ℝ) :
    t.dsamp (FloatOps.exact ℝ Real.sqrt) (Reductions.exact ℝ Real.sqrt) res = res := by
  simp [Trajectory.dsamp, FloatOps.exact, Reductions.exact, ht, exInfo]

/-- C27, counterexample. On a trajectory without samples no read index is counted, the
loops leave `minSamp = 0` and `maxSamp = 0`, and the computed count
`maxSamp + 1 - minSamp` is `1 - nSamples = 1`, which is positive.  The slice of one
sample from a tensor without samples does not exist, and the call has no result. -/
theorem downsample_count_positive_without_samples :
    (emptyTraj ℝ).nSamples = 0 ∧
    (¬ ∃ is, is < (emptyTraj ℝ).nSamples ∧
      (emptyTraj ℝ).Counted (FloatOps.exact ℝ Real.sqrt) (Reductions.exact ℝ Real.sqrt)
        ((emptyTraj ℝ).dsamp (FloatOps.exact ℝ Real.sqrt) (Reductions.exact ℝ Real.sqrt) 1)
        0 is) ∧
    ((emptyTraj ℝ).dsLoop (FloatOps.exact ℝ Real.sqrt) (Reductions.exact ℝ Real.sqrt) 0
      (fun _ => 0) 1 0 false).2 = (0, 0) ∧
    dsCount ((emptyTraj ℝ).dsLoop (FloatOps.exact ℝ Real.sqrt) (Reductions.exact ℝ Real.sqrt) 0
      (fun _ => 0) 1 0 false) = 1 ∧
    (1 : Int) - ((emptyTraj ℝ).nSamples : Int) = 1 ∧
    ¬ sliceInRange 0 1 (emptyTraj ℝ).nSamples ∧
    (emptyTraj ℝ).downsample (FloatOps.exact ℝ Real.sqrt) (Reductions.exact ℝ Real.sqrt) 0
      (fun _ => 0) 1 0 false = none := by
  have hloop : (emptyTraj ℝ).dsLoop (FloatOps.exact ℝ Real.sqrt)
      (Reductions.exact ℝ Real.sqrt) 0 (fun _ => 0) 1 0 false = (fun _ => 0, 0, 0) := by
    simp [Trajectory.dsLoop, Trajectory.downsampleLoop, forLoop, Trajectory.nTraces,
      Trajectory.nSamples, emptyTraj, constPoints]
  have hd : (FloatOps.exact ℝ Real.sqrt).lt
      ((emptyTraj ℝ).dsamp (FloatOps.exact ℝ Real.sqrt) (Reductions.exact ℝ Real.sqrt) 1)
      ((FloatOps.exact ℝ Real.sqrt).lit 1) = false := by
    rw [exInfo_dsamp _ rfl]
    simp [FloatOps.exact]
  have hs : ¬ sliceInRange 0 1 (emptyTraj ℝ).nSamples := by
    simp [sliceInRange, Trajectory.nSamples, emptyTraj, constPoints]
  refine ⟨rfl, ?_, by rw [hloop], by rw [hloop]; rfl, rfl, hs, ?_⟩
  · rintro ⟨is, his, _⟩
    exact absurd his (Nat.not_lt_zero _)
  · apply downsample_out_of_range _ _ _ _ _ _ _ _ hd
    rw [hloop]
    exact hs

/-- The point of `shrinkTraj` is kept for `dsamp = 3`, as `0.15 ≤ 0.5 / 3`. -/
theorem shrinkTraj_retained :
    (shrinkTraj ℝ).Retained (FloatOps.exact ℝ Real.sqrt) (Reductions.exact ℝ Real.sqrt) 3 0 0 :=
  by
  simp only [Trajectory.Retained, Reductions.exact, FloatOps.exact, Norm, Trajectory.point,
    shrinkTraj, constPoints, Finset.sum_range_one, decide_eq_true_eq]
  rw [Real.sqrt_mul_self (by norm_num)]
  norm_num

/-- The loops of `downsample` on `shrinkTraj` for `dsamp = 3`: `minSamp = maxSamp = 0` and
the point is rescaled. -/
theorem shrinkTraj_loop (scale : ℝ) :
    ((shrinkTraj ℝ).downsampleLoop (FloatOps.exact ℝ Real.sqrt) (Reductions.exact ℝ Real.sqrt)
      0 3 scale 0 (fun _ => 0)).2 = (0, 0) ∧
    ((shrinkTraj ℝ).downsampleLoop (FloatOps.exact ℝ Real.sqrt) (Reductions.exact ℝ Real.sqrt)
      0 3 scale 0 (fun _ => 0)).1 (0, 0, 0) = 3 / 20 * scale := by
  obtain ⟨hd, _⟩ := downsampleLoop_inv (FloatOps.exact ℝ Real.sqrt) (Reductions.exact ℝ Real.sqrt)
    (shrinkTraj ℝ) 0 3 scale 0 (fun _ => 0)
  obtain ⟨hex, -⟩ := downsampleLoop_range (FloatOps.exact ℝ Real.sqrt)
    (Reductions.exact ℝ Real.sqrt) (shrinkTraj ℝ) 0 3 scale 0 (fun _ => 0)
  have hc : ∃ is, is < (shrinkTraj ℝ).nSamples ∧ (shrinkTraj ℝ).Counted
      (FloatOps.exact ℝ Real.sqrt) (Reductions.exact ℝ Real.sqrt) 3 0 is :=
    ⟨0, by decide, 0, by decide, le_refl _, shrinkTraj_retained⟩
  obtain ⟨hmin, hmax⟩ := hex hc
  have h2 : (shrinkTraj ℝ).nSamples = 1 := rfl
  have hmax0 : ((shrinkTraj ℝ).downsampleLoop (FloatOps.exact ℝ Real.sqrt)
      (Reductions.exact ℝ Real.sqrt) 0 3 scale 0 (fun _ => 0)).2.2 = 0 := by
    have h1 : ((shrinkTraj ℝ).downsampleLoop (FloatOps.exact ℝ Real.sqrt)
      (Reductions.exact ℝ Real.sqrt) 0 3 scale 0 (fun _ => 0)).2.2 <
        (shrinkTraj ℝ).nSamples := hmax.1.1
    omega
  have hmin0 : ((shrinkTraj ℝ).downsampleLoop (FloatOps.exact ℝ Real.sqrt)
      (Reductions.exact ℝ Real.sqrt) 0 3 scale 0 (fun _ => 0)).2.1 = 0 := by
    have h1 : ((shrinkTraj ℝ).downsampleLoop (FloatOps.exact ℝ Real.sqrt)
      (Reductions.exact ℝ Real.sqrt) 0 3 scale 0 (fun _ => 0)).2.1 <
        (shrinkTraj ℝ).nSamples := hmin.1.1
    omega
  have hval := hd 0 0 0 (by decide) (by decide) trivial
  rw [if_pos shrinkTraj_retained] at hval
  exact ⟨Prod.ext hmin0 hmax0, hval⟩

/-- A run of `downsample` that returns, for `downsample_read_range`: without `shrink` the
point `0.15` of `shrinkTraj` is kept for `res = 3` and a trajectory of one sample per
trace is returned with `minSamp = 0` and `dsSamples = 1`. -/
theorem downsample_read_range_witness :
    ∃ traj, (shrinkTraj ℝ).downsample (FloatOps.exact ℝ Real.sqrt)
        (Reductions.exact ℝ Real.sqrt) 0 (fun _ => 0) 3 0 false = some (.ok (traj, 0, 1)) ∧
      traj.nSamples = 1 ∧ traj.points_.data (0, 0, 0) = 3 / 20 := by
  have hda : (shrinkTraj ℝ).dsamp (FloatOps.exact ℝ Real.sqrt) (Reductions.exact ℝ Real.sqrt) 3
      = 3 := exInfo_dsamp _ rfl 3
  have hsc : ((shrinkTraj ℝ).dsInfoScale (FloatOps.exact ℝ Real.sqrt) 3 false).2 = 1 := by
    simp [Trajectory.dsInfoScale, FloatOps.exact]
  have hlp : (shrinkTraj ℝ).dsLoop (FloatOps.exact ℝ Real.sqrt) (Reductions.exact ℝ Real.sqrt) 0
      (fun _ => 0) 3 0 false =
      (shrinkTraj ℝ).downsampleLoop (FloatOps.exact ℝ Real.sqrt) (Reductions.exact ℝ Real.sqrt) 0
        3 1 0 (fun _ => 0) := by
    simp only [Trajectory.dsLoop, hda, hsc]
  obtain ⟨hl2, hl1⟩ := shrinkTraj_loop 1
  rw [← hlp] at hl2 hl1
  have hmin : ((shrinkTraj ℝ).dsLoop (FloatOps.exact ℝ Real.sqrt)
      (Reductions.exact ℝ Real.sqrt) 0 (fun _ => 0) 3 0 false).2.1 = 0 := by rw [hl2]
  have hcount : dsCount ((shrinkTraj ℝ).dsLoop (FloatOps.exact ℝ Real.sqrt)
      (Reductions.exact ℝ Real.sqrt) 0 (fun _ => 0) 3 0 false) = 1 := by
    simp only [dsCount, hl2]
    rfl
  have hlt : (FloatOps.exact ℝ Real.sqrt).lt
      ((shrinkTraj ℝ).dsamp (FloatOps.exact ℝ Real.sqrt) (Reductions.exact ℝ Real.sqrt) 3)
      ((FloatOps.exact ℝ Real.sqrt).lit 1) = false := by
    rw [hda]
    simp [FloatOps.exact]
  have hs : sliceInRange ((shrinkTraj ℝ).dsLoop (FloatOps.exact ℝ Real.sqrt)
      (Reductions.exact ℝ Real.sqrt) 0 (fun _ => 0) 3 0 false).2.1
      (dsCount ((shrinkTraj ℝ).dsLoop (FloatOps.exact ℝ Real.sqrt)
        (Reductions.exact ℝ Real.sqrt) 0 (fun _ => 0) 3 0 false)) (shrinkTraj ℝ).nSamples := by
    rw [hcount, hmin]
    exact ⟨by decide, by decide⟩
  have h := downsample_read_range (FloatOps.exact ℝ Real.sqrt) (Reductions.exact ℝ Real.sqrt)
    (shrinkTraj ℝ) 0 (fun _ => 0) 3 0 false
    ({ dims := fun _ => 0, data := fun _ => 0 } : Ks5 ℝ)
    ({ dims := fun _ => 0, data := fun _ => 0 } : Ks4 ℝ)
  have hret := (h.2.2.1 hlt).2 hs _ (by
    rw [makeF_eq, if_neg (by simp [Trajectory.nDims, shrinkTraj, constPoints]), if_neg]
    show ¬ decide ((((1 / 2 : ℚ) : ℝ)) < Maximum (Re3.abs _)) = true
    have hhalf : ((1 / 2 : ℚ) : ℝ) = 1 / 2 := by norm_num
    rw [decide_eq_true_eq, hhalf, maximum_abs_gt_half]
    rintro ⟨i, j, k, hi, hj, hk, hv⟩
    have hi0 : i = 0 := by simpa [Trajectory.nDims, shrinkTraj, constPoints] using hi
    have hj0 : j = 0 := by
      have hj' : j < (dsCount ((shrinkTraj ℝ).dsLoop (FloatOps.exact ℝ Real.sqrt)
        (Reductions.exact ℝ Real.sqrt) 0 (fun _ => 0) 3 0 false)).toNat := hj
      rw [hcount] at hj'
      have h1 : (1 : Int).toNat = 1 := rfl
      omega
    have hk0 : k = 0 := by simpa [Trajectory.nTraces, shrinkTraj, constPoints] using hk
    subst hi0 hj0 hk0
    have hv' : (1 : ℝ) / 2 < |((shrinkTraj ℝ).dsLoop (FloatOps.exact ℝ Real.sqrt)
        (Reductions.exact ℝ Real.sqrt) 0 (fun _ => 0) 3 0 false).1 (0, _ + 0, 0)| := hv
    rw [hmin, Nat.add_zero, hl1, abs_of_pos (by norm_num)] at hv'
    norm_num at hv')
  rw [hmin, hcount] at hret
  refine ⟨_, hret, ?_, ?_⟩
  · rfl
  · show ((shrinkTraj ℝ).dsLoop (FloatOps.exact ℝ Real.sqrt)
      (Reductions.exact ℝ Real.sqrt) 0 (fun _ => 0) 3 0 false).1 (0, 0 + 0, 0) = 3 / 20
    rw [Nat.add_zero, hl1]
    norm_num

/-- C26 (failing input). For the matrix `4`, unit voxels and `res = 3` the factor is
`dsamp = 3` and `scale = 4 / trunc(4/3) = 4`.  The point `0.15` is kept, as
`0.15 ≤ 0.5 / 3`; multiplied by `scale` it has norm `0.6`, above `0.5`, and the
construction of the downsampled trajectory fails on the maximum co-ordinate. -/
theorem downsample_shrink_exceeds_bound :
    ¬ 3 / (shrinkTraj ℝ).info_.minVoxel < 1 ∧
    ((shrinkTraj ℝ).dsInfoScale (FloatOps.exact ℝ Real.sqrt)
      (3 / (shrinkTraj ℝ).info_.minVoxel) true).2 = 4 ∧
    (shrinkTraj ℝ).Retained (FloatOps.exact ℝ Real.sqrt) (Reductions.exact ℝ Real.sqrt)
      (3 / (shrinkTraj ℝ).info_.minVoxel) 0 0 ∧
    1 / 2 <
      Norm Real.sqrt { dim0 := 1, data := fun i => (shrinkTraj ℝ).points_.data (i, 0, 0) * 4 } ∧
    ∃ e, (shrinkTraj ℝ).downsample (FloatOps.exact ℝ Real.sqrt) (Reductions.exact ℝ Real.sqrt)
        0 (fun _ => 0) 3 0 true = some (.error e) ∧
      e.fmt = "Maximum trajectory co-ordinate \x7b\x7d exceeded 0.5" := by
  have hv : (shrinkTraj ℝ).info_.minVoxel = 1 := exInfo_minVoxel
  have hda : (shrinkTraj ℝ).dsamp (FloatOps.exact ℝ Real.sqrt) (Reductions.exact ℝ Real.sqrt) 3
      = 3 := exInfo_dsamp _ rfl 3
  have htr : truncIndex ((4 : ℝ) / 3) = 1 := by
    simp only [truncIndex]
    rw [if_pos (by norm_num), Int.floor_eq_iff]
    constructor <;> norm_num
  have hscale : ((shrinkTraj ℝ).dsInfoScale (FloatOps.exact ℝ Real.sqrt) 3 true).2 = 4 := by
    simp only [Trajectory.dsInfoScale, if_true, shrinkTraj, exInfo, Trajectory.nDims, constPoints,
      FloatOps.exact]
    simp only [Fin.val_zero, Nat.lt_one_iff, if_true, Int.cast_ofNat]
    rw [htr]
    norm_num
  have hnorm : (1 : ℝ) / 2 <
      Norm Real.sqrt { dim0 := 1, data := fun i => (shrinkTraj ℝ).points_.data (i, 0, 0) * 4 } := by
    simp only [Norm, shrinkTraj, constPoints, Finset.sum_range_one]
    rw [Real.sqrt_mul_self (by norm_num)]
    norm_num
  rw [hv, div_one]
  refine ⟨by norm_num, hscale, shrinkTraj_retained, hnorm, ?_⟩
  have hlp : (shrinkTraj ℝ).dsLoop (FloatOps.exact ℝ Real.sqrt) (Reductions.exact ℝ Real.sqrt) 0
      (fun _ => 0) 3 0 true =
      (shrinkTraj ℝ).downsampleLoop (FloatOps.exact ℝ Real.sqrt) (Reductions.exact ℝ Real.sqrt) 0
        3 4 0 (fun _ => 0) := by
    simp only [Trajectory.dsLoop, hda, hscale]
  obtain ⟨hl2, hl1⟩ := shrinkTraj_loop 4
  rw [← hlp] at hl2 hl1
  have hmin0 : ((shrinkTraj ℝ).dsLoop (FloatOps.exact ℝ Real.sqrt)
      (Reductions.exact ℝ Real.sqrt) 0 (fun _ => 0) 3 0 true).2.1 = 0 := by rw [hl2]
  have hlt : (FloatOps.exact ℝ Real.sqrt).lt
      ((shrinkTraj ℝ).dsamp (FloatOps.exact ℝ Real.sqrt) (Reductions.exact ℝ Real.sqrt) 3)
      ((FloatOps.exact ℝ Real.sqrt).lit 1) = false := by
    rw [hda]
    simp [FloatOps.exact]
  have hcount : dsCount ((shrinkTraj ℝ).dsLoop (FloatOps.exact ℝ Real.sqrt)
      (Reductions.exact ℝ Real.sqrt) 0 (fun _ => 0) 3 0 true) = 1 := by
    simp only [dsCount, hl2]
    rfl
  have hs : sliceInRange ((shrinkTraj ℝ).dsLoop (FloatOps.exact ℝ Real.sqrt)
      (Reductions.exact ℝ Real.sqrt) 0 (fun _ => 0) 3 0 true).2.1
      (dsCount ((shrinkTraj ℝ).dsLoop (FloatOps.exact ℝ Real.sqrt)
        (Reductions.exact ℝ Real.sqrt) 0 (fun _ => 0) 3 0 true)) (shrinkTraj ℝ).nSamples := by
    rw [hcount, hmin0]
    exact ⟨by decide, by decide⟩
  obtain ⟨he, -⟩ := downsample_in_range (FloatOps.exact ℝ Real.sqrt)
    (Reductions.exact ℝ Real.sqrt) (shrinkTraj ℝ) 0 (fun _ => 0) 3 0 true hlt hs
  suffices hm : ∃ e, Trajectory.makeF (FloatOps.exact ℝ Real.sqrt) (Reductions.exact ℝ Real.sqrt)
      ((shrinkTraj ℝ).dsInfoScale (FloatOps.exact ℝ Real.sqrt)
        ((shrinkTraj ℝ).dsamp (FloatOps.exact ℝ Real.sqrt) (Reductions.exact ℝ Real.sqrt) 3)
        true).1
      { dim0 := (shrinkTraj ℝ).nDims,
        dim1 := (dsCount ((shrinkTraj ℝ).dsLoop (FloatOps.exact ℝ Real.sqrt)
          (Reductions.exact ℝ Real.sqrt) 0 (fun _ => 0) 3 0 true)).toNat,
        dim2 := (shrinkTraj ℝ).nTraces,
        data := fun i => ((shrinkTraj ℝ).dsLoop (FloatOps.exact ℝ Real.sqrt)
          (Reductions.exact ℝ Real.sqrt) 0 (fun _ => 0) 3 0 true).1
            (i.1, ((shrinkTraj ℝ).dsLoop (FloatOps.exact ℝ Real.sqrt)
              (Reductions.exact ℝ Real.sqrt) 0 (fun _ => 0) 3 0 true).2.1 + i.2.1, i.2.2) }
        = .error e ∧ e.fmt = "Maximum trajectory co-ordinate \x7b\x7d exceeded 0.5" by
    obtain ⟨e, hm1, hm2⟩ := hm
    exact ⟨e, he e hm1, hm2⟩
  rw [makeF_eq, if_neg (by simp [Trajectory.nDims, shrinkTraj, constPoints]), if_pos]
  · exact ⟨_, rfl, rfl⟩
  show decide ((((1 / 2 : ℚ) : ℝ)) < Maximum (Re3.abs _)) = true
  have hhalf : ((1 / 2 : ℚ) : ℝ) = 1 / 2 := by norm_num
  rw [decide_eq_true_eq, hhalf, maximum_abs_gt_half]
  refine ⟨0, 0, 0, by simp [Trajectory.nDims, shrinkTraj, constPoints], ?_,
    by simp [Trajectory.nTraces, shrinkTraj, constPoints], ?_⟩
  · rw [hcount]
    decide
  · show (1 / 2 : ℝ) <
      |((shrinkTraj ℝ).dsLoop (FloatOps.exact ℝ Real.sqrt) (Reductions.exact ℝ Real.sqrt) 0
        (fun _ => 0) 3 0 true).1 (0, _ + 0, 0)|
    rw [hmin0, Nat.add_zero, hl1, abs_of_pos (by norm_num)]
    norm_num

/-! ## C28: the two modes of `GridBasis::Adj` -/

section Thms49

variable {Pt K : Type} [CommRing K]

theorem sliceAdd_eq_add (t : Nat × Nat × Int × Int × Int → K) (nC nB IP TP : Nat)
    (stX stY stZ : Int) (nbk : Nat × Nat × Nat × Nat × Nat → K) :
    sliceAdd t nC nB IP TP stX stY stZ nbk =
      t + sliceAdd (fun _ => 0) nC nB IP TP stX stY stZ nbk := by
  funext i
  simp only [sliceAdd, Pi.add_apply]
  split_ifs
  · rw [zero_add]
  · rw [add_zero]

/-- A sample step adds the block of the sample to the grid (unsafe mode) or, moved down
by `minZ`, to the workspace (safe mode). -/
theorem adjSample_eq (g : GridBasis Pt K) (noncart : Cx3 K) (nC nB : Nat) (minZ : Int)
    (ii : Nat) (st : (Nat × Nat × Int × Int × Int → K) × (Nat × Nat × Int × Int × Int → K)) :
    g.AdjSample noncart nC nB minZ ii st =
      if g.safe then (st.1, st.2 + g.block noncart nC nB minZ ii)
      else (st.1 + g.block noncart nC nB 0 ii, st.2) := by
  simp only [GridBasis.AdjSample, GridBasis.block]
  split_ifs
  · rw [sliceAdd_eq_add]
  · rw [sliceAdd_eq_add, sub_zero]

theorem adjSample_foldl (g : GridBasis Pt K) (noncart : Cx3 K) (nC nB : Nat) (minZ : Int)
    (l : List Nat) (st : (Nat × Nat × Int × Int × Int → K) × (Nat × Nat × Int × Int × Int → K)) :
    l.foldl (fun st ii => g.AdjSample noncart nC nB minZ ii st) st =
      if g.safe then (st.1, st.2 + (l.map (fun ii => g.block noncart nC nB minZ ii)).sum)
      else (st.1 + (l.map (fun ii => g.block noncart nC nB 0 ii)).sum, st.2) := by
  induction l generalizing st with
  | nil => simp
  | cons a l ih =>
    rw [List.foldl_cons, ih, adjSample_eq]
    by_cases hs : g.safe = true
    · simp only [hs, if_true, List.map_cons, List.sum_cons, add_assoc]
    · simp only [hs, Bool.false_eq_true, if_false, List.map_cons, List.sum_cons, add_assoc]

/-- A task in the unsafe mode adds the blocks of its samples to the grid. -/
theorem adjTask_unsafe (g : GridBasis Pt K) (hs : g.safe = false) (noncart : Cx3 K)
    (nC nB lo hi : Nat) (cart : Nat × Nat × Int × Int × Int → K) :
    (g.AdjTask noncart nC nB lo hi cart).1 =
      cart + ((List.range' lo (hi - lo)).map (fun ii => g.block noncart nC nB 0 ii)).sum := by
  simp only [GridBasis.AdjTask, adjSample_foldl, hs, Bool.false_eq_true, if_false]

/-- A task in the safe mode leaves the grid alone and gathers the blocks of its samples,
moved down by `minZ`, in its workspace. -/
theorem adjTask_safe (g : GridBasis Pt K) (hs : g.safe = true) (noncart : Cx3 K)
    (nC nB lo hi : Nat) (cart : Nat × Nat × Int × Int × Int → K) :
    (g.AdjTask noncart nC nB lo hi cart).1 = cart ∧
    (g.AdjTask noncart nC nB lo hi cart).2.minZ =
      (g.mapping.cart (g.mapping.sortedIndices lo)).z - (((g.TP - 1) / 2 : Nat) : Int) ∧
    (g.AdjTask noncart nC nB lo hi cart).2.szZ =
      (g.mapping.cart (g.mapping.sortedIndices (hi - 1))).z + ((g.TP / 2 : Nat) : Int) -
        ((g.mapping.cart (g.mapping.sortedIndices lo)).z - (((g.TP - 1) / 2 : Nat) : Int)) + 1 ∧
    (g.AdjTask noncart nC nB lo hi cart).2.data =
      ((List.range' lo (hi - lo)).map (fun ii => g.block noncart nC nB
        ((g.mapping.cart (g.mapping.sortedIndices lo)).z - (((g.TP - 1) / 2 : Nat) : Int))
        ii)).sum := by
  simp only [GridBasis.AdjTask, adjSample_foldl, hs, if_true]
  refine ⟨trivial, trivial, trivial, ?_⟩
  funext i
  simp

/-- Moving a block down by `off` and reading it `off` lower is reading the block. -/
theorem block_shift (g : GridBasis Pt K) (noncart : Cx3 K) (nC nB : Nat) (off : Int)
    (ii : Nat) (c b : Nat) (x y z : Int) :
    g.block noncart nC nB off ii (c, b, x, y, z - off) =
      g.block noncart nC nB 0 ii (c, b, x, y, z) := by
  simp only [GridBasis.block, sliceAdd, sub_zero]
  have hz : z - off - ((g.mapping.cart (g.mapping.sortedIndices ii)).z -
      (((g.TP - 1) / 2 : Nat) : Int) - off) =
      z - ((g.mapping.cart (g.mapping.sortedIndices ii)).z - (((g.TP - 1) / 2 : Nat) : Int)) := by
    ring
  rw [hz]
  apply if_congr _ rfl rfl
  constructor
  · rintro ⟨h1, h2, h3, h4, h5, h6, h7, h8⟩
    exact ⟨h1, h2, h3, h4, h5, h6, by omega, by omega⟩
  · rintro ⟨h1, h2, h3, h4, h5, h6, h7, h8⟩
    exact ⟨h1, h2, h3, h4, h5, h6, by omega, by omega⟩

/-- A block vanishes outside the channels, the basis coefficients and the `z` footprint
of its sample. -/
theorem block_support (g : GridBasis Pt K) (noncart : Cx3 K) (nC nB : Nat) (ii : Nat)
    (i : Nat × Nat × Int × Int × Int) (h : g.block noncart nC nB 0 ii i ≠ 0) :
    i.1 < nC ∧ i.2.1 < nB ∧
    (g.mapping.cart (g.mapping.sortedIndices ii)).z - (((g.TP - 1) / 2 : Nat) : Int)
      ≤ i.2.2.2.2 ∧
    i.2.2.2.2 < (g.mapping.cart (g.mapping.sortedIndices ii)).z -
      (((g.TP - 1) / 2 : Nat) : Int) + g.TP := by
  simp only [GridBasis.block, sliceAdd, sub_zero] at h
  split_ifs at h with hc
  · exact ⟨hc.1, hc.2.1, hc.2.2.2.2.2.2.1, hc.2.2.2.2.2.2.2⟩
  · exact absurd rfl h

theorem adjMerge_eq_add (nC nB dimX dimY : Nat) (cart : Nat × Nat × Int × Int × Int → K)
    (ts : ThreadSpace K) :
    GridBasis.AdjMerge nC nB dimX dimY cart ts =
      cart + GridBasis.AdjMerge nC nB dimX dimY (fun _ => 0) ts := by
  funext i
  simp only [GridBasis.AdjMerge, Pi.add_apply]
  by_cases hz : ts.szZ ≠ 0
  · simp only [if_pos hz]
    split_ifs
    · rw [zero_add]
    · rw [add_zero]
  · simp only [if_neg hz, add_zero]

theorem adjMerge_foldl (nC nB dimX dimY : Nat) (l : List (ThreadSpace K))
    (cart : Nat × Nat × Int × Int × Int → K) :
    l.foldl (fun c ts => GridBasis.AdjMerge nC nB dimX dimY c ts) cart =
      cart + (l.map (fun ts => GridBasis.AdjMerge nC nB dimX dimY (fun _ => 0) ts)).sum :=
  adds_foldl l (fun c ts => GridBasis.AdjMerge nC nB dimX dimY c ts)
    (fun ts => GridBasis.AdjMerge nC nB dimX dimY (fun _ => 0) ts)
    (fun ts s => adjMerge_eq_add nC nB dimX dimY s ts) cart

theorem adjTask_safe_workspace (g : GridBasis Pt K) (hs : g.safe = true) (noncart : Cx3 K)
    (nC nB lo hi : Nat) (cart : Nat × Nat × Int × Int × Int → K) :
    (g.AdjTask noncart nC nB lo hi cart).2 = g.workspace noncart nC nB lo hi := by
  obtain ⟨_, h2, h3, h4⟩ := adjTask_safe g hs noncart nC nB lo hi cart
  cases hts : (g.AdjTask noncart nC nB lo hi cart).2 with
  | mk minZ szZ data =>
    rw [hts] at h2 h3 h4
    simp only at h2 h3 h4
    simp only [GridBasis.workspace, h2, h3, h4]

/-- All tasks in the unsafe mode: the grid gets the blocks of all samples of all ranges. -/
theorem adjRun_unsafe (g : GridBasis Pt K) (hs : g.safe = false) (noncart : Cx3 K)
    (nC nB : Nat) (ranges : List (Nat × Nat))
    (st : (Nat × Nat × Int × Int × Int → K) × List (ThreadSpace K)) :
    (g.AdjRun noncart nC nB ranges st).1 =
      st.1 + (ranges.map (fun r => ((List.range' r.1 (r.2 - r.1)).map
        (fun ii => g.block noncart nC nB 0 ii)).sum)).sum := by
  induction ranges generalizing st with
  | nil => simp [GridBasis.AdjRun]
  | cons r rs ih =>
    have h := ih ((g.AdjTask noncart nC nB r.1 r.2 st.1).1,
      st.2 ++ [(g.AdjTask noncart nC nB r.1 r.2 st.1).2])
    simp only [GridBasis.AdjRun, List.foldl_cons] at h ⊢
    rw [h, adjTask_unsafe g hs, List.map_cons, List.sum_cons, add_assoc]

/-- All tasks in the safe mode: the grid is untouched and every range leaves its
workspace. -/
theorem adjRun_safe (g : GridBasis Pt K) (hs : g.safe = true) (noncart : Cx3 K)
    (nC nB : Nat) (ranges : List (Nat × Nat))
    (st : (Nat × Nat × Int × Int × Int → K) × List (ThreadSpace K)) :
    (g.AdjRun noncart nC nB ranges st).1 = st.1 ∧
    (g.AdjRun noncart nC nB ranges st).2 =
      st.2 ++ ranges.map (fun r => g.workspace noncart nC nB r.1 r.2) := by
  induction ranges generalizing st with
  | nil => simp [GridBasis.AdjRun]
  | cons r rs ih =>
    have h := ih ((g.AdjTask noncart nC nB r.1 r.2 st.1).1,
      st.2 ++ [(g.AdjTask noncart nC nB r.1 r.2 st.1).2])
    simp only [GridBasis.AdjRun, List.foldl_cons] at h ⊢
    rw [h.1, h.2, (adjTask_safe g hs noncart nC nB r.1 r.2 st.1).1,
      adjTask_safe_workspace g hs]
    simp

/-- In a range sorted along `z` every write of a sample into the workspace has a `z`
index within the workspace. -/
theorem workspace_write_in_range (g : GridBasis Pt K) (noncart : Cx3 K) (nC nB : Nat)
    (lo hi : Nat)
    (hsorted : ∀ i j, lo ≤ i → i ≤ j → j < hi →
      (g.mapping.cart (g.mapping.sortedIndices i)).z ≤
        (g.mapping.cart (g.mapping.sortedIndices j)).z)
    (ii : Nat) (hlo : lo ≤ ii) (hhi : ii < hi) (iz : Nat) (hiz : iz < g.TP) :
    0 ≤ (g.mapping.cart (g.mapping.sortedIndices ii)).z - (((g.TP - 1) / 2 : Nat) : Int) -
        (g.workspace noncart nC nB lo hi).minZ + iz ∧
    (g.mapping.cart (g.mapping.sortedIndices ii)).z - (((g.TP - 1) / 2 : Nat) : Int) -
        (g.workspace noncart nC nB lo hi).minZ + iz <
      (g.workspace noncart nC nB lo hi).szZ := by
  have h1 := hsorted lo ii (le_refl _) hlo hhi
  have h2 := hsorted ii (hi - 1) hlo (by omega) (by omega)
  simp only [GridBasis.workspace]
  constructor
  · omega
  · have h3 : ((g.TP / 2 : Nat) : Int) + (((g.TP - 1) / 2 : Nat) : Int) + 1 ≥ (g.TP : Int) := by
      omega
    omega

/-- For a range sorted along `z`, merging the workspace of the range into an empty grid
gives, at every cell within the `x` and `y` extent of the grid, the sum of the blocks of
the range. -/
theorem adjMerge_workspace (g : GridBasis Pt K) (noncart : Cx3 K) (nC nB dimX dimY : Nat)
    (lo hi : Nat)
    (hsorted : ∀ i j, lo ≤ i → i ≤ j → j < hi →
      (g.mapping.cart (g.mapping.sortedIndices i)).z ≤
        (g.mapping.cart (g.mapping.sortedIndices j)).z)
    (i : Nat × Nat × Int × Int × Int)
    (hx : 0 ≤ i.2.2.1 ∧ i.2.2.1 < dimX) (hy : 0 ≤ i.2.2.2.1 ∧ i.2.2.2.1 < dimY) :
    GridBasis.AdjMerge nC nB dimX dimY (fun _ => 0) (g.workspace noncart nC nB lo hi) i =
      ((List.range' lo (hi - lo)).map (fun ii => g.block noncart nC nB 0 ii)).sum i := by
  obtain ⟨c, b, x, y, z⟩ := i
  have hshift : (g.workspace noncart nC nB lo hi).data
      (c, b, x, y, z - (g.workspace noncart nC nB lo hi).minZ) =
      ((List.range' lo (hi - lo)).map (fun ii => g.block noncart nC nB 0 ii)).sum
        (c, b, x, y, z) := by
    simp only [GridBasis.workspace]
    rw [list_sum_apply, list_sum_apply]
    congr 1
    apply List.map_congr_left
    intro ii _
    exact block_shift g noncart nC nB _ ii c b x y z
  by_cases hw : (g.workspace noncart nC nB lo hi).szZ ≠ 0 ∧ c < nC ∧ b < nB ∧
      (g.workspace noncart nC nB lo hi).minZ ≤ z ∧
      z < (g.workspace noncart nC nB lo hi).minZ + (g.workspace noncart nC nB lo hi).szZ
  · simp only [GridBasis.AdjMerge, if_pos hw.1]
    rw [if_pos ⟨hw.2.1, hw.2.2.1, hx.1, hx.2, hy.1, hy.2, hw.2.2.2.1, hw.2.2.2.2⟩, zero_add]
    exact hshift
  · have hzero : ((List.range' lo (hi - lo)).map
        (fun ii => g.block noncart nC nB 0 ii)).sum (c, b, x, y, z) = 0 := by
      rw [list_sum_apply]
      apply List.sum_eq_zero
      intro v hv
      obtain ⟨ii, hii, rfl⟩ := List.mem_map.mp hv
      rw [List.mem_range'_1] at hii
      by_contra hne
      obtain ⟨h1, h2, h3, h4⟩ := block_support g noncart nC nB ii _ hne
      obtain ⟨h5, h6⟩ := workspace_write_in_range g noncart nC nB lo hi hsorted ii hii.1
        (by omega) 0 (by
          by_contra h0
          have : g.TP = 0 := by omega
          simp only [this] at h3 h4
          omega)
      have h7 : (((g.TP / 2 : Nat) : Int) + (((g.TP - 1) / 2 : Nat) : Int) + 1 ≥ (g.TP : Int)) := by
        omega
      have hs1 := hsorted lo ii (le_refl _) hii.1 (by omega)
      have hs2 := hsorted ii (hi - 1) hii.1 (by omega) (by omega)
      apply hw
      simp only [GridBasis.workspace] at h5 h6 ⊢
      simp only at h3 h4
      refine ⟨by omega, h1, h2, by omega, by omega⟩
    rw [hzero]
    simp only [GridBasis.AdjMerge]
    by_cases ha : (g.workspace noncart nC nB lo hi).szZ ≠ 0
    · simp only [if_pos ha]
      rw [if_neg]
      intro hb
      exact hw ⟨ha, hb.1, hb.2.1, hb.2.2.2.2.2.2.1, hb.2.2.2.2.2.2.2⟩
    · simp only [if_neg ha]

end Thms49

section Thms50

variable {Pt K : Type} [CommRing K]

theorem block_safe_irrel (g : GridBasis Pt K) (s : Bool) (noncart : Cx3 K) (nC nB : Nat)
    (off : Int) (ii : Nat) :
    GridBasis.block { g with safe := s } noncart nC nB off ii = g.block noncart nC nB off ii :=
  rfl

theorem workspace_safe_irrel (g : GridBasis Pt K) (s : Bool) (noncart : Cx3 K) (nC nB : Nat)
    (lo hi : Nat) :
    GridBasis.workspace { g with safe := s } noncart nC nB lo hi =
      g.workspace noncart nC nB lo hi :=
  rfl

/-- `Adj` in terms of its check, the fold over the thread ranges and the merge. -/
theorem adj_eq (g : GridBasis Pt K) (ranges : List (Nat × Nat))
    (cartInit : Nat × Nat × Int × Int × Int → K) (noncart : Cx3 K) :
    g.Adj ranges cartInit noncart =
      if LastN 2 g.inputDimensions ≠ LastN 2 g.outputDimensions then
        .error { fmt := "Noncartesian k-space dims \x7b\x7d did not match \x7b\x7d",
                 args := [.dims (List.ofFn g.inputDimensions),
                          .dims (List.ofFn g.outputDimensions)] }
      else if g.safe then
        .ok { dims := Function.update g.inputDimensions 0 (g.inputDimensions 0),
              data := (g.AdjRun noncart (g.inputDimensions 0)
                  (Function.update g.inputDimensions 0 (g.inputDimensions 0) 1) ranges
                  (fun _ => 0, [])).2.foldl
                (fun c ts => GridBasis.AdjMerge (g.inputDimensions 0)
                  (Function.update g.inputDimensions 0 (g.inputDimensions 0) 1)
                  (g.inputDimensions 2) (g.inputDimensions 3) c ts)
                (g.AdjRun noncart (g.inputDimensions 0)
                  (Function.update g.inputDimensions 0 (g.inputDimensions 0) 1) ranges
                  (fun _ => 0, [])).1 }
      else
        .ok { dims := Function.update g.inputDimensions 0 (g.inputDimensions 0),
              data := (g.AdjRun noncart (g.inputDimensions 0)
                (Function.update g.inputDimensions 0 (g.inputDimensions 0) 1) ranges
                (fun _ => 0, [])).1 } := by
  rfl

/-- The grid of the safe mode at a cell within the `x` and `y` extent of the grid. -/
theorem adj_safe_data (g : GridBasis Pt K) (hs : g.safe = true) (noncart : Cx3 K)
    (nC nB dimX dimY : Nat) (ranges : List (Nat × Nat)) (hsorted : g.ZSorted ranges)
    (i : Nat × Nat × Int × Int × Int)
    (hx : 0 ≤ i.2.2.1 ∧ i.2.2.1 < dimX) (hy : 0 ≤ i.2.2.2.1 ∧ i.2.2.2.1 < dimY) :
    ((g.AdjRun noncart nC nB ranges (fun _ => 0, [])).2.foldl
      (fun c ts => GridBasis.AdjMerge nC nB dimX dimY c ts)
      (g.AdjRun noncart nC nB ranges (fun _ => 0, [])).1) i =
    (ranges.map (fun r => ((List.range' r.1 (r.2 - r.1)).map
      (fun ii => g.block noncart nC nB 0 ii)).sum)).sum i := by
  obtain ⟨h1, h2⟩ := adjRun_safe g hs noncart nC nB ranges (fun _ => 0, [])
  rw [adjMerge_foldl, h1, h2, List.nil_append, List.map_map, Pi.add_apply, list_sum_apply,
    list_sum_apply]
  simp only [zero_add]
  congr 1
  apply List.map_congr_left
  intro r hr
  exact adjMerge_workspace g noncart nC nB dimX dimY r.1 r.2 (hsorted r hr) i hx hy

end Thms50

section Thms51

variable {Pt K : Type} [CommRing K]

/-- C28. For thread ranges in each of which the samples are in non-decreasing order of
their grid position along `z`, `GridBasis::Adj` gives the same result in its safe and its
unsafe mode: the dimension check fails in both or in neither, and when both return a
grid, the two grids have the same dimensions and the same entry at every cell within the
`x` and `y` extent of the grid.  Every write of a sample into the workspace of its thread
has a `z` index from `0` up to, and excluding, the size `szZ` of the workspace; and the
grids are returned whenever the dimension check passes. -/
theorem gridBasis_adj_modes_agree (g : GridBasis Pt K) (ranges : List (Nat × Nat))
    (cartInit : Nat × Nat × Int × Int × Int → K) (noncart : Cx3 K)
    (hsorted : g.ZSorted ranges) :
    (∀ e, GridBasis.Adj { g with safe := true } ranges cartInit noncart = .error e ↔
      GridBasis.Adj { g with safe := false } ranges cartInit noncart = .error e) ∧
    (∀ cs cu, GridBasis.Adj { g with safe := true } ranges cartInit noncart = .ok cs →
      GridBasis.Adj { g with safe := false } ranges cartInit noncart = .ok cu →
      cs.dims = cu.dims ∧
      ∀ i : Nat × Nat × Int × Int × Int,
        0 ≤ i.2.2.1 → i.2.2.1 < g.inputDimensions 2 →
        0 ≤ i.2.2.2.1 → i.2.2.2.1 < g.inputDimensions 3 → cs.data i = cu.data i) ∧
    (∀ r, r ∈ ranges → ∀ nC nB cart ii, r.1 ≤ ii → ii < r.2 → ∀ iz, iz < g.TP →
      0 ≤ (g.mapping.cart (g.mapping.sortedIndices ii)).z - (((g.TP - 1) / 2 : Nat) : Int) -
          (GridBasis.AdjTask { g with safe := true } noncart nC nB r.1 r.2 cart).2.minZ + iz ∧
      (g.mapping.cart (g.mapping.sortedIndices ii)).z - (((g.TP - 1) / 2 : Nat) : Int) -
          (GridBasis.AdjTask { g with safe := true } noncart nC nB r.1 r.2 cart).2.minZ + iz <
        (GridBasis.AdjTask { g with safe := true } noncart nC nB r.1 r.2 cart).2.szZ) ∧
    (LastN 2 g.inputDimensions = LastN 2 g.outputDimensions →
      ∃ cs cu, GridBasis.Adj { g with safe := true } ranges cartInit noncart = .ok cs ∧
        GridBasis.Adj { g with safe := false } ranges cartInit noncart = .ok cu) := by
  have hS := adj_eq { g with safe := true } ranges cartInit noncart
  have hU := adj_eq { g with safe := false } ranges cartInit noncart
  simp only [if_true, Bool.false_eq_true, if_false] at hS hU
  refine ⟨fun e => ?_, fun cs cu hcs hcu => ?_, ?_, fun hdim => ?_⟩
  · rw [hS, hU]
    by_cases hd : LastN 2 g.inputDimensions ≠ LastN 2 g.outputDimensions
    · rw [if_pos hd, if_pos hd]
    · rw [if_neg hd, if_neg hd]
      constructor <;> intro h <;> exact absurd h (by simp)
  · rw [hS] at hcs
    rw [hU] at hcu
    by_cases hd : LastN 2 g.inputDimensions ≠ LastN 2 g.outputDimensions
    · rw [if_pos hd] at hcs
      exact absurd hcs (by simp)
    · rw [if_neg hd] at hcs hcu
      simp only [Except.ok.injEq] at hcs hcu
      subst hcs hcu
      refine ⟨rfl, fun i hx1 hx2 hy1 hy2 => ?_⟩
      have h1 := adj_safe_data { g with safe := true } rfl noncart (g.inputDimensions 0)
        (Function.update g.inputDimensions 0 (g.inputDimensions 0) 1) (g.inputDimensions 2)
        (g.inputDimensions 3) ranges hsorted i ⟨hx1, hx2⟩ ⟨hy1, hy2⟩
      have h2 := adjRun_unsafe { g with safe := false } rfl noncart (g.inputDimensions 0)
        (Function.update g.inputDimensions 0 (g.inputDimensions 0) 1) ranges (fun _ => 0, [])
      simp only [block_safe_irrel] at h1 h2
      refine h1.trans ?_
      show _ = (GridBasis.AdjRun { g with safe := false } noncart (g.inputDimensions 0)
        (Function.update g.inputDimensions 0 (g.inputDimensions 0) 1) ranges
        (fun _ => 0, [])).1 i
      rw [h2]
      simp
  · intro r hr nC nB cart ii hlo hhi iz hiz
    rw [adjTask_safe_workspace { g with safe := true } rfl, workspace_safe_irrel]
    exact workspace_write_in_range g noncart nC nB r.1 r.2 (hsorted r hr) ii hlo hhi iz hiz
  · rw [hS, hU, if_neg (not_not.mpr hdim), if_neg (not_not.mpr hdim)]
    exact ⟨_, _, rfl, rfl⟩

end Thms51

theorem exGridBasis2_sorted : (exGridBasis2 ℚ).ZSorted [(0, 1)] := by
  intro r _ i j _ _ _
  exact le_refl _

/-- Witness for `gridBasis_adj_modes_agree`: the operator `exGridBasis2` with the single
thread range `(0, 1)`; both modes return a grid. -/
theorem gridBasis_adj_modes_agree_witness :
    (exGridBasis2 ℚ).ZSorted [(0, 1)] ∧
    ∃ cs cu,
      GridBasis.Adj { exGridBasis2 ℚ with safe := true } [(0, 1)] (fun _ => 0)
        { dims := ![1, 8, 16], data := fun _ => 1 } = .ok cs ∧
      GridBasis.Adj { exGridBasis2 ℚ with safe := false } [(0, 1)] (fun _ => 0)
        { dims := ![1, 8, 16], data := fun _ => 1 } = .ok cu :=
  ⟨exGridBasis2_sorted,
    (gridBasis_adj_modes_agree (exGridBasis2 ℚ) [(0, 1)] (fun _ => 0)
      { dims := ![1, 8, 16], data := fun _ => 1 } exGridBasis2_sorted).2.2.2 (by decide)⟩

end rl
